import Mathlib

/-! ThreadSanitizer (PIN front-end): the thread-local event buffer pipeline.

A shallow embedding of the event pipeline of `tsan/ts_pin.cc`: the thread-local
event buffer (TLEB), its append operations, the decoder `TLEBFlushUnlocked`,
the three locking schemes of `TLEBFlushLocked`, the consumer thread and
`CallbackForFini`.

Conventions of the embedding.

* `uintptr_t` words and `size_t` sizes are natural numbers; a 64-bit target is
  assumed where a width is needed (`(uintptr_t)-1`).  Buffer indices stay far
  below `2^64` under the checked invariant `size <= 2046`, so index arithmetic
  is not wrapped.
* `int` counters (`ignore_all_mops`, `ignore_lock_events`, `n_consumed_events`)
  are integers; signed overflow is undefined behaviour in C++ and is not
  modelled.
* `g_pin_threads` is a total map from `THREADID` to `PinThread`; a reference
  `PinThread &t` is the index of the thread in that map.
* Calls into the analyzer, the plain-text dump, the global lock and the other
  externally visible actions are recorded, in program order, in `Globals.log`.
* A failed `CHECK`, a failed `DCHECK` in a debug build, and a memory access the
  C++ code would perform outside an object end the run with `Res.abort`; the
  state at that point is kept.
-/

namespace TsPin

/-! ## Constants -/

/-- Number of words of `ThreadLocalEventBuffer::events` (ts_pin.cc:155). -/
def kThreadLocalEventBufferSize : Nat := 2048 - 2

/-- Largest number of memory operations of one trace (ts_pin.cc:158). -/
def kMaxMopsPerTrace : Nat := kThreadLocalEventBufferSize - 2

/-- Locking scheme `LOCKING_ON_FLUSH` (ts_pin.cc:119). -/
def LOCKING_ON_FLUSH : Int := 1

/-- Locking scheme `LOCKING_SEPARATE_THREAD` (ts_pin.cc:121). -/
def LOCKING_SEPARATE_THREAD : Int := 2

/-- Locking scheme `LOCKING_ON_SYSCALL` (ts_pin.cc:127). -/
def LOCKING_ON_SYSCALL : Int := 3

/-- The value `(THREADID)-1` (PIN thread ids are 32-bit unsigned). -/
def INVALID_THREADID : Nat := 2 ^ 32 - 1

/-- The value `(uintptr_t)-1` on the 64-bit target. -/
def UINTPTR_MAX : Nat := 2 ^ 64 - 1

/-- The byte pattern written by `memset(tleb.events, 0xf0, ...)`, as a word. -/
def kPoisonWord : Nat := 0xf0f0f0f0f0f0f0f0

/-- Numeric values of the enumerators of `EventType` that ts_pin.cc refers to.
The enumeration itself is declared in `ts_events.h`, which is not part of the
sources at hand, so its values are parameters of the development. -/
structure EventTypes where
  NOOP : Nat
  READ : Nat
  WRITE : Nat
  READER_LOCK : Nat
  WRITER_LOCK : Nat
  UNLOCK : Nat
  UNLOCK_OR_INIT : Nat
  THR_START : Nat
  THR_END : Nat
  THR_JOIN_AFTER : Nat
  RTN_EXIT : Nat
  RTN_CALL : Nat
  SBLOCK_ENTER : Nat
  EXPECT_RACE : Nat
  BENIGN_RACE : Nat
  LAST_EVENT : Nat

/-- The enumerators other than `NOOP` and `LAST_EVENT`, in the order of the
fields of `EventTypes`. -/
def EventTypes.proper (ev : EventTypes) : List Nat :=
  [ev.READ, ev.WRITE, ev.READER_LOCK, ev.WRITER_LOCK, ev.UNLOCK, ev.UNLOCK_OR_INIT,
   ev.THR_START, ev.THR_END, ev.THR_JOIN_AFTER, ev.RTN_EXIT, ev.RTN_CALL,
   ev.SBLOCK_ENTER, ev.EXPECT_RACE, ev.BENIGN_RACE]

/-- What a C++ enumeration guarantees about the parameters: the enumerators are
pairwise distinct, and every event type lies strictly between `NOOP` and
`LAST_EVENT` (the range `CHECK`ed at ts_pin.cc:434 and `DCHECK`ed at :552). -/
def EventTypes.Valid (ev : EventTypes) : Prop :=
  ev.proper.Nodup ∧ ∀ x ∈ ev.proper, ev.NOOP < x ∧ x < ev.LAST_EVENT

instance (ev : EventTypes) : Decidable ev.Valid := by
  unfold EventTypes.Valid
  infer_instance

/-- Enumerator `TLEB_IGNORE_ALL_BEGIN = LAST_EVENT + 1` (ts_pin.cc:263). -/
def TLEB_IGNORE_ALL_BEGIN (ev : EventTypes) : Nat := ev.LAST_EVENT + 1

/-- Enumerator `TLEB_IGNORE_ALL_END` (ts_pin.cc:264). -/
def TLEB_IGNORE_ALL_END (ev : EventTypes) : Nat := ev.LAST_EVENT + 2

/-- Enumerator `TLEB_IGNORE_SYNC_BEGIN` (ts_pin.cc:265). -/
def TLEB_IGNORE_SYNC_BEGIN (ev : EventTypes) : Nat := ev.LAST_EVENT + 3

/-- Enumerator `TLEB_IGNORE_SYNC_END` (ts_pin.cc:266). -/
def TLEB_IGNORE_SYNC_END (ev : EventTypes) : Nat := ev.LAST_EVENT + 4

/-- Enumerator `TLEB_GLOBAL_IGNORE_ON` (ts_pin.cc:267). -/
def TLEB_GLOBAL_IGNORE_ON (ev : EventTypes) : Nat := ev.LAST_EVENT + 5

/-- Enumerator `TLEB_GLOBAL_IGNORE_OFF` (ts_pin.cc:268). -/
def TLEB_GLOBAL_IGNORE_OFF (ev : EventTypes) : Nat := ev.LAST_EVENT + 6

/-! ## Data model -/

/-- The members of `MopInfo` (ts_trace_info.h) that ts_pin.cc reads. -/
structure MopInfo where
  pc : Nat
  size : Nat
  is_write : Bool
  deriving DecidableEq, Repr

/-- The accessors of `TraceInfo` (ts_trace_info.h) that ts_pin.cc uses:
`id()`, `pc()` and the memory operations behind `n_mops()` and `GetMop(j)`. -/
structure TraceInfo where
  id : Nat
  pc : Nat
  mops : List MopInfo
  deriving DecidableEq, Repr

/-- Accessor `TraceInfo::n_mops()`. -/
def TraceInfo.n_mops (info : TraceInfo) : Nat := info.mops.length

/-- Record `struct StackFrame` (ts_pin.cc:149). -/
structure StackFrame where
  pc : Nat
  sp : Nat
  deriving DecidableEq, Repr

/-- Record `struct ThreadLocalEventBuffer` (ts_pin.cc:164).  The field `t` is
the index of the owning `PinThread`. -/
structure ThreadLocalEventBuffer where
  t : Nat
  size : Nat
  events : Nat → Nat

/-- Record `struct PinThread` (ts_pin.cc:170). -/
structure PinThread where
  tleb : ThreadLocalEventBuffer
  uniq_tid : Int
  last_child_tid : Nat
  tid : Nat
  parent_tid : Nat
  my_ptid : Nat
  thread_stack_size_if_known : Nat
  last_child_stack_size_if_known : Nat
  shadow_stack : List StackFrame
  trace_info : Nat
  ignore_all_mops : Int
  ignore_lock_events : Int
  spin_lock_recursion_depth : Int
  thread_finished : Bool
  thread_done : Bool
  holding_lock : Bool
  n_consumed_events : Int

/-- Build configuration, command line flags (`G_flags`) and the parts of the
environment the pipeline reads but never changes. -/
structure Env where
  /-- Values of the `EventType` enumerators. -/
  ev : EventTypes
  /-- Macro `DEBUG_MODE` (`DEBUG != 0`): `DCHECK` is `CHECK` in a debug build and
  does nothing otherwise. -/
  DEBUG_MODE : Bool
  /-- Whether `_MSC_VER` is defined. -/
  MSC_VER : Bool
  /-- Flag `G_flags->dry_run`. -/
  dry_run : Int
  /-- Flag `G_flags->locking_scheme`. -/
  locking_scheme : Int
  /-- Flag `G_flags->offline`. -/
  offline : Bool
  /-- Flag `G_flags->literace_sampling`. -/
  literace_sampling : Int
  /-- Value of `G_flags->dump_events.empty()`. -/
  dump_events_empty : Bool
  /-- Flag `G_flags->error_exitcode`. -/
  error_exitcode : Int
  /-- Flag `G_flags->show_stats`. -/
  show_stats : Bool
  /-- The `TraceInfo` object a word points to, if it points to one. -/
  traceInfoAt : Nat → Option TraceInfo
  /-- The sampling decision `LiteRaceSkipTrace(tid, trace_id, sampling)`
  (ts_literace.h). -/
  LiteRaceSkipTrace : Int → Nat → Int → Bool
  /-- Contents of the words of a buffer obtained from `new` that the program
  has not written yet. -/
  uninitialized : Nat → Nat

/-- Externally visible actions, in program order. -/
inductive Effect where
  /-- Call `g_main_ts_lock.Lock()`. -/
  | Lock
  /-- Call `g_main_ts_lock.Unlock()`. -/
  | Unlock
  /-- Call `ThreadSanitizerHandleRtnExit(tid)`. -/
  | HandleRtnExit (tid : Int)
  /-- Call `ThreadSanitizerHandleRtnCall(tid, call_pc, target_pc, ignore_below)`. -/
  | HandleRtnCall (tid : Int) (call_pc target_pc ignore_below : Nat)
  /-- Call `ThreadSanitizerHandleTrace(tid, trace_info, addrs)`, with the
  address slots the analyzer reads. -/
  | HandleTrace (tid : Int) (trace_info : Nat) (addrs : List Nat)
  /-- Call `ThreadSanitizerHandleOneEvent` on `Event(type, tid, pc, a, info)`. -/
  | HandleOneEvent (type : Nat) (tid : Int) (pc a info : Nat)
  /-- The event line written by `DumpEventPlainText`. -/
  | DumpPlainText (type : Nat) (tid : Int) (pc a info : Nat)
  /-- The message `INFO: GLOBAL IGNORE ON` (`true`) or `OFF` (`false`). -/
  | Report (ignore_on : Bool)
  /-- The message `ACHTUNG!!! an event from a dead thread` (ts_pin.cc:341). -/
  | PrintfDeadThread (tid : Nat)
  /-- The words written by `fwrite` to `G_out` in offline mode. -/
  | Fwrite (words : List Nat)
  /-- Call `ThreadSanitizerFini()`. -/
  | ThreadSanitizerFini
  /-- Call `RaceVerifierFini()`. -/
  | RaceVerifierFini
  /-- Call `TraceInfo::PrintTraceProfile()`. -/
  | PrintTraceProfile
  /-- Call `exit(code)`. -/
  | Exit (code : Int)
  deriving DecidableEq, Repr

/-- The actions that hand something to the analyzer. -/
def Effect.isAnalyzerCall : Effect → Bool
  | .HandleRtnExit _ => true
  | .HandleRtnCall _ _ _ _ => true
  | .HandleTrace _ _ _ => true
  | .HandleOneEvent _ _ _ _ _ => true
  | _ => false

/-- The actions on `g_main_ts_lock`. -/
def Effect.isLockOp : Effect → Bool
  | .Lock => true
  | .Unlock => true
  | _ => false

/-- The mutable globals of ts_pin.cc the pipeline uses, and the action log. -/
structure Globals where
  g_pin_threads : Nat → PinThread
  global_ignore : Bool
  g_race_verifier_active : Bool
  /-- Pointer `g_tleb_queue`: `none` is `NULL`. -/
  g_tleb_queue : Option (List ThreadLocalEventBuffer)
  n_started_threads : Int
  log : List Effect

/-- The calls made to the analyzer so far. -/
def Globals.analyzed (g : Globals) : List Effect := g.log.filter Effect.isAnalyzerCall

/-- Why a run ended abnormally. -/
inductive Abort where
  /-- Failure of a `CHECK` at the given source line. -/
  | CHECK (line : Nat)
  /-- Failure of a `DCHECK` (debug build) at the given source line. -/
  | DCHECK (line : Nat)
  /-- Store to `tleb.events` at an index past the end of the array. -/
  | storeOutOfBounds
  /-- Load from `tleb.events` at an index past the end of the array. -/
  | loadOutOfBounds
  /-- Dereference of a pointer that points to no object. -/
  | badPointer
  /-- The decoder loop was given too little fuel (never happens, see
  `TLEBFlushLoop_fuel`). -/
  | outOfFuel
  deriving DecidableEq, Repr

/-- Outcome of a run: a normal return with a value, or an abort; both carry
the globals at that point. -/
inductive Res (α : Type) where
  | ok (a : α) (g : Globals)
  | abort (e : Abort) (g : Globals)

/-- The globals at the end of a run. -/
def Res.globals {α : Type} : Res α → Globals
  | .ok _ g => g
  | .abort _ g => g

/-- Whether the run returned normally. -/
def Res.isOk {α : Type} : Res α → Bool
  | .ok _ _ => true
  | .abort _ _ => false

/-- Sequencing: an abort ends the run. -/
def Res.bind {α β : Type} (r : Res α) (f : α → Globals → Res β) : Res β :=
  match r with
  | .ok a g => f a g
  | .abort e g => .abort e g

/-- Append an action to the log. -/
def Globals.emit (g : Globals) (e : Effect) : Globals :=
  { g with log := g.log ++ [e] }

/-- Assignment `g_pin_threads[i] = t`. -/
def Globals.setThread (g : Globals) (i : Nat) (t : PinThread) : Globals :=
  { g with g_pin_threads := fun j => if j = i then t else g.g_pin_threads j }

/-- Macro `DCHECK(c)` at a source line: `CHECK(c)` in a debug build, nothing
otherwise. -/
def DCHECK (env : Env) (line : Nat) (c : Bool) (g : Globals) : Res Unit :=
  if env.DEBUG_MODE && !c then .abort (.DCHECK line) g else .ok () g

/-- Load `tleb.events[i]`. -/
def ThreadLocalEventBuffer.load (tleb : ThreadLocalEventBuffer) (i : Nat) : Option Nat :=
  if i < kThreadLocalEventBufferSize then some (tleb.events i) else none

/-- The `n` words `tleb.events[i], ..., tleb.events[i + n - 1]`. -/
def ThreadLocalEventBuffer.slots (tleb : ThreadLocalEventBuffer) (i n : Nat) : List Nat :=
  (List.range n).map fun j => tleb.events (i + j)

/-- Conversion of an `int` to `uintptr_t`. -/
def toWord (x : Int) : Nat := (x % 2 ^ 64).toNat

/-! ## Dumping and the syscall lock -/

/-- Function `DumpEventPlainText` (ts_pin.cc:271).  Only the event line is
recorded; the `#PC` symbol lines depend on the symbolizer of the host. -/
def DumpEventPlainText (env : Env) (type : Nat) (tid : Int) (pc a info : Nat)
    (g : Globals) : Bool × Globals :=
  if !env.DEBUG_MODE || env.MSC_VER then (false, g)
  else if env.dump_events_empty then (false, g)
  else (true, g.emit (.DumpPlainText type tid pc a info))

/-- Function `AcquireSyscallLock` (ts_pin.cc:304). -/
def AcquireSyscallLock (env : Env) (tid : Nat) (g : Globals) : Res Unit :=
  if env.locking_scheme ≠ LOCKING_ON_SYSCALL then .abort (.CHECK 305) g
  else
    let t := g.g_pin_threads tid
    if !t.holding_lock then
      .ok () ((g.emit .Lock).setThread tid { t with holding_lock := true })
    else .ok () g

/-- Function `ReleaseSyscallLock` (ts_pin.cc:315). -/
def ReleaseSyscallLock (env : Env) (tid : Nat) (g : Globals) : Globals :=
  if env.locking_scheme ≠ LOCKING_ON_SYSCALL then g
  else
    let t := g.g_pin_threads tid
    if t.holding_lock then
      (g.setThread tid { t with holding_lock := false, n_consumed_events := 0 }).emit .Unlock
    else g

/-- Function `DumpEventInternal` (ts_pin.cc:327). -/
def DumpEventInternal (env : Env) (type : Nat) (uniq_tid : Int) (pc a info : Nat)
    (g : Globals) : Globals :=
  let r := DumpEventPlainText env type uniq_tid pc a info g
  if r.1 then r.2 else r.2.emit (.HandleOneEvent type uniq_tid pc a info)

/-! ## The decoder `TLEBFlushUnlocked` -/

/-- The loop over the memory operations of a dumped trace (ts_pin.cc:388-397);
`j` is the index of the first operation of `mops` in its trace. -/
def DumpTraceMops (env : Env) (tleb : ThreadLocalEventBuffer) (uniq_tid : Int) (i : Nat) :
    List MopInfo → Nat → Globals → Res Unit
  | [], _, g => .ok () g
  | mop :: rest, j, g =>
    if env.DEBUG_MODE && mop.size == 0 then .abort (.DCHECK 390) g
    else
      match tleb.load (i + j) with
      | none => .abort .loadOutOfBounds g
      | some addr =>
        if addr ≠ 0 then
          DumpTraceMops env tleb uniq_tid i rest (j + 1)
            (DumpEventPlainText env (if mop.is_write then env.ev.WRITE else env.ev.READ)
              uniq_tid mop.pc addr mop.size g).2
        else DumpTraceMops env tleb uniq_tid i rest (j + 1) g

/-- The part of the `SBLOCK_ENTER` branch that handles or skips the trace
(ts_pin.cc:384-402); `i` is the index of the first address slot, `info` the
object `trace_info` points to. -/
def FlushTraceBody (env : Env) (tleb : ThreadLocalEventBuffer) (do_this_trace : Bool)
    (trace_info : Nat) (info : TraceInfo) (i : Nat) (g : Globals) : Res Nat :=
  let t := g.g_pin_threads tleb.t
  let n := info.n_mops
  if do_this_trace then
    if env.DEBUG_MODE && !env.dump_events_empty then
      (DumpTraceMops env tleb t.uniq_tid i info.mops 0
        (DumpEventPlainText env env.ev.SBLOCK_ENTER t.uniq_tid info.pc 0 0 g).2).bind
        fun _ g1 => .ok (i + n) g1
    else if i + n ≤ kThreadLocalEventBufferSize then
      .ok (i + n) (g.emit (.HandleTrace t.uniq_tid trace_info (tleb.slots i n)))
    else .abort .loadOutOfBounds g
  else .ok (i + n) g

/-- The `SBLOCK_ENTER` branch of the decoder (ts_pin.cc:375-402); `i` is the
index after the tag.  Returns the index after the record. -/
def FlushTrace (env : Env) (tleb : ThreadLocalEventBuffer) (i : Nat) (g : Globals) : Res Nat :=
  let t := g.g_pin_threads tleb.t
  let sampled : Option Bool :=
    if env.literace_sampling = 0 then some true
    else (env.traceInfoAt t.trace_info).map fun cur =>
      !env.LiteRaceSkipTrace t.uniq_tid cur.id env.literace_sampling
  match sampled with
  | none => .abort .badPointer g
  | some sampled =>
    let do_this_trace := if t.ignore_all_mops ≠ 0 || g.global_ignore then false else sampled
    match tleb.load i with
    | none => .abort .loadOutOfBounds g
    | some trace_info =>
      if env.DEBUG_MODE && trace_info == 0 then .abort (.DCHECK 383) g
      else
        match env.traceInfoAt trace_info with
        | none => .abort .badPointer g
        | some info => FlushTraceBody env tleb do_this_trace trace_info info (i + 1) g

/-- The `RTN_EXIT` branch of the decoder (ts_pin.cc:364-366); `i` is the index
after the tag. -/
def FlushRtnExit (env : Env) (tleb : ThreadLocalEventBuffer) (i : Nat) (g : Globals) : Res Nat :=
  let t := g.g_pin_threads tleb.t
  let r := DumpEventPlainText env env.ev.RTN_EXIT t.uniq_tid 0 0 0 g
  if r.1 then .ok i r.2 else .ok i (r.2.emit (.HandleRtnExit t.uniq_tid))

/-- The `RTN_CALL` branch of the decoder (ts_pin.cc:367-374); `i` is the index
after the tag.  The cast of the third word to the enumeration
`IGNORE_BELOW_RTN` keeps its low 32 bits. -/
def FlushRtnCall (env : Env) (tleb : ThreadLocalEventBuffer) (i : Nat) (g : Globals) : Res Nat :=
  let t := g.g_pin_threads tleb.t
  match tleb.load i, tleb.load (i + 1), tleb.load (i + 2) with
  | some call_pc, some target_pc, some word =>
    let ignore_below := word % 2 ^ 32
    let r := DumpEventPlainText env env.ev.RTN_CALL t.uniq_tid call_pc target_pc ignore_below g
    if r.1 then .ok (i + 3) r.2
    else .ok (i + 3) (r.2.emit (.HandleRtnCall t.uniq_tid call_pc target_pc ignore_below))
  | _, _, _ => .abort .loadOutOfBounds g

/-- The `THR_START` branch of the decoder (ts_pin.cc:403-408); `i` is the index
after the tag. -/
def FlushThrStart (env : Env) (tleb : ThreadLocalEventBuffer) (i : Nat) (g : Globals) : Res Nat :=
  let t := g.g_pin_threads tleb.t
  let parent :=
    if t.parent_tid ≠ INVALID_THREADID then toWord (g.g_pin_threads t.parent_tid).uniq_tid
    else UINTPTR_MAX
  .ok i (DumpEventInternal env env.ev.THR_START t.uniq_tid 0 0 parent g)

/-- The `THR_END` branch of the decoder (ts_pin.cc:409-415); `i` is the index
after the tag. -/
def FlushThrEnd (env : Env) (tleb : ThreadLocalEventBuffer) (i : Nat) (g : Globals) : Res Nat :=
  let t := g.g_pin_threads tleb.t
  let g1 := DumpEventInternal env env.ev.THR_END t.uniq_tid 0 0 0 g
  if env.DEBUG_MODE && !t.thread_finished then .abort (.DCHECK 411) g1
  else if env.DEBUG_MODE && t.thread_done then .abort (.DCHECK 412) g1
  else
    let g2 := g1.setThread tleb.t { g1.g_pin_threads tleb.t with thread_done := true }
    if env.DEBUG_MODE && i + 3 ≠ tleb.size then .abort (.DCHECK 415) g2
    else .ok (i + 3) g2

/-- The `TLEB_IGNORE_ALL_BEGIN` branch of the decoder (ts_pin.cc:416-417). -/
def FlushIgnoreAllBegin (tleb : ThreadLocalEventBuffer) (i : Nat) (g : Globals) : Res Nat :=
  let t := g.g_pin_threads tleb.t
  .ok i (g.setThread tleb.t { t with ignore_all_mops := t.ignore_all_mops + 1 })

/-- The `TLEB_IGNORE_ALL_END` branch of the decoder (ts_pin.cc:418-420). -/
def FlushIgnoreAllEnd (tleb : ThreadLocalEventBuffer) (i : Nat) (g : Globals) : Res Nat :=
  let t := g.g_pin_threads tleb.t
  let g1 := g.setThread tleb.t { t with ignore_all_mops := t.ignore_all_mops - 1 }
  if (g1.g_pin_threads tleb.t).ignore_all_mops ≥ 0 then .ok i g1 else .abort (.CHECK 420) g1

/-- The `TLEB_IGNORE_SYNC_BEGIN` branch of the decoder (ts_pin.cc:421-422). -/
def FlushIgnoreSyncBegin (tleb : ThreadLocalEventBuffer) (i : Nat) (g : Globals) : Res Nat :=
  let t := g.g_pin_threads tleb.t
  .ok i (g.setThread tleb.t { t with ignore_lock_events := t.ignore_lock_events + 1 })

/-- The `TLEB_IGNORE_SYNC_END` branch of the decoder (ts_pin.cc:423-425). -/
def FlushIgnoreSyncEnd (tleb : ThreadLocalEventBuffer) (i : Nat) (g : Globals) : Res Nat :=
  let t := g.g_pin_threads tleb.t
  let g1 := g.setThread tleb.t { t with ignore_lock_events := t.ignore_lock_events - 1 }
  if (g1.g_pin_threads tleb.t).ignore_lock_events ≥ 0 then .ok i g1 else .abort (.CHECK 425) g1

/-- The last branch of the decoder, "all other events" (ts_pin.cc:432-446);
`i` is the index after the tag `event`. -/
def FlushGeneric (env : Env) (tleb : ThreadLocalEventBuffer) (event : Nat) (i : Nat)
    (g : Globals) : Res Nat :=
  let t := g.g_pin_threads tleb.t
  if ¬ (event > env.ev.NOOP ∧ event < env.ev.LAST_EVENT) then .abort (.CHECK 434) g
  else
    match tleb.load i, tleb.load (i + 1), tleb.load (i + 2) with
    | some pc, some a, some info =>
      if t.ignore_lock_events ≠ 0 ∧
          (event = env.ev.WRITER_LOCK ∨ event = env.ev.READER_LOCK ∨ event = env.ev.UNLOCK) then
        .ok (i + 3) g
      else if (t.ignore_all_mops ≠ 0 ∨ g.global_ignore = true) ∧
          (event = env.ev.READ ∨ event = env.ev.WRITE) then
        .ok (i + 3) g
      else .ok (i + 3) (DumpEventInternal env event t.uniq_tid pc a info g)
    | _, _, _ => .abort .loadOutOfBounds g

/-- The chain of comparisons of the decoder (ts_pin.cc:364-446) on the tag
`event`; `i` is the index after the tag. -/
def FlushDispatch (env : Env) (tleb : ThreadLocalEventBuffer) (event : Nat) (i : Nat)
    (g : Globals) : Res Nat :=
  if event = env.ev.RTN_EXIT then FlushRtnExit env tleb i g
  else if event = env.ev.RTN_CALL then FlushRtnCall env tleb i g
  else if event = env.ev.SBLOCK_ENTER then FlushTrace env tleb i g
  else if event = env.ev.THR_START then FlushThrStart env tleb i g
  else if event = env.ev.THR_END then FlushThrEnd env tleb i g
  else if event = TLEB_IGNORE_ALL_BEGIN env.ev then FlushIgnoreAllBegin tleb i g
  else if event = TLEB_IGNORE_ALL_END env.ev then FlushIgnoreAllEnd tleb i g
  else if event = TLEB_IGNORE_SYNC_BEGIN env.ev then FlushIgnoreSyncBegin tleb i g
  else if event = TLEB_IGNORE_SYNC_END env.ev then FlushIgnoreSyncEnd tleb i g
  else if event = TLEB_GLOBAL_IGNORE_ON env.ev then
    .ok i { g.emit (.Report true) with global_ignore := true }
  else if event = TLEB_GLOBAL_IGNORE_OFF env.ev then
    .ok i { g.emit (.Report false) with global_ignore := false }
  else FlushGeneric env tleb event i g

/-- One iteration of the decoder loop (ts_pin.cc:361-446): decode the record
that starts at index `i` and return the index after it. -/
def TLEBFlushStep (env : Env) (tleb : ThreadLocalEventBuffer) (i : Nat) (g : Globals) : Res Nat :=
  match tleb.load i with
  | none => .abort .loadOutOfBounds g
  | some event =>
    if env.DEBUG_MODE && !(!g.g_race_verifier_active || event == env.ev.SBLOCK_ENTER
        || event == env.ev.EXPECT_RACE || event == env.ev.THR_START) then
      .abort (.DCHECK 362) g
    else FlushDispatch env tleb event (i + 1) g

/-- The decoder loop `for (i = 0; i < tleb.size; )` (ts_pin.cc:360), started at
index `i`, with a bound on the number of iterations.  Returns the final index. -/
def TLEBFlushLoop (env : Env) (tleb : ThreadLocalEventBuffer) : Nat → Nat → Globals → Res Nat
  | 0, i, g => if i < tleb.size then .abort .outOfFuel g else .ok i g
  | fuel + 1, i, g =>
    if i < tleb.size then
      match TLEBFlushStep env tleb i g with
      | .ok i1 g1 => TLEBFlushLoop env tleb fuel i1 g1
      | .abort e g1 => .abort e g1
    else .ok i g

/-- Function `TLEBFlushUnlocked` (ts_pin.cc:335).  Returns the buffer as the
function leaves it.  Every iteration of the loop advances the index, so
`tleb.size` iterations are enough.  The statistics counter `G_stats->tleb_flush`
is left out: its `CHECK` cannot fail and nothing reads it. -/
def TLEBFlushUnlocked (env : Env) (tleb : ThreadLocalEventBuffer) (g : Globals) :
    Res ThreadLocalEventBuffer :=
  let t := g.g_pin_threads tleb.t
  if env.DEBUG_MODE && !(!g.g_race_verifier_active || g.global_ignore) then
    .abort (.DCHECK 338) g
  else if env.DEBUG_MODE && !decide (tleb.size ≤ kThreadLocalEventBufferSize) then
    .abort (.DCHECK 339) g
  else if env.DEBUG_MODE && t.thread_done then
    .abort (.DCHECK 343) (g.emit (.PrintfDeadThread t.tid))
  else if tleb.size = 0 then .ok tleb g
  else if env.offline then
    if tleb.size ≤ kThreadLocalEventBufferSize then
      .ok { tleb with size := 0 } (g.emit (.Fwrite (tleb.slots 0 tleb.size)))
    else .abort .loadOutOfBounds g
  else
    match TLEBFlushLoop env tleb tleb.size 0 g with
    | .abort e g1 => .abort e g1
    | .ok i g1 =>
      if env.DEBUG_MODE && i ≠ tleb.size then .abort (.DCHECK 448) g1
      else if env.DEBUG_MODE then
        .ok { tleb with size := 0, events := fun _ => kPoisonWord } g1
      else .ok { tleb with size := 0 } g1

/-! ## Flushing under the locking schemes -/

/-- Assignment to the field `tleb` of thread `ti`. -/
def Globals.setTleb (g : Globals) (ti : Nat) (tleb : ThreadLocalEventBuffer) : Globals :=
  g.setThread ti { g.g_pin_threads ti with tleb := tleb }

/-- The buffer `tleb_copy` of `TLEBFlushLocked` (ts_pin.cc:463-465): a new
`ThreadLocalEventBuffer` into which `memcpy` copies `size + 2` words of the
thread's buffer, that is the fields `t` and `size` and the first `size` words
of `events`, and whose field `t` is then set to the thread; the other words of
the new buffer keep whatever the allocation holds. -/
def CopyTleb (env : Env) (ti : Nat) (tleb : ThreadLocalEventBuffer) : ThreadLocalEventBuffer :=
  { t := ti
    size := tleb.size
    events := fun j => if j < tleb.size then tleb.events j else env.uninitialized j }

/-- Function `TLEBFlushLocked` (ts_pin.cc:455) on the thread with index `ti`. -/
def TLEBFlushLocked (env : Env) (ti : Nat) (g : Globals) : Res Unit :=
  let t := g.g_pin_threads ti
  if env.dry_run ≠ 0 then .ok () (g.setTleb ti { t.tleb with size := 0 })
  else if ¬ t.tleb.size ≤ kThreadLocalEventBufferSize then .abort (.CHECK 460) g
  else if env.locking_scheme = LOCKING_SEPARATE_THREAD then
    let tleb_copy := CopyTleb env ti t.tleb
    match g.g_tleb_queue with
    | none => .abort (.CHECK 466) g
    | some queue =>
      let g1 := { g.emit .Lock with g_tleb_queue := some (queue ++ [tleb_copy]) }
      .ok () ((g1.emit .Unlock).setTleb ti { t.tleb with size := 0 })
  else if env.locking_scheme = LOCKING_ON_FLUSH then
    match TLEBFlushUnlocked env t.tleb (g.emit .Lock) with
    | .abort e g1 => .abort e g1
    | .ok tleb1 g1 => .ok () ((g1.setTleb ti tleb1).emit .Unlock)
  else if env.locking_scheme = LOCKING_ON_SYSCALL then
    match AcquireSyscallLock env t.tid g with
    | .abort e g1 => .abort e g1
    | .ok _ g1 =>
      let t1 := g1.g_pin_threads ti
      let g2 := g1.setThread ti
        { t1 with n_consumed_events := t1.n_consumed_events + (t1.tleb.size : Int) }
      match TLEBFlushUnlocked env (g2.g_pin_threads ti).tleb g2 with
      | .abort e g3 => .abort e g3
      | .ok tleb1 g3 =>
        let g4 := g3.setTleb ti tleb1
        if (g4.g_pin_threads ti).n_consumed_events > 2 ^ 18 then
          .ok () (ReleaseSyscallLock env (g4.g_pin_threads ti).tid g4)
        else .ok () g4
  else .abort (.CHECK 487) g

/-! ## Appending to the buffer -/

/-- The statement `t.tleb.events[t.tleb.size++] = v`. -/
def TLEBStore (ti : Nat) (v : Nat) (g : Globals) : Res Unit :=
  let t := g.g_pin_threads ti
  if t.tleb.size < kThreadLocalEventBufferSize then
    .ok () (g.setTleb ti
      { t.tleb with
        events := fun j => if j = t.tleb.size then v else t.tleb.events j
        size := t.tleb.size + 1 })
  else .abort .storeOutOfBounds g

/-- Function `TLEBAddRtnCall` (ts_pin.cc:491). -/
def TLEBAddRtnCall (env : Env) (ti : Nat) (call_pc target_pc ignore_below : Nat)
    (g : Globals) : Res Unit :=
  (DCHECK env 493 (decide ((g.g_pin_threads ti).tleb.size ≤ kThreadLocalEventBufferSize)) g).bind
  fun _ g =>
  (if (g.g_pin_threads ti).tleb.size + 4 > kThreadLocalEventBufferSize then
    (TLEBFlushLocked env ti g).bind fun _ g =>
      DCHECK env 496 (decide ((g.g_pin_threads ti).tleb.size = 0)) g
   else .ok () g).bind
  fun _ g => (TLEBStore ti env.ev.RTN_CALL g).bind
  fun _ g => (TLEBStore ti call_pc g).bind
  fun _ g => (TLEBStore ti target_pc g).bind
  fun _ g => (TLEBStore ti ignore_below g).bind
  fun _ g =>
    DCHECK env 502 (decide ((g.g_pin_threads ti).tleb.size ≤ kThreadLocalEventBufferSize)) g

/-- Function `TLEBAddRtnExit` (ts_pin.cc:505). -/
def TLEBAddRtnExit (env : Env) (ti : Nat) (g : Globals) : Res Unit :=
  (if (g.g_pin_threads ti).tleb.size + 1 > kThreadLocalEventBufferSize then
    TLEBFlushLocked env ti g
   else .ok () g).bind
  fun _ g => (TLEBStore ti env.ev.RTN_EXIT g).bind
  fun _ g =>
    DCHECK env 510 (decide ((g.g_pin_threads ti).tleb.size ≤ kThreadLocalEventBufferSize)) g

/-- The loop `for (i = 0; i < n; i++) t.tleb.events[t.tleb.size + i] = 0` and the
statement `t.tleb.size += n` (ts_pin.cc:522-526).  Returns `mop_addresses`, as
an index into `events`. -/
def TLEBZeroSlots (ti : Nat) (n : Nat) (g : Globals) : Res Nat :=
  let t := g.g_pin_threads ti
  if t.tleb.size + n ≤ kThreadLocalEventBufferSize then
    .ok t.tleb.size (g.setTleb ti
      { t.tleb with
        events := fun j => if t.tleb.size ≤ j ∧ j < t.tleb.size + n then 0 else t.tleb.events j
        size := t.tleb.size + n })
  else .abort .storeOutOfBounds g

/-- Function `TLEBAddTrace` (ts_pin.cc:513).  Returns `mop_addresses`, as an
index into `t.tleb.events`. -/
def TLEBAddTrace (env : Env) (ti : Nat) (g : Globals) : Res Nat :=
  match env.traceInfoAt (g.g_pin_threads ti).trace_info with
  | none => .abort .badPointer g
  | some info =>
    let n := info.n_mops
    (DCHECK env 515 (decide (n > 0)) g).bind
    fun _ g =>
    (if (g.g_pin_threads ti).tleb.size + 2 + n > kThreadLocalEventBufferSize then
      TLEBFlushLocked env ti g
     else .ok () g).bind
    fun _ g => (TLEBStore ti env.ev.SBLOCK_ENTER g).bind
    fun _ g => (TLEBStore ti (g.g_pin_threads ti).trace_info g).bind
    fun _ g => (TLEBZeroSlots ti n g).bind
    fun mop_addresses g =>
      (DCHECK env 527
        (decide ((g.g_pin_threads ti).tleb.size ≤ kThreadLocalEventBufferSize)) g).bind
    fun _ g => .ok mop_addresses g

/-- Function `TLEBStartThread` (ts_pin.cc:531). -/
def TLEBStartThread (env : Env) (ti : Nat) (g : Globals) : Res Unit :=
  if (g.g_pin_threads ti).tleb.size ≠ 0 then .abort (.CHECK 532) g
  else TLEBStore ti env.ev.THR_START g

/-- Function `TLEBSimpleEvent` (ts_pin.cc:536). -/
def TLEBSimpleEvent (env : Env) (ti : Nat) (event : Nat) (g : Globals) : Res Unit :=
  if g.g_race_verifier_active then .ok () g
  else
    (if (g.g_pin_threads ti).tleb.size + 1 > kThreadLocalEventBufferSize then
      TLEBFlushLocked env ti g
     else .ok () g).bind
    fun _ g => (TLEBStore ti event g).bind
    fun _ g =>
      DCHECK env 543 (decide ((g.g_pin_threads ti).tleb.size ≤ kThreadLocalEventBufferSize)) g

/-- The first part of `TLEBAddGenericEventAndFlush` (ts_pin.cc:549-556): make
room and store the four words of the record. -/
def TLEBAddGenericEvent (env : Env) (ti : Nat) (type pc a info : Nat) (g : Globals) :
    Res Unit :=
  (if (g.g_pin_threads ti).tleb.size + 4 > kThreadLocalEventBufferSize then
    TLEBFlushLocked env ti g
   else .ok () g).bind
  fun _ g => (DCHECK env 552 (decide (type > env.ev.NOOP ∧ type < env.ev.LAST_EVENT)) g).bind
  fun _ g => (TLEBStore ti type g).bind
  fun _ g => (TLEBStore ti pc g).bind
  fun _ g => (TLEBStore ti a g).bind
  fun _ g => TLEBStore ti info g

/-- Function `TLEBAddGenericEventAndFlush` (ts_pin.cc:546). -/
def TLEBAddGenericEventAndFlush (env : Env) (ti : Nat) (type pc a info : Nat) (g : Globals) :
    Res Unit :=
  (TLEBAddGenericEvent env ti type pc a info g).bind
  fun _ g => (TLEBFlushLocked env ti g).bind
  fun _ g =>
    DCHECK env 558 (decide ((g.g_pin_threads ti).tleb.size ≤ kThreadLocalEventBufferSize)) g

/-- Function `DumpEvent` (ts_pin.cc:563). -/
def DumpEvent (env : Env) (type : Nat) (tid : Nat) (pc a info : Nat) (g : Globals) : Res Unit :=
  if !g.g_race_verifier_active || (type == env.ev.EXPECT_RACE || type == env.ev.BENIGN_RACE) then
    TLEBAddGenericEventAndFlush env tid type pc a info g
  else .ok () g

/-- Function `OnMop` (ts_pin.cc:1697).  The pointer `addr` into
`g_pin_threads[tid].tleb.events` is the index `addr`; the trace message for
`G_flags->trace_addr` is left out. -/
def OnMop (env : Env) (addr : Nat) (tid : Nat) (idx : Nat) (a : Nat) (g : Globals) : Res Unit :=
  let t := g.g_pin_threads tid
  let checks : Res Unit :=
    if env.DEBUG_MODE then
      if ¬ idx < kMaxMopsPerTrace then .abort (.CHECK 1700) g
      else
        match env.traceInfoAt t.trace_info with
        | none => .abort .badPointer g
        | some info =>
          if ¬ idx < info.n_mops then .abort (.CHECK 1701) g
          else if ¬ addr < kThreadLocalEventBufferSize then .abort (.CHECK 1703) g
          else if t.tleb.size > 0 ∧ ¬ addr + idx < t.tleb.size then .abort (.CHECK 1705) g
          else .ok () g
    else .ok () g
  checks.bind fun _ g =>
    if addr + idx < kThreadLocalEventBufferSize then
      .ok () (g.setTleb tid
        { (g.g_pin_threads tid).tleb with
          events := fun j => if j = addr + idx then a else (g.g_pin_threads tid).tleb.events j })
    else .abort .storeOutOfBounds g

/-- Function `On_PredicatedMop` (ts_pin.cc:1719). -/
def On_PredicatedMop (env : Env) (is_running : Bool) (addr : Nat) (tid : Nat) (idx : Nat)
    (a : Nat) (g : Globals) : Res Unit :=
  if is_running then OnMop env addr tid idx a g else .ok () g

/-! ## The consumer thread and finalization -/

/-- Function `ConsumeTLEBQueue` (ts_pin.cc:2906). -/
def ConsumeTLEBQueue (env : Env) : List ThreadLocalEventBuffer → Globals → Res Unit
  | [], g => .ok () g
  | tleb :: rest, g =>
    match TLEBFlushUnlocked env tleb g with
    | .ok _ g1 => ConsumeTLEBQueue env rest g1
    | .abort e g1 => .abort e g1

/-- One iteration of the loop of `ThreadSanitizerThread` (ts_pin.cc:2917-2939).
`exiting` is the value of `PIN_IsProcessExiting()`; the result tells whether the
thread returns. -/
def ThreadSanitizerThreadStep (env : Env) (exiting : Bool) (g : Globals) : Res Bool :=
  let g1 := g.emit .Lock
  match g1.g_tleb_queue with
  | none => .abort .badPointer g1
  | some queue =>
    let n := queue.length
    if n < 100 then
      let g2 := { g1 with g_tleb_queue := some [] }.emit .Unlock
      if n ≠ 0 then (ConsumeTLEBQueue env queue g2).bind fun _ g3 => .ok false g3
      else if exiting then .ok true g2
      else .ok false g2
    else
      (ConsumeTLEBQueue env queue g1).bind fun _ g2 =>
        .ok false ({ g2 with g_tleb_queue := some [] }.emit .Unlock)

/-- The part of `CallbackForFini` after the flush (ts_pin.cc:2953-2962).
`found_errors` is the value of `GetNumberOfFoundErrors()`. -/
def CallbackForFiniTail (env : Env) (found_errors : Int) (g : Globals) : Globals :=
  let g1 := g.emit .ThreadSanitizerFini
  let g2 := if g1.g_race_verifier_active then g1.emit .RaceVerifierFini else g1
  let g3 := if env.show_stats then g2.emit .PrintTraceProfile else g2
  if env.error_exitcode ≠ 0 ∧ found_errors > 0 then g3.emit (.Exit env.error_exitcode) else g3

/-- Function `CallbackForFini` (ts_pin.cc:2949).  `found_errors` is the value
of `GetNumberOfFoundErrors()`. -/
def CallbackForFini (env : Env) (found_errors : Int) (g : Globals) : Res Unit :=
  (if env.locking_scheme ≠ LOCKING_SEPARATE_THREAD then DumpEvent env env.ev.THR_END 0 0 0 0 g
   else .ok () g).bind
  fun _ g => .ok () (CallbackForFiniTail env found_errors g)

/-! ## Records of the buffer -/

/-- A record as a producer appends it to its buffer: a routine call, a routine
exit, a trace with the addresses its memory operations report (`0` for an
operation that does not execute), or a generic event of four words. -/
inductive TlebRecord where
  | rtnCall (call_pc target_pc ignore_below : Nat)
  | rtnExit
  | trace (trace_info : Nat) (addrs : List Nat)
  | generic (type pc a info : Nat)
  deriving DecidableEq, Repr

/-- The memory operations of the current trace run (instrumented by
`InstrumentMopsInBBl` with `On_PredicatedMop`): operation `idx` calls
`On_PredicatedMop(is_running, addr, tid, idx, a)`; an entry `0` of the list
stands for an operation that does not execute. -/
def OnMops (env : Env) (addr tid : Nat) : List Nat → Nat → Globals → Res Unit
  | [], _, g => .ok () g
  | a :: rest, idx, g =>
    (On_PredicatedMop env (a != 0) addr tid idx a g).bind
      fun _ g1 => OnMops env addr tid rest (idx + 1) g1

/-- The producer appends one record to the buffer of thread `ti`: the call of
`TLEBAddRtnCall` or `TLEBAddRtnExit`; for a trace the two statements
`t.trace_info = trace_info; *tls_reg_p = TLEBAddTrace(t)` of `OnTrace`
(ts_pin.cc:1627-1629) followed by the memory operations of the trace; for a
generic event the four stores of `TLEBAddGenericEventAndFlush`. -/
def TlebRecord.append (env : Env) (ti : Nat) : TlebRecord → Globals → Res Unit
  | .rtnCall call_pc target_pc ignore_below, g =>
    TLEBAddRtnCall env ti call_pc target_pc ignore_below g
  | .rtnExit, g => TLEBAddRtnExit env ti g
  | .trace trace_info addrs, g =>
    (TLEBAddTrace env ti
      (g.setThread ti { g.g_pin_threads ti with trace_info := trace_info })).bind
      fun mop_addresses g1 => OnMops env mop_addresses ti addrs 0 g1
  | .generic type pc a info, g => TLEBAddGenericEvent env ti type pc a info g

/-- The producer appends a sequence of records, in order. -/
def appendAll (env : Env) (ti : Nat) : List TlebRecord → Globals → Res Unit
  | [], g => .ok () g
  | r :: rest, g => (r.append env ti g).bind fun _ g1 => appendAll env ti rest g1

/-- The call to the analyzer that hands it the record, for the thread with the
given `uniq_tid`. -/
def TlebRecord.delivered (uniq_tid : Int) : TlebRecord → Effect
  | .rtnCall call_pc target_pc ignore_below =>
    .HandleRtnCall uniq_tid call_pc target_pc ignore_below
  | .rtnExit => .HandleRtnExit uniq_tid
  | .trace trace_info addrs => .HandleTrace uniq_tid trace_info addrs
  | .generic type pc a info => .HandleOneEvent type uniq_tid pc a info

/-- The words of a record in the buffer (ts_pin.cc:256-260). -/
def TlebRecord.encode (env : Env) : TlebRecord → List Nat
  | .rtnCall call_pc target_pc ignore_below => [env.ev.RTN_CALL, call_pc, target_pc, ignore_below]
  | .rtnExit => [env.ev.RTN_EXIT]
  | .trace trace_info addrs => env.ev.SBLOCK_ENTER :: trace_info :: addrs
  | .generic type pc a info => [type, pc, a, info]

/-- The records the round trip is stated for: `ignore_below` is a value of the
enumeration `IGNORE_BELOW_RTN` (it fits in 32 bits); the trace pointer is not
null and points to a trace with as many memory operations, at least one, as
addresses are given; the type of a generic event is an event type (strictly
between `NOOP` and `LAST_EVENT`) other than the five types the decoder handles
in a branch of their own. -/
def TlebRecord.Valid (env : Env) : TlebRecord → Prop
  | .rtnCall _ _ ignore_below => ignore_below < 2 ^ 32
  | .rtnExit => True
  | .trace trace_info addrs =>
    trace_info ≠ 0 ∧ 0 < addrs.length ∧
      ∃ info, env.traceInfoAt trace_info = some info ∧ info.n_mops = addrs.length
  | .generic type _ _ _ =>
    env.ev.NOOP < type ∧ type < env.ev.LAST_EVENT ∧ type ≠ env.ev.RTN_CALL ∧
      type ≠ env.ev.RTN_EXIT ∧ type ≠ env.ev.SBLOCK_ENTER ∧ type ≠ env.ev.THR_START ∧
      type ≠ env.ev.THR_END

/-- The words of a sequence of records, one record after the other. -/
def encodeAll (env : Env) : List TlebRecord → List Nat
  | [] => []
  | r :: rest => r.encode env ++ encodeAll env rest

/-- The number of words the records take in the buffer. -/
def totalWords (env : Env) (rs : List TlebRecord) : Nat := (encodeAll env rs).length

/-! ## Predicates used in the statements -/

/-- The part of the state that decoding never touches: the queue, the race
verifier flag, every thread's buffer, lock bookkeeping and identifiers; the log
only grows, and by no action on the global lock. -/
structure FlushFrame (g g1 : Globals) : Prop where
  queue : g1.g_tleb_queue = g.g_tleb_queue
  verifier : g1.g_race_verifier_active = g.g_race_verifier_active
  started : g1.n_started_threads = g.n_started_threads
  tleb : ∀ j, (g1.g_pin_threads j).tleb = (g.g_pin_threads j).tleb
  holding : ∀ j, (g1.g_pin_threads j).holding_lock = (g.g_pin_threads j).holding_lock
  consumed : ∀ j, (g1.g_pin_threads j).n_consumed_events = (g.g_pin_threads j).n_consumed_events
  tid : ∀ j, (g1.g_pin_threads j).tid = (g.g_pin_threads j).tid
  uniq : ∀ j, (g1.g_pin_threads j).uniq_tid = (g.g_pin_threads j).uniq_tid
  trace : ∀ j, (g1.g_pin_threads j).trace_info = (g.g_pin_threads j).trace_info
  log : ∃ l, g1.log = g.log ++ l ∧ ∀ e ∈ l, e.isLockOp = false

/-- The reason of an abort, if the run aborted. -/
def Res.abortedWith {α : Type} : Res α → Option Abort
  | .ok _ _ => none
  | .abort e _ => some e

/-- A decoder branch entered at index `i` never stores to the buffer, never
runs out of fuel, and returns an index that is at least `i`. -/
def BranchOk (i : Nat) (r : Res Nat) : Prop :=
  r.abortedWith ≠ some .storeOutOfBounds ∧ r.abortedWith ≠ some .outOfFuel ∧
    ∀ i1 g1, r = .ok i1 g1 → i ≤ i1

/-- Outcome of an operation on the buffer of thread `ti` that leaves room for
`n` more words: the run did not store past the end of `events`, and if it
returned, `tleb.size + n` is at most the size of the array. -/
def Res.Room {α : Type} (ti n : Nat) (r : Res α) : Prop :=
  r.abortedWith ≠ some .storeOutOfBounds ∧
    ∀ a g1, r = .ok a g1 → (g1.g_pin_threads ti).tleb.size + n ≤ kThreadLocalEventBufferSize

/-- Outcome of an operation on the buffer of thread `ti` that respects the
bound: no store went past the end of `events`, and on return
`tleb.size <= kThreadLocalEventBufferSize`. -/
def Res.WithinBuffer {α : Type} (ti : Nat) (r : Res α) : Prop := r.Room ti 0

/-- Both ignore depths of every thread are non-negative. -/
def Globals.DepthsNonneg (g : Globals) : Prop :=
  ∀ j, 0 ≤ (g.g_pin_threads j).ignore_all_mops ∧ 0 ≤ (g.g_pin_threads j).ignore_lock_events

/-! ## Concrete inputs -/

/-- Modelled from the spec: a numbering of the event kinds, each kind numbered
by its position in the list of kinds of section 6 of the specification
(`NOOP` is 0, the list has 50 kinds, `LAST_EVENT` is 50); the enumeration of
`ts_events.h` is not among the sources.  It only serves to evaluate the
functions on concrete inputs. -/
def sampleEvents : EventTypes :=
  { NOOP := 0, READ := 1, WRITE := 2, WRITER_LOCK := 3, READER_LOCK := 4, UNLOCK := 5,
    UNLOCK_OR_INIT := 6, THR_START := 22, THR_END := 24, THR_JOIN_AFTER := 28,
    RTN_CALL := 31, RTN_EXIT := 32, SBLOCK_ENTER := 33, EXPECT_RACE := 41,
    BENIGN_RACE := 42, LAST_EVENT := 50 }

/-- A trace with two memory operations, a 4-byte read and an 8-byte write. -/
def sampleTrace : TraceInfo :=
  { id := 1, pc := 100, mops := [⟨101, 4, false⟩, ⟨102, 8, true⟩] }

/-- A configuration for concrete runs: online mode, no plain-text dump, no
sampling, no dry run; the word 4096 points to `sampleTrace`. -/
def sampleEnv (debug : Bool) (scheme : Int) : Env :=
  { ev := sampleEvents, DEBUG_MODE := debug, MSC_VER := false, dry_run := 0,
    locking_scheme := scheme, offline := false, literace_sampling := 0,
    dump_events_empty := true, error_exitcode := 0, show_stats := false,
    traceInfoAt := fun p => if p = 4096 then some sampleTrace else none,
    LiteRaceSkipTrace := fun _ _ _ => false,
    uninitialized := fun _ => 0 }

/-- A buffer of thread `ti` that holds the given words. -/
def sampleTleb (ti : Nat) (words : List Nat) : ThreadLocalEventBuffer :=
  { t := ti, size := words.length, events := fun j => words.getD j 0 }

/-- A live thread with index, `tid` and `uniq_tid` equal to `ti`, no parent,
no ignore depth, not holding the lock, whose buffer holds the given words. -/
def sampleThread (ti : Nat) (words : List Nat) : PinThread :=
  { tleb := sampleTleb ti words, uniq_tid := ti, last_child_tid := 0, tid := ti,
    parent_tid := INVALID_THREADID, my_ptid := 0, thread_stack_size_if_known := 0,
    last_child_stack_size_if_known := 0, shadow_stack := [], trace_info := 4096,
    ignore_all_mops := 0, ignore_lock_events := 0, spin_lock_recursion_depth := 0,
    thread_finished := false, thread_done := false, holding_lock := false,
    n_consumed_events := 0 }

/-- Globals in which thread 0 has buffered the given words and every other
buffer is empty; no ignore, race verifier off, empty queue, empty log. -/
def sampleGlobals (words : List Nat) : Globals :=
  { g_pin_threads := fun j => sampleThread j (if j = 0 then words else []),
    global_ignore := false, g_race_verifier_active := false, g_tleb_queue := some [],
    n_started_threads := 1, log := [] }

/-- Globals like `sampleGlobals`, with `global_ignore` on. -/
def sampleGlobalsIgnoring (words : List Nat) : Globals :=
  { sampleGlobals words with global_ignore := true }

/-- Globals like `sampleGlobals`, in which every thread has the given
`thread_finished` and `thread_done` flags. -/
def sampleGlobalsFlags (finished done : Bool) (words : List Nat) : Globals :=
  { sampleGlobals words with
    g_pin_threads := fun j =>
      { (sampleGlobals words).g_pin_threads j with
        thread_finished := finished, thread_done := done } }

/-- Globals like `sampleGlobals`, in which every thread has the given
`n_consumed_events` and `holding_lock`. -/
def sampleGlobalsConsumed (n : Int) (holding : Bool) (words : List Nat) : Globals :=
  { sampleGlobals words with
    g_pin_threads := fun j =>
      { (sampleGlobals words).g_pin_threads j with
        n_consumed_events := n, holding_lock := holding } }

/-- The state in which `TLEBFlushLocked` calls the decoder under
`LOCKING_ON_SYSCALL` for a thread `ti` with `tid = ti` (ts_pin.cc:480-481): the
lock has been taken if the thread did not hold it, and the size of the buffer
has been added to `n_consumed_events`. -/
def syscallFlushEntry (ti : Nat) (g : Globals) : Globals :=
  let t := g.g_pin_threads ti
  let g1 := if t.holding_lock then g else g.emit .Lock
  g1.setThread ti
    { t with
      holding_lock := true
      n_consumed_events := t.n_consumed_events + (t.tleb.size : Int) }

/-- What an operation on thread `ti` leaves alone when it does not enqueue: the
buffers of the other threads and the queue. -/
structure OthersKept (ti : Nat) (g g1 : Globals) : Prop where
  tleb : ∀ j, j ≠ ti → (g1.g_pin_threads j).tleb = (g.g_pin_threads j).tleb
  queue : g1.g_tleb_queue = g.g_tleb_queue

/-- Globals like `sampleGlobals`, with `n` copies of a one-word buffer of
thread 1 in the queue. -/
def sampleGlobalsQueue (n : Nat) (words : List Nat) : Globals :=
  { sampleGlobals words with g_tleb_queue := some (List.replicate n (sampleTleb 1 [32])) }

/-- Globals in which thread 0 has buffered `words0`, thread 1 has buffered
`words1`, and both threads are finished but not done. -/
def sampleGlobalsTwo (words0 words1 : List Nat) : Globals :=
  { sampleGlobals [] with
    g_pin_threads := fun j =>
      { sampleThread j (if j = 0 then words0 else if j = 1 then words1 else []) with
        thread_finished := true } }

/-- What appending to the buffer of thread `ti` leaves alone: the log, the
ignore state, the race verifier flag, and the identity and flags of the
thread. -/
structure SameControl (ti : Nat) (g g1 : Globals) : Prop where
  log : g1.log = g.log
  ignore : g1.global_ignore = g.global_ignore
  verifier : g1.g_race_verifier_active = g.g_race_verifier_active
  uniq : (g1.g_pin_threads ti).uniq_tid = (g.g_pin_threads ti).uniq_tid
  all : (g1.g_pin_threads ti).ignore_all_mops = (g.g_pin_threads ti).ignore_all_mops
  sync : (g1.g_pin_threads ti).ignore_lock_events = (g.g_pin_threads ti).ignore_lock_events
  done : (g1.g_pin_threads ti).thread_done = (g.g_pin_threads ti).thread_done
  owner : (g1.g_pin_threads ti).tleb.t = (g.g_pin_threads ti).tleb.t

/-- The buffer of thread `ti` in `g1` is its buffer in `g` with the words `ws`
appended. -/
structure Appended (ti : Nat) (ws : List Nat) (g g1 : Globals) : Prop where
  control : SameControl ti g g1
  size : (g1.g_pin_threads ti).tleb.size = (g.g_pin_threads ti).tleb.size + ws.length
  old : ∀ j, j < (g.g_pin_threads ti).tleb.size →
    (g1.g_pin_threads ti).tleb.events j = (g.g_pin_threads ti).tleb.events j
  new : ∀ k, k < ws.length →
    (g1.g_pin_threads ti).tleb.events ((g.g_pin_threads ti).tleb.size + k) = ws.getD k 0

/-- The state in which the decoder filters nothing: race verifier off, global
ignore off, and both ignore depths of the owner of the buffer zero. -/
structure Unfiltered (tleb : ThreadLocalEventBuffer) (g : Globals) : Prop where
  verifier : g.g_race_verifier_active = false
  ignore : g.global_ignore = false
  all : (g.g_pin_threads tleb.t).ignore_all_mops = 0
  sync : (g.g_pin_threads tleb.t).ignore_lock_events = 0

/-- The log after the analyzer has been handed the records, in order. -/
def deliverAll (uniq_tid : Int) (rs : List TlebRecord) (g : Globals) : Globals :=
  rs.foldl (fun g r => g.emit (r.delivered uniq_tid)) g

/-- The globals after the statement `t.tleb.events[t.tleb.size++] = v` on
thread `ti`. -/
def Globals.pushWord (g : Globals) (ti v : Nat) : Globals :=
  g.setTleb ti
    { (g.g_pin_threads ti).tleb with
      events := fun j => if j = (g.g_pin_threads ti).tleb.size then v
        else (g.g_pin_threads ti).tleb.events j
      size := (g.g_pin_threads ti).tleb.size + 1 }

/-- The globals after `n` address slots have been zeroed and added to the
buffer of thread `ti` (ts_pin.cc:522-526). -/
def Globals.pushZeros (g : Globals) (ti n : Nat) : Globals :=
  g.setTleb ti
    { (g.g_pin_threads ti).tleb with
      events := fun j =>
        if (g.g_pin_threads ti).tleb.size ≤ j ∧ j < (g.g_pin_threads ti).tleb.size + n then 0
        else (g.g_pin_threads ti).tleb.events j
      size := (g.g_pin_threads ti).tleb.size + n }

/-- The globals after the statement `addr[idx] = a` of `OnMop` on the buffer of
thread `ti`. -/
def Globals.storeAt (g : Globals) (ti j0 a : Nat) : Globals :=
  g.setTleb ti
    { (g.g_pin_threads ti).tleb with
      events := fun j => if j = j0 then a else (g.g_pin_threads ti).tleb.events j }

/-- The producer appends the records to the buffer of thread `ti`, and the
buffer of that thread is then decoded by `TLEBFlushUnlocked`. -/
def appendThenFlush (env : Env) (ti : Nat) (rs : List TlebRecord) (g : Globals) :
    Res ThreadLocalEventBuffer :=
  (appendAll env ti rs g).bind fun _ g1 => TLEBFlushUnlocked env (g1.g_pin_threads ti).tleb g1

/-- The calls of `exit`. -/
def Effect.isExit : Effect → Bool
  | .Exit _ => true
  | _ => false

/-- The flush with which `CallbackForFini` begins (ts_pin.cc:2950-2952). -/
def CallbackForFiniFlush (env : Env) (g : Globals) : Res Unit :=
  if env.locking_scheme ≠ LOCKING_SEPARATE_THREAD then DumpEvent env env.ev.THR_END 0 0 0 0 g
  else .ok () g

/-! ## Thread start -/

/-- The record left by `memset(&t, 0, sizeof(PinThread))` (ts_pin.cc:918): every
field zero, pointers null, the shadow stack empty. -/
def zeroPinThread : PinThread :=
  { tleb := { t := 0, size := 0, events := fun _ => 0 }, uniq_tid := 0, last_child_tid := 0,
    tid := 0, parent_tid := 0, my_ptid := 0, thread_stack_size_if_known := 0,
    last_child_stack_size_if_known := 0, shadow_stack := [], trace_info := 0,
    ignore_all_mops := 0, ignore_lock_events := 0, spin_lock_recursion_depth := 0,
    thread_finished := false, thread_done := false, holding_lock := false,
    n_consumed_events := 0 }

/-- Function `CallbackForThreadStart` (ts_pin.cc:899).  `kMaxThreads` is the
constant `PIN_MAX_THREADS` of the PIN headers; `creator` is the value of the
global `g_tid_of_thread_which_called_create_thread`, which the function only
reads.  `CHECK(tid > 0)` cannot fail for an unsigned `tid` other than 0.  The
allocation of `g_pin_threads`, the context register and the `debug_thread`
message are left out.  An access to `g_pin_threads[t.parent_tid]` past the end
of the array ends the run. -/
def CallbackForThreadStart (env : Env) (kMaxThreads : Nat) (creator : Nat) (tid : Nat)
    (g : Globals) : Res Unit :=
  let has_parent : Bool := tid != 0
  if ¬ tid < kMaxThreads then .abort (.CHECK 916) g
  else
    let t1 : PinThread :=
      { zeroPinThread with
        uniq_tid := g.n_started_threads, tid := tid,
        tleb := { zeroPinThread.tleb with t := tid } }
    let g1 := { g with n_started_threads := g.n_started_threads + 1 }
    let parent_tid := if has_parent then creator else INVALID_THREADID
    let g2 := g1.setThread tid { t1 with parent_tid := parent_tid }
    if has_parent ∧ env.MSC_VER = false ∧ parent_tid = INVALID_THREADID then
      .abort (.CHECK 935) g2
    else if has_parent ∧ parent_tid ≠ INVALID_THREADID then
      if ¬ parent_tid < kMaxThreads then .abort .storeOutOfBounds g2
      else
        let g3 := g2.setThread parent_tid
          { g2.g_pin_threads parent_tid with last_child_tid := tid }
        let g4 := g3.setThread tid
          { g3.g_pin_threads tid with
            thread_stack_size_if_known :=
              (g3.g_pin_threads parent_tid).last_child_stack_size_if_known }
        TLEBStartThread env tid g4
    else TLEBStartThread env tid g2

/-- A sequence of calls of `CallbackForThreadStart`, each given by the value of
`g_tid_of_thread_which_called_create_thread` at the call and the PIN `tid`.
Returns, for each call, the record of the started thread as the call left it. -/
def startThreads (env : Env) (kMaxThreads : Nat) :
    List (Nat × Nat) → Globals → Res (List PinThread)
  | [], g => .ok [] g
  | (creator, tid) :: rest, g =>
    (CallbackForThreadStart env kMaxThreads creator tid g).bind fun _ g1 =>
      (startThreads env kMaxThreads rest g1).bind fun ts g2 =>
        .ok (g1.g_pin_threads tid :: ts) g2

/-- A call the environment can make: the `tid` is below `kMaxThreads`, and a
thread other than the main thread is started while a thread with an id below
`kMaxThreads` is inside `pthread_create` (on Windows, where threads may appear
out of thin air, there may also be none). -/
def StartCallOk (env : Env) (kMaxThreads : Nat) (c : Nat × Nat) : Prop :=
  c.2 < kMaxThreads ∧
    (c.2 ≠ 0 → c.1 < kMaxThreads ∨ (env.MSC_VER = true ∧ c.1 = INVALID_THREADID))

/-- A thread as `CallbackForThreadStart` leaves it: its buffer holds the one
word `THR_START`, both ignore depths are 0 and the flags are false. -/
structure FreshThread (env : Env) (tid : Nat) (t : PinThread) : Prop where
  id : t.tid = tid
  owner : t.tleb.t = tid
  size : t.tleb.size = 1
  word : t.tleb.events 0 = env.ev.THR_START
  all : t.ignore_all_mops = 0
  sync : t.ignore_lock_events = 0
  spin : t.spin_lock_recursion_depth = 0
  finished : t.thread_finished = false
  done : t.thread_done = false
  holding : t.holding_lock = false
  consumed : t.n_consumed_events = 0

/-! ## The address slots of a trace -/

/-- One call made by the instrumentation of a memory operation of the current
trace (ts_pin.cc:1697-1724): `OnMop(addr, tid, idx, a)`, or
`On_PredicatedMop(is_running, addr, tid, idx, a)` when `predicated` is set. -/
structure MopCall where
  predicated : Bool
  is_running : Bool
  idx : Nat
  a : Nat
  deriving DecidableEq, Repr

/-- Whether the memory operation of the call executes: always for `OnMop`, when
`is_running` holds for `On_PredicatedMop`. -/
def MopCall.executes (c : MopCall) : Bool := !c.predicated || c.is_running

/-- The call, with the pointer `addr` and the thread `tid` of the trace. -/
def MopCall.run (env : Env) (addr tid : Nat) (c : MopCall) (g : Globals) : Res Unit :=
  if c.predicated then On_PredicatedMop env c.is_running addr tid c.idx c.a g
  else OnMop env addr tid c.idx c.a g

/-- A sequence of calls, in order. -/
def runMopCalls (env : Env) (addr tid : Nat) : List MopCall → Globals → Res Unit
  | [], g => .ok () g
  | c :: rest, g => (c.run env addr tid g).bind fun _ g1 => runMopCalls env addr tid rest g1

/-- What slot `i` is expected to hold after the calls, when it held `v` before:
the address passed by the last call for operation `i` that executed. -/
def slotAfter (i : Nat) : List MopCall → Nat → Nat
  | [], v => v
  | c :: rest, v => slotAfter i rest (if c.executes ∧ c.idx = i then c.a else v)

/-- The flush with which `TLEBAddTrace` begins for a trace of `n` memory
operations (ts_pin.cc:516-518). -/
def TLEBAddTraceFlush (env : Env) (ti n : Nat) (g : Globals) : Res Unit :=
  if (g.g_pin_threads ti).tleb.size + 2 + n > kThreadLocalEventBufferSize then
    TLEBFlushLocked env ti g
  else .ok () g

/-! ## When an append flushes -/

/-- What an append operation on thread `ti` does that needs `k` words for the
record `ws`: when the record fits after the `size` words already buffered, the
operation returns and has only appended the record (nothing was flushed: the
buffered words and the log are unchanged); when it does not fit, the operation
first calls `TLEBFlushLocked`, returns exactly when that flush does, and then
the record is all the buffer holds. -/
structure FlushesWhenFull {α : Type} (env : Env) (ti : Nat) (ws : List Nat) (g : Globals)
    (r : Res α) : Prop where
  fits : (g.g_pin_threads ti).tleb.size + ws.length ≤ kThreadLocalEventBufferSize →
    ∃ a g1, r = .ok a g1 ∧ Appended ti ws g g1
  full : (g.g_pin_threads ti).tleb.size + ws.length > kThreadLocalEventBufferSize →
    r.isOk = (TLEBFlushLocked env ti g).isOk ∧
    ∀ a g1, r = .ok a g1 →
      ∃ g0, TLEBFlushLocked env ti g = .ok () g0 ∧ (g0.g_pin_threads ti).tleb.size = 0 ∧
        Appended ti ws g0 g1

/-- Globals like `sampleGlobalsIgnoring`, with the race verifier active. -/
def sampleGlobalsVerifier (words : List Nat) : Globals :=
  { sampleGlobalsIgnoring words with g_race_verifier_active := true }

/-- Globals like `sampleGlobalsVerifier`, in which the buffer of every thread is
full: 2046 words `RTN_EXIT`. -/
def sampleGlobalsVerifierFull : Globals :=
  { sampleGlobalsVerifier [] with
    g_pin_threads := fun j =>
      { sampleThread j [] with
        tleb := { t := j, size := kThreadLocalEventBufferSize, events := fun _ => 32 } } }

/-- Globals like `sampleGlobals`, in which every thread has
`ignore_lock_events = 1`. -/
def sampleGlobalsSyncIgnoring (words : List Nat) : Globals :=
  { sampleGlobals words with
    g_pin_threads := fun j =>
      { (sampleGlobals words).g_pin_threads j with ignore_lock_events := 1 } }

end TsPin

namespace Libc

/-! ## Characters and the conversions of `scanf` and `printf`

The C library functions the front-ends call, after ISO C (7.4 `<ctype.h>`,
7.19.6 formatted input and output), for a target with 8-bit `char`, 32-bit
`int` and 64-bit `long`.  A stream or a string is the list of its characters;
the end of the list is the end of the file, or the terminating null
character. -/

/-- The null character. -/
def NUL : Char := Char.ofNat 0

/-- Function `isspace` in the "C" locale: space, `\t`, `\n`, `\v`, `\f`, `\r`. -/
def isspace (c : Char) : Bool :=
  c.toNat = 32 || (9 ≤ c.toNat && c.toNat ≤ 13)

/-- The characters of an array of `char` read as a C string: those before the
first null character. -/
def cstr : List Char → List Char
  | [] => []
  | c :: rest => if c.toNat = 0 then [] else c :: cstr rest

/-- The value of a decimal digit. -/
def decDigitValue (c : Char) : Option Nat :=
  if 48 ≤ c.toNat ∧ c.toNat ≤ 57 then some (c.toNat - 48) else none

/-- The value of a hexadecimal digit, of either case. -/
def hexDigitValue (c : Char) : Option Nat :=
  if 48 ≤ c.toNat ∧ c.toNat ≤ 57 then some (c.toNat - 48)
  else if 97 ≤ c.toNat ∧ c.toNat ≤ 102 then some (c.toNat - 87)
  else if 65 ≤ c.toNat ∧ c.toNat ≤ 70 then some (c.toNat - 55)
  else none

/-- Input white-space characters are skipped. -/
def skipSpace : List Char → List Char
  | [] => []
  | c :: rest => if isspace c then skipSpace rest else c :: rest

/-- The longest run of digits at the head of the input: its value on top of
`acc`, the number of digits on top of `cnt`, and the input after it. -/
def scanDigits (digit : Char → Option Nat) (base : Nat) :
    List Char → Nat → Nat → Nat × Nat × List Char
  | [], acc, cnt => (acc, cnt, [])
  | c :: rest, acc, cnt =>
    match digit c with
    | some d => scanDigits digit base rest (acc * base + d) (cnt + 1)
    | none => (acc, cnt, c :: rest)

/-- Outcome of one conversion directive. -/
inductive Conv (α : Type) where
  /-- The input item was converted and assigned; the input after the item. -/
  | assigned (v : α) (rest : List Char)
  /-- Input failure (end of input) or matching failure; the input left. -/
  | failure (rest : List Char)
  /-- The behaviour is undefined: the item overflows the array it is stored in,
  or its value cannot be represented in the object. -/
  | undefined
  deriving DecidableEq, Repr

/-- An optional sign at the head of the input: whether it is `-`, and the
input after it. -/
def scanSign : List Char → Bool × List Char
  | [] => (false, [])
  | c :: rest =>
    if c.toNat = 45 then (true, rest) else if c.toNat = 43 then (false, rest)
    else (false, c :: rest)

/-- An optional prefix `0x` or `0X` at the head of the input is dropped. -/
def scanHexPrefix : List Char → List Char
  | c :: x :: rest =>
    if c.toNat = 48 ∧ (x.toNat = 120 ∨ x.toNat = 88) then rest else c :: x :: rest
  | s => s

/-- Directive `%s` storing into an array of `bufSize` characters: white space
is skipped, then the run of characters that are not white space is stored,
followed by a null character.  The value is the array read as a C string. -/
def scan_s (bufSize : Nat) (input : List Char) : Conv (List Char) :=
  match skipSpace input with
  | [] => .failure []
  | c :: rest =>
    let word := (c :: rest).takeWhile fun c => !isspace c
    if word.length + 1 ≤ bufSize then
      .assigned (cstr word) ((c :: rest).dropWhile fun c => !isspace c)
    else .undefined

/-- Directives `%x` (`bits = 32`) and `%lx` (`bits = 64`): white space is
skipped; the item is an optional sign, an optional prefix `0x`, and hexadecimal
digits, at least one; a `-` negates the value in the unsigned type. -/
def scan_x (bits : Nat) (input : List Char) : Conv Nat :=
  let s := scanSign (skipSpace input)
  let r := scanDigits hexDigitValue 16 (scanHexPrefix s.2) 0 0
  if r.2.1 = 0 then .failure r.2.2
  else if r.1 < 2 ^ bits then .assigned (if s.1 then (2 ^ bits - r.1) % 2 ^ bits else r.1) r.2.2
  else .undefined

/-- Directive `%d`: white space is skipped; the item is an optional sign and
decimal digits, at least one; the value is stored in an `int`. -/
def scan_d (input : List Char) : Conv Int :=
  let s := scanSign (skipSpace input)
  let r := scanDigits decDigitValue 10 s.2 0 0
  let v : Int := if s.1 then -(r.1 : Int) else (r.1 : Int)
  if r.2.1 = 0 then .failure r.2.2
  else if -(2 : Int) ^ 31 ≤ v ∧ v < (2 : Int) ^ 31 then .assigned v r.2.2
  else .undefined

/-- The digits of `n` in the given base, least significant first, at most
`fuel` of them and at least one. -/
def digitsRev (base : Nat) : Nat → Nat → List Nat
  | 0, _ => []
  | fuel + 1, n => n % base :: (if n / base = 0 then [] else digitsRev base fuel (n / base))

/-- The character of a digit, lower case for the digits above 9. -/
def digitChar (d : Nat) : Char := Char.ofNat (if d < 10 then 48 + d else 87 + d)

/-- Directives `%x` (`bits = 32`) and `%lx` (`bits = 64`) of `printf`: the
argument, as a value of the unsigned type, in hexadecimal without prefix. -/
def print_x (bits : Nat) (v : Nat) : List Char :=
  ((digitsRev 16 (bits / 4) (v % 2 ^ bits)).reverse).map digitChar

/-- Directive `%d` of `printf` for an `int`. -/
def print_d (v : Int) : List Char :=
  if v < 0 then Char.ofNat 45 :: ((digitsRev 10 10 (-v).toNat).reverse).map digitChar
  else ((digitsRev 10 10 v.toNat).reverse).map digitChar

/-- Directive `%s` of `printf`: the characters of the C string. -/
def print_s (s : List Char) : List Char := cstr s

/-- Conversion of an `int` argument to `unsigned int`. -/
def toUnsigned (v : Int) : Nat := (v % 2 ^ 32).toNat

/-- The value of a numeral in base 16: what it denotes, digit by digit. -/
def numeralValue (ds : List Char) : Nat :=
  ds.foldl (fun acc c => acc * 16 + (hexDigitValue c).getD 0) 0

/-- A hexadecimal numeral: at least one character, all hexadecimal digits. -/
def IsHexNumeral (ds : List Char) : Prop :=
  ds ≠ [] ∧ ∀ c ∈ ds, (hexDigitValue c).isSome = true

/-- A separator between fields: white space, at least one character. -/
def IsSeparator (sp : List Char) : Prop := sp ≠ [] ∧ ∀ c ∈ sp, isspace c = true

/-- A word, as the directive `%s` reads it: at least one character, none of
them white space or null. -/
def IsWord (w : List Char) : Prop :=
  w ≠ [] ∧ ∀ c ∈ w, isspace c = false ∧ c.toNat ≠ 0

/-- The input after an item does not continue the item: it is empty or starts
with white space. -/
def EndsItem (rest : List Char) : Prop := ∀ c ∈ rest.head?, isspace c = true

instance (ds : List Char) : Decidable (IsHexNumeral ds) := by
  unfold IsHexNumeral
  infer_instance

instance (sp : List Char) : Decidable (IsSeparator sp) := by
  unfold IsSeparator
  infer_instance

instance (w : List Char) : Decidable (IsWord w) := by
  unfold IsWord
  infer_instance

instance (rest : List Char) : Decidable (EndsItem rest) := by
  unfold EndsItem
  infer_instance

/-- The characters of a name that `%s` of `scanf` reads back whole: none of
them is white space or null.  The name may be empty. -/
def NoSpace (w : List Char) : Prop := ∀ c ∈ w, isspace c = false ∧ c.toNat ≠ 0

instance (w : List Char) : Decidable (NoSpace w) := by
  unfold NoSpace
  infer_instance

/-- Directive `%u` of `printf` for an `unsigned int`. -/
def print_u (v : Nat) : List Char :=
  ((digitsRev 10 10 (v % 2 ^ 32)).reverse).map digitChar

end Libc

namespace TsPin
open Libc

/-! ## The text of the plain-text dump -/

/-- The line written by `fprintf(log_file, "#PC %lx %s %s %s %d\n", ...)` in
`DumpEventPlainText` (ts_pin.cc:285-295) for a `pc` that `PcToStrings` resolved
to the given image, routine, file and line: an empty name is replaced by
`unknown` and the line 0 by 1. -/
def dumpPcLine (pc : Nat) (img_name rtn_name file_name : List Char) (line : Int) : List Char :=
  let file_name := if file_name = [] then "unknown".toList else file_name
  let img_name := if img_name = [] then "unknown".toList else img_name
  let rtn_name := if rtn_name = [] then "unknown".toList else rtn_name
  let line := if line = 0 then 1 else line
  "#PC ".toList ++ print_x 64 pc ++ " ".toList ++ print_s img_name ++ " ".toList ++
    print_s rtn_name ++ " ".toList ++ print_s file_name ++ " ".toList ++ print_d line ++
    "\n".toList

/-- The line written by `fprintf(log_file, "%s %x %lx %lx %lx\n",
kEventNames[type], tid, (long)pc, (long)a, (long)info)` in `DumpEventPlainText`
(ts_pin.cc:297); `kEventNames` is the table of `ts_events.h`. -/
def dumpEventLine (kEventNames : Nat → List Char) (type : Nat) (tid : Int) (pc a info : Nat) :
    List Char :=
  print_s (kEventNames type) ++ " ".toList ++ print_x 32 (toUnsigned tid) ++ " ".toList ++
    print_x 64 pc ++ " ".toList ++ print_x 64 a ++ " ".toList ++ print_x 64 info ++ "\n".toList

/-- What one call of `DumpEventPlainText` that dumps (debug build, `dump_events`
set) writes to `log_file`: when the flag `symbolize` is set and `pc` is new to
`pc_set`, the `#PC` line for what `PcToStrings` returns; then the event line. -/
def DumpEventPlainTextOutput (kEventNames : Nat → List Char) (symbolize pc_is_new : Bool)
    (img_name rtn_name file_name : List Char) (line : Int)
    (type : Nat) (tid : Int) (pc a info : Nat) : List Char :=
  (if symbolize && pc_is_new then dumpPcLine pc img_name rtn_name file_name line else []) ++
    dumpEventLine kEventNames type tid pc a info

end TsPin

namespace TsOffline
open Libc

/-! ## The offline reader (`tsan/ts_offline.cc`)

The input stream is the list of the characters not read yet.  Calls into the
analyzer and messages are recorded, in program order, in `Offline.log`. -/

/-- Modelled from the spec: the event record of section 6, a 5-tuple
`{kind, tid: u32, pc, addr, info}`; the class `Event` of `thread_sanitizer.h`
is not among the sources.  The fields are the arguments of `Event::Init`. -/
structure Event where
  type : Nat
  tid : Nat
  pc : Nat
  a : Nat
  info : Nat
  deriving DecidableEq, Repr

/-- Record `struct PcInfo` (ts_offline.cc:43). -/
structure PcInfo where
  img_name : List Char
  file_name : List Char
  rtn_name : List Char
  line : Int
  deriving DecidableEq, Repr

/-- What the table `kEventNames` and the enumerator `LAST_EVENT` of
`ts_events.h` provide, and the flag `offline_syntax`. -/
structure Env where
  /-- The enumerator `LAST_EVENT`. -/
  LAST_EVENT : Nat
  /-- The characters of the string `kEventNames[i]`. -/
  kEventNames : Nat → List Char
  /-- Whether `G_flags->offline_syntax == "jli"`. -/
  jli : Bool

/-- The externally visible actions of the offline detector. -/
inductive Effect where
  /-- Call `ThreadSanitizerHandleOneEvent(&event)`. -/
  | HandleOneEvent (event : Event)
  /-- The message `INFO: ThreadSanitizerOffline: %d events read`. -/
  | PrintfEventsRead (n_events : Int)
  /-- Call `ThreadSanitizerFini()`. -/
  | ThreadSanitizerFini
  deriving DecidableEq, Repr

/-- The input stream and the globals of ts_offline.cc; a pointer that is `NULL`
is `none`. -/
structure Offline where
  /-- The characters of `FILE *file` not read yet. -/
  file : List Char
  g_event_type_map : Option (List Char → Option Nat)
  g_current_pc : Nat
  g_pc_info_map : Option (Nat → Option PcInfo)
  g_jli_pc_strings : List (List Char)
  log : List Effect

/-- Why a run ended abnormally. -/
inductive Abort where
  /-- Failure of a `CHECK` at the given source line. -/
  | CHECK (line : Nat)
  /-- Behaviour the C standard leaves undefined: a null pointer is
  dereferenced, or a conversion of `scanf` overflows its object. -/
  | undefined
  /-- The bound on the number of iterations of a loop of the model ran out. -/
  | outOfFuel
  deriving DecidableEq, Repr

/-- Outcome of a run: it returns a value, or the process aborts; the state at
that point is kept. -/
inductive Res (α : Type) where
  | ok (a : α) (s : Offline)
  | abort (e : Abort) (s : Offline)

/-- The state at the end of a run. -/
def Res.state {α : Type} : Res α → Offline
  | .ok _ s => s
  | .abort _ s => s

/-- The value a run returned, if it returned. -/
def Res.value {α : Type} : Res α → Option α
  | .ok a _ => some a
  | .abort _ _ => none

/-- The reason of an abort, if the run aborted. -/
def Res.abortedWith {α : Type} : Res α → Option Abort
  | .ok _ _ => none
  | .abort e _ => some e

/-- Sequencing: an abort ends the run. -/
def Res.bind {α β : Type} (r : Res α) (f : α → Offline → Res β) : Res β :=
  match r with
  | .ok a s => f a s
  | .abort e s => .abort e s

/-- Function `EventNameToEventType` (ts_offline.cc:53). -/
def EventNameToEventType (name : List Char) (s : Offline) : Res Nat :=
  match s.g_event_type_map with
  | none => .abort .undefined s
  | some m =>
    match m name with
    | none => .abort (.CHECK 55) s
    | some i => .ok i s

/-- Function `InitEventTypeMap` (ts_offline.cc:59): the assignments
`(*g_event_type_map)[kEventNames[i]] = i` for `i = 0, ..., LAST_EVENT - 1`, in
this order, on a new map. -/
def InitEventTypeMap (env : Env) (s : Offline) : Offline :=
  { s with
    g_event_type_map := some
      ((List.range env.LAST_EVENT).foldl
        (fun m i => fun name => if name = env.kEventNames i then some i else m name)
        (fun _ => none)) }

/-- Outcome of `sscanf(buff, "PC %lx %s %s %s %d", &pc, img, rtn, file, &line)`. -/
inductive ScanPc where
  /-- The call returns 5: all items are assigned. -/
  | all (pc : Nat) (img rtn file : List Char) (line : Int)
  /-- The call returns a value other than 5: not all items are assigned. -/
  | fewer
  /-- The behaviour is undefined. -/
  | undefined
  deriving DecidableEq, Repr

/-- The array size `kBufSize` of `SkipCommentText`. -/
def kBufSize : Nat := 1000

/-- The call `sscanf(buff, "PC %lx %s %s %s %d", &pc, img, rtn, file, &line)` of
ts_offline.cc:84 on the C string `buff`: the characters `P`, `C` are matched, a
space of the format skips white space, and the five directives follow; the
arrays `img`, `rtn`, `file` have `kBufSize` characters.  The caller compares
the value returned with 5, the number of items. -/
def sscanfPc (buff : List Char) : ScanPc :=
  match buff with
  | p :: c :: s0 =>
    if p.toNat = 80 ∧ c.toNat = 67 then
      match scan_x 64 (skipSpace s0) with
      | .undefined => .undefined
      | .failure _ => .fewer
      | .assigned pc s1 =>
        match scan_s kBufSize (skipSpace s1) with
        | .undefined => .undefined
        | .failure _ => .fewer
        | .assigned img s2 =>
          match scan_s kBufSize (skipSpace s2) with
          | .undefined => .undefined
          | .failure _ => .fewer
          | .assigned rtn s3 =>
            match scan_s kBufSize (skipSpace s3) with
            | .undefined => .undefined
            | .failure _ => .fewer
            | .assigned file s4 =>
              match scan_d (skipSpace s4) with
              | .undefined => .undefined
              | .failure _ => .fewer
              | .assigned line _ => .all pc img rtn file line
    else .fewer
  | _ => .fewer

/-- Outcome of `fscanf(file, "%s%x%lx%lx%lx", name, &tid, &pc, &a, &info)`. -/
inductive ScanEvent where
  /-- The call returns 5: all items are assigned; the input left. -/
  | all (name : List Char) (tid pc a info : Nat) (rest : List Char)
  /-- The call returns a value other than 5: not all items are assigned; the
  input left. -/
  | fewer (rest : List Char)
  /-- The behaviour is undefined. -/
  | undefined
  deriving DecidableEq, Repr

/-- The call `fscanf(file, "%s%x%lx%lx%lx", name, &tid, &pc, &a, &info)` of
ts_offline.cc:119; `name` is an array of 1024 characters, `tid` a `uint32_t`,
the others `uintptr_t`.  The caller compares the value returned with 5, the
number of items. -/
def fscanfEvent (input : List Char) : ScanEvent :=
  match scan_s 1024 input with
  | .undefined => .undefined
  | .failure rest => .fewer rest
  | .assigned name s1 =>
    match scan_x 32 s1 with
    | .undefined => .undefined
    | .failure rest => .fewer rest
    | .assigned tid s2 =>
      match scan_x 64 s2 with
      | .undefined => .undefined
      | .failure rest => .fewer rest
      | .assigned pc s3 =>
        match scan_x 64 s3 with
        | .undefined => .undefined
        | .failure rest => .fewer rest
        | .assigned a s4 =>
          match scan_x 64 s4 with
          | .undefined => .undefined
          | .failure rest => .fewer rest
          | .assigned info s5 => .all name tid pc a info s5

/-- The loop of `SkipCommentText` (ts_offline.cc:70-76): characters are read up
to and including the next `\n`, or to the end of the input; the first
`kBufSize - 1` of them are stored in `buff`.  Returns `buff` and the input
left. -/
def SkipCommentTextLoop : List Char → List Char → List Char × List Char
  | [], buff => (buff, [])
  | c :: rest, buff =>
    if c.toNat = 10 then (buff, rest)
    else SkipCommentTextLoop rest (if buff.length < kBufSize - 1 then buff ++ [c] else buff)

/-- Function `SkipCommentText` (ts_offline.cc:66).  The test
`buff[0] == 'P' && buff[1] == 'C'` reads the null character stored after the
characters of the line when the line is shorter. -/
def SkipCommentText (s : Offline) : Res Unit :=
  let r := SkipCommentTextLoop s.file []
  let s1 := { s with file := r.2 }
  if (r.1.getD 0 NUL).toNat = 80 ∧ (r.1.getD 1 NUL).toNat = 67 then
    match sscanfPc (cstr r.1) with
    | .undefined => .abort .undefined s1
    | .fewer => .ok () s1
    | .all pc img rtn file line =>
      if line > 0 ∧ pc ≠ 0 then
        match s1.g_pc_info_map with
        | none => .abort (.CHECK 86) s1
        | some m =>
          .ok () { s1 with
            g_pc_info_map := some fun p =>
              if p = pc then
                some { img_name := img, rtn_name := rtn, file_name := file, line := line }
              else m p }
      else .ok () s1
  else .ok () s1

/-- The loop of `SkipWhiteSpaceAndComments` (ts_offline.cc:100-109), with a
bound on the number of iterations, followed by `ungetc(c, file)`: the character
that ends the loop is left in the input. -/
def SkipWhiteSpaceAndCommentsLoop : Nat → Offline → Res Unit
  | 0, s => .abort .outOfFuel s
  | fuel + 1, s =>
    match s.file with
    | [] => .ok () s
    | c :: rest =>
      if c.toNat = 35 ∨ c.toNat = 61 then
        (SkipCommentText { s with file := rest }).bind fun _ s1 =>
          SkipWhiteSpaceAndCommentsLoop fuel s1
      else if isspace c then SkipWhiteSpaceAndCommentsLoop fuel { s with file := rest }
      else .ok () s

/-- Function `SkipWhiteSpaceAndComments` (ts_offline.cc:98).  Every iteration
reads at least one character, so one iteration more than there are characters
is enough. -/
def SkipWhiteSpaceAndComments (s : Offline) : Res Unit :=
  SkipWhiteSpaceAndCommentsLoop (s.file.length + 1) s

/-- Function `ReadOneEventFromFile` (ts_offline.cc:113).  Returns the event it
has initialised when the function returns `true`, `none` when it returns
`false`.  `CHECK(event)` holds for the address of a variable. -/
def ReadOneEventFromFile (s : Offline) : Res (Option Event) :=
  (SkipWhiteSpaceAndComments s).bind fun _ s1 =>
    match fscanfEvent s1.file with
    | .undefined => .abort .undefined s1
    | .fewer rest => .ok none { s1 with file := rest }
    | .all name tid pc a info rest =>
      (EventNameToEventType name { s1 with file := rest }).bind fun type s2 =>
        .ok (some { type := type, tid := tid, pc := pc, a := a, info := info }) s2

/-- The loop of `ReadEventsFromFile` (ts_offline.cc:129-134), with a bound on
the number of iterations.  Returns `n_events`. -/
def ReadEventsFromFileLoop : Nat → Int → Offline → Res Int
  | 0, _, s => .abort .outOfFuel s
  | fuel + 1, n_events, s =>
    (ReadOneEventFromFile s).bind fun r s1 =>
      match r with
      | none => .ok n_events s1
      | some event =>
        ReadEventsFromFileLoop fuel (n_events + 1)
          { s1 with g_current_pc := event.pc, log := s1.log ++ [.HandleOneEvent event] }

/-- Function `ReadEventsFromFile` (ts_offline.cc:126).  Every event read takes
at least one character of the input, so one iteration more than there are
characters is enough. -/
def ReadEventsFromFile (s : Offline) : Res Unit :=
  (ReadEventsFromFileLoop (s.file.length + 1) 0 s).bind fun n_events s1 =>
    .ok () { s1 with log := s1.log ++ [.PrintfEventsRead n_events] }

/-- Function `main` (ts_offline.cc:268), from `InitEventTypeMap()` on.  The
reader for the syntax `jli`, `JLIReadEventsFromFile`, is a parameter; the calls
`ThreadSanitizerParseFlags` and `ThreadSanitizerInit` are left out. -/
def main (env : Env) (JLIReadEventsFromFile : Offline → Res Unit) (s : Offline) : Res Unit :=
  let s1 := InitEventTypeMap env s
  let s2 := { s1 with g_pc_info_map := some fun _ => none }
  (if env.jli then JLIReadEventsFromFile s2 else ReadEventsFromFile s2).bind fun _ s3 =>
    .ok () { s3 with log := s3.log ++ [.ThreadSanitizerFini] }

/-- The four results of `PcToStrings`. -/
structure PcStrings where
  img_name : List Char
  rtn_name : List Char
  file_name : List Char
  line_no : Int
  deriving DecidableEq, Repr

/-- Function `PcToStrings` (ts_offline.cc:231); `none` when the null pointer
`g_pc_info_map` is dereferenced. -/
def PcToStrings (env : Env) (pc : Nat) (s : Offline) : Option PcStrings :=
  if env.jli then
    some { img_name := [],
           rtn_name := if pc < s.g_jli_pc_strings.length then s.g_jli_pc_strings.getD pc []
             else "zzz".toList,
           file_name := [], line_no := 0 }
  else
    match s.g_pc_info_map with
    | none => none
    | some m =>
      match m pc with
      | none => some { img_name := [], rtn_name := [], file_name := [], line_no := 0 }
      | some info =>
        some { img_name := info.img_name, rtn_name := info.rtn_name,
               file_name := if info.file_name = "unknown".toList then [] else info.file_name,
               line_no := info.line }

/-! ## Concrete inputs -/

/-- Modelled from the spec: the names of the event kinds, in the order of the
list of kinds of section 6 of the specification; the table `kEventNames` of
`ts_events.h` is not among the sources.  It only serves to evaluate the
functions on concrete inputs. -/
def sampleEventNames : List String :=
  ["NOOP", "READ", "WRITE", "WRITER_LOCK", "READER_LOCK", "UNLOCK", "UNLOCK_OR_INIT",
   "LOCK_CREATE", "LOCK_DESTROY", "HB_LOCK", "NON_HB_LOCK", "SIGNAL", "WAIT", "WAIT_BEFORE",
   "WAIT_AFTER", "CYCLIC_BARRIER_INIT", "CYCLIC_BARRIER_WAIT_BEFORE",
   "CYCLIC_BARRIER_WAIT_AFTER", "PCQ_CREATE", "PCQ_DESTROY", "PCQ_PUT", "PCQ_GET",
   "THR_START", "THR_FIRST_INSN", "THR_END", "THR_CREATE_BEFORE", "THR_CREATE_AFTER",
   "THR_JOIN_BEFORE", "THR_JOIN_AFTER", "THR_STACK_TOP", "THR_SET_PTID", "RTN_CALL",
   "RTN_EXIT", "SBLOCK_ENTER", "STACK_TRACE", "MALLOC", "FREE", "MMAP", "MUNMAP",
   "PUBLISH_RANGE", "UNPUBLISH_RANGE", "EXPECT_RACE", "BENIGN_RACE", "FLUSH_STATE",
   "IGNORE_READS_BEG", "IGNORE_READS_END", "IGNORE_WRITES_BEG", "IGNORE_WRITES_END",
   "SET_THREAD_NAME", "TRACE_MEM"]

/-- A configuration for concrete runs: the sample names, default syntax. -/
def sampleEnv : Env :=
  { LAST_EVENT := 50, kEventNames := fun i => (sampleEventNames.getD i "").toList,
    jli := false }

/-- The state in which `main` starts to read the given input: both maps
allocated, the event type map filled, nothing logged. -/
def sampleState (input : String) : Offline :=
  InitEventTypeMap sampleEnv
    { file := input.toList, g_event_type_map := none, g_current_pc := 0,
      g_pc_info_map := some fun _ => none, g_jli_pc_strings := [], log := [] }

/-! ## The shape of the input -/

/-- The character `\n`. -/
def NL : Char := Char.ofNat 10

/-- What the reader skips before an event: a white-space character, or a
comment line, made of the character that starts it, its text and the `\n` that
ends it. -/
inductive Skipped where
  | space (c : Char)
  | comment (marker : Char) (text : List Char)
  deriving DecidableEq, Repr

/-- The characters of a skipped item. -/
def Skipped.chars : Skipped → List Char
  | .space c => [c]
  | .comment marker text => marker :: (text ++ [NL])

/-- The characters of a sequence of skipped items. -/
def skippedChars : List Skipped → List Char
  | [] => []
  | x :: rest => x.chars ++ skippedChars rest

/-- A skipped item is well formed: the character is white space; the comment
starts with `#` or `=`, its text has no `\n`, and, if it is a `PC` line, no
number in it overflows. -/
def Skipped.WellFormed : Skipped → Prop
  | .space c => isspace c = true
  | .comment marker text =>
    (marker.toNat = 35 ∨ marker.toNat = 61) ∧ (∀ c ∈ text, c.toNat ≠ 10) ∧
      sscanfPc (cstr (text.take (kBufSize - 1))) ≠ .undefined

/-- The fields of an event line `<EVENT_NAME> <tid> <pc> <addr> <info>` and the
white space between them. -/
structure EventLine where
  name : List Char
  sp1 : List Char
  tid : List Char
  sp2 : List Char
  pc : List Char
  sp3 : List Char
  a : List Char
  sp4 : List Char
  info : List Char
  deriving DecidableEq, Repr

/-- The characters of an event line. -/
def EventLine.chars (l : EventLine) : List Char :=
  l.name ++ (l.sp1 ++ (l.tid ++ (l.sp2 ++ (l.pc ++ (l.sp3 ++ (l.a ++ (l.sp4 ++ l.info)))))))

/-- The four numeric fields are hexadecimal numerals separated by white space,
with values that fit a `uint32_t` (`tid`) and a `uintptr_t` (the others). -/
structure EventLine.Numbers (l : EventLine) : Prop where
  sp1 : IsSeparator l.sp1
  sp2 : IsSeparator l.sp2
  sp3 : IsSeparator l.sp3
  sp4 : IsSeparator l.sp4
  tid : IsHexNumeral l.tid
  pc : IsHexNumeral l.pc
  a : IsHexNumeral l.a
  info : IsHexNumeral l.info
  tidFits : numeralValue l.tid < 2 ^ 32
  pcFits : numeralValue l.pc < 2 ^ 64
  aFits : numeralValue l.a < 2 ^ 64
  infoFits : numeralValue l.info < 2 ^ 64

/-- The first field is a name as `%s` reads it into `name[1024]`, and it does
not start a comment. -/
structure EventLine.Name (l : EventLine) : Prop where
  word : IsWord l.name
  fits : l.name.length < 1024
  first : ∀ c ∈ l.name.head?, c.toNat ≠ 35 ∧ c.toNat ≠ 61

/-- The event the line denotes, for the type with the given number: the values
of the four numerals in base 16. -/
def EventLine.event (l : EventLine) (type : Nat) : Event :=
  { type := type, tid := numeralValue l.tid, pc := numeralValue l.pc,
    a := numeralValue l.a, info := numeralValue l.info }

/-- The names `kEventNames[0..LAST_EVENT)` are pairwise distinct. -/
def Env.NamesDistinct (env : Env) : Prop :=
  ∀ i j, i < env.LAST_EVENT → j < env.LAST_EVENT → env.kEventNames i = env.kEventNames j → i = j

/-- The state is one that `main` reads events in: `InitEventTypeMap` has filled
the event type map and `g_pc_info_map` is allocated. -/
def Offline.Ready (env : Env) (s : Offline) : Prop :=
  s.g_event_type_map = (InitEventTypeMap env s).g_event_type_map ∧
    s.g_pc_info_map.isSome = true

/-- The line `READ a 10 ff 4`. -/
def sampleLine : EventLine :=
  { name := "READ".toList, sp1 := " ".toList, tid := "a".toList, sp2 := " ".toList,
    pc := "10".toList, sp3 := " ".toList, a := "ff".toList, sp4 := " ".toList,
    info := "4".toList }

/-- The line `RAED a 10 ff 4`, whose first field is not a name of the table. -/
def sampleLineUnknown : EventLine := { sampleLine with name := "RAED".toList }

/-- A comment line and a space. -/
def sampleSkipped : List Skipped := [.comment (Char.ofNat 35) " c".toList, .space (Char.ofNat 32)]

/-- The start of an event line: the name and the first `k` of its numbers
(`k <= 3`), each after its separator. -/
def EventLine.upTo (l : EventLine) : Nat → List Char
  | 0 => l.name
  | 1 => l.name ++ (l.sp1 ++ l.tid)
  | 2 => l.name ++ (l.sp1 ++ (l.tid ++ (l.sp2 ++ l.pc)))
  | _ => l.name ++ (l.sp1 ++ (l.tid ++ (l.sp2 ++ (l.pc ++ (l.sp3 ++ l.a)))))

/-- The input does not continue with a number: it is empty, or it starts with a
character that is neither a hexadecimal digit, nor a sign, nor white space. -/
def NotNumeralStart (bad : List Char) : Prop :=
  ∀ c ∈ bad.head?, hexDigitValue c = none ∧ c.toNat ≠ 43 ∧ c.toNat ≠ 45 ∧ isspace c = false

instance (bad : List Char) : Decidable (NotNumeralStart bad) := by
  unfold NotNumeralStart
  infer_instance

/-- The reader for the syntax `jli` is not run on the sample inputs. -/
def sampleJLI (s : Offline) : Res Unit := .ok () s

/-- A well-formed part of the input: skipped items, then an event line whose
name is `kEventNames[type]`. -/
structure Block where
  items : List Skipped
  line : EventLine
  type : Nat
  deriving DecidableEq, Repr

/-- The characters of a sequence of blocks followed by `tail`. -/
def blocksChars : List Block → List Char → List Char
  | [], tail => tail
  | b :: bs, tail => skippedChars b.items ++ (b.line.chars ++ blocksChars bs tail)

/-- The events the lines of the blocks denote, in the order of the input. -/
def blocksEvents (bs : List Block) : List Event := bs.map fun b => b.line.event b.type

/-- Every block is well formed: its skipped items are, the name of its line is
the name of its type, the numbers of its line are numerals that fit, and the
line is followed by white space or by the end of the input. -/
def BlocksWellFormed (env : Env) : List Block → List Char → Prop
  | [], _ => True
  | b :: bs, tail =>
    (∀ x ∈ b.items, x.WellFormed) ∧ b.line.Name ∧ b.line.Numbers ∧ b.type < env.LAST_EVENT ∧
      b.line.name = env.kEventNames b.type ∧ EndsItem (blocksChars bs tail) ∧
      BlocksWellFormed env bs tail

/-- The state `main` is called in: no map allocated, nothing logged. -/
def initialState (input : List Char) : Offline :=
  { file := input, g_event_type_map := none, g_current_pc := 0, g_pc_info_map := none,
    g_jli_pc_strings := [], log := [] }

/-- A block for the line `READ a 10 ff 4` after a comment line and a space. -/
def sampleBlock : Block := { items := sampleSkipped, line := sampleLine, type := 1 }

/-! ## Comment lines that name a `pc` -/

/-- The fields of the text `PC <pc> <img> <rtn> <file> <line>` of a comment
line, the white space between them, and what follows the line number up to the
end of the line.  The line number is written in decimal, as `%d` prints it. -/
structure PcLine where
  sp0 : List Char
  pc : List Char
  sp1 : List Char
  img : List Char
  sp2 : List Char
  rtn : List Char
  sp3 : List Char
  file : List Char
  sp4 : List Char
  line : Int
  trail : List Char
  deriving DecidableEq, Repr

/-- The characters of the text, after the `#` or `=` and before the `\n`. -/
def PcLine.text (l : PcLine) : List Char :=
  Char.ofNat 80 :: Char.ofNat 67 :: (l.sp0 ++ (l.pc ++ (l.sp1 ++ (l.img ++ (l.sp2 ++ (l.rtn
    ++ (l.sp3 ++ (l.file ++ (l.sp4 ++ (print_d l.line ++ l.trail))))))))))

/-- The text is well formed: `pc` is a hexadecimal numeral that fits a
`uintptr_t`, the three names are words, the line number is not negative and
fits an `int`, the fields are separated by white space, and the text has no
`\n`, no null character, and fewer than `kBufSize` characters. -/
structure PcLine.WellFormed (l : PcLine) : Prop where
  sp0 : ∀ c ∈ l.sp0, isspace c = true
  sp1 : IsSeparator l.sp1
  sp2 : IsSeparator l.sp2
  sp3 : IsSeparator l.sp3
  sp4 : IsSeparator l.sp4
  pc : IsHexNumeral l.pc
  pcFits : numeralValue l.pc < 2 ^ 64
  img : IsWord l.img
  rtn : IsWord l.rtn
  file : IsWord l.file
  lineMin : 0 ≤ l.line
  lineFits : l.line < 2 ^ 31
  trail : EndsItem l.trail
  chars : ∀ c ∈ l.text, c.toNat ≠ 10 ∧ c.toNat ≠ 0
  fits : l.text.length < kBufSize

/-- The value of the field `pc`. -/
def PcLine.value (l : PcLine) : Nat := numeralValue l.pc

/-- The record the line denotes. -/
def PcLine.info (l : PcLine) : PcInfo :=
  { img_name := l.img, file_name := l.file, rtn_name := l.rtn, line := l.line }

/-- What the assignment `(*g_pc_info_map)[pc] = pc_info` is guarded by in
`SkipCommentText`: `line > 0 && pc != 0`. -/
def PcLine.Installs (l : PcLine) : Prop := l.line > 0 ∧ l.value ≠ 0

instance (l : PcLine) : Decidable l.Installs := by
  unfold PcLine.Installs
  infer_instance

/-- What `PcToStrings` is to return for a `pc` installed by the line: the
fields of the line, but the empty string for the file name `unknown`. -/
def PcLine.strings (l : PcLine) : PcStrings :=
  { img_name := l.img, rtn_name := l.rtn,
    file_name := if l.file = "unknown".toList then [] else l.file, line_no := l.line }

/-- What the reader skips, with the comment lines that name a `pc` told from
the others. -/
inductive Item where
  | space (c : Char)
  | comment (marker : Char) (text : List Char)
  | pcLine (marker : Char) (l : PcLine)
  deriving DecidableEq, Repr

/-- The characters of an item. -/
def Item.chars : Item → List Char
  | .space c => [c]
  | .comment marker text => marker :: (text ++ [NL])
  | .pcLine marker l => marker :: (l.text ++ [NL])

/-- The characters of a sequence of items. -/
def itemsChars : List Item → List Char
  | [] => []
  | x :: rest => x.chars ++ itemsChars rest

/-- An item is well formed: the character is white space; a comment starts with
`#` or `=`, and its text has no `\n` and does not start with `PC`; a line that
names a `pc` starts with `#` or `=` and its text is well formed. -/
def Item.WellFormed : Item → Prop
  | .space c => isspace c = true
  | .comment marker text =>
    (marker.toNat = 35 ∨ marker.toNat = 61) ∧ (∀ c ∈ text, c.toNat ≠ 10) ∧
      ¬ ((text.getD 0 NUL).toNat = 80 ∧ (text.getD 1 NUL).toNat = 67)
  | .pcLine marker l => (marker.toNat = 35 ∨ marker.toNat = 61) ∧ l.WellFormed

/-- The line of the item, if the item is a line that names `pc` and passes the
guard of `SkipCommentText`. -/
def Item.lineFor : Item → Nat → Option PcLine
  | .space _, _ => none
  | .comment _ _, _ => none
  | .pcLine _ l, pc => if l.value = pc ∧ l.Installs then some l else none

/-- The most recent of the lines that name `pc` and pass the guard of
`SkipCommentText`, if there is one. -/
def lastPcLine : List Item → Nat → Option PcLine
  | [], _ => none
  | x :: rest, pc =>
    match lastPcLine rest pc with
    | some l => some l
    | none => x.lineFor pc

/-- The text `PC 10 a.out main t.c 3`. -/
def samplePcLine : PcLine :=
  { sp0 := " ".toList, pc := "10".toList, sp1 := " ".toList, img := "a.out".toList,
    sp2 := " ".toList, rtn := "main".toList, sp3 := " ".toList, file := "t.c".toList,
    sp4 := " ".toList, line := 3, trail := [] }

/-- The text `PC 10 libc.so exit unknown 7`. -/
def samplePcLineUnknown : PcLine :=
  { samplePcLine with img := "libc.so".toList, rtn := "exit".toList,
                      file := "unknown".toList, line := 7 }

/-- Two lines that name the `pc` 16, a comment between them, and a space. -/
def sampleItems : List Item :=
  [.pcLine (Char.ofNat 35) samplePcLineUnknown, .comment (Char.ofNat 35) " c".toList,
   .pcLine (Char.ofNat 35) samplePcLine, .space (Char.ofNat 32)]

/-! ## The text written by the dump -/

/-- The names `kEventNames[0..LAST_EVENT)` are words that fit the array `name`
of `ReadOneEventFromFile` and do not start a comment. -/
def Env.NamesWellFormed (env : Env) : Prop :=
  ∀ i, i < env.LAST_EVENT →
    IsWord (env.kEventNames i) ∧ (env.kEventNames i).length < 1024 ∧
      ∀ c ∈ (env.kEventNames i).head?, c.toNat ≠ 35 ∧ c.toNat ≠ 61

/-- The fields of the event line `DumpEventPlainText` writes. -/
def dumpedEventLine (kEventNames : Nat → List Char) (type : Nat) (tid : Int)
    (pc a info : Nat) : EventLine :=
  { name := kEventNames type, sp1 := " ".toList, tid := print_x 32 (toUnsigned tid),
    sp2 := " ".toList, pc := print_x 64 pc, sp3 := " ".toList, a := print_x 64 a,
    sp4 := " ".toList, info := print_x 64 info }

/-- The name `DumpEventPlainText` writes for a name `PcToStrings` returned:
`unknown` for the empty string. -/
def dumpedName (name : List Char) : List Char := if name = [] then "unknown".toList else name

/-- The fields of the `#PC` line `DumpEventPlainText` writes. -/
def dumpedPcLine (pc : Nat) (img_name rtn_name file_name : List Char) (line : Int) : PcLine :=
  { sp0 := " ".toList, pc := print_x 64 pc, sp1 := " ".toList, img := dumpedName img_name,
    sp2 := " ".toList, rtn := dumpedName rtn_name, sp3 := " ".toList,
    file := dumpedName file_name, sp4 := " ".toList, line := if line = 0 then 1 else line,
    trail := [] }

/-- What the `#PC` line of the dump can carry to the reader: names without
white space and null characters, a line number that is not negative, and fewer
characters than the buffer of `SkipCommentText` has. -/
structure Dumpable (pc : Nat) (img_name rtn_name file_name : List Char) (line : Int) : Prop where
  img : NoSpace img_name
  rtn : NoSpace rtn_name
  file : NoSpace file_name
  lineMin : 0 ≤ line
  lineFits : line < 2 ^ 31
  fits : (TsPin.dumpPcLine pc img_name rtn_name file_name line).length < kBufSize

/-- The state in which `main` starts to read the given characters: both maps
allocated, the event type map filled, nothing logged. -/
def sampleStateOf (input : List Char) : Offline :=
  InitEventTypeMap sampleEnv
    { file := input, g_event_type_map := none, g_current_pc := 0,
      g_pc_info_map := some fun _ => none, g_jli_pc_strings := [], log := [] }

end TsOffline

namespace Cxx

/-! ## Members of `std::string` -/

/-- Member `find(str)` of `std::string`, from position 0: the position of the
first occurrence of `str` in the string; `none` is `npos`. -/
def find : List Char → List Char → Option Nat
  | [], str => if str = [] then some 0 else none
  | c :: rest, str =>
    if str.isPrefixOf (c :: rest) then some 0 else (find rest str).map (· + 1)

/-- Member `replace(pos, len, str)` of `std::string` for `pos <= size()`: the
`len` characters from position `pos` on, or those there are, are replaced by
`str`. -/
def replace (s : List Char) (pos len : Nat) (str : List Char) : List Char :=
  s.take pos ++ str ++ s.drop (pos + len)

/-- Member `operator[]` of a constant `std::string`: the character at the
position, and the null character at position `size()`. -/
def charAt (s : List Char) (i : Nat) : Char := s.getD i (Char.ofNat 0)

end Cxx

namespace TsPin
open Libc Cxx

/-! ## Routine names, thread join, the identity-store filter, the log file name, the call stack -/

/-- Function `RtnMatchesName` (ts_pin.cc:581); `none` when
`CHECK(name.size() > 0)` fails.  The characters `@` and `_` are compared by
their codes 64 and 95. -/
def RtnMatchesName (rtn_name name : List Char) : Option Bool :=
  if ¬ name.length > 0 then none
  else
    match find rtn_name name with
    | none => some false
    | some pos =>
      if pos = 0 ∧ name.length = rtn_name.length then some true
      else if pos = 0 ∧ name.length < rtn_name.length
          ∧ (charAt rtn_name name.length).toNat = 64 then some true
      else if pos = 1 ∧ (charAt rtn_name 0).toNat = 95 ∧ name.length < rtn_name.length
          ∧ (charAt rtn_name (name.length + 1)).toNat = 64 then some true
      else some false

/-- The character `@`. -/
def AT : Char := Char.ofNat 64

/-- The character `_`. -/
def UNDERSCORE : Char := Char.ofNat 95

/-! ## The identity-store filter -/

/-- Function `OnMopCheckIdentStoreBefore` (ts_pin.cc:1726).  The pointer `addr`
into `g_pin_threads[tid].tleb.events` is the index `addr`; `mem a` is the word
`*(uintptr_t*)a` of the application's memory. -/
def OnMopCheckIdentStoreBefore (mem : Nat → Nat) (addr tid idx a : Nat) (g : Globals) :
    Res Unit :=
  if addr + idx < kThreadLocalEventBufferSize then
    .ok () (g.storeAt tid (addr + idx) (mem a % 2 ^ 64))
  else .abort .storeOutOfBounds g

/-- The value `-(uintptr_t)(new_value_of_a != previous_value_of_a)` in the
arithmetic of `uintptr_t` (ts_pin.cc:1737). -/
def ne_mask (new_value_of_a previous_value_of_a : Nat) : Nat :=
  (2 ^ 64 - (if new_value_of_a ≠ previous_value_of_a then 1 else 0)) % 2 ^ 64

/-- Function `OnMopCheckIdentStoreAfter` (ts_pin.cc:1730); `mem a` is the word
`*(uintptr_t*)a` of the application's memory after the store. -/
def OnMopCheckIdentStoreAfter (mem : Nat → Nat) (addr tid idx a : Nat) (g : Globals) :
    Res Unit :=
  if addr + idx < kThreadLocalEventBufferSize then
    let previous_value_of_a := (g.g_pin_threads tid).tleb.events (addr + idx)
    let new_value_of_a := mem a % 2 ^ 64
    .ok () (g.storeAt tid (addr + idx) (ne_mask new_value_of_a previous_value_of_a &&& a))
  else .abort .loadOutOfBounds g

/-! ## The name of the log file -/

/-- The string `"%p"`. -/
def percentP : List Char := [Char.ofNat 37, Char.ofNat 112]

/-- The loop `while (fname.find("%p") != fname.npos) fname.replace(fname.find("%p"),
2, pid_str)` of `main` (ts_pin.cc:3086-3087), with a bound on the number of
iterations; `none` when the bound is reached. -/
def replacePidLoop (pid_str : List Char) : Nat → List Char → Option (List Char)
  | 0, _ => none
  | fuel + 1, fname =>
    match find fname percentP with
    | none => some fname
    | some pos => replacePidLoop pid_str fuel (replace fname pos 2 pid_str)

/-- The file name `main` opens for a `log_file` that is not empty and no socket
(ts_pin.cc:3081-3087): `pid_str` is what `sprintf(pid_str, "%u", getpid())`
writes, and the loop runs on a copy of `log_file`.  One iteration more than
`log_file` has characters is allowed. -/
def logFileName (log_file : List Char) (pid : Int) : Option (List Char) :=
  replacePidLoop (print_u (toUnsigned pid)) (log_file.length + 1) log_file

/-- The scan behind `replaceEach`: at an occurrence of `%p` it writes `pid_str`
and skips the `p`; `skip` tells that the character at hand is that `p`. -/
def replaceEachFrom (pid_str : List Char) : List Char → Bool → List Char
  | [], _ => []
  | _ :: tail, true => replaceEachFrom pid_str tail false
  | c :: tail, false =>
    if c.toNat = 37 ∧ (tail.head?.map Char.toNat) = some 112 then
      pid_str ++ replaceEachFrom pid_str tail true
    else c :: replaceEachFrom pid_str tail false

/-- The string in which every occurrence of `%p`, scanned left to right, is
replaced by `pid_str`. -/
def replaceEach (pid_str : List Char) (s : List Char) : List Char :=
  replaceEachFrom pid_str s false

/-! ## Thread join -/

/-- The body of the loop of `HandleThreadJoinAfter` (ts_pin.cc:1015-1024) for
the index `j`, on the pair of `joined_tid` and `max_uniq_tid_found`. -/
def joinSearchStep (g : Globals) (joined_ptid : Nat) (acc : Nat × Int) (j : Nat) : Nat × Int :=
  if (g.g_pin_threads j).thread_finished = false then acc
  else if (g.g_pin_threads j).my_ptid = joined_ptid then
    if acc.2 < (g.g_pin_threads j).uniq_tid then (j, (g.g_pin_threads j).uniq_tid) else acc
  else acc

/-- The loop `for (THREADID j = 1; j < kMaxThreads; j++)` of
`HandleThreadJoinAfter` (ts_pin.cc:1009-1025): the values of `joined_tid` and
`max_uniq_tid_found` after it. -/
def joinSearch (kMaxThreads : Nat) (g : Globals) (joined_ptid : Nat) : Nat × Int :=
  (List.range' 1 (kMaxThreads - 1)).foldl (joinSearchStep g joined_ptid) (kMaxThreads, -1)

/-- Function `HandleThreadJoinAfter` (ts_pin.cc:1008).  `kMaxThreads` is the
constant `PIN_MAX_THREADS` of the PIN headers; the messages printed when
`debug_thread` is set are left out. -/
def HandleThreadJoinAfter (env : Env) (kMaxThreads : Nat) (tid : Nat) (joined_ptid : Nat)
    (g : Globals) : Res Bool :=
  let joined_tid := (joinSearch kMaxThreads g joined_ptid).1
  if joined_tid = kMaxThreads then .ok false g
  else if ¬ joined_tid < kMaxThreads then .abort (.CHECK 1038) g
  else if ¬ joined_tid > 0 then .abort (.CHECK 1039) g
  else
    let g1 := g.setThread joined_tid { g.g_pin_threads joined_tid with my_ptid := 0 }
    let joined_uniq_tid := (g1.g_pin_threads joined_tid).uniq_tid
    let g2 := ReleaseSyscallLock env tid g1
    (DumpEvent env env.ev.THR_END joined_tid 0 0 0 g2).bind fun _ g3 =>
      let g4 := ReleaseSyscallLock env joined_tid g3
      (DumpEvent env env.ev.THR_JOIN_AFTER tid 0 (toWord joined_uniq_tid) 0 g4).bind
        fun _ g5 => .ok true g5

/-- A thread the join may refer to: a thread other than the main thread that
has finished and whose `my_ptid` is the handle. -/
def JoinCandidate (kMaxThreads : Nat) (g : Globals) (joined_ptid : Nat) (j : Nat) : Prop :=
  1 ≤ j ∧ j < kMaxThreads ∧ (g.g_pin_threads j).thread_finished = true ∧
    (g.g_pin_threads j).my_ptid = joined_ptid

instance (kMaxThreads : Nat) (g : Globals) (joined_ptid j : Nat) :
    Decidable (JoinCandidate kMaxThreads g joined_ptid j) := by
  unfold JoinCandidate
  infer_instance

/-- Globals in which the threads 1 and 2 have finished with the handle 7, the
thread 3 is live with the handle 7, and the other threads are live with the
handle 0. -/
def sampleGlobalsJoin : Globals :=
  { sampleGlobals [] with
    g_pin_threads := fun j =>
      { sampleThread j [] with
        my_ptid := if j = 1 ∨ j = 2 ∨ j = 3 then 7 else 0
        thread_finished := decide (j = 1 ∨ j = 2) } }

/-! ## The consumer thread -/

/-- Globals like `sampleGlobals`, with a one-word buffer of thread 1 and then a
one-word buffer of thread 2 in the queue, each holding `RTN_EXIT`. -/
def sampleGlobalsQueueTwo : Globals :=
  { sampleGlobals [] with g_tleb_queue := some [sampleTleb 1 [32], sampleTleb 2 [32]] }

/-! ## The shadow call stack -/

/-- The shadow stacks of all threads are in `g1` what they are in `g`. -/
def StackKept (g g1 : Globals) : Prop :=
  ∀ j, (g1.g_pin_threads j).shadow_stack = (g.g_pin_threads j).shadow_stack

/-- What the thread-pool code of the Windows build (`_MSC_VER`) refers to: the
enumerators `SIGNAL` and `WAIT` of `ts_events.h`, and the set
`g_windows_thread_pool_calback_set`, `none` when the pointer is `NULL`. -/
structure WindowsThreadPool where
  SIGNAL : Nat
  WAIT : Nat
  g_windows_thread_pool_calback_set : Option (Nat → Bool)

/-- The part of the Windows build in the loop of `UpdateCallStack`
(ts_pin.cc:1556-1563), and nothing in the other builds. -/
def UpdateCallStackSignal (env : Env) (win : WindowsThreadPool) (ti : Nat) (popped_pc : Nat)
    (g : Globals) : Res Unit :=
  if env.MSC_VER then
    match win.g_windows_thread_pool_calback_set with
    | none => .abort (.CHECK 1558) g
    | some set =>
      if set popped_pc then DumpEvent env win.SIGNAL (g.g_pin_threads ti).tid 0 popped_pc 0 g
      else .ok () g
  else .ok () g

/-- The body of the loop of `UpdateCallStack` (ts_pin.cc:1552-1573) for the
thread with index `ti`; the vector `shadow_stack` is the list of its elements,
`back()` the last of them and `size - 1` a subtraction of `size_t`.  The loop
only runs the body on a stack that is not empty.  The messages of `debug_rtn`
and `DEB_PR` are left out. -/
def UpdateCallStackBody (env : Env) (win : WindowsThreadPool) (ti : Nat) (g : Globals) :
    Res Unit :=
  (TLEBAddRtnExit env ti g).bind fun _ g1 =>
    let size := (g1.g_pin_threads ti).shadow_stack.length
    if ¬ size < 1000000 then .abort (.CHECK 1554) g1
    else
      let popped_pc := ((g1.g_pin_threads ti).shadow_stack.getLast?.map StackFrame.pc).getD 0
      (UpdateCallStackSignal env win ti popped_pc g1).bind fun _ g2 =>
        let g3 := g2.setThread ti
          { g2.g_pin_threads ti with
            shadow_stack := (g2.g_pin_threads ti).shadow_stack.dropLast }
        if (size + 2 ^ 64 - 1) % 2 ^ 64 ≠ (g3.g_pin_threads ti).shadow_stack.length then
          .abort (.CHECK 1569) g3
        else .ok () g3

/-- The test of the loop of `UpdateCallStack`:
`t.shadow_stack.size() > 0 && sp >= t.shadow_stack.back().sp`. -/
def UpdateCallStackTest (sp : Nat) (shadow_stack : List StackFrame) : Bool :=
  match shadow_stack.getLast? with
  | none => false
  | some frame => decide (sp ≥ frame.sp)

/-- The loop of `UpdateCallStack` (ts_pin.cc:1551), with a bound on the number
of iterations. -/
def UpdateCallStackLoop (env : Env) (win : WindowsThreadPool) (ti sp : Nat) :
    Nat → Globals → Res Unit
  | 0, g => .abort .outOfFuel g
  | fuel + 1, g =>
    if UpdateCallStackTest sp (g.g_pin_threads ti).shadow_stack then
      (UpdateCallStackBody env win ti g).bind fun _ g1 => UpdateCallStackLoop env win ti sp fuel g1
    else .ok () g

/-- Function `UpdateCallStack` (ts_pin.cc:1550) on the thread with index `ti`.
Every iteration pops a frame, so one iteration more than the stack has frames
is allowed. -/
def UpdateCallStack (env : Env) (win : WindowsThreadPool) (ti sp : Nat) (g : Globals) :
    Res Unit :=
  UpdateCallStackLoop env win ti sp ((g.g_pin_threads ti).shadow_stack.length + 1) g

/-- Function `InsertBeforeEvent_Call` (ts_pin.cc:1585); the messages of
`DebugOnlyShowPcAndSp`, `DEB_PR` and `debug_rtn` are left out. -/
def InsertBeforeEvent_Call (env : Env) (win : WindowsThreadPool) (tid pc target sp : Nat)
    (ignore_below : Nat) (g : Globals) : Res Unit :=
  (UpdateCallStack env win tid sp g).bind fun _ g1 =>
    (TLEBAddRtnCall env tid pc target ignore_below g1).bind fun _ g2 =>
      let g3 := g2.setThread tid
        { g2.g_pin_threads tid with
          shadow_stack := (g2.g_pin_threads tid).shadow_stack ++ [⟨target, sp⟩] }
      if env.MSC_VER then
        match win.g_windows_thread_pool_calback_set with
        | none => .abort (.CHECK 1601) g3
        | some set => if set target then DumpEvent env win.WAIT tid pc target 0 g3 else .ok () g3
      else .ok () g3

/-- The body of the loop of `UpdateCallStack`, `n` times. -/
def popFrames (env : Env) (win : WindowsThreadPool) (ti : Nat) : Nat → Globals → Res Unit
  | 0, g => .ok () g
  | n + 1, g => (UpdateCallStackBody env win ti g).bind fun _ g1 => popFrames env win ti n g1

/-- The number of frames at the top of the stack whose recorded `sp` is at most
`sp`: the length of the maximal such run. -/
def returnedFrames (sp : Nat) (shadow_stack : List StackFrame) : Nat :=
  (shadow_stack.reverse.takeWhile fun frame => decide (frame.sp ≤ sp)).length

/-- The frames that are left: those below the maximal run of returned frames. -/
def remainingFrames (sp : Nat) (shadow_stack : List StackFrame) : List StackFrame :=
  (shadow_stack.reverse.dropWhile fun frame => decide (frame.sp ≤ sp)).reverse

/-- The arguments of one `InsertBeforeEvent_Call` callback of a thread. -/
structure CallEvent where
  pc : Nat
  target : Nat
  sp : Nat
  ignore_below : Nat
  deriving DecidableEq, Repr

/-- A sequence of `InsertBeforeEvent_Call` callbacks of the thread `tid`, one
after the other. -/
def InsertBeforeEvent_Calls (env : Env) (win : WindowsThreadPool) (tid : Nat) :
    List CallEvent → Globals → Res Unit
  | [], g => .ok () g
  | c :: rest, g =>
    (InsertBeforeEvent_Call env win tid c.pc c.target c.sp c.ignore_below g).bind
      fun _ g1 => InsertBeforeEvent_Calls env win tid rest g1

/-- A step on the shadow stack: `ret` is one iteration of the loop of
`UpdateCallStack`, with its call of `TLEBAddRtnExit`; `call` is what
`InsertBeforeEvent_Call` does after `UpdateCallStack`, with its call of
`TLEBAddRtnCall`. -/
inductive StackOp where
  | ret
  | call (c : CallEvent)
  deriving DecidableEq, Repr

/-- One step on the shadow stack of the thread `tid`. -/
def StackOp.run (env : Env) (win : WindowsThreadPool) (tid : Nat) :
    StackOp → Globals → Res Unit
  | .ret, g => UpdateCallStackBody env win tid g
  | .call c, g =>
    (TLEBAddRtnCall env tid c.pc c.target c.ignore_below g).bind fun _ g2 =>
      let g3 := g2.setThread tid
        { g2.g_pin_threads tid with
          shadow_stack := (g2.g_pin_threads tid).shadow_stack ++ [⟨c.target, c.sp⟩] }
      if env.MSC_VER then
        match win.g_windows_thread_pool_calback_set with
        | none => .abort (.CHECK 1601) g3
        | some set =>
          if set c.target then DumpEvent env win.WAIT tid c.pc c.target 0 g3 else .ok () g3
      else .ok () g3

/-- Steps on the shadow stack of the thread `tid`, one after the other. -/
def runOps (env : Env) (win : WindowsThreadPool) (tid : Nat) :
    List StackOp → Globals → Res Unit
  | [], g => .ok () g
  | o :: rest, g => (o.run env win tid g).bind fun _ g1 => runOps env win tid rest g1

/-- The steps of a sequence of callbacks on a thread whose shadow stack is `s`:
every callback pops the run of returned frames and pushes its own frame. -/
def opsOf : List CallEvent → List StackFrame → List StackOp
  | [], _ => []
  | c :: rest, s =>
    List.replicate (returnedFrames c.sp s) StackOp.ret
      ++ StackOp.call c :: opsOf rest (remainingFrames c.sp s ++ [⟨c.target, c.sp⟩])

/-- The shadow stack after a sequence of callbacks on a thread whose shadow
stack is `s`. -/
def stackAfter : List CallEvent → List StackFrame → List StackFrame
  | [], s => s
  | c :: rest, s => stackAfter rest (remainingFrames c.sp s ++ [⟨c.target, c.sp⟩])

/-- The record that a step appends to the buffer. -/
def StackOp.record : StackOp → TlebRecord
  | .ret => .rtnExit
  | .call c => .rtnCall c.pc c.target c.ignore_below

/-- Whether the step appends an `RTN_CALL` record. -/
def StackOp.isCall : StackOp → Bool
  | .ret => false
  | .call _ => true

/-- Whether the step appends an `RTN_EXIT` record. -/
def StackOp.isRet : StackOp → Bool
  | .ret => true
  | .call _ => false

/-- The recorded stack pointers decrease strictly from the bottom of the stack
to its top. -/
def StrictlyDecreasing (s : List StackFrame) : Prop :=
  s.Pairwise fun below above => above.sp < below.sp

instance (s : List StackFrame) : Decidable (StrictlyDecreasing s) := by
  unfold StrictlyDecreasing
  infer_instance

/-- Modelled from the spec: the numbers of the event kinds `SIGNAL` and `WAIT`,
by their position in the list of kinds of section 6 of the specification, as in
`sampleEvents` (the enumeration of `ts_events.h` is not among the sources); the
build is not the Windows one and has no thread-pool callback set.  It only
serves to evaluate the functions on concrete inputs. -/
def sampleWindows : WindowsThreadPool :=
  { SIGNAL := 11, WAIT := 12, g_windows_thread_pool_calback_set := none }

/-- Globals like `sampleGlobals []`, in which thread 0 has the given shadow
stack. -/
def sampleGlobalsStack (s : List StackFrame) : Globals :=
  (sampleGlobals []).setThread 0 { sampleThread 0 [] with shadow_stack := s }

/-- A shadow stack of 1000000 frames: frame `i` from the bottom was pushed at
the stack pointer `2000000 - i`. -/
def deepStack : List StackFrame :=
  (List.range 999999).map (fun i => (⟨0, 2000000 - i⟩ : StackFrame)) ++ [⟨0, 1000001⟩]

/-- A shadow stack of three frames. -/
def sampleStack : List StackFrame := [⟨10, 100⟩, ⟨20, 90⟩, ⟨30, 80⟩]

/-- Three callbacks: the third comes after the function called by the second
has returned. -/
def sampleCalls : List CallEvent := [⟨1, 10, 100, 0⟩, ⟨2, 20, 90, 0⟩, ⟨3, 30, 95, 0⟩]

end TsPin

namespace TsOffline
open Libc

/-! ## The syntax `jli` -/

/-- The globals `g_jli_string_to_pc_map` and `g_jli_pc_strings` of
ts_offline.cc:140-141.  The `map<string, int>` is the list of its entries, one
per key; the order of the entries plays no role. -/
structure Jli where
  g_jli_string_to_pc_map : List (List Char × Int)
  g_jli_pc_strings : List (List Char)
  deriving DecidableEq, Repr

/-- Outcome of `JLIAddPc`: the value returned, or the source line of the `CHECK`
that failed; both with the globals at that point. -/
inductive JliRes where
  | ok (pc : Int) (j : Jli)
  | abort (line : Nat) (j : Jli)
  deriving DecidableEq, Repr

/-- The value of the entry of a key, if the map has one. -/
def mapLookup (str : List Char) : List (List Char × Int) → Option Int
  | [] => none
  | (k, v) :: rest => if k = str then some v else mapLookup str rest

/-- Assignment to the entry of a key through the reference `map[str]`. -/
def mapAssign (str : List Char) (pc : Int) : List (List Char × Int) → List (List Char × Int)
  | [] => []
  | (k, v) :: rest => if k = str then (k, pc) :: rest else (k, v) :: mapAssign str pc rest

/-- The map after the expression `map[str]`: an entry with the value 0 is
inserted if the key has none. -/
def mapIndex (str : List Char) (m : List (List Char × Int)) : List (List Char × Int) :=
  if (mapLookup str m).isSome then m else m ++ [(str, 0)]

/-- Function `JLIAddPc` (ts_offline.cc:143). -/
def JLIAddPc (str : List Char) (j : Jli) : JliRes :=
  if j.g_jli_string_to_pc_map.isEmpty then .abort 144 j
  else if j.g_jli_string_to_pc_map.length ≠ j.g_jli_pc_strings.length then .abort 145 j
  else
    let m1 := mapIndex str j.g_jli_string_to_pc_map
    let j1 : Jli :=
      if (mapLookup str m1).getD 0 = 0 then
        { g_jli_string_to_pc_map := mapAssign str ((m1.length : Int) - 1) m1,
          g_jli_pc_strings := j.g_jli_pc_strings ++ [str] }
      else { j with g_jli_string_to_pc_map := m1 }
    if j1.g_jli_string_to_pc_map.length ≠ j1.g_jli_pc_strings.length then .abort 153 j1
    else .ok ((mapLookup str j1.g_jli_string_to_pc_map).getD 0) j1

/-- The initialisation of `JLIReadEventsFromFile` (ts_offline.cc:159-162). -/
def JLIInit (j : Jli) : Jli :=
  if j.g_jli_string_to_pc_map.isEmpty then
    { g_jli_string_to_pc_map := mapAssign "unknown".toList 0
        (mapIndex "unknown".toList j.g_jli_string_to_pc_map),
      g_jli_pc_strings := j.g_jli_pc_strings ++ ["unknown".toList] }
  else j

/-- What holds of the globals between the calls: the containers have the same
size, `unknown` has the pc 0, and every entry of the map has a pc that is not
negative, that is the index of its key in `g_jli_pc_strings`, and that is 0 for
`unknown` only. -/
structure JliInv (j : Jli) : Prop where
  size : j.g_jli_string_to_pc_map.length = j.g_jli_pc_strings.length
  unknown : mapLookup "unknown".toList j.g_jli_string_to_pc_map = some 0
  entries : ∀ k v, mapLookup k j.g_jli_string_to_pc_map = some v →
    0 ≤ v ∧ j.g_jli_pc_strings[v.toNat]? = some k ∧ (v = 0 → k = "unknown".toList)

/-- The globals when the program starts: both containers empty. -/
def jliStart : Jli := { g_jli_string_to_pc_map := [], g_jli_pc_strings := [] }

/-- The states `JLIReadEventsFromFile` calls `JLIAddPc` in: the state after the
initialisation, and every state a call of `JLIAddPc` returns in. -/
inductive JliReachable : Jli → Prop where
  | init : JliReachable (JLIInit jliStart)
  | step (str : List Char) (j j1 : Jli) (pc : Int) :
    JliReachable j → JLIAddPc str j = .ok pc j1 → JliReachable j1

end TsOffline
namespace Analyzer

/-! ## The analyzer (race detector)

The producers of `ts_pin.cc` and `ts_offline.cc` hand every event to
`ThreadSanitizerHandleOneEvent`; the analyzer behind that call
(`thread_sanitizer.cc`, and the runtime behind `tsan_test_util.h` for the tests
of `trunk/v2`) is not among the sources.  This section models it from sections
3, 4.2, 4.3, 4.4 and 6 of the specification. -/

/-- Modelled from the spec: a vector clock, "a mapping from Tid to nonnegative
integer", as the list of its components (a thread beyond the list has the
clock 0); the class of the analyzer is missing from the sources.  Clock values
are not bounded here (the specification lets an implementation widen them). -/
abbrev VC := List Nat

/-- Modelled from the spec: `leq(a, b)`, pointwise; the analyzer is missing from
the sources. -/
def VC.leq (a b : VC) : Bool :=
  (List.range a.length).all fun i => decide (a.getD i 0 ≤ b.getD i 0)

/-- Modelled from the spec: `join(a, b)`, the component-wise max; the analyzer
is missing from the sources. -/
def VC.join (a b : VC) : VC :=
  (List.range (max a.length b.length)).map fun i => max (a.getD i 0) (b.getD i 0)

/-- Modelled from the spec: `tick(vc, tid)` increments `vc[tid]`; the analyzer
is missing from the sources. -/
def VC.tick (v : VC) (tid : Nat) : VC :=
  (List.range (max v.length (tid + 1))).map fun i =>
    if i = tid then v.getD i 0 + 1 else v.getD i 0

/-- Modelled from the spec: a LockSet, "a set of lock IDs, separately for
writer-held and reader-held"; the analyzer is missing from the sources. -/
structure LockSet where
  writers : List Nat
  readers : List Nat
  deriving DecidableEq, Repr

/-- Modelled from the spec: "two LSIDs intersect iff any lock appears in one as
writer/reader and in the other as writer (reader and reader does not count)";
the analyzer is missing from the sources. -/
def LockSet.intersects (a b : LockSet) : Bool :=
  (a.writers ++ a.readers).any (fun mu => b.writers.contains mu) ||
    (b.writers ++ b.readers).any (fun mu => a.writers.contains mu)

/-- Modelled from the spec: the lockset without the lock `mu`; the analyzer is
missing from the sources. -/
def LockSet.remove (a : LockSet) (mu : Nat) : LockSet :=
  { writers := a.writers.filter (fun x => x != mu),
    readers := a.readers.filter (fun x => x != mu) }

/-- Modelled from the spec: a Segment, with its owner, its VC and its LockSet,
both "immutable at the moment of creation"; the captured call stack is left
out.  The analyzer is missing from the sources. -/
structure Segment where
  tid : Nat
  vc : VC
  lockset : LockSet
  deriving DecidableEq, Repr

/-- Modelled from the spec: an access `A = {tid, pc, addr, size, is_write}`
together with the segment it belongs to; it is also the record `{SID, is_write,
access_mask}` that a shadow cell keeps of the access, and one of the two
memory accesses of a report.  The analyzer is missing from the sources. -/
structure Mop where
  tid : Nat
  pc : Nat
  addr : Nat
  size : Nat
  is_write : Bool
  seg : Segment
  deriving DecidableEq, Repr

/-- Modelled from the spec: a race report, "referencing both segments and both
PCs": `first` is the new access, `second` the stored record it races with; the
report type is missing from the sources (`tsan_report.h` is not among them). -/
structure Report where
  first : Mop
  second : Mop
  deriving DecidableEq, Repr

/-- Modelled from the spec: the attributes of a thread that the detector reads:
its current VC, its current LockSet and its ignore-mops depth; the analyzer is
missing from the sources. -/
structure ThreadState where
  vc : VC
  lockset : LockSet
  ignore_mops : Nat

/-- Modelled from the spec: sync object `Lock: {VC_at_last_release,
is_pure_HB_lock, recursion_depth, writer_owner}`; the analyzer is missing from
the sources. -/
structure Lock where
  vc_at_release : VC
  is_pure_HB_lock : Bool
  recursion_depth : Nat
  writer_owner : Option Nat

/-- Modelled from the spec: sync object `Barrier: {participant_count,
phase_VC}`, with the pending phase: the number of arrivals and the join of
their VCs; the analyzer is missing from the sources. -/
structure Barrier where
  participant_count : Nat
  arrived : Nat
  pending : VC
  phase_vc : VC

/-- Modelled from the spec: the policy tags of the annotated intervals that
the detector reads; the analyzer is missing from the sources. -/
inductive Tag where
  | expect
  | benign
  | ignoreR
  | ignoreW
  deriving DecidableEq, Repr

/-- Modelled from the spec: an annotation, an interval `[addr, addr+size)` with
a policy tag; the analyzer is missing from the sources. -/
structure Annotation where
  tag : Tag
  addr : Nat
  size : Nat
  deriving DecidableEq, Repr

/-- Modelled from the spec: whether the interval of the annotation holds the
byte; the analyzer is missing from the sources. -/
def Annotation.covers (a : Annotation) (b : Nat) : Bool :=
  decide (a.addr ≤ b) && decide (b < a.addr + a.size)

/-- Modelled from the spec: the "published" marker of a range, with the VC of
the publishing thread; the analyzer is missing from the sources. -/
structure Marker where
  addr : Nat
  size : Nat
  vc : VC

/-- Modelled from the spec: the configuration options the detector reads:
`pure_happens_before`, and the number `K` of records of a shadow cell; the
flags of the analyzer are missing from the sources. -/
structure Config where
  pure_happens_before : Bool
  K : Nat

/-- Modelled from the spec: the state the analyzer owns: thread states indexed
by Tid, the shadow memory (a cell per byte, oldest record first), the sync
object map by kind (locks, signals, barriers, PCQs), the annotations and
published ranges, the global ignore flag, the `(pc_A, pc_B)` pairs already
reported, the expectations that fired, the reports emitted so far, and whether
a protocol error has stopped the analyzer.  The analyzer is missing from the
sources. -/
structure State where
  threads : Nat → ThreadState
  shadow : Nat → List Mop
  locks : Nat → Lock
  signals : Nat → VC
  barriers : Nat → Barrier
  pcqs : Nat → List VC
  annotations : List Annotation
  published : List Marker
  global_ignore : Bool
  reported : List (Nat × Nat)
  fired : List Nat
  reports : List Report
  aborted : Bool

/-- Modelled from the spec: the state before the first event: no thread has a
clock or a lock, no cell exists, no sync object, annotation or report; the
analyzer is missing from the sources. -/
def State.initial : State :=
  { threads := fun _ => ⟨[], ⟨[], []⟩, 0⟩,
    shadow := fun _ => [],
    locks := fun _ => ⟨[], false, 0, none⟩,
    signals := fun _ => [],
    barriers := fun _ => ⟨0, 0, [], []⟩,
    pcqs := fun _ => [],
    annotations := [],
    published := [],
    global_ignore := false,
    reported := [],
    fired := [],
    reports := [],
    aborted := false }

/-- Modelled from the spec: the events of section 6 that the detector and the
clock engine give a rule for, with the fields of the record they use; every
other kind is `OTHER`.  `THR_CREATE_AFTER` and `THR_JOIN_AFTER` name the child,
`IGNORE_ALL_BEGIN` and `IGNORE_ALL_END` are the control markers of the ignore-mops
depth, `ANNOTATE` installs an ignore-R or ignore-W range, and
`MUTEX_IS_USED_AS_CONDVAR` is the annotation that upgrades a mutex to pure-HB.
The enumeration of `ts_events.h` is missing from the sources. -/
inductive Event where
  | READ (tid pc addr size : Nat)
  | WRITE (tid pc addr size : Nat)
  | WRITER_LOCK (tid mu : Nat)
  | READER_LOCK (tid mu : Nat)
  | UNLOCK (tid mu : Nat)
  | MUTEX_IS_USED_AS_CONDVAR (mu : Nat)
  | LOCK_DESTROY (mu : Nat)
  | SIGNAL (tid obj : Nat)
  | WAIT (tid obj : Nat)
  | CYCLIC_BARRIER_INIT (b count : Nat)
  | CYCLIC_BARRIER_WAIT_BEFORE (tid b : Nat)
  | CYCLIC_BARRIER_WAIT_AFTER (tid b : Nat)
  | PCQ_PUT (tid q : Nat)
  | PCQ_GET (tid q : Nat)
  | THR_START (tid : Nat)
  | THR_CREATE_AFTER (tid child : Nat)
  | THR_JOIN_AFTER (tid child : Nat)
  | MALLOC (addr size : Nat)
  | FREE (addr size : Nat)
  | PUBLISH_RANGE (tid addr size : Nat)
  | UNPUBLISH_RANGE (addr size : Nat)
  | EXPECT_RACE (addr size : Nat)
  | BENIGN_RACE (addr size : Nat)
  | ANNOTATE (tag : Tag) (addr size : Nat)
  | FLUSH_STATE
  | IGNORE_ALL_BEGIN (tid : Nat)
  | IGNORE_ALL_END (tid : Nat)
  | GLOBAL_IGNORE (flag : Bool)
  | OTHER
  deriving DecidableEq, Repr

/-- Modelled from the spec: assignment to the state of one thread; the analyzer
is missing from the sources. -/
def State.setThread (s : State) (tid : Nat) (t : ThreadState) : State :=
  { s with threads := fun j => if j = tid then t else s.threads j }

/-- Modelled from the spec: assignment to the VC of one thread; the analyzer is
missing from the sources. -/
def State.setVC (s : State) (tid : Nat) (vc : VC) : State :=
  s.setThread tid { s.threads tid with vc := vc }

/-- Modelled from the spec: assignment to one lock of the sync object map; the
analyzer is missing from the sources. -/
def State.setLock (s : State) (mu : Nat) (l : Lock) : State :=
  { s with locks := fun j => if j = mu then l else s.locks j }

/-- Modelled from the spec: the current segment of a thread.  New segments are
produced "at synchronization boundaries", with the VC and the LockSet the
thread has then, so the current segment carries the current VC and LockSet of
the thread; the analyzer is missing from the sources. -/
def State.current_segment (s : State) (tid : Nat) : Segment :=
  ⟨tid, (s.threads tid).vc, (s.threads tid).lockset⟩

/-- Modelled from the spec: whether a lock creates HB edges: "in pure-HB mode
every lock creates HB edges", in hybrid mode only a mutex upgraded by the
annotation does; the analyzer is missing from the sources. -/
def isPureHB (cfg : Config) (l : Lock) : Bool := cfg.pure_happens_before || l.is_pure_HB_lock

/-- Modelled from the spec: step 3, first case: "if `R.seg.vc <= seg.vc`, R is
dominated by A"; the analyzer is missing from the sources. -/
def isDominated (a r : Mop) : Bool := r.seg.vc.leq a.seg.vc

/-- Modelled from the spec: step 3, second case: R is not dominated, "at least
one of (R, A) is a write, and `R.seg.lockset` and `seg.lockset` do not
intersect (hybrid) or always (pure-HB), and neither dominates the other"; the
analyzer is missing from the sources. -/
def isRace (cfg : Config) (a r : Mop) : Bool :=
  !isDominated a r && (r.is_write || a.is_write) &&
    (cfg.pure_happens_before || !r.seg.lockset.intersects a.seg.lockset) &&
    !a.seg.vc.leq r.seg.vc

/-- Modelled from the spec: the pair `(pc_A, pc_B)` "after symmetry
canonicalization"; the analyzer is missing from the sources. -/
def canonical (pc_a pc_b : Nat) : Nat × Nat := (min pc_a pc_b, max pc_a pc_b)

/-- Modelled from the spec: what a detected race of the access `a` with the
record `r` leads to: nothing under a benign-race annotation ("permanent
suppression"); under an expected-race annotation the expectation is marked
satisfied "instead of reporting"; nothing when the pair of PCs has been
reported before ("at most once per unique pair"); otherwise the report is
emitted and the pair remembered.  The analyzer is missing from the sources. -/
def reportRace (a r : Mop) (s : State) : State :=
  if s.annotations.any (fun n => n.tag == Tag.benign && n.covers a.addr) then s
  else if s.annotations.any (fun n => n.tag == Tag.expect && n.covers a.addr) then
    { s with fired := a.addr :: s.fired }
  else if s.reported.contains (canonical a.pc r.pc) then s
  else
    { s with reports := s.reports ++ [⟨a, r⟩], reported := canonical a.pc r.pc :: s.reported }

/-- Modelled from the spec: step 2: "global ignore is on, or thread
ignores-mops > 0, or access falls in an annotated ignore range (respecting R/W
direction)"; the analyzer is missing from the sources. -/
def isIgnored (a : Mop) (s : State) : Bool :=
  s.global_ignore || decide ((s.threads a.tid).ignore_mops > 0) ||
    s.annotations.any (fun n =>
      n.tag == (if a.is_write then Tag.ignoreW else Tag.ignoreR) && n.covers a.addr)

/-- Modelled from the spec: the steps 2 to 4 of "on new access" for an access of
one byte.  Step 3 goes through the records of the cell, oldest first, and
handles every race; step 4 prunes the dominated records, inserts the record of
the access and evicts the oldest records beyond `K`.  The analyzer is missing
from the sources. -/
def accessByte (cfg : Config) (a : Mop) (s : State) : State :=
  if isIgnored a s then s
  else
    let cell := s.shadow a.addr
    let s1 := (cell.filter (isRace cfg a)).foldl (fun s r => reportRace a r s) s
    let cell1 := cell.filter (fun r => !isDominated a r) ++ [a]
    { s1 with
      shadow := fun b => if b = a.addr then cell1.drop (cell1.length - cfg.K) else s.shadow b }

/-- Modelled from the spec: the per-byte queries of an access, in ascending
order of address: "the analyzer must conservatively split accesses of size s>1
into per-byte queries"; each query is an access of size 1 in the segment `seg`.
The analyzer is missing from the sources. -/
def accessBytes (cfg : Config) (tid pc : Nat) (is_write : Bool) (seg : Segment) :
    List Nat → State → State
  | [], s => s
  | b :: rest, s =>
    accessBytes cfg tid pc is_write seg rest (accessByte cfg ⟨tid, pc, b, 1, is_write, seg⟩ s)

/-- Modelled from the spec: a read of a published range is "treated as
happens-after the publish": the VC of the reader is joined with the VC of every
marker whose range overlaps the access; the analyzer is missing from the
sources. -/
def joinPublished (tid addr size : Nat) (s : State) : State :=
  s.setVC tid
    ((s.published.filter fun m =>
        decide (m.addr < addr + size) && decide (addr < m.addr + m.size)).foldl
      (fun vc m => VC.join vc m.vc) (s.threads tid).vc)

/-- Modelled from the spec: "on new access `A = {tid, pc, addr, size,
is_write}`": step 1 computes the current segment of the thread, then the access
is split into its per-byte queries; the analyzer is missing from the sources. -/
def access (cfg : Config) (tid pc addr size : Nat) (is_write : Bool) (s : State) : State :=
  let s0 := if is_write then s else joinPublished tid addr size s
  accessBytes cfg tid pc is_write (s0.current_segment tid) (List.range' addr size) s0

/-- Modelled from the spec: `MALLOC(addr, size)` and `FREE(addr, size)`: "zero
the shadow for the range (drop all prior records)"; the analyzer is missing
from the sources. -/
def clearShadow (addr size : Nat) (s : State) : State :=
  { s with shadow := fun b => if addr ≤ b ∧ b < addr + size then [] else s.shadow b }

/-- Modelled from the spec: the handling of one event, by the rules of sections
4.2, 4.3 and 4.4.  Where the specification is silent the simplest reading is
taken: a started thread ticks its own clock (scenario S1 of section 8 needs two
started threads with no synchronisation to race); an inner acquire or release
of a recursive writer lock only counts; the unlock of a reader-held lock makes
no snapshot (readers are only synchronised with the previous writer); the last
arrival at a barrier publishes the joined VC and every thread that leaves joins
it and ticks; a get from an empty PCQ and a negative ignore depth are protocol
errors, which stop the analyzer.  The analyzer is missing from the sources. -/
def handle (cfg : Config) (s : State) (e : Event) : State :=
  if s.aborted then s
  else
    match e with
    | .READ tid pc addr size => access cfg tid pc addr size false s
    | .WRITE tid pc addr size => access cfg tid pc addr size true s
    | .WRITER_LOCK tid mu =>
      let l := s.locks mu
      let t := s.threads tid
      if l.recursion_depth > 0 ∧ l.writer_owner = some tid then
        s.setLock mu { l with recursion_depth := l.recursion_depth + 1 }
      else
        (s.setThread tid
          { t with
            vc := if isPureHB cfg l then VC.join t.vc l.vc_at_release else t.vc
            lockset := { t.lockset with writers := mu :: t.lockset.writers } }).setLock mu
          { l with recursion_depth := 1, writer_owner := some tid }
    | .READER_LOCK tid mu =>
      let l := s.locks mu
      let t := s.threads tid
      s.setThread tid
        { t with
          vc := if isPureHB cfg l then VC.join t.vc l.vc_at_release else t.vc
          lockset := { t.lockset with readers := mu :: t.lockset.readers } }
    | .UNLOCK tid mu =>
      let l := s.locks mu
      let t := s.threads tid
      if l.recursion_depth > 1 ∧ l.writer_owner = some tid then
        s.setLock mu { l with recursion_depth := l.recursion_depth - 1 }
      else if t.lockset.writers.contains mu then
        (s.setThread tid
          { t with vc := VC.tick t.vc tid, lockset := t.lockset.remove mu }).setLock mu
          { l with vc_at_release := t.vc, recursion_depth := 0, writer_owner := none }
      else
        s.setThread tid { t with vc := VC.tick t.vc tid, lockset := t.lockset.remove mu }
    | .MUTEX_IS_USED_AS_CONDVAR mu => s.setLock mu { s.locks mu with is_pure_HB_lock := true }
    | .LOCK_DESTROY mu => s.setLock mu ⟨[], false, 0, none⟩
    | .SIGNAL tid obj =>
      { s.setVC tid (VC.tick (s.threads tid).vc tid) with
        signals := fun j => if j = obj then (s.threads tid).vc else s.signals j }
    | .WAIT tid obj => s.setVC tid (VC.join (s.threads tid).vc (s.signals obj))
    | .CYCLIC_BARRIER_INIT b count =>
      { s with barriers := fun j => if j = b then ⟨count, 0, [], []⟩ else s.barriers j }
    | .CYCLIC_BARRIER_WAIT_BEFORE tid b =>
      let bar := s.barriers b
      let pending := VC.join bar.pending (s.threads tid).vc
      let bar1 : Barrier :=
        if bar.arrived + 1 ≥ bar.participant_count then
          { bar with arrived := 0, pending := [], phase_vc := pending }
        else { bar with arrived := bar.arrived + 1, pending := pending }
      { s with barriers := fun j => if j = b then bar1 else s.barriers j }
    | .CYCLIC_BARRIER_WAIT_AFTER tid b =>
      s.setVC tid (VC.tick (VC.join (s.threads tid).vc (s.barriers b).phase_vc) tid)
    | .PCQ_PUT tid q =>
      { s.setVC tid (VC.tick (s.threads tid).vc tid) with
        pcqs := fun j => if j = q then s.pcqs q ++ [(s.threads tid).vc] else s.pcqs j }
    | .PCQ_GET tid q =>
      match s.pcqs q with
      | [] => { s with aborted := true }
      | vc :: rest =>
        { s.setVC tid (VC.join (s.threads tid).vc vc) with
          pcqs := fun j => if j = q then rest else s.pcqs j }
    | .THR_START tid => s.setVC tid (VC.tick (s.threads tid).vc tid)
    | .THR_CREATE_AFTER tid child =>
      (s.setVC child (s.threads tid).vc).setVC tid (VC.tick (s.threads tid).vc tid)
    | .THR_JOIN_AFTER tid child =>
      s.setVC tid (VC.join (s.threads tid).vc (s.threads child).vc)
    | .MALLOC addr size => clearShadow addr size s
    | .FREE addr size => clearShadow addr size s
    | .PUBLISH_RANGE tid addr size =>
      { s with published := ⟨addr, size, (s.threads tid).vc⟩ :: s.published }
    | .UNPUBLISH_RANGE addr size =>
      { s with
        published := s.published.filter fun m =>
          !(decide (m.addr < addr + size) && decide (addr < m.addr + m.size)) }
    | .EXPECT_RACE addr size => { s with annotations := ⟨.expect, addr, size⟩ :: s.annotations }
    | .BENIGN_RACE addr size => { s with annotations := ⟨.benign, addr, size⟩ :: s.annotations }
    | .ANNOTATE tag addr size => { s with annotations := ⟨tag, addr, size⟩ :: s.annotations }
    | .FLUSH_STATE => { s with reported := [] }
    | .IGNORE_ALL_BEGIN tid =>
      s.setThread tid { s.threads tid with ignore_mops := (s.threads tid).ignore_mops + 1 }
    | .IGNORE_ALL_END tid =>
      if (s.threads tid).ignore_mops = 0 then { s with aborted := true }
      else s.setThread tid { s.threads tid with ignore_mops := (s.threads tid).ignore_mops - 1 }
    | .GLOBAL_IGNORE flag => { s with global_ignore := flag }
    | .OTHER => s

/-- Modelled from the spec: the analyzer on an event stream, one event after the
other; the analyzer is missing from the sources. -/
def run (cfg : Config) (s : State) (events : List Event) : State :=
  events.foldl (handle cfg) s

/-- Modelled from the spec: `overlap(A, B)`: the two accesses have a byte in
common; the analyzer is missing from the sources. -/
def overlap (a b : Mop) : Prop :=
  ∃ x, a.addr ≤ x ∧ x < a.addr + a.size ∧ b.addr ≤ x ∧ x < b.addr + b.size

/-- Modelled from the spec: the property of a reported race `(A, B)` of section
8: `overlap(A,B)`, `A.write` or `B.write`, `HB-incomparable(A,B)`, and pure-HB
or `lockset-disjoint(A,B)`; the analyzer is missing from the sources. -/
structure Sound (cfg : Config) (r : Report) : Prop where
  overlap : overlap r.first r.second
  write : r.first.is_write = true ∨ r.second.is_write = true
  first_not_before : r.first.seg.vc.leq r.second.seg.vc = false
  second_not_before : r.second.seg.vc.leq r.first.seg.vc = false
  lockset : cfg.pure_happens_before = true ∨
    r.first.seg.lockset.intersects r.second.seg.lockset = false

/-- Modelled from the spec: a configuration in hybrid mode or pure-HB mode with
`K = 4` records in a cell ("typical K=2 or 4"); the flags of the analyzer are
missing from the sources.  It only serves to evaluate the model on concrete
event streams. -/
def sampleConfig (pure_happens_before : Bool) : Config := ⟨pure_happens_before, 4⟩

/-- Modelled from the spec: scenario S1 of section 8, "classic race detected",
with `SBLOCK_ENTER` as an event without a rule of its own; the analyzer is
missing from the sources. -/
def scenarioS1 : List Event :=
  [.THR_START 1, .OTHER, .WRITE 1 100 0x1000 4, .THR_START 2, .OTHER, .READ 2 200 0x1000 4]

/-- Modelled from the spec: scenario S2 of section 8, "lock protects access";
the analyzer is missing from the sources. -/
def scenarioS2 : List Event :=
  [.THR_START 1, .WRITER_LOCK 1 77, .WRITE 1 100 0x2000 4, .UNLOCK 1 77,
   .THR_START 2, .WRITER_LOCK 2 77, .WRITE 2 200 0x2000 4, .UNLOCK 2 77]

/-- Modelled from the spec: scenario S3 of section 8, "signal/wait orders
writes"; the analyzer is missing from the sources. -/
def scenarioS3 : List Event :=
  [.THR_START 1, .WRITE 1 100 0x3000 4, .SIGNAL 1 88,
   .THR_START 2, .WAIT 2 88, .WRITE 2 200 0x3000 4]

/-- Modelled from the spec: scenario S4 of section 8, "benign race suppressed";
the analyzer is missing from the sources. -/
def scenarioS4 : List Event :=
  [.BENIGN_RACE 0x4000 4, .THR_START 1, .WRITE 1 100 0x4000 4,
   .THR_START 2, .WRITE 2 200 0x4000 4]

/-- Modelled from the spec: scenario S5 of section 8, "expect-race fires"; the
analyzer is missing from the sources. -/
def scenarioS5 : List Event :=
  [.EXPECT_RACE 0x5000 1, .THR_START 1, .WRITE 1 100 0x5000 1,
   .THR_START 2, .READ 2 200 0x5000 1]

/-- Modelled from the spec: scenario S6 of section 8, "reader/reader no race,
reader/writer races", where thread 2 takes the mutex `mu2`; the analyzer is
missing from the sources. -/
def scenarioS6 (mu2 : Nat) : List Event :=
  [.THR_START 1, .READER_LOCK 1 77, .READ 1 100 0x6000 4, .UNLOCK 1 77,
   .THR_START 2, .WRITER_LOCK 2 mu2, .WRITE 2 200 0x6000 4, .UNLOCK 2 mu2]

/-- Modelled from the spec: the event stream of the test `MemcpyRace2`
(tsan_string.cc:52-60) for an array at `data`: two started threads, the first
writes 1 byte at `data+5`, the second 4 bytes at `data+3`; the runtime behind
`ScopedThread::Memcpy` is missing from the sources. -/
def memcpyRace2 (data : Nat) : List Event :=
  [.THR_START 1, .THR_START 2, .WRITE 1 100 (data + 5) 1, .WRITE 2 200 (data + 3) 4]

/-- What the invariant of the detector says of a state: every record of the
cell of a byte is an access to that byte, and every report emitted so far has
the property `Sound`. -/
structure Inv (cfg : Config) (s : State) : Prop where
  cell : ∀ b r, r ∈ s.shadow b → r.addr ≤ b ∧ b < r.addr + r.size
  sound : ∀ x ∈ s.reports, Sound cfg x

/-- What the handling of an access leaves alone: the thread states, the
annotations, the global ignore flag, and whether the analyzer has stopped. -/
structure Frame (s s1 : State) : Prop where
  threads : s1.threads = s.threads
  annotations : s1.annotations = s.annotations
  global_ignore : s1.global_ignore = s.global_ignore
  aborted : s1.aborted = s.aborted

/-- Modelled from the spec: the state of the analyzer after two threads have
started, followed by the given events; the analyzer is missing from the
sources.  It only serves to evaluate the model on concrete event streams. -/
def twoThreads (cfg : Config) (events : List Event) : State :=
  run cfg State.initial (.THR_START 1 :: .THR_START 2 :: events)

end Analyzer

namespace TsPin

/-! ## What the decoder leaves alone -/

theorem FlushFrame.refl (g : Globals) : FlushFrame g g :=
  ⟨rfl, rfl, rfl, fun _ => rfl, fun _ => rfl, fun _ => rfl, fun _ => rfl, fun _ => rfl,
    fun _ => rfl, [], by simp, by simp⟩

theorem FlushFrame.trans {a b c : Globals} (h1 : FlushFrame a b) (h2 : FlushFrame b c) :
    FlushFrame a c := by
  obtain ⟨l1, e1, p1⟩ := h1.log
  obtain ⟨l2, e2, p2⟩ := h2.log
  refine ⟨h2.queue.trans h1.queue, h2.verifier.trans h1.verifier, h2.started.trans h1.started,
    fun j => (h2.tleb j).trans (h1.tleb j), fun j => (h2.holding j).trans (h1.holding j),
    fun j => (h2.consumed j).trans (h1.consumed j), fun j => (h2.tid j).trans (h1.tid j),
    fun j => (h2.uniq j).trans (h1.uniq j), fun j => (h2.trace j).trans (h1.trace j),
    l1 ++ l2, ?_, ?_⟩
  · rw [e2, e1, List.append_assoc]
  · intro e he
    rcases List.mem_append.1 he with h | h
    · exact p1 e h
    · exact p2 e h

theorem FlushFrame.emit (g : Globals) (e : Effect) (h : e.isLockOp = false) :
    FlushFrame g (g.emit e) :=
  ⟨rfl, rfl, rfl, fun _ => rfl, fun _ => rfl, fun _ => rfl, fun _ => rfl, fun _ => rfl,
    fun _ => rfl, [e], rfl, by simpa using h⟩

theorem FlushFrame.of_setThread (g : Globals) (k : Nat) (t1 : PinThread)
    (h1 : t1.tleb = (g.g_pin_threads k).tleb)
    (h2 : t1.holding_lock = (g.g_pin_threads k).holding_lock)
    (h3 : t1.n_consumed_events = (g.g_pin_threads k).n_consumed_events)
    (h4 : t1.tid = (g.g_pin_threads k).tid)
    (h5 : t1.uniq_tid = (g.g_pin_threads k).uniq_tid)
    (h6 : t1.trace_info = (g.g_pin_threads k).trace_info) :
    FlushFrame g (g.setThread k t1) := by
  refine ⟨rfl, rfl, rfl, ?_, ?_, ?_, ?_, ?_, ?_, [], by simp [Globals.setThread], by simp⟩
  all_goals
    intro j
    simp only [Globals.setThread]
    split
    · subst_vars; assumption
    · rfl

theorem DumpEventPlainText_frame (env : Env) (type : Nat) (tid : Int) (pc a info : Nat)
    (g : Globals) : FlushFrame g (DumpEventPlainText env type tid pc a info g).2 := by
  unfold DumpEventPlainText
  split
  · exact FlushFrame.refl g
  · split
    · exact FlushFrame.refl g
    · exact FlushFrame.emit g _ rfl

theorem DumpEventInternal_frame (env : Env) (type : Nat) (tid : Int) (pc a info : Nat)
    (g : Globals) : FlushFrame g (DumpEventInternal env type tid pc a info g) := by
  unfold DumpEventInternal
  simp only
  split
  · exact DumpEventPlainText_frame ..
  · exact (DumpEventPlainText_frame ..).trans (FlushFrame.emit _ _ rfl)

theorem DumpTraceMops_frame (env : Env) (tleb : ThreadLocalEventBuffer) (uniq_tid : Int)
    (i : Nat) (mops : List MopInfo) :
    ∀ (j : Nat) (g : Globals),
      FlushFrame g (DumpTraceMops env tleb uniq_tid i mops j g).globals := by
  induction mops with
  | nil => intro j g; exact FlushFrame.refl g
  | cons mop rest ih =>
    intro j g
    unfold DumpTraceMops
    split
    · exact FlushFrame.refl g
    · split
      · exact FlushFrame.refl g
      · split
        · exact (DumpEventPlainText_frame ..).trans (ih _ _)
        · exact ih _ _

theorem Res.bind_globals_frame {α β : Type} {g : Globals} (r : Res α)
    (f : α → Globals → Res β) (h1 : FlushFrame g r.globals)
    (h2 : ∀ a g1, FlushFrame g1 (f a g1).globals) : FlushFrame g (r.bind f).globals := by
  cases r with
  | ok a g1 => exact h1.trans (h2 a g1)
  | abort e g1 => exact h1

theorem FlushTraceBody_frame (env : Env) (tleb : ThreadLocalEventBuffer) (d : Bool)
    (p : Nat) (info : TraceInfo) (i : Nat) (g : Globals) :
    FlushFrame g (FlushTraceBody env tleb d p info i g).globals := by
  unfold FlushTraceBody
  simp only
  repeat' split
  all_goals first
    | exact FlushFrame.refl g
    | exact FlushFrame.emit g _ rfl
    | exact Res.bind_globals_frame _ _
        ((DumpEventPlainText_frame ..).trans (DumpTraceMops_frame ..))
        (fun _ g1 => FlushFrame.refl g1)

theorem FlushTrace_frame (env : Env) (tleb : ThreadLocalEventBuffer) (i : Nat) (g : Globals) :
    FlushFrame g (FlushTrace env tleb i g).globals := by
  unfold FlushTrace
  simp only
  repeat' split
  all_goals first
    | exact FlushFrame.refl g
    | exact FlushTraceBody_frame ..

theorem FlushRtnExit_frame (env : Env) (tleb : ThreadLocalEventBuffer) (i : Nat)
    (g : Globals) : FlushFrame g (FlushRtnExit env tleb i g).globals := by
  unfold FlushRtnExit
  simp only
  split
  · exact DumpEventPlainText_frame ..
  · exact (DumpEventPlainText_frame ..).trans (FlushFrame.emit _ _ rfl)

theorem FlushRtnCall_frame (env : Env) (tleb : ThreadLocalEventBuffer) (i : Nat)
    (g : Globals) : FlushFrame g (FlushRtnCall env tleb i g).globals := by
  unfold FlushRtnCall
  simp only
  split
  · split
    · exact DumpEventPlainText_frame ..
    · exact (DumpEventPlainText_frame ..).trans (FlushFrame.emit _ _ rfl)
  · exact FlushFrame.refl g

theorem FlushThrEnd_frame (env : Env) (tleb : ThreadLocalEventBuffer) (i : Nat)
    (g : Globals) : FlushFrame g (FlushThrEnd env tleb i g).globals := by
  unfold FlushThrEnd
  simp only
  repeat' split
  all_goals first
    | exact DumpEventInternal_frame ..
    | exact (DumpEventInternal_frame ..).trans
        (FlushFrame.of_setThread _ _ _ rfl rfl rfl rfl rfl rfl)

theorem FlushIgnoreAllEnd_frame (tleb : ThreadLocalEventBuffer) (i : Nat)
    (g : Globals) : FlushFrame g (FlushIgnoreAllEnd tleb i g).globals := by
  unfold FlushIgnoreAllEnd
  simp only
  split <;> exact FlushFrame.of_setThread _ _ _ rfl rfl rfl rfl rfl rfl

theorem FlushIgnoreSyncEnd_frame (tleb : ThreadLocalEventBuffer) (i : Nat)
    (g : Globals) : FlushFrame g (FlushIgnoreSyncEnd tleb i g).globals := by
  unfold FlushIgnoreSyncEnd
  simp only
  split <;> exact FlushFrame.of_setThread _ _ _ rfl rfl rfl rfl rfl rfl

theorem FlushGeneric_frame (env : Env) (tleb : ThreadLocalEventBuffer) (event i : Nat)
    (g : Globals) : FlushFrame g (FlushGeneric env tleb event i g).globals := by
  unfold FlushGeneric
  simp only
  repeat' split
  all_goals first
    | exact FlushFrame.refl g
    | exact DumpEventInternal_frame ..

/-- Case principle for the chain of comparisons of the decoder: a property
that holds of every branch holds of the dispatch. -/
theorem FlushDispatch_cases (env : Env) (tleb : ThreadLocalEventBuffer) (event i : Nat)
    (g : Globals) (P : Res Nat → Prop)
    (h1 : P (FlushRtnExit env tleb i g)) (h2 : P (FlushRtnCall env tleb i g))
    (h3 : P (FlushTrace env tleb i g)) (h4 : P (FlushThrStart env tleb i g))
    (h5 : P (FlushThrEnd env tleb i g)) (h6 : P (FlushIgnoreAllBegin tleb i g))
    (h7 : P (FlushIgnoreAllEnd tleb i g)) (h8 : P (FlushIgnoreSyncBegin tleb i g))
    (h9 : P (FlushIgnoreSyncEnd tleb i g))
    (h10 : P (.ok i { g.emit (.Report true) with global_ignore := true }))
    (h11 : P (.ok i { g.emit (.Report false) with global_ignore := false }))
    (h12 : P (FlushGeneric env tleb event i g)) :
    P (FlushDispatch env tleb event i g) := by
  unfold FlushDispatch
  by_cases c1 : event = env.ev.RTN_EXIT
  · rw [if_pos c1]; exact h1
  rw [if_neg c1]
  by_cases c2 : event = env.ev.RTN_CALL
  · rw [if_pos c2]; exact h2
  rw [if_neg c2]
  by_cases c3 : event = env.ev.SBLOCK_ENTER
  · rw [if_pos c3]; exact h3
  rw [if_neg c3]
  by_cases c4 : event = env.ev.THR_START
  · rw [if_pos c4]; exact h4
  rw [if_neg c4]
  by_cases c5 : event = env.ev.THR_END
  · rw [if_pos c5]; exact h5
  rw [if_neg c5]
  by_cases c6 : event = TLEB_IGNORE_ALL_BEGIN env.ev
  · rw [if_pos c6]; exact h6
  rw [if_neg c6]
  by_cases c7 : event = TLEB_IGNORE_ALL_END env.ev
  · rw [if_pos c7]; exact h7
  rw [if_neg c7]
  by_cases c8 : event = TLEB_IGNORE_SYNC_BEGIN env.ev
  · rw [if_pos c8]; exact h8
  rw [if_neg c8]
  by_cases c9 : event = TLEB_IGNORE_SYNC_END env.ev
  · rw [if_pos c9]; exact h9
  rw [if_neg c9]
  by_cases c10 : event = TLEB_GLOBAL_IGNORE_ON env.ev
  · rw [if_pos c10]; exact h10
  rw [if_neg c10]
  by_cases c11 : event = TLEB_GLOBAL_IGNORE_OFF env.ev
  · rw [if_pos c11]; exact h11
  rw [if_neg c11]
  exact h12

theorem FlushDispatch_frame (env : Env) (tleb : ThreadLocalEventBuffer) (event i : Nat)
    (g : Globals) : FlushFrame g (FlushDispatch env tleb event i g).globals := by
  refine FlushDispatch_cases env tleb event i g (fun r => FlushFrame g r.globals)
    ?_ ?_ ?_ ?_ ?_ ?_ ?_ ?_ ?_ ?_ ?_ ?_
  · exact FlushRtnExit_frame ..
  · exact FlushRtnCall_frame ..
  · exact FlushTrace_frame ..
  · exact DumpEventInternal_frame ..
  · exact FlushThrEnd_frame ..
  · exact FlushFrame.of_setThread _ _ _ rfl rfl rfl rfl rfl rfl
  · exact FlushIgnoreAllEnd_frame ..
  · exact FlushFrame.of_setThread _ _ _ rfl rfl rfl rfl rfl rfl
  · exact FlushIgnoreSyncEnd_frame ..
  · exact ⟨rfl, rfl, rfl, fun _ => rfl, fun _ => rfl, fun _ => rfl, fun _ => rfl, fun _ => rfl,
      fun _ => rfl, [.Report true], rfl, by simp [Effect.isLockOp]⟩
  · exact ⟨rfl, rfl, rfl, fun _ => rfl, fun _ => rfl, fun _ => rfl, fun _ => rfl, fun _ => rfl,
      fun _ => rfl, [.Report false], rfl, by simp [Effect.isLockOp]⟩
  · exact FlushGeneric_frame ..

theorem TLEBFlushStep_frame (env : Env) (tleb : ThreadLocalEventBuffer) (i : Nat) (g : Globals) :
    FlushFrame g (TLEBFlushStep env tleb i g).globals := by
  unfold TLEBFlushStep
  split
  · exact FlushFrame.refl g
  · split
    · exact FlushFrame.refl g
    · exact FlushDispatch_frame ..

theorem TLEBFlushLoop_frame (env : Env) (tleb : ThreadLocalEventBuffer) (fuel : Nat) :
    ∀ (i : Nat) (g : Globals), FlushFrame g (TLEBFlushLoop env tleb fuel i g).globals := by
  induction fuel with
  | zero =>
    intro i g
    unfold TLEBFlushLoop
    split <;> exact FlushFrame.refl g
  | succ n ih =>
    intro i g
    unfold TLEBFlushLoop
    split
    · have h := TLEBFlushStep_frame env tleb i g
      split
      · rename_i heq
        rw [heq] at h
        exact h.trans (ih _ _)
      · rename_i heq
        rw [heq] at h
        exact h
    · exact FlushFrame.refl g

theorem TLEBFlushUnlocked_frame (env : Env) (tleb : ThreadLocalEventBuffer) (g : Globals) :
    FlushFrame g (TLEBFlushUnlocked env tleb g).globals := by
  unfold TLEBFlushUnlocked
  simp only
  have h := TLEBFlushLoop_frame env tleb tleb.size 0 g
  repeat' split
  all_goals first
    | exact FlushFrame.refl g
    | exact FlushFrame.emit g _ rfl
    | (rename_i heq; rw [heq] at h; exact h)
    | (rename_i heq _; rw [heq] at h; exact h)
    | (rename_i heq _ _; rw [heq] at h; exact h)

/-! ## Progress of the decoder and the ways it can abort -/

theorem DumpTraceMops_abortedWith (env : Env) (tleb : ThreadLocalEventBuffer) (uniq_tid : Int)
    (i : Nat) (mops : List MopInfo) :
    ∀ (j : Nat) (g : Globals),
      (DumpTraceMops env tleb uniq_tid i mops j g).abortedWith ≠ some .storeOutOfBounds ∧
      (DumpTraceMops env tleb uniq_tid i mops j g).abortedWith ≠ some .outOfFuel := by
  induction mops with
  | nil => intro j g; simp [DumpTraceMops, Res.abortedWith]
  | cons mop rest ih =>
    intro j g
    unfold DumpTraceMops
    split
    · simp [Res.abortedWith]
    · split
      · simp [Res.abortedWith]
      · split
        · exact ih _ _
        · exact ih _ _

theorem FlushRtnExit_ok (env : Env) (tleb : ThreadLocalEventBuffer) (i : Nat) (g : Globals) :
    BranchOk i (FlushRtnExit env tleb i g) := by
  unfold FlushRtnExit BranchOk
  simp only
  split <;> simp [Res.abortedWith]

theorem FlushRtnCall_ok (env : Env) (tleb : ThreadLocalEventBuffer) (i : Nat) (g : Globals) :
    BranchOk i (FlushRtnCall env tleb i g) := by
  unfold FlushRtnCall BranchOk
  simp only
  split
  · split <;> simp [Res.abortedWith]
  · simp [Res.abortedWith]

theorem FlushTraceBody_ok (env : Env) (tleb : ThreadLocalEventBuffer) (d : Bool)
    (p : Nat) (info : TraceInfo) (i : Nat) (g : Globals) :
    BranchOk i (FlushTraceBody env tleb d p info i g) := by
  unfold FlushTraceBody BranchOk
  simp only
  split
  · split
    · generalize hr : DumpTraceMops env tleb _ _ info.mops 0 _ = r
      have h := DumpTraceMops_abortedWith env tleb
        (g.g_pin_threads tleb.t).uniq_tid i info.mops 0
        (DumpEventPlainText env env.ev.SBLOCK_ENTER (g.g_pin_threads tleb.t).uniq_tid
          info.pc 0 0 g).2
      rw [hr] at h
      cases r with
      | ok a g1 =>
        refine ⟨by simp [Res.bind, Res.abortedWith], by simp [Res.bind, Res.abortedWith], ?_⟩
        intro i1 g2 hh
        simp only [Res.bind, Res.ok.injEq] at hh
        omega
      | abort e g1 => simpa [Res.bind, Res.abortedWith] using h
    · split
      · refine ⟨by simp [Res.abortedWith], by simp [Res.abortedWith], ?_⟩
        intro i1 g2 hh
        simp only [Res.ok.injEq] at hh
        omega
      · simp [Res.abortedWith]
  · refine ⟨by simp [Res.abortedWith], by simp [Res.abortedWith], ?_⟩
    intro i1 g2 hh
    simp only [Res.ok.injEq] at hh
    omega

theorem BranchOk.mono {i j : Nat} {r : Res Nat} (h : BranchOk j r) (hij : i ≤ j) :
    BranchOk i r :=
  ⟨h.1, h.2.1, fun i1 g1 e => le_trans hij (h.2.2 i1 g1 e)⟩

theorem FlushTrace_ok (env : Env) (tleb : ThreadLocalEventBuffer) (i : Nat) (g : Globals) :
    BranchOk i (FlushTrace env tleb i g) := by
  unfold FlushTrace
  simp only
  repeat' split
  all_goals first
    | (simp [BranchOk, Res.abortedWith]; done)
    | exact (FlushTraceBody_ok ..).mono (Nat.le_succ i)

theorem FlushThrEnd_ok (env : Env) (tleb : ThreadLocalEventBuffer) (i : Nat) (g : Globals) :
    BranchOk i (FlushThrEnd env tleb i g) := by
  unfold FlushThrEnd BranchOk
  simp only
  repeat' split
  all_goals simp [Res.abortedWith]

theorem FlushIgnoreAllEnd_ok (tleb : ThreadLocalEventBuffer) (i : Nat) (g : Globals) :
    BranchOk i (FlushIgnoreAllEnd tleb i g) := by
  unfold FlushIgnoreAllEnd BranchOk
  simp only
  split <;> simp [Res.abortedWith]

theorem FlushIgnoreSyncEnd_ok (tleb : ThreadLocalEventBuffer) (i : Nat) (g : Globals) :
    BranchOk i (FlushIgnoreSyncEnd tleb i g) := by
  unfold FlushIgnoreSyncEnd BranchOk
  simp only
  split <;> simp [Res.abortedWith]

theorem FlushGeneric_ok (env : Env) (tleb : ThreadLocalEventBuffer) (event i : Nat)
    (g : Globals) : BranchOk i (FlushGeneric env tleb event i g) := by
  unfold FlushGeneric BranchOk
  simp only
  repeat' split
  all_goals simp [Res.abortedWith]

theorem FlushDispatch_ok (env : Env) (tleb : ThreadLocalEventBuffer) (event i : Nat)
    (g : Globals) : BranchOk i (FlushDispatch env tleb event i g) := by
  refine FlushDispatch_cases env tleb event i g (BranchOk i)
    ?_ ?_ ?_ ?_ ?_ ?_ ?_ ?_ ?_ ?_ ?_ ?_
  · exact FlushRtnExit_ok ..
  · exact FlushRtnCall_ok ..
  · exact FlushTrace_ok ..
  · simp [FlushThrStart, BranchOk, Res.abortedWith]
  · exact FlushThrEnd_ok ..
  · simp [FlushIgnoreAllBegin, BranchOk, Res.abortedWith]
  · exact FlushIgnoreAllEnd_ok ..
  · simp [FlushIgnoreSyncBegin, BranchOk, Res.abortedWith]
  · exact FlushIgnoreSyncEnd_ok ..
  · simp [BranchOk, Res.abortedWith]
  · simp [BranchOk, Res.abortedWith]
  · exact FlushGeneric_ok ..

/-- Every iteration of the decoder loop advances the index, and the decoder
never stores to the buffer. -/
theorem TLEBFlushStep_ok (env : Env) (tleb : ThreadLocalEventBuffer) (i : Nat) (g : Globals) :
    BranchOk (i + 1) (TLEBFlushStep env tleb i g) := by
  unfold TLEBFlushStep
  split
  · simp [BranchOk, Res.abortedWith]
  · split
    · simp [BranchOk, Res.abortedWith]
    · exact FlushDispatch_ok ..

/-- The decoder loop never stores to the buffer. -/
theorem TLEBFlushLoop_no_store (env : Env) (tleb : ThreadLocalEventBuffer) (fuel : Nat) :
    ∀ (i : Nat) (g : Globals),
      (TLEBFlushLoop env tleb fuel i g).abortedWith ≠ some .storeOutOfBounds := by
  induction fuel with
  | zero =>
    intro i g
    unfold TLEBFlushLoop
    split <;> simp [Res.abortedWith]
  | succ n ih =>
    intro i g
    unfold TLEBFlushLoop
    split
    · have h := TLEBFlushStep_ok env tleb i g
      split
      · exact ih _ _
      · rename_i heq
        rw [heq] at h
        simpa [Res.abortedWith] using h.1
    · simp [Res.abortedWith]

/-- Fuel `tleb.size - i` is enough for the decoder loop started at index `i`:
the loop ends by itself. -/
theorem TLEBFlushLoop_fuel (env : Env) (tleb : ThreadLocalEventBuffer) (fuel : Nat) :
    ∀ (i : Nat) (g : Globals), tleb.size ≤ i + fuel →
      (TLEBFlushLoop env tleb fuel i g).abortedWith ≠ some .outOfFuel := by
  induction fuel with
  | zero =>
    intro i g h
    unfold TLEBFlushLoop
    rw [if_neg (by omega)]
    simp [Res.abortedWith]
  | succ n ih =>
    intro i g h
    unfold TLEBFlushLoop
    split
    · have hs := TLEBFlushStep_ok env tleb i g
      split
      · rename_i i1 g1 heq
        rw [heq] at hs
        have := hs.2.2 i1 g1 rfl
        exact ih _ _ (by omega)
      · rename_i heq
        rw [heq] at hs
        simpa [Res.abortedWith] using hs.2.1
    · simp [Res.abortedWith]

/-- When the decoder loop returns, its index has reached the end of the
buffer contents. -/
theorem TLEBFlushLoop_index (env : Env) (tleb : ThreadLocalEventBuffer) (fuel : Nat) :
    ∀ (i : Nat) (g : Globals) (i1 : Nat) (g1 : Globals),
      TLEBFlushLoop env tleb fuel i g = .ok i1 g1 → tleb.size ≤ i1 ∧ i ≤ i1 := by
  induction fuel with
  | zero =>
    intro i g i1 g1 h
    unfold TLEBFlushLoop at h
    split at h
    · cases h
    · cases h; omega
  | succ n ih =>
    intro i g i1 g1 h
    unfold TLEBFlushLoop at h
    split at h
    · have hs := TLEBFlushStep_ok env tleb i g
      split at h
      · rename_i i2 g2 heq
        rw [heq] at hs
        have h2 := hs.2.2 i2 g2 rfl
        have := ih _ _ _ _ h
        omega
      · cases h
    · cases h; omega

/-- The decoder never stores to the buffer and never runs out of fuel. -/
theorem TLEBFlushUnlocked_abortedWith (env : Env) (tleb : ThreadLocalEventBuffer)
    (g : Globals) :
    (TLEBFlushUnlocked env tleb g).abortedWith ≠ some .storeOutOfBounds ∧
    (TLEBFlushUnlocked env tleb g).abortedWith ≠ some .outOfFuel := by
  unfold TLEBFlushUnlocked
  simp only
  have h1 := TLEBFlushLoop_no_store env tleb tleb.size 0 g
  have h2 := TLEBFlushLoop_fuel env tleb tleb.size 0 g (by omega)
  repeat' split
  all_goals first
    | (simp [Res.abortedWith]; done)
    | (rename_i heq; rw [heq] at h1 h2; simpa [Res.abortedWith] using And.intro h1 h2)

/-- A flush that returns leaves the buffer empty. -/
theorem TLEBFlushUnlocked_size (env : Env) (tleb tleb1 : ThreadLocalEventBuffer)
    (g g1 : Globals) (h : TLEBFlushUnlocked env tleb g = .ok tleb1 g1) :
    tleb1.size = 0 ∧ tleb1.t = tleb.t := by
  unfold TLEBFlushUnlocked at h
  simp only at h
  repeat' split at h
  all_goals first
    | (cases h; done)
    | (cases h; simp_all)

/-! ## Access lemmas -/

@[simp] theorem Globals.setThread_threads (g : Globals) (k : Nat) (t : PinThread) (j : Nat) :
    (g.setThread k t).g_pin_threads j = if j = k then t else g.g_pin_threads j := rfl

@[simp] theorem Globals.setThread_self (g : Globals) (k : Nat) (t : PinThread) :
    (g.setThread k t).g_pin_threads k = t := by simp

@[simp] theorem Globals.setTleb_tleb (g : Globals) (k : Nat) (b : ThreadLocalEventBuffer) :
    ((g.setTleb k b).g_pin_threads k).tleb = b := by simp [Globals.setTleb]

@[simp] theorem Globals.emit_threads (g : Globals) (e : Effect) :
    (g.emit e).g_pin_threads = g.g_pin_threads := rfl

@[simp] theorem Globals.emit_log (g : Globals) (e : Effect) :
    (g.emit e).log = g.log ++ [e] := rfl

@[simp] theorem Globals.setThread_log (g : Globals) (k : Nat) (t : PinThread) :
    (g.setThread k t).log = g.log := rfl

@[simp] theorem Globals.setTleb_log (g : Globals) (k : Nat) (b : ThreadLocalEventBuffer) :
    (g.setTleb k b).log = g.log := rfl

theorem ReleaseSyscallLock_tleb (env : Env) (k : Nat) (g : Globals) (j : Nat) :
    ((ReleaseSyscallLock env k g).g_pin_threads j).tleb = (g.g_pin_threads j).tleb := by
  unfold ReleaseSyscallLock
  simp only
  repeat' split
  all_goals first
    | rfl
    | (simp only [Globals.emit_threads, Globals.setThread_threads]
       split
       · subst_vars; rfl
       · rfl)

/-! ## The bound on the buffer -/

/-- A call of `TLEBFlushLocked` never stores past the end of the buffer, and
when it returns the buffer of the thread is empty. -/
theorem TLEBFlushLocked_room (env : Env) (ti : Nat) (g : Globals) :
    (TLEBFlushLocked env ti g).abortedWith ≠ some .storeOutOfBounds ∧
    ∀ u g1, TLEBFlushLocked env ti g = .ok u g1 → (g1.g_pin_threads ti).tleb.size = 0 := by
  unfold TLEBFlushLocked
  simp only
  split
  · simp [Res.abortedWith]
  · split
    · simp [Res.abortedWith]
    · split
      · split
        · simp [Res.abortedWith]
        · simp [Res.abortedWith]
      · split
        · have h1 := TLEBFlushUnlocked_abortedWith env (g.g_pin_threads ti).tleb (g.emit .Lock)
          split
          · rename_i heq
            rw [heq] at h1
            simpa [Res.abortedWith] using h1.1
          · rename_i tleb1 g1 heq
            have h2 := TLEBFlushUnlocked_size env _ _ _ _ heq
            simp [Res.abortedWith, h2.1]
        · split
          · split
            · rename_i heq
              unfold AcquireSyscallLock at heq
              simp only at heq
              repeat' split at heq
              all_goals first
                | (cases heq; simp [Res.abortedWith])
                | cases heq
            · rename_i g1 heq
              generalize hg2 : g1.setThread ti _ = g2
              have h1 := TLEBFlushUnlocked_abortedWith env (g2.g_pin_threads ti).tleb g2
              split
              · rename_i heq2
                rw [heq2] at h1
                simpa [Res.abortedWith] using h1.1
              · rename_i tleb1 g3 heq2
                have h2 := TLEBFlushUnlocked_size env _ _ _ _ heq2
                split
                · simp [Res.abortedWith, ReleaseSyscallLock_tleb, h2.1]
                · simp [Res.abortedWith, h2.1]
          · simp [Res.abortedWith]

theorem Res.Room.bind {α β : Type} {ti n m : Nat} {r : Res α} {f : α → Globals → Res β}
    (h1 : r.Room ti n)
    (h2 : ∀ a g1, (g1.g_pin_threads ti).tleb.size + n ≤ kThreadLocalEventBufferSize →
      (f a g1).Room ti m) : (r.bind f).Room ti m := by
  cases r with
  | ok a g1 => exact h2 a g1 (h1.2 a g1 rfl)
  | abort e g1 => exact ⟨by simpa [Res.bind, Res.abortedWith] using h1.1, by simp [Res.bind]⟩

theorem DCHECK_room (env : Env) (line : Nat) (c : Bool) (g : Globals) (ti n : Nat)
    (h : (g.g_pin_threads ti).tleb.size + n ≤ kThreadLocalEventBufferSize) :
    (DCHECK env line c g).Room ti n := by
  unfold DCHECK Res.Room
  split
  · simp [Res.abortedWith]
  · simp only [Res.abortedWith, ne_eq, not_false_eq_true, reduceCtorEq, Res.ok.injEq,
      true_and]
    rintro _ _ ⟨_, rfl⟩
    exact h

theorem TLEBStore_room (ti v : Nat) (g : Globals) (n : Nat)
    (h : (g.g_pin_threads ti).tleb.size + (n + 1) ≤ kThreadLocalEventBufferSize) :
    (TLEBStore ti v g).Room ti n := by
  unfold TLEBStore Res.Room
  simp only
  rw [if_pos (by omega)]
  simp only [Res.abortedWith, ne_eq, not_false_eq_true, reduceCtorEq, Res.ok.injEq, true_and]
  rintro _ _ ⟨_, rfl⟩
  simp only [Globals.setTleb_tleb]
  omega

/-- The check-and-flush before an append of `k` words leaves room for them. -/
theorem flushIf_room (env : Env) (ti k : Nat) (g : Globals)
    (hk : k ≤ kThreadLocalEventBufferSize) :
    (if (g.g_pin_threads ti).tleb.size + k > kThreadLocalEventBufferSize then
      TLEBFlushLocked env ti g else Res.ok () g).Room ti k := by
  split
  · have h := TLEBFlushLocked_room env ti g
    refine ⟨h.1, ?_⟩
    intro u g1 heq
    rw [h.2 u g1 heq]
    omega
  · refine ⟨by simp [Res.abortedWith], ?_⟩
    rintro _ _ heq
    cases heq
    omega

theorem DCHECK_abortedWith (env : Env) (line : Nat) (c : Bool) (g : Globals) :
    (DCHECK env line c g).abortedWith ≠ some .storeOutOfBounds := by
  unfold DCHECK
  split <;> simp [Res.abortedWith]

theorem DCHECK_globals (env : Env) (line : Nat) (c : Bool) (g : Globals) (u : Unit)
    (g1 : Globals) (h : DCHECK env line c g = .ok u g1) : g1 = g := by
  unfold DCHECK at h
  split at h
  · cases h
  · cases h; rfl

theorem Res.room_bind_any {α β : Type} {ti m : Nat} {r : Res α} {f : α → Globals → Res β}
    (h1 : r.abortedWith ≠ some .storeOutOfBounds)
    (h2 : ∀ a g1, (f a g1).Room ti m) : (r.bind f).Room ti m := by
  cases r with
  | ok a g1 => exact h2 a g1
  | abort e g1 => exact ⟨by simpa [Res.bind, Res.abortedWith] using h1, by simp [Res.bind]⟩

theorem TLEBAddRtnCall_within (env : Env) (ti : Nat) (call_pc target_pc ignore_below : Nat)
    (g : Globals) : (TLEBAddRtnCall env ti call_pc target_pc ignore_below g).WithinBuffer ti := by
  unfold TLEBAddRtnCall Res.WithinBuffer
  refine Res.room_bind_any (DCHECK_abortedWith _ _ _ _) fun _ g1 => ?_
  have hflush : (if (g1.g_pin_threads ti).tleb.size + 4 > kThreadLocalEventBufferSize then
      (TLEBFlushLocked env ti g1).bind fun _ g =>
        DCHECK env 496 (decide ((g.g_pin_threads ti).tleb.size = 0)) g
      else Res.ok () g1).Room ti 4 := by
    split
    · have h := TLEBFlushLocked_room env ti g1
      refine Res.Room.bind (n := 4) ⟨h.1, ?_⟩ fun _ g2 h2 => DCHECK_room _ _ _ _ _ _ h2
      intro u g2 heq
      rw [h.2 u g2 heq]
      decide
    · refine ⟨by simp [Res.abortedWith], ?_⟩
      rintro _ _ heq
      cases heq
      omega
  refine hflush.bind fun _ g2 h2 => ?_
  refine (TLEBStore_room ti _ g2 3 h2).bind fun _ g3 h3 => ?_
  refine (TLEBStore_room ti _ g3 2 h3).bind fun _ g4 h4 => ?_
  refine (TLEBStore_room ti _ g4 1 h4).bind fun _ g5 h5 => ?_
  refine (TLEBStore_room ti _ g5 0 h5).bind fun _ g6 h6 => ?_
  exact DCHECK_room _ _ _ _ _ _ h6

theorem TLEBAddRtnExit_within (env : Env) (ti : Nat) (g : Globals) :
    (TLEBAddRtnExit env ti g).WithinBuffer ti := by
  unfold TLEBAddRtnExit Res.WithinBuffer
  refine (flushIf_room env ti 1 g (by decide)).bind fun _ g2 h2 => ?_
  refine (TLEBStore_room ti _ g2 0 h2).bind fun _ g3 h3 => ?_
  exact DCHECK_room _ _ _ _ _ _ h3

theorem TLEBSimpleEvent_within (env : Env) (ti event : Nat) (g : Globals)
    (h : (g.g_pin_threads ti).tleb.size ≤ kThreadLocalEventBufferSize) :
    (TLEBSimpleEvent env ti event g).WithinBuffer ti := by
  unfold TLEBSimpleEvent Res.WithinBuffer
  split
  · refine ⟨by simp [Res.abortedWith], ?_⟩
    rintro _ _ heq
    cases heq
    simpa using h
  · refine (flushIf_room env ti 1 g (by decide)).bind fun _ g2 h2 => ?_
    refine (TLEBStore_room ti _ g2 0 h2).bind fun _ g3 h3 => ?_
    exact DCHECK_room _ _ _ _ _ _ h3

theorem TLEBAddGenericEventAndFlush_within (env : Env) (ti type pc a info : Nat) (g : Globals) :
    (TLEBAddGenericEventAndFlush env ti type pc a info g).WithinBuffer ti := by
  unfold TLEBAddGenericEventAndFlush TLEBAddGenericEvent Res.WithinBuffer
  have hadd : (((if (g.g_pin_threads ti).tleb.size + 4 > kThreadLocalEventBufferSize then
      TLEBFlushLocked env ti g else Res.ok () g).bind fun _ g =>
      (DCHECK env 552 (decide (type > env.ev.NOOP ∧ type < env.ev.LAST_EVENT)) g).bind
      fun _ g => (TLEBStore ti type g).bind
      fun _ g => (TLEBStore ti pc g).bind
      fun _ g => (TLEBStore ti a g).bind
      fun _ g => TLEBStore ti info g)).Room ti 0 := by
    refine (flushIf_room env ti 4 g (by decide)).bind fun _ g2 h2 => ?_
    refine (DCHECK_room _ _ _ _ _ _ h2).bind fun _ g3 h3 => ?_
    refine (TLEBStore_room ti _ g3 3 h3).bind fun _ g4 h4 => ?_
    refine (TLEBStore_room ti _ g4 2 h4).bind fun _ g5 h5 => ?_
    refine (TLEBStore_room ti _ g5 1 h5).bind fun _ g6 h6 => ?_
    exact TLEBStore_room ti _ g6 0 h6
  refine Res.room_bind_any hadd.1 fun _ g2 => ?_
  have h := TLEBFlushLocked_room env ti g2
  refine Res.Room.bind (n := 0) ⟨h.1, ?_⟩ fun _ g3 h3 => DCHECK_room _ _ _ _ _ _ h3
  intro u g3 heq
  rw [h.2 u g3 heq]
  decide

theorem TLEBAddTrace_within (env : Env) (ti : Nat) (g : Globals)
    (h : ∀ info, env.traceInfoAt (g.g_pin_threads ti).trace_info = some info →
      info.n_mops ≤ kMaxMopsPerTrace) :
    (TLEBAddTrace env ti g).WithinBuffer ti := by
  unfold TLEBAddTrace Res.WithinBuffer
  split
  · exact ⟨by simp [Res.abortedWith], by simp⟩
  · rename_i info heq
    have hn : info.n_mops + 2 ≤ kThreadLocalEventBufferSize := by
      have := h info heq
      unfold kMaxMopsPerTrace at this
      unfold kThreadLocalEventBufferSize at *
      omega
    simp only
    refine Res.room_bind_any (DCHECK_abortedWith _ _ _ _) fun _ g1 => ?_
    have hf := flushIf_room env ti (2 + info.n_mops) g1 (by omega)
    rw [← Nat.add_assoc] at hf
    refine hf.bind fun _ g2 h2 => ?_
    refine (TLEBStore_room ti _ g2 (1 + info.n_mops) (by omega)).bind fun _ g3 h3 => ?_
    refine (TLEBStore_room ti _ g3 info.n_mops (by omega)).bind fun _ g4 h4 => ?_
    have hz : (TLEBZeroSlots ti info.n_mops g4).Room ti 0 := by
      unfold TLEBZeroSlots Res.Room
      simp only
      rw [if_pos h4]
      simp only [Res.abortedWith, ne_eq, not_false_eq_true, reduceCtorEq, Res.ok.injEq,
        true_and]
      rintro _ _ ⟨_, rfl⟩
      simp only [Globals.setTleb_tleb]
      omega
    refine hz.bind fun _ g5 h5 => ?_
    refine (DCHECK_room _ _ _ _ _ _ h5).bind fun _ g6 h6 => ?_
    refine ⟨by simp [Res.abortedWith], ?_⟩
    rintro _ _ heq
    cases heq
    exact h6

/-- C1 (TLEB bound invariant).  For every configuration (every locking scheme,
debug or release build, dry run or not) and every thread whose buffer holds at
most `kThreadLocalEventBufferSize = 2046` words, each append operation --
`TLEBAddRtnCall`, `TLEBAddRtnExit`, `TLEBSimpleEvent`,
`TLEBAddGenericEventAndFlush`, and `TLEBAddTrace` for a trace of at most
`kMaxMopsPerTrace = 2044` memory operations -- never stores at an index past the
end of `tleb.events`, and whenever it returns, `tleb.size <= 2046` holds; a
`TLEBFlushLocked` that returns leaves `tleb.size = 0`. -/
theorem C1_tleb_bound_invariant (env : Env) (ti : Nat) (g : Globals)
    (h : (g.g_pin_threads ti).tleb.size ≤ kThreadLocalEventBufferSize) :
    (∀ call_pc target_pc ignore_below,
      (TLEBAddRtnCall env ti call_pc target_pc ignore_below g).WithinBuffer ti) ∧
    (TLEBAddRtnExit env ti g).WithinBuffer ti ∧
    (∀ event, (TLEBSimpleEvent env ti event g).WithinBuffer ti) ∧
    (∀ type pc a info, (TLEBAddGenericEventAndFlush env ti type pc a info g).WithinBuffer ti) ∧
    ((∀ info, env.traceInfoAt (g.g_pin_threads ti).trace_info = some info →
        info.n_mops ≤ kMaxMopsPerTrace) → (TLEBAddTrace env ti g).WithinBuffer ti) ∧
    (∀ g1, TLEBFlushLocked env ti g = .ok () g1 → (g1.g_pin_threads ti).tleb.size = 0) :=
  ⟨fun _ _ _ => TLEBAddRtnCall_within ..,
   TLEBAddRtnExit_within ..,
   fun _ => TLEBSimpleEvent_within _ _ _ _ h,
   fun _ _ _ _ => TLEBAddGenericEventAndFlush_within ..,
   fun hn => TLEBAddTrace_within _ _ _ hn,
   fun g1 h1 => (TLEBFlushLocked_room env ti g).2 () g1 h1⟩

/-- C1 at a concrete input: thread 0 has buffered three `RTN_EXIT` words
(debug build, `LOCKING_ON_FLUSH`); appending a trace respects the bound. -/
theorem C1_tleb_bound_invariant_witness :
    ((sampleGlobals [32, 32, 32]).g_pin_threads 0).tleb.size ≤ kThreadLocalEventBufferSize ∧
    (∀ info, (sampleEnv true LOCKING_ON_FLUSH).traceInfoAt
        ((sampleGlobals [32, 32, 32]).g_pin_threads 0).trace_info = some info →
        info.n_mops ≤ kMaxMopsPerTrace) ∧
    (TLEBAddTrace (sampleEnv true LOCKING_ON_FLUSH) 0 (sampleGlobals [32, 32, 32])).WithinBuffer 0 :=
  ⟨by decide,
   by intro info hi; cases hi; decide,
   (C1_tleb_bound_invariant (sampleEnv true LOCKING_ON_FLUSH) 0 (sampleGlobals [32, 32, 32])
      (by decide)).2.2.2.2.1 (by intro info hi; cases hi; decide)⟩

/-- The appends of C1 do return on the concrete input: after `TLEBAddTrace` the
buffer of thread 0 holds 3 + 2 + 2 words and the slots start at index 5. -/
theorem TLEBAddTrace_sample :
    (TLEBAddTrace (sampleEnv true LOCKING_ON_FLUSH) 0 (sampleGlobals [32, 32, 32])).isOk = true ∧
    ((TLEBAddTrace (sampleEnv true LOCKING_ON_FLUSH) 0
      (sampleGlobals [32, 32, 32])).globals.g_pin_threads 0).tleb.size = 7 := by
  decide

theorem TLEBFlushUnlocked_sample :
    (TLEBFlushUnlocked (sampleEnv true LOCKING_ON_FLUSH) (sampleTleb 0 [32, 31, 7, 8, 1, 33, 4096, 5, 0])
      (sampleGlobals [32, 31, 7, 8, 1, 33, 4096, 5, 0])).globals.log =
      [.HandleRtnExit 0, .HandleRtnCall 0 7 8 1, .HandleTrace 0 4096 [5, 0]] := by
  decide

/-! ## Facts about the enumeration -/

theorem EventTypes.Valid.ne {ev : EventTypes} (h : ev.Valid) (i j : Nat)
    (hi : i < ev.proper.length) (hj : j < ev.proper.length) (hij : i ≠ j) :
    ev.proper.get ⟨i, hi⟩ ≠ ev.proper.get ⟨j, hj⟩ := by
  intro he
  have := (List.Nodup.get_inj_iff h.1).1 he
  exact hij (congrArg Fin.val this)

theorem EventTypes.Valid.bound {ev : EventTypes} (h : ev.Valid) (i : Nat)
    (hi : i < ev.proper.length) :
    ev.NOOP < ev.proper.get ⟨i, hi⟩ ∧ ev.proper.get ⟨i, hi⟩ < ev.LAST_EVENT :=
  h.2 _ (List.get_mem _ _ _)

/-- The consequences of `EventTypes.Valid` the decoder lemmas use: the tags
the decoder compares with lie strictly between `NOOP` and `LAST_EVENT` and are
distinct from one another. -/
theorem EventTypes.Valid.facts {ev : EventTypes} (h : ev.Valid) :
    (ev.RTN_EXIT < ev.LAST_EVENT ∧ ev.RTN_CALL < ev.LAST_EVENT ∧
      ev.SBLOCK_ENTER < ev.LAST_EVENT ∧ ev.THR_START < ev.LAST_EVENT ∧
      ev.THR_END < ev.LAST_EVENT ∧ ev.READ < ev.LAST_EVENT ∧ ev.WRITE < ev.LAST_EVENT) ∧
    (ev.NOOP < ev.RTN_EXIT ∧ ev.NOOP < ev.RTN_CALL ∧ ev.NOOP < ev.SBLOCK_ENTER ∧
      ev.NOOP < ev.THR_START ∧ ev.NOOP < ev.THR_END ∧ ev.NOOP < ev.READ ∧
      ev.NOOP < ev.WRITE) ∧
    (ev.RTN_CALL ≠ ev.RTN_EXIT ∧ ev.SBLOCK_ENTER ≠ ev.RTN_EXIT ∧
      ev.SBLOCK_ENTER ≠ ev.RTN_CALL ∧ ev.THR_START ≠ ev.RTN_EXIT ∧
      ev.THR_START ≠ ev.RTN_CALL ∧ ev.THR_START ≠ ev.SBLOCK_ENTER ∧
      ev.THR_END ≠ ev.RTN_EXIT ∧ ev.THR_END ≠ ev.RTN_CALL ∧
      ev.THR_END ≠ ev.SBLOCK_ENTER ∧ ev.THR_END ≠ ev.THR_START) ∧
    (ev.READ ≠ ev.RTN_EXIT ∧ ev.READ ≠ ev.RTN_CALL ∧ ev.READ ≠ ev.SBLOCK_ENTER ∧
      ev.READ ≠ ev.THR_START ∧ ev.READ ≠ ev.THR_END ∧
      ev.WRITE ≠ ev.RTN_EXIT ∧ ev.WRITE ≠ ev.RTN_CALL ∧ ev.WRITE ≠ ev.SBLOCK_ENTER ∧
      ev.WRITE ≠ ev.THR_START ∧ ev.WRITE ≠ ev.THR_END) := by
  have b := fun i hi => h.bound i hi
  have n := fun i j hi hj hij => h.ne i j hi hj hij
  have l : ev.proper.length = 14 := rfl
  refine ⟨⟨(b 9 (by omega)).2, (b 10 (by omega)).2, (b 11 (by omega)).2, (b 6 (by omega)).2,
      (b 7 (by omega)).2, (b 0 (by omega)).2, (b 1 (by omega)).2⟩,
    ⟨(b 9 (by omega)).1, (b 10 (by omega)).1, (b 11 (by omega)).1, (b 6 (by omega)).1,
      (b 7 (by omega)).1, (b 0 (by omega)).1, (b 1 (by omega)).1⟩,
    ⟨n 10 9 (by omega) (by omega) (by omega), n 11 9 (by omega) (by omega) (by omega),
      n 11 10 (by omega) (by omega) (by omega), n 6 9 (by omega) (by omega) (by omega),
      n 6 10 (by omega) (by omega) (by omega), n 6 11 (by omega) (by omega) (by omega),
      n 7 9 (by omega) (by omega) (by omega), n 7 10 (by omega) (by omega) (by omega),
      n 7 11 (by omega) (by omega) (by omega), n 7 6 (by omega) (by omega) (by omega)⟩,
    ⟨n 0 9 (by omega) (by omega) (by omega), n 0 10 (by omega) (by omega) (by omega),
      n 0 11 (by omega) (by omega) (by omega), n 0 6 (by omega) (by omega) (by omega),
      n 0 7 (by omega) (by omega) (by omega), n 1 9 (by omega) (by omega) (by omega),
      n 1 10 (by omega) (by omega) (by omega), n 1 11 (by omega) (by omega) (by omega),
      n 1 6 (by omega) (by omega) (by omega), n 1 7 (by omega) (by omega) (by omega)⟩⟩

/-! ## The dispatch on each kind of tag -/

theorem FlushDispatch_generic (env : Env) (tleb : ThreadLocalEventBuffer) (event i : Nat)
    (g : Globals) (h1 : event ≠ env.ev.RTN_EXIT) (h2 : event ≠ env.ev.RTN_CALL)
    (h3 : event ≠ env.ev.SBLOCK_ENTER) (h4 : event ≠ env.ev.THR_START)
    (h5 : event ≠ env.ev.THR_END) (h6 : event < env.ev.LAST_EVENT) :
    FlushDispatch env tleb event i g = FlushGeneric env tleb event i g := by
  unfold FlushDispatch TLEB_IGNORE_ALL_BEGIN TLEB_IGNORE_ALL_END TLEB_IGNORE_SYNC_BEGIN
    TLEB_IGNORE_SYNC_END TLEB_GLOBAL_IGNORE_ON TLEB_GLOBAL_IGNORE_OFF
  rw [if_neg h1, if_neg h2, if_neg h3, if_neg h4, if_neg h5]
  have skip : ∀ k : Nat, ¬event = env.ev.LAST_EVENT + k := fun k => by omega
  rw [if_neg (skip 1), if_neg (skip 2), if_neg (skip 3), if_neg (skip 4), if_neg (skip 5),
    if_neg (skip 6)]

theorem FlushDispatch_marker (env : Env) (hev : env.ev.Valid) (tleb : ThreadLocalEventBuffer)
    (i : Nat) (g : Globals) :
    FlushDispatch env tleb (TLEB_IGNORE_ALL_BEGIN env.ev) i g = FlushIgnoreAllBegin tleb i g ∧
    FlushDispatch env tleb (TLEB_IGNORE_ALL_END env.ev) i g = FlushIgnoreAllEnd tleb i g ∧
    FlushDispatch env tleb (TLEB_IGNORE_SYNC_BEGIN env.ev) i g = FlushIgnoreSyncBegin tleb i g ∧
    FlushDispatch env tleb (TLEB_IGNORE_SYNC_END env.ev) i g = FlushIgnoreSyncEnd tleb i g := by
  obtain ⟨⟨_, _, _, _, _, _, _⟩, _, _, _⟩ := hev.facts
  unfold FlushDispatch TLEB_IGNORE_ALL_BEGIN TLEB_IGNORE_ALL_END TLEB_IGNORE_SYNC_BEGIN
    TLEB_IGNORE_SYNC_END
  have special : ∀ k : Nat, 0 < k →
      ¬env.ev.LAST_EVENT + k = env.ev.RTN_EXIT ∧ ¬env.ev.LAST_EVENT + k = env.ev.RTN_CALL ∧
      ¬env.ev.LAST_EVENT + k = env.ev.SBLOCK_ENTER ∧
      ¬env.ev.LAST_EVENT + k = env.ev.THR_START ∧ ¬env.ev.LAST_EVENT + k = env.ev.THR_END :=
    fun k hk => ⟨by omega, by omega, by omega, by omega, by omega⟩
  have other : ∀ j k : Nat, j ≠ k → ¬env.ev.LAST_EVENT + j = env.ev.LAST_EVENT + k :=
    fun j k hjk => by omega
  refine ⟨?_, ?_, ?_, ?_⟩
  · obtain ⟨s1, s2, s3, s4, s5⟩ := special 1 (by decide)
    rw [if_neg s1, if_neg s2, if_neg s3, if_neg s4, if_neg s5, if_pos rfl]
  · obtain ⟨s1, s2, s3, s4, s5⟩ := special 2 (by decide)
    rw [if_neg s1, if_neg s2, if_neg s3, if_neg s4, if_neg s5,
      if_neg (other 2 1 (by decide)), if_pos rfl]
  · obtain ⟨s1, s2, s3, s4, s5⟩ := special 3 (by decide)
    rw [if_neg s1, if_neg s2, if_neg s3, if_neg s4, if_neg s5,
      if_neg (other 3 1 (by decide)), if_neg (other 3 2 (by decide)), if_pos rfl]
  · obtain ⟨s1, s2, s3, s4, s5⟩ := special 4 (by decide)
    rw [if_neg s1, if_neg s2, if_neg s3, if_neg s4, if_neg s5,
      if_neg (other 4 1 (by decide)), if_neg (other 4 2 (by decide)),
      if_neg (other 4 3 (by decide)), if_pos rfl]

theorem FlushDispatch_special (env : Env) (hev : env.ev.Valid) (tleb : ThreadLocalEventBuffer)
    (i : Nat) (g : Globals) :
    FlushDispatch env tleb env.ev.RTN_EXIT i g = FlushRtnExit env tleb i g ∧
    FlushDispatch env tleb env.ev.RTN_CALL i g = FlushRtnCall env tleb i g ∧
    FlushDispatch env tleb env.ev.SBLOCK_ENTER i g = FlushTrace env tleb i g ∧
    FlushDispatch env tleb env.ev.THR_START i g = FlushThrStart env tleb i g ∧
    FlushDispatch env tleb env.ev.THR_END i g = FlushThrEnd env tleb i g := by
  obtain ⟨_, _, ⟨n1, n2, n3, n4, n5, n6, n7, n8, n9, n10⟩, _⟩ := hev.facts
  unfold FlushDispatch
  refine ⟨?_, ?_, ?_, ?_, ?_⟩
  · rw [if_pos rfl]
  · rw [if_neg n1, if_pos rfl]
  · rw [if_neg n2, if_neg n3, if_pos rfl]
  · rw [if_neg n4, if_neg n5, if_neg n6, if_pos rfl]
  · rw [if_neg n7, if_neg n8, if_neg n9, if_neg n10, if_pos rfl]

/-- The decoder step on a tag that passes the race verifier `DCHECK`
(ts_pin.cc:362). -/
theorem TLEBFlushStep_eq (env : Env) (tleb : ThreadLocalEventBuffer) (i event : Nat)
    (g : Globals) (hload : tleb.load i = some event)
    (hrv : env.DEBUG_MODE = false ∨ g.g_race_verifier_active = false) :
    TLEBFlushStep env tleb i g = FlushDispatch env tleb event (i + 1) g := by
  unfold TLEBFlushStep
  rw [hload]
  simp only
  rw [if_neg]
  rcases hrv with h | h <;> simp [h]

/-! ## The ignore filter for memory accesses -/

theorem FlushGeneric_ignored (env : Env) (tleb : ThreadLocalEventBuffer) (event i : Nat)
    (g : Globals)
    (hign : g.global_ignore = true ∨ 0 < (g.g_pin_threads tleb.t).ignore_all_mops)
    (hrw : event = env.ev.READ ∨ event = env.ev.WRITE) :
    (FlushGeneric env tleb event i g).globals = g ∧
    (env.ev.NOOP < event → event < env.ev.LAST_EVENT → i + 2 < kThreadLocalEventBufferSize →
      FlushGeneric env tleb event i g = .ok (i + 3) g) := by
  have hc : (g.g_pin_threads tleb.t).ignore_all_mops ≠ 0 ∨ g.global_ignore = true := by
    rcases hign with h | h
    · exact Or.inr h
    · exact Or.inl (by omega)
  unfold FlushGeneric
  simp only
  constructor
  · split
    · rfl
    · split
      · split
        · rfl
        · rw [if_pos ⟨hc, hrw⟩]
          rfl
      · rfl
  · intro h1 h2 h3
    rw [if_neg (by simp [h1, h2])]
    simp only [ThreadLocalEventBuffer.load]
    rw [if_pos (by omega), if_pos (by omega), if_pos (by omega)]
    simp only
    split
    · rfl
    · rw [if_pos ⟨hc, hrw⟩]

theorem FlushTraceBody_index (env : Env) (tleb : ThreadLocalEventBuffer) (d : Bool)
    (p : Nat) (info : TraceInfo) (i : Nat) (g : Globals) (i1 : Nat) (g1 : Globals)
    (h : FlushTraceBody env tleb d p info i g = .ok i1 g1) : i1 = i + info.n_mops := by
  unfold FlushTraceBody at h
  simp only at h
  by_cases hd : d = true
  · rw [if_pos hd] at h
    by_cases hdump : (env.DEBUG_MODE && !env.dump_events_empty) = true
    · rw [if_pos hdump] at h
      generalize DumpTraceMops env tleb _ _ info.mops 0 _ = r at h
      cases r with
      | ok a g2 => simp only [Res.bind, Res.ok.injEq] at h; exact h.1.symm
      | abort e g2 => simp [Res.bind] at h
    · rw [if_neg hdump] at h
      by_cases hb : i + info.n_mops ≤ kThreadLocalEventBufferSize
      · rw [if_pos hb] at h
        cases h; rfl
      · rw [if_neg hb] at h
        cases h
  · rw [if_neg hd] at h
    cases h; rfl

theorem FlushTrace_index (env : Env) (tleb : ThreadLocalEventBuffer) (i : Nat) (g : Globals)
    (p : Nat) (info : TraceInfo) (hp : tleb.load i = some p)
    (hinfo : env.traceInfoAt p = some info) (i1 : Nat) (g1 : Globals)
    (h : FlushTrace env tleb i g = .ok i1 g1) : i1 = i + 1 + info.n_mops := by
  unfold FlushTrace at h
  simp only [hp] at h
  split at h
  · cases h
  · split at h
    · cases h
    · simp only [hinfo] at h
      exact FlushTraceBody_index _ _ _ _ _ _ _ _ _ h

theorem FlushTrace_ignored (env : Env) (tleb : ThreadLocalEventBuffer) (i : Nat) (g : Globals)
    (hign : g.global_ignore = true ∨ 0 < (g.g_pin_threads tleb.t).ignore_all_mops) :
    (FlushTrace env tleb i g).globals = g ∧
    ∀ p info, tleb.load i = some p → p ≠ 0 → env.traceInfoAt p = some info →
      (env.literace_sampling = 0 ∨
        (env.traceInfoAt (g.g_pin_threads tleb.t).trace_info).isSome = true) →
      FlushTrace env tleb i g = .ok (i + 1 + info.n_mops) g := by
  have hc : ((g.g_pin_threads tleb.t).ignore_all_mops ≠ 0 || g.global_ignore) = true := by
    rcases hign with h | h
    · simp [h]
    · have : (g.g_pin_threads tleb.t).ignore_all_mops ≠ 0 := by omega
      simp [this]
  unfold FlushTrace
  simp only [hc, if_true]
  constructor
  · repeat' split
    all_goals rfl
  · intro p info hp hnz hinfo hs
    have hsome : ∃ b, (if env.literace_sampling = 0 then some true
        else Option.map (fun cur => !env.LiteRaceSkipTrace (g.g_pin_threads tleb.t).uniq_tid
          cur.id env.literace_sampling)
          (env.traceInfoAt (g.g_pin_threads tleb.t).trace_info)) = some b := by
      rcases hs with h | h
      · exact ⟨true, by rw [if_pos h]⟩
      · split
        · exact ⟨true, rfl⟩
        · obtain ⟨cur, hcur⟩ := Option.isSome_iff_exists.1 h
          rw [hcur]
          exact ⟨_, rfl⟩
    obtain ⟨b, hb⟩ := hsome
    rw [hb]
    simp only [hp, hinfo]
    rw [if_neg (by simp [hnz])]
    unfold FlushTraceBody
    rfl

/-- C3 (ignore filter for memory accesses).  `TLEBFlushUnlocked` decodes a
buffer by iterating `TLEBFlushStep`; the statement is about every iteration, at
every index `i` and in every state `g` in which `global_ignore` is on or the
owning thread's `ignore_all_mops` is positive.
(1) If the record at `i` is a generic `READ` or `WRITE` event, the iteration
changes nothing at all -- no call to the analyzer, no dump line -- and, unless a
debug `DCHECK` of the race verifier stops it, it returns with the index after
the 4-word record.
(2) If the record is an `SBLOCK_ENTER` trace, the iteration changes nothing at
all, and it returns with the index after the `trace_info` word and the `n`
address slots of the trace.
(3) That index is the one the decoder returns in any other state `g2` as well,
in particular when the trace is handled, so the records that follow are
decoded from the same position. -/
theorem C3_ignore_filter (env : Env) (hev : env.ev.Valid) (tleb : ThreadLocalEventBuffer)
    (i : Nat) (g : Globals)
    (hign : g.global_ignore = true ∨ 0 < (g.g_pin_threads tleb.t).ignore_all_mops) :
    (∀ event, tleb.load i = some event → event = env.ev.READ ∨ event = env.ev.WRITE →
      (TLEBFlushStep env tleb i g).globals = g ∧
      (env.DEBUG_MODE = false ∨ g.g_race_verifier_active = false →
        i + 3 < kThreadLocalEventBufferSize → TLEBFlushStep env tleb i g = .ok (i + 4) g)) ∧
    (tleb.load i = some env.ev.SBLOCK_ENTER →
      (TLEBFlushStep env tleb i g).globals = g ∧
      ∀ p info, tleb.load (i + 1) = some p → p ≠ 0 → env.traceInfoAt p = some info →
        (env.literace_sampling = 0 ∨
          (env.traceInfoAt (g.g_pin_threads tleb.t).trace_info).isSome = true) →
        TLEBFlushStep env tleb i g = .ok (i + 2 + info.n_mops) g) ∧
    (∀ g2 p info i1 g3, tleb.load i = some env.ev.SBLOCK_ENTER → tleb.load (i + 1) = some p →
      env.traceInfoAt p = some info → TLEBFlushStep env tleb i g2 = .ok i1 g3 →
      i1 = i + 2 + info.n_mops) := by
  obtain ⟨⟨_, _, _, _, _, r1, w1⟩, ⟨_, _, _, _, _, r2, w2⟩, _,
    ⟨a1, a2, a3, a4, a5, b1, b2, b3, b4, b5⟩⟩ := hev.facts
  refine ⟨?_, ?_, ?_⟩
  · intro event hload hrw
    have hd : FlushDispatch env tleb event (i + 1) g = FlushGeneric env tleb event (i + 1) g := by
      rcases hrw with h | h
      · subst h; exact FlushDispatch_generic _ _ _ _ _ a1 a2 a3 a4 a5 r1
      · subst h; exact FlushDispatch_generic _ _ _ _ _ b1 b2 b3 b4 b5 w1
    have hg := FlushGeneric_ignored env tleb event (i + 1) g hign hrw
    constructor
    · unfold TLEBFlushStep
      rw [hload]
      simp only
      split
      · rfl
      · rw [hd]; exact hg.1
    · intro hrv hi
      rw [TLEBFlushStep_eq env tleb i event g hload hrv, hd]
      refine hg.2 ?_ ?_ (by omega)
      · rcases hrw with h | h <;> subst h <;> assumption
      · rcases hrw with h | h <;> subst h <;> assumption
  · intro hload
    have hd := (FlushDispatch_special env hev tleb (i + 1) g).2.2.1
    have hstep : TLEBFlushStep env tleb i g = FlushTrace env tleb (i + 1) g := by
      unfold TLEBFlushStep
      rw [hload]
      simp only
      rw [if_neg (by simp), hd]
    rw [hstep]
    have ht := FlushTrace_ignored env tleb (i + 1) g hign
    refine ⟨ht.1, ?_⟩
    intro p info hp hnz hinfo hs
    rw [ht.2 p info hp hnz hinfo hs, Nat.add_assoc i 1 1]
  · intro g2 p info i1 g3 hload hp hinfo hstep
    have hd := (FlushDispatch_special env hev tleb (i + 1) g2).2.2.1
    have hstep2 : TLEBFlushStep env tleb i g2 = FlushTrace env tleb (i + 1) g2 := by
      unfold TLEBFlushStep
      rw [hload]
      simp only
      rw [if_neg (by simp), hd]
    rw [hstep2] at hstep
    have := FlushTrace_index env tleb (i + 1) g2 p info hp hinfo i1 g3 hstep
    omega

/-- C3 at a concrete input: with `global_ignore` on, the decoder skips a
buffered `READ` event (debug build). -/
theorem C3_ignore_filter_witness :
    sampleEvents.Valid ∧
    ((sampleGlobalsIgnoring [1, 7, 8, 4]).global_ignore = true ∨
      0 < ((sampleGlobalsIgnoring [1, 7, 8, 4]).g_pin_threads 0).ignore_all_mops) ∧
    TLEBFlushStep (sampleEnv true LOCKING_ON_FLUSH) (sampleTleb 0 [1, 7, 8, 4]) 0
      (sampleGlobalsIgnoring [1, 7, 8, 4]) = .ok 4 (sampleGlobalsIgnoring [1, 7, 8, 4]) :=
  ⟨by decide, Or.inl rfl,
   ((C3_ignore_filter (sampleEnv true LOCKING_ON_FLUSH) (by decide)
      (sampleTleb 0 [1, 7, 8, 4]) 0 (sampleGlobalsIgnoring [1, 7, 8, 4]) (Or.inl rfl)).1
      1 (by decide) (Or.inl rfl)).2 (Or.inr rfl) (by decide)⟩

/-- With ignoring off the same buffer is delivered, with ignoring on nothing
is: the filter is the only difference. -/
theorem ignore_filter_sample :
    (TLEBFlushUnlocked (sampleEnv false LOCKING_ON_FLUSH) (sampleTleb 0 [1, 7, 8, 4, 33, 4096, 5, 6])
      (sampleGlobals [])).globals.log
      = [.HandleOneEvent 1 0 7 8 4, .HandleTrace 0 4096 [5, 6]] ∧
    (TLEBFlushUnlocked (sampleEnv false LOCKING_ON_FLUSH) (sampleTleb 0 [1, 7, 8, 4, 33, 4096, 5, 6])
      (sampleGlobalsIgnoring [])).globals.log = [] := by
  decide

/-! ## The ignore depths -/

theorem DumpEventPlainText_threads (env : Env) (type : Nat) (tid : Int) (pc a info : Nat)
    (g : Globals) :
    (DumpEventPlainText env type tid pc a info g).2.g_pin_threads = g.g_pin_threads := by
  unfold DumpEventPlainText
  repeat' split
  all_goals rfl

theorem DumpEventInternal_threads (env : Env) (type : Nat) (tid : Int) (pc a info : Nat)
    (g : Globals) :
    (DumpEventInternal env type tid pc a info g).g_pin_threads = g.g_pin_threads := by
  unfold DumpEventInternal
  simp only
  split
  · exact DumpEventPlainText_threads ..
  · exact DumpEventPlainText_threads ..

theorem DumpTraceMops_threads (env : Env) (tleb : ThreadLocalEventBuffer) (uniq_tid : Int)
    (i : Nat) (mops : List MopInfo) :
    ∀ (j : Nat) (g : Globals),
      (DumpTraceMops env tleb uniq_tid i mops j g).globals.g_pin_threads = g.g_pin_threads := by
  induction mops with
  | nil => intro j g; rfl
  | cons mop rest ih =>
    intro j g
    unfold DumpTraceMops
    split
    · rfl
    · split
      · rfl
      · split
        · rw [ih]; exact DumpEventPlainText_threads ..
        · exact ih _ _

theorem FlushTraceBody_threads (env : Env) (tleb : ThreadLocalEventBuffer) (d : Bool)
    (p : Nat) (info : TraceInfo) (i : Nat) (g : Globals) :
    (FlushTraceBody env tleb d p info i g).globals.g_pin_threads = g.g_pin_threads := by
  unfold FlushTraceBody
  simp only
  by_cases hd : d = true
  · rw [if_pos hd]
    by_cases hdump : (env.DEBUG_MODE && !env.dump_events_empty) = true
    · rw [if_pos hdump]
      have h := DumpTraceMops_threads env tleb (g.g_pin_threads tleb.t).uniq_tid i info.mops 0
        (DumpEventPlainText env env.ev.SBLOCK_ENTER (g.g_pin_threads tleb.t).uniq_tid
          info.pc 0 0 g).2
      rw [DumpEventPlainText_threads] at h
      generalize DumpTraceMops env tleb _ _ info.mops 0 _ = r at h
      cases r with
      | ok a g2 => exact h
      | abort e g2 => exact h
    · rw [if_neg hdump]
      split <;> rfl
  · rw [if_neg hd]
    rfl

theorem FlushTrace_threads (env : Env) (tleb : ThreadLocalEventBuffer) (i : Nat) (g : Globals) :
    (FlushTrace env tleb i g).globals.g_pin_threads = g.g_pin_threads := by
  unfold FlushTrace
  simp only
  repeat' split
  all_goals first
    | rfl
    | exact FlushTraceBody_threads ..

theorem FlushRtnExit_threads (env : Env) (tleb : ThreadLocalEventBuffer) (i : Nat)
    (g : Globals) : (FlushRtnExit env tleb i g).globals.g_pin_threads = g.g_pin_threads := by
  unfold FlushRtnExit
  simp only
  split <;> exact DumpEventPlainText_threads ..

theorem FlushRtnCall_threads (env : Env) (tleb : ThreadLocalEventBuffer) (i : Nat)
    (g : Globals) : (FlushRtnCall env tleb i g).globals.g_pin_threads = g.g_pin_threads := by
  unfold FlushRtnCall
  simp only
  split
  · split <;> exact DumpEventPlainText_threads ..
  · rfl

theorem FlushGeneric_threads (env : Env) (tleb : ThreadLocalEventBuffer) (event i : Nat)
    (g : Globals) :
    (FlushGeneric env tleb event i g).globals.g_pin_threads = g.g_pin_threads := by
  unfold FlushGeneric
  simp only
  repeat' split
  all_goals first
    | rfl
    | exact DumpEventInternal_threads ..

theorem Globals.DepthsNonneg.of_threads {g g1 : Globals} (hd : g.DepthsNonneg)
    (h : g1.g_pin_threads = g.g_pin_threads) : g1.DepthsNonneg := by
  intro j
  rw [h]
  exact hd j

theorem Globals.DepthsNonneg.after_setThread {g : Globals} (hd : g.DepthsNonneg) (k : Nat)
    (t : PinThread) (h1 : 0 ≤ t.ignore_all_mops) (h2 : 0 ≤ t.ignore_lock_events) :
    (g.setThread k t).DepthsNonneg := by
  intro j
  simp only [Globals.setThread_threads]
  split
  · exact ⟨h1, h2⟩
  · exact hd j

theorem FlushThrEnd_depths (env : Env) (tleb : ThreadLocalEventBuffer) (i : Nat)
    (g : Globals) (hd : g.DepthsNonneg) : (FlushThrEnd env tleb i g).globals.DepthsNonneg := by
  have h0 : (DumpEventInternal env env.ev.THR_END (g.g_pin_threads tleb.t).uniq_tid 0 0 0
      g).DepthsNonneg := hd.of_threads (DumpEventInternal_threads ..)
  unfold FlushThrEnd
  simp only
  repeat' split
  all_goals first
    | exact h0
    | exact h0.after_setThread _ _ (h0 _).1 (h0 _).2

/-- Whatever record an iteration of the decoder handles, if it returns, both
ignore depths of every thread are still non-negative. -/
theorem FlushDispatch_depths (env : Env) (tleb : ThreadLocalEventBuffer) (event i : Nat)
    (g : Globals) (hd : g.DepthsNonneg) :
    ∀ i1 g1, FlushDispatch env tleb event i g = .ok i1 g1 → g1.DepthsNonneg := by
  have key : ∀ r : Res Nat, r.globals.DepthsNonneg → ∀ i1 g1, r = .ok i1 g1 → g1.DepthsNonneg := by
    intro r hr i1 g1 h
    subst h
    exact hr
  refine FlushDispatch_cases env tleb event i g
    (fun r => ∀ i1 g1, r = .ok i1 g1 → g1.DepthsNonneg) ?_ ?_ ?_ ?_ ?_ ?_ ?_ ?_ ?_ ?_ ?_ ?_
  · exact key _ (hd.of_threads (FlushRtnExit_threads ..))
  · exact key _ (hd.of_threads (FlushRtnCall_threads ..))
  · exact key _ (hd.of_threads (FlushTrace_threads ..))
  · exact key _ (hd.of_threads (DumpEventInternal_threads ..))
  · exact key _ (FlushThrEnd_depths _ _ _ _ hd)
  · refine key _ (hd.after_setThread _ _ ?_ ?_)
    · have := (hd tleb.t).1
      simp only
      omega
    · exact (hd tleb.t).2
  · intro i1 g1 h
    unfold FlushIgnoreAllEnd at h
    simp only at h
    split at h
    · rename_i hc
      cases h
      refine hd.after_setThread _ _ ?_ ?_
      · simpa using hc
      · exact (hd tleb.t).2
    · cases h
  · refine key _ (hd.after_setThread _ _ ?_ ?_)
    · exact (hd tleb.t).1
    · have := (hd tleb.t).2
      simp only
      omega
  · intro i1 g1 h
    unfold FlushIgnoreSyncEnd at h
    simp only at h
    split at h
    · rename_i hc
      cases h
      refine hd.after_setThread _ _ ?_ ?_
      · exact (hd tleb.t).1
      · simpa using hc
    · cases h
  · exact key _ (hd.of_threads rfl)
  · exact key _ (hd.of_threads rfl)
  · exact key _ (hd.of_threads (FlushGeneric_threads ..))

theorem TLEBFlushStep_depths (env : Env) (tleb : ThreadLocalEventBuffer) (i : Nat)
    (g : Globals) (hd : g.DepthsNonneg) :
    ∀ i1 g1, TLEBFlushStep env tleb i g = .ok i1 g1 → g1.DepthsNonneg := by
  intro i1 g1 h
  unfold TLEBFlushStep at h
  split at h
  · cases h
  · split at h
    · cases h
    · exact FlushDispatch_depths _ _ _ _ _ hd _ _ h

theorem TLEBFlushLoop_depths (env : Env) (tleb : ThreadLocalEventBuffer) (fuel : Nat) :
    ∀ (i : Nat) (g : Globals), g.DepthsNonneg →
      ∀ i1 g1, TLEBFlushLoop env tleb fuel i g = .ok i1 g1 → g1.DepthsNonneg := by
  induction fuel with
  | zero =>
    intro i g hd i1 g1 h
    unfold TLEBFlushLoop at h
    split at h
    · cases h
    · cases h; exact hd
  | succ n ih =>
    intro i g hd i1 g1 h
    unfold TLEBFlushLoop at h
    split at h
    · split at h
      · rename_i heq
        exact ih _ _ (TLEBFlushStep_depths _ _ _ _ hd _ _ heq) _ _ h
      · cases h
    · cases h; exact hd

theorem TLEBFlushUnlocked_depths (env : Env) (tleb : ThreadLocalEventBuffer) (g : Globals)
    (hd : g.DepthsNonneg) :
    ∀ tleb1 g1, TLEBFlushUnlocked env tleb g = .ok tleb1 g1 → g1.DepthsNonneg := by
  intro tleb1 g1 h
  unfold TLEBFlushUnlocked at h
  simp only at h
  have hl := TLEBFlushLoop_depths env tleb tleb.size 0 g hd
  repeat' split at h
  all_goals first
    | (cases h; done)
    | (cases h; exact hd)
    | (rename_i heq _ _; cases h; exact hl _ _ heq)

/-- C4 (ignore depths are never negative).  `TLEBFlushUnlocked` decodes a buffer
by iterating `TLEBFlushStep`; in every state in which both depths of every
thread are non-negative (in particular from depths `(0, 0)`), and with the race
verifier off or in a release build:
* a `TLEB_IGNORE_ALL_BEGIN` (`TLEB_IGNORE_SYNC_BEGIN`) marker increments
  `ignore_all_mops` (`ignore_lock_events`) of the owning thread by exactly one
  and changes nothing else;
* a `TLEB_IGNORE_ALL_END` (`TLEB_IGNORE_SYNC_END`) marker that arrives while
  its depth is positive decrements it by exactly one and changes nothing else;
* an `END` marker that arrives while its depth is `0` aborts with the `CHECK`
  failure of line 420 (425) instead of continuing;
* whatever the record, when the iteration returns both depths of every thread
  are still non-negative, and so they are when `TLEBFlushUnlocked` returns. -/
theorem C4_ignore_depths_nonnegative (env : Env) (hev : env.ev.Valid)
    (tleb : ThreadLocalEventBuffer) (i : Nat) (g : Globals)
    (hrv : env.DEBUG_MODE = false ∨ g.g_race_verifier_active = false)
    (hd : g.DepthsNonneg) :
    (tleb.load i = some (TLEB_IGNORE_ALL_BEGIN env.ev) →
      TLEBFlushStep env tleb i g = .ok (i + 1) (g.setThread tleb.t
        { g.g_pin_threads tleb.t with
          ignore_all_mops := (g.g_pin_threads tleb.t).ignore_all_mops + 1 })) ∧
    (tleb.load i = some (TLEB_IGNORE_SYNC_BEGIN env.ev) →
      TLEBFlushStep env tleb i g = .ok (i + 1) (g.setThread tleb.t
        { g.g_pin_threads tleb.t with
          ignore_lock_events := (g.g_pin_threads tleb.t).ignore_lock_events + 1 })) ∧
    (tleb.load i = some (TLEB_IGNORE_ALL_END env.ev) →
      0 < (g.g_pin_threads tleb.t).ignore_all_mops →
      TLEBFlushStep env tleb i g = .ok (i + 1) (g.setThread tleb.t
        { g.g_pin_threads tleb.t with
          ignore_all_mops := (g.g_pin_threads tleb.t).ignore_all_mops - 1 })) ∧
    (tleb.load i = some (TLEB_IGNORE_SYNC_END env.ev) →
      0 < (g.g_pin_threads tleb.t).ignore_lock_events →
      TLEBFlushStep env tleb i g = .ok (i + 1) (g.setThread tleb.t
        { g.g_pin_threads tleb.t with
          ignore_lock_events := (g.g_pin_threads tleb.t).ignore_lock_events - 1 })) ∧
    (tleb.load i = some (TLEB_IGNORE_ALL_END env.ev) →
      (g.g_pin_threads tleb.t).ignore_all_mops = 0 →
      (TLEBFlushStep env tleb i g).abortedWith = some (.CHECK 420)) ∧
    (tleb.load i = some (TLEB_IGNORE_SYNC_END env.ev) →
      (g.g_pin_threads tleb.t).ignore_lock_events = 0 →
      (TLEBFlushStep env tleb i g).abortedWith = some (.CHECK 425)) ∧
    (∀ i1 g1, TLEBFlushStep env tleb i g = .ok i1 g1 → g1.DepthsNonneg) ∧
    (∀ tleb1 g1, TLEBFlushUnlocked env tleb g = .ok tleb1 g1 → g1.DepthsNonneg) := by
  obtain ⟨m1, m2, m3, m4⟩ := FlushDispatch_marker env hev tleb (i + 1) g
  refine ⟨?_, ?_, ?_, ?_, ?_, ?_, TLEBFlushStep_depths _ _ _ _ hd,
    TLEBFlushUnlocked_depths _ _ _ hd⟩
  · intro hload
    rw [TLEBFlushStep_eq env tleb i _ g hload hrv, m1]
    rfl
  · intro hload
    rw [TLEBFlushStep_eq env tleb i _ g hload hrv, m3]
    rfl
  · intro hload hpos
    rw [TLEBFlushStep_eq env tleb i _ g hload hrv, m2]
    unfold FlushIgnoreAllEnd
    simp only [Globals.setThread_self]
    rw [if_pos (by omega)]
  · intro hload hpos
    rw [TLEBFlushStep_eq env tleb i _ g hload hrv, m4]
    unfold FlushIgnoreSyncEnd
    simp only [Globals.setThread_self]
    rw [if_pos (by omega)]
  · intro hload hz
    rw [TLEBFlushStep_eq env tleb i _ g hload hrv, m2]
    unfold FlushIgnoreAllEnd
    simp only [Globals.setThread_self]
    rw [if_neg (by omega)]
    rfl
  · intro hload hz
    rw [TLEBFlushStep_eq env tleb i _ g hload hrv, m4]
    unfold FlushIgnoreSyncEnd
    simp only [Globals.setThread_self]
    rw [if_neg (by omega)]
    rfl

/-- C4 at a concrete input: from depths `(0, 0)` an `IGNORE_ALL_END` marker
(word 52) aborts with the `CHECK` of line 420. -/
theorem C4_ignore_depths_nonnegative_witness :
    sampleEvents.Valid ∧ (sampleGlobals [52]).DepthsNonneg ∧
    (TLEBFlushStep (sampleEnv false LOCKING_ON_FLUSH) (sampleTleb 0 [52]) 0
      (sampleGlobals [52])).abortedWith = some (.CHECK 420) :=
  ⟨by decide, fun _ => ⟨Int.le_refl 0, Int.le_refl 0⟩,
   (C4_ignore_depths_nonnegative (sampleEnv false LOCKING_ON_FLUSH) (by decide)
      (sampleTleb 0 [52]) 0 (sampleGlobals [52]) (Or.inl rfl)
      (fun _ => ⟨Int.le_refl 0, Int.le_refl 0⟩)).2.2.2.2.1 (by decide) rfl⟩

/-- A run over a buffer of markers: `ALL_BEGIN, SYNC_BEGIN, ALL_BEGIN, ALL_END`
leaves the depths `(1, 1)`; one more `SYNC_END, SYNC_END` aborts at line 425
after the first of the two has been processed. -/
theorem ignore_depths_sample :
    ((TLEBFlushUnlocked (sampleEnv true LOCKING_ON_FLUSH) (sampleTleb 0 [51, 53, 51, 52])
      (sampleGlobals [])).globals.g_pin_threads 0).ignore_all_mops = 1 ∧
    ((TLEBFlushUnlocked (sampleEnv true LOCKING_ON_FLUSH) (sampleTleb 0 [51, 53, 51, 52])
      (sampleGlobals [])).globals.g_pin_threads 0).ignore_lock_events = 1 ∧
    (TLEBFlushUnlocked (sampleEnv true LOCKING_ON_FLUSH) (sampleTleb 0 [51, 53, 51, 52])
      (sampleGlobals [])).isOk = true ∧
    (TLEBFlushUnlocked (sampleEnv true LOCKING_ON_FLUSH)
      (sampleTleb 0 [51, 53, 51, 52, 54, 54]) (sampleGlobals [])).abortedWith
      = some (.CHECK 425) := by
  decide

/-! ## Flushing a dead thread, and `THR_END` -/

/-- C5, counterexample.  In a release build (`DEBUG_MODE` off, so that `DCHECK`
does nothing) `TLEBFlushUnlocked` on a thread whose `thread_done` flag is set
does not abort: with one buffered `RTN_EXIT` (word 32) it returns and hands the
event to the analyzer, and with an empty buffer it returns as well. -/
theorem C5_dead_thread_flush_counterexample :
    ((sampleGlobalsFlags true true []).g_pin_threads 0).thread_done = true ∧
    (TLEBFlushUnlocked (sampleEnv false LOCKING_ON_FLUSH) (sampleTleb 0 [32])
      (sampleGlobalsFlags true true [])).isOk = true ∧
    (TLEBFlushUnlocked (sampleEnv false LOCKING_ON_FLUSH) (sampleTleb 0 [32])
      (sampleGlobalsFlags true true [])).globals.analyzed = [.HandleRtnExit 0] ∧
    (TLEBFlushUnlocked (sampleEnv false LOCKING_ON_FLUSH) (sampleTleb 0 [])
      (sampleGlobalsFlags true true [])).isOk = true := by
  decide

/-- In a debug build a flush on a thread whose `thread_done` flag is set
aborts at one of the first three `DCHECK`s and hands nothing to the analyzer. -/
theorem TLEBFlushUnlocked_dead_debug (env : Env) (tleb : ThreadLocalEventBuffer) (g : Globals)
    (hdbg : env.DEBUG_MODE = true) (hdone : (g.g_pin_threads tleb.t).thread_done = true) :
    ((TLEBFlushUnlocked env tleb g).abortedWith = some (.DCHECK 338) ∨
      (TLEBFlushUnlocked env tleb g).abortedWith = some (.DCHECK 339) ∨
      (TLEBFlushUnlocked env tleb g).abortedWith = some (.DCHECK 343)) ∧
    (TLEBFlushUnlocked env tleb g).globals.analyzed = g.analyzed := by
  unfold TLEBFlushUnlocked
  simp only [hdbg, hdone, Bool.true_and, Bool.and_self, if_true]
  split
  · exact ⟨Or.inl rfl, rfl⟩
  · split
    · exact ⟨Or.inr (Or.inl rfl), rfl⟩
    · refine ⟨Or.inr (Or.inr rfl), ?_⟩
      simp [Res.globals, Globals.analyzed, Effect.isAnalyzerCall]

/-- C5, amended.  In a debug build (`DEBUG_MODE`, where `DCHECK` is `CHECK`), for
every thread whose `thread_done` flag is true and every buffer content,
including an empty buffer, `TLEBFlushUnlocked` aborts -- at the `DCHECK` of line
343, or already at one of the two `DCHECK`s before it -- and delivers no event
to the analyzer. -/
theorem C5_dead_thread_flush_debug (env : Env) (tleb : ThreadLocalEventBuffer) (g : Globals)
    (hdbg : env.DEBUG_MODE = true) (hdone : (g.g_pin_threads tleb.t).thread_done = true) :
    ((TLEBFlushUnlocked env tleb g).abortedWith = some (.DCHECK 338) ∨
      (TLEBFlushUnlocked env tleb g).abortedWith = some (.DCHECK 339) ∨
      (TLEBFlushUnlocked env tleb g).abortedWith = some (.DCHECK 343)) ∧
    (TLEBFlushUnlocked env tleb g).globals.analyzed = g.analyzed :=
  TLEBFlushUnlocked_dead_debug env tleb g hdbg hdone

/-- C5 (amended) at a concrete input: debug build, dead thread, one buffered
`RTN_EXIT`. -/
theorem C5_dead_thread_flush_debug_witness :
    (sampleEnv true LOCKING_ON_FLUSH).DEBUG_MODE = true ∧
    ((sampleGlobalsFlags true true []).g_pin_threads (sampleTleb 0 [32]).t).thread_done = true ∧
    (TLEBFlushUnlocked (sampleEnv true LOCKING_ON_FLUSH) (sampleTleb 0 [32])
      (sampleGlobalsFlags true true [])).globals.analyzed
      = (sampleGlobalsFlags true true []).analyzed :=
  ⟨rfl, rfl,
   (C5_dead_thread_flush_debug (sampleEnv true LOCKING_ON_FLUSH) (sampleTleb 0 [32])
      (sampleGlobalsFlags true true []) rfl rfl).2⟩

theorem DumpEventInternal_online (env : Env) (type : Nat) (tid : Int) (pc a info : Nat)
    (g : Globals)
    (h : env.DEBUG_MODE = false ∨ env.MSC_VER = true ∨ env.dump_events_empty = true) :
    DumpEventInternal env type tid pc a info g = g.emit (.HandleOneEvent type tid pc a info) := by
  unfold DumpEventInternal DumpEventPlainText
  rcases h with h | h | h
  · simp [h]
  · simp [h]
  · by_cases h1 : (!env.DEBUG_MODE || env.MSC_VER) = true
    · simp [h1]
    · simp [h1, h]

theorem TLEBStore_eq (ti v : Nat) (g : Globals)
    (h : (g.g_pin_threads ti).tleb.size < kThreadLocalEventBufferSize) :
    TLEBStore ti v g = .ok () (g.setTleb ti
      { (g.g_pin_threads ti).tleb with
        events := fun j => if j = (g.g_pin_threads ti).tleb.size then v
          else (g.g_pin_threads ti).tleb.events j
        size := (g.g_pin_threads ti).tleb.size + 1 }) := by
  unfold TLEBStore
  simp only
  rw [if_pos h]

/-- The record stored by `TLEBAddGenericEvent` is the last record of the
buffer: its four words are the last four words. -/
theorem TLEBAddGenericEvent_last (env : Env) (ti type pc a info : Nat) (g g1 : Globals)
    (h : TLEBAddGenericEvent env ti type pc a info g = .ok () g1) :
    4 ≤ (g1.g_pin_threads ti).tleb.size ∧
    (g1.g_pin_threads ti).tleb.events ((g1.g_pin_threads ti).tleb.size - 4) = type ∧
    (g1.g_pin_threads ti).tleb.events ((g1.g_pin_threads ti).tleb.size - 3) = pc ∧
    (g1.g_pin_threads ti).tleb.events ((g1.g_pin_threads ti).tleb.size - 2) = a ∧
    (g1.g_pin_threads ti).tleb.events ((g1.g_pin_threads ti).tleb.size - 1) = info := by
  unfold TLEBAddGenericEvent at h
  have hroom := flushIf_room env ti 4 g (by decide)
  generalize (if (g.g_pin_threads ti).tleb.size + 4 > kThreadLocalEventBufferSize then
      TLEBFlushLocked env ti g else Res.ok () g) = r at h hroom
  cases r with
  | abort e g2 => simp [Res.bind] at h
  | ok u g2 =>
    have hs := hroom.2 u g2 rfl
    simp only [Res.bind] at h
    generalize hd : DCHECK env 552 _ g2 = r2 at h
    cases r2 with
    | abort e g3 => cases h
    | ok u2 g3 =>
      have hg := DCHECK_globals _ _ _ _ _ _ hd
      subst hg
      simp only at h
      rw [TLEBStore_eq ti type g3 (by omega)] at h
      simp only at h
      rw [TLEBStore_eq ti pc _ (by simp; omega)] at h
      simp only at h
      rw [TLEBStore_eq ti a _ (by simp; omega)] at h
      simp only at h
      rw [TLEBStore_eq ti info _ (by simp; omega)] at h
      cases h
      simp only [Globals.setTleb_tleb]
      refine ⟨by omega, ?_, ?_, ?_, ?_⟩
      · rw [if_neg (by omega), if_neg (by omega), if_neg (by omega), if_pos (by omega)]
      · rw [if_neg (by omega), if_neg (by omega), if_pos (by omega)]
      · rw [if_neg (by omega), if_pos (by omega)]
      · rw [if_pos (by omega)]

/-- C6, counterexample.  In a release build the decoder does not require a
`THR_END` record to end the buffer: with the words `THR_END, 0, 0, 0, RTN_EXIT`
buffered it delivers `THR_END` and then still delivers the `RTN_EXIT` of the
same thread; nor does it require `thread_finished`. -/
theorem C6_thr_end_counterexample :
    (TLEBFlushUnlocked (sampleEnv false LOCKING_ON_FLUSH) (sampleTleb 0 [24, 0, 0, 0, 32])
      (sampleGlobalsFlags true false [])).isOk = true ∧
    (TLEBFlushUnlocked (sampleEnv false LOCKING_ON_FLUSH) (sampleTleb 0 [24, 0, 0, 0, 32])
      (sampleGlobalsFlags true false [])).globals.analyzed
      = [.HandleOneEvent 24 0 0 0 0, .HandleRtnExit 0] ∧
    (TLEBFlushUnlocked (sampleEnv false LOCKING_ON_FLUSH) (sampleTleb 0 [24, 0, 0, 0])
      (sampleGlobalsFlags false false [])).isOk = true := by
  decide

/-- C6, amended.  Whenever the decoder meets a `THR_END` tag at index `i` (race
verifier off, or release build):
(1) if the iteration returns, it returns the index `i + 4` (the tag and exactly
    3 payload words are consumed), `THR_END` has been passed on with the
    thread's `uniq_tid` and `pc = a = info = 0`, and `thread_done` is true;
(2) when the plain-text dump is off, the event goes to the analyzer, as the
    last action of the iteration, in every outcome;
(3) in a release build the iteration always returns;
(4) in a debug build it returns exactly when `thread_finished` was true,
    `thread_done` was false and the record ends the buffer (`i + 4 = tleb.size`),
    and it aborts at a `DCHECK` otherwise;
(5) in a debug build, after such an iteration every later flush of a buffer of
    that thread aborts without handing anything to the analyzer;
(6) on the producer side `TLEBAddGenericEvent` stores the record of a
    `THR_END` event as the last four words of the buffer, which
    `TLEBAddGenericEventAndFlush` flushes at once. -/
theorem C6_thr_end_last_event (env : Env) (hev : env.ev.Valid)
    (tleb : ThreadLocalEventBuffer) (i : Nat) (g : Globals)
    (hload : tleb.load i = some env.ev.THR_END)
    (hrv : env.DEBUG_MODE = false ∨ g.g_race_verifier_active = false) :
    (∀ i1 g1, TLEBFlushStep env tleb i g = .ok i1 g1 →
      i1 = i + 4 ∧
      g1 = (DumpEventInternal env env.ev.THR_END (g.g_pin_threads tleb.t).uniq_tid 0 0 0
        g).setThread tleb.t { g.g_pin_threads tleb.t with thread_done := true } ∧
      (g1.g_pin_threads tleb.t).thread_done = true) ∧
    (env.DEBUG_MODE = false ∨ env.MSC_VER = true ∨ env.dump_events_empty = true →
      (TLEBFlushStep env tleb i g).globals.log
        = g.log ++ [.HandleOneEvent env.ev.THR_END (g.g_pin_threads tleb.t).uniq_tid 0 0 0]) ∧
    (env.DEBUG_MODE = false → (TLEBFlushStep env tleb i g).isOk = true) ∧
    (env.DEBUG_MODE = true →
      ((TLEBFlushStep env tleb i g).isOk = true ↔
        (g.g_pin_threads tleb.t).thread_finished = true ∧
        (g.g_pin_threads tleb.t).thread_done = false ∧ i + 4 = tleb.size)) ∧
    (env.DEBUG_MODE = true → ∀ i1 g1 tleb2, TLEBFlushStep env tleb i g = .ok i1 g1 →
      tleb2.t = tleb.t →
      (TLEBFlushUnlocked env tleb2 g1).isOk = false ∧
      (TLEBFlushUnlocked env tleb2 g1).globals.analyzed = g1.analyzed) ∧
    (∀ ti pc a info g0 g1, TLEBAddGenericEvent env ti env.ev.THR_END pc a info g0 = .ok () g1 →
      4 ≤ (g1.g_pin_threads ti).tleb.size ∧
      (g1.g_pin_threads ti).tleb.events ((g1.g_pin_threads ti).tleb.size - 4)
        = env.ev.THR_END) := by
  have hstep : TLEBFlushStep env tleb i g = FlushThrEnd env tleb (i + 1) g := by
    rw [TLEBFlushStep_eq env tleb i _ g hload hrv,
      (FlushDispatch_special env hev tleb (i + 1) g).2.2.2.2]
  have hthreads := DumpEventInternal_threads env env.ev.THR_END
    (g.g_pin_threads tleb.t).uniq_tid 0 0 0 g
  have h1 : ∀ i1 g1, TLEBFlushStep env tleb i g = .ok i1 g1 →
      i1 = i + 4 ∧
      g1 = (DumpEventInternal env env.ev.THR_END (g.g_pin_threads tleb.t).uniq_tid 0 0 0
        g).setThread tleb.t { g.g_pin_threads tleb.t with thread_done := true } ∧
      (g1.g_pin_threads tleb.t).thread_done = true := by
    intro i1 g1 h
    rw [hstep] at h
    unfold FlushThrEnd at h
    simp only [hthreads] at h
    split at h
    · cases h
    · split at h
      · cases h
      · split at h
        · cases h
        · cases h
          exact ⟨rfl, rfl, by simp⟩
  refine ⟨h1, ?_, ?_, ?_, ?_, ?_⟩
  · intro honline
    rw [hstep]
    unfold FlushThrEnd
    simp only [DumpEventInternal_online env _ _ _ _ _ g honline]
    repeat' split
    all_goals rfl
  · intro hrel
    rw [hstep]
    unfold FlushThrEnd
    simp [hrel, Res.isOk]
  · intro hdbg
    rw [hstep]
    unfold FlushThrEnd
    simp only [hdbg, Bool.true_and]
    cases hf : (g.g_pin_threads tleb.t).thread_finished <;>
      cases hd : (g.g_pin_threads tleb.t).thread_done <;>
      by_cases hi : i + 1 + 3 = tleb.size <;>
      simp [Res.isOk, hi]
  · intro hdbg i1 g1 tleb2 h ht
    obtain ⟨_, _, hdone⟩ := h1 i1 g1 h
    rw [← ht] at hdone
    have := TLEBFlushUnlocked_dead_debug env tleb2 g1 hdbg hdone
    refine ⟨?_, this.2⟩
    generalize TLEBFlushUnlocked env tleb2 g1 = r at this
    cases r with
    | ok a g2 => simp [Res.abortedWith] at this
    | abort e g2 => rfl
  · intro ti pc a info g0 g1 h
    have := TLEBAddGenericEvent_last env ti _ pc a info g0 g1 h
    exact ⟨this.1, this.2.1⟩

/-- C6 (amended) at a concrete input: a debug build decoding the buffer
`THR_END, 0, 0, 0` of a finished thread. -/
theorem C6_thr_end_last_event_witness :
    sampleEvents.Valid ∧
    (sampleTleb 0 [24, 0, 0, 0]).load 0 = some (sampleEnv true LOCKING_ON_FLUSH).ev.THR_END ∧
    ((sampleEnv true LOCKING_ON_FLUSH).DEBUG_MODE = false ∨
      (sampleGlobalsFlags true false []).g_race_verifier_active = false) ∧
    (TLEBFlushStep (sampleEnv true LOCKING_ON_FLUSH) (sampleTleb 0 [24, 0, 0, 0]) 0
      (sampleGlobalsFlags true false [])).globals.log = [.HandleOneEvent 24 0 0 0 0] :=
  ⟨by decide, by decide, Or.inr rfl,
   (C6_thr_end_last_event (sampleEnv true LOCKING_ON_FLUSH) (by decide)
      (sampleTleb 0 [24, 0, 0, 0]) 0 (sampleGlobalsFlags true false []) (by decide)
      (Or.inr rfl)).2.1 (Or.inr (Or.inr rfl))⟩

/-! ## The `LOCKING_ON_SYSCALL` scheme -/

theorem AcquireSyscallLock_eq (env : Env) (tid : Nat) (g : Globals)
    (hs : env.locking_scheme = LOCKING_ON_SYSCALL) :
    AcquireSyscallLock env tid g = .ok ()
      (if (g.g_pin_threads tid).holding_lock then g
       else (g.emit .Lock).setThread tid { g.g_pin_threads tid with holding_lock := true }) := by
  unfold AcquireSyscallLock
  rw [if_neg (by simp [hs])]
  cases h : (g.g_pin_threads tid).holding_lock <;> simp [h]

theorem syscallFlushEntry_eq (ti : Nat) (g : Globals) :
    (fun g1 : Globals => g1.setThread ti
      { g1.g_pin_threads ti with
        n_consumed_events := (g1.g_pin_threads ti).n_consumed_events
          + ((g1.g_pin_threads ti).tleb.size : Int) })
      (if (g.g_pin_threads ti).holding_lock then g
       else (g.emit .Lock).setThread ti { g.g_pin_threads ti with holding_lock := true })
    = syscallFlushEntry ti g := by
  unfold syscallFlushEntry
  simp only
  cases h : (g.g_pin_threads ti).holding_lock
  · simp only [Bool.false_eq_true, if_false, Globals.setThread_self]
    simp only [Globals.setThread, Globals.emit]
    congr 1
    funext j
    split <;> simp_all
  · simp only [if_true]
    congr 2

theorem TLEBFlushLocked_syscall_eq (env : Env) (ti : Nat) (g : Globals)
    (hs : env.locking_scheme = LOCKING_ON_SYSCALL) (hdry : env.dry_run = 0)
    (hsize : (g.g_pin_threads ti).tleb.size ≤ kThreadLocalEventBufferSize)
    (htid : (g.g_pin_threads ti).tid = ti) :
    TLEBFlushLocked env ti g =
      match TLEBFlushUnlocked env (g.g_pin_threads ti).tleb (syscallFlushEntry ti g) with
      | .abort e g3 => .abort e g3
      | .ok tleb1 g3 =>
        if (g.g_pin_threads ti).n_consumed_events + ((g.g_pin_threads ti).tleb.size : Int)
            > 2 ^ 18 then
          .ok () (ReleaseSyscallLock env ti (g3.setTleb ti tleb1))
        else .ok () (g3.setTleb ti tleb1) := by
  have hentry := syscallFlushEntry_eq ti g
  simp only at hentry
  have htleb : ((syscallFlushEntry ti g).g_pin_threads ti).tleb = (g.g_pin_threads ti).tleb := by
    simp [syscallFlushEntry]
  have hcons : ((syscallFlushEntry ti g).g_pin_threads ti).n_consumed_events
      = (g.g_pin_threads ti).n_consumed_events + ((g.g_pin_threads ti).tleb.size : Int) := by
    simp [syscallFlushEntry]
  have htid2 : ((syscallFlushEntry ti g).g_pin_threads ti).tid = ti := by
    simp [syscallFlushEntry, htid]
  unfold TLEBFlushLocked
  simp only
  rw [if_neg (by simp [hdry]), if_neg (by simp [hsize]),
    if_neg (by rw [hs]; decide), if_neg (by rw [hs]; decide), if_pos hs, htid,
    AcquireSyscallLock_eq env ti g hs]
  simp only
  rw [hentry, htleb]
  have hf := TLEBFlushUnlocked_frame env (g.g_pin_threads ti).tleb (syscallFlushEntry ti g)
  generalize TLEBFlushUnlocked env (g.g_pin_threads ti).tleb (syscallFlushEntry ti g) = r at hf
  cases r with
  | abort e g3 => rfl
  | ok tleb1 g3 =>
    simp only [Res.globals] at hf
    have h1 : ((g3.setTleb ti tleb1).g_pin_threads ti).n_consumed_events
        = (g.g_pin_threads ti).n_consumed_events + ((g.g_pin_threads ti).tleb.size : Int) := by
      simp [Globals.setTleb, hf.consumed, hcons]
    have h2 : ((g3.setTleb ti tleb1).g_pin_threads ti).tid = ti := by
      simp [Globals.setTleb, hf.tid, htid2]
    simp only [h1, h2]

theorem ReleaseSyscallLock_eq (env : Env) (tid : Nat) (g : Globals)
    (hs : env.locking_scheme = LOCKING_ON_SYSCALL) :
    ReleaseSyscallLock env tid g =
      if (g.g_pin_threads tid).holding_lock then
        (g.setThread tid
          { g.g_pin_threads tid with holding_lock := false, n_consumed_events := 0 }).emit .Unlock
      else g := by
  unfold ReleaseSyscallLock
  rw [if_neg (by simp [hs])]

/-- C7, counterexample.  Under `LOCKING_ON_SYSCALL`, a thread that holds the lock
and has consumed `2^18 - 1` words flushes a buffer of one word: the count
reaches the bound `2^18 = 262144`, yet the thread still holds the lock, the
counter is not reset and no `Unlock` happens.  The lock is released only when
the count exceeds the bound. -/
theorem C7_on_syscall_counterexample :
    (TLEBFlushLocked (sampleEnv false LOCKING_ON_SYSCALL) 0
      (sampleGlobalsConsumed (2 ^ 18 - 1) true [32])).isOk = true ∧
    ((TLEBFlushLocked (sampleEnv false LOCKING_ON_SYSCALL) 0
      (sampleGlobalsConsumed (2 ^ 18 - 1) true [32])).globals.g_pin_threads 0).n_consumed_events
      = 2 ^ 18 ∧
    ((TLEBFlushLocked (sampleEnv false LOCKING_ON_SYSCALL) 0
      (sampleGlobalsConsumed (2 ^ 18 - 1) true [32])).globals.g_pin_threads 0).holding_lock
      = true ∧
    (TLEBFlushLocked (sampleEnv false LOCKING_ON_SYSCALL) 0
      (sampleGlobalsConsumed (2 ^ 18 - 1) true [32])).globals.log = [.HandleRtnExit 0] := by
  decide

/-- C7, amended.  Under `LOCKING_ON_SYSCALL` (no dry run), for a thread `ti` with
`tid = ti` and at most 2046 buffered words, writing `n1` for
`n_consumed_events + tleb.size`:
* `TLEBFlushLocked` returns exactly when the decoder, entered with the lock
  taken and the count updated, returns;
* when it returns, the thread still holds the lock iff `n1 <= 2^18`; the counter
  is `n1` in that case and has been reset to `0` otherwise; and the log has grown
  by one `Lock` exactly if the thread did not hold the lock before, then by
  actions of the decoder, none of them on the lock, then by one `Unlock` exactly
  if `n1 > 2^18`;
* `ReleaseSyscallLock` leaves `holding_lock = false` and unlocks exactly when
  the thread held the lock;
* under any other locking scheme `ReleaseSyscallLock` does nothing. -/
theorem C7_on_syscall_lock (env : Env) (ti : Nat) (g : Globals)
    (hs : env.locking_scheme = LOCKING_ON_SYSCALL) (hdry : env.dry_run = 0)
    (hsize : (g.g_pin_threads ti).tleb.size ≤ kThreadLocalEventBufferSize)
    (htid : (g.g_pin_threads ti).tid = ti) :
    ((TLEBFlushLocked env ti g).isOk
      = (TLEBFlushUnlocked env (g.g_pin_threads ti).tleb (syscallFlushEntry ti g)).isOk) ∧
    (∀ g1, TLEBFlushLocked env ti g = .ok () g1 →
      ((g1.g_pin_threads ti).holding_lock = true ↔
        (g.g_pin_threads ti).n_consumed_events + ((g.g_pin_threads ti).tleb.size : Int)
          ≤ 2 ^ 18) ∧
      (g1.g_pin_threads ti).n_consumed_events =
        (if (g.g_pin_threads ti).n_consumed_events + ((g.g_pin_threads ti).tleb.size : Int)
            ≤ 2 ^ 18
         then (g.g_pin_threads ti).n_consumed_events + ((g.g_pin_threads ti).tleb.size : Int)
         else 0) ∧
      ∃ l, (∀ e ∈ l, e.isLockOp = false) ∧
        g1.log = g.log ++ (if (g.g_pin_threads ti).holding_lock then [] else [.Lock]) ++ l ++
          (if (g.g_pin_threads ti).n_consumed_events + ((g.g_pin_threads ti).tleb.size : Int)
              ≤ 2 ^ 18 then [] else [.Unlock])) ∧
    ((ReleaseSyscallLock env ti g).g_pin_threads ti).holding_lock = false ∧
    (ReleaseSyscallLock env ti g).log
      = g.log ++ (if (g.g_pin_threads ti).holding_lock then [.Unlock] else []) ∧
    (∀ env2 tid, env2.locking_scheme ≠ LOCKING_ON_SYSCALL →
      ReleaseSyscallLock env2 tid g = g) := by
  have heq := TLEBFlushLocked_syscall_eq env ti g hs hdry hsize htid
  have hf := TLEBFlushUnlocked_frame env (g.g_pin_threads ti).tleb (syscallFlushEntry ti g)
  have hlog0 : (syscallFlushEntry ti g).log
      = g.log ++ (if (g.g_pin_threads ti).holding_lock then [] else [.Lock]) := by
    unfold syscallFlushEntry
    cases h : (g.g_pin_threads ti).holding_lock <;> simp [h]
  have hhold0 : ((syscallFlushEntry ti g).g_pin_threads ti).holding_lock = true := by
    simp [syscallFlushEntry]
  have hcons0 : ((syscallFlushEntry ti g).g_pin_threads ti).n_consumed_events
      = (g.g_pin_threads ti).n_consumed_events + ((g.g_pin_threads ti).tleb.size : Int) := by
    simp [syscallFlushEntry]
  refine ⟨?_, ?_, ?_, ?_, ?_⟩
  · rw [heq]
    generalize TLEBFlushUnlocked env (g.g_pin_threads ti).tleb (syscallFlushEntry ti g) = r
    cases r with
    | abort e g3 => rfl
    | ok tleb1 g3 =>
      simp only
      split <;> rfl
  · intro g1 h1
    rw [heq] at h1
    generalize TLEBFlushUnlocked env (g.g_pin_threads ti).tleb (syscallFlushEntry ti g) = r
      at hf h1
    cases r with
    | abort e g3 => cases h1
    | ok tleb1 g3 =>
      simp only [Res.globals] at hf
      obtain ⟨l, hl, hnl⟩ := hf.log
      have hh : (g3.g_pin_threads ti).holding_lock = true := by rw [hf.holding, hhold0]
      have hc := (hf.consumed ti).trans hcons0
      simp only at h1
      have h18 : (2 : Int) ^ 18 = 262144 := by norm_num
      rw [h18] at h1 ⊢
      by_cases hn : (g.g_pin_threads ti).n_consumed_events
          + ((g.g_pin_threads ti).tleb.size : Int) > 262144
      · rw [if_pos hn, ReleaseSyscallLock_eq _ _ _ hs] at h1
        have hh2 : ((g3.setTleb ti tleb1).g_pin_threads ti).holding_lock = true := by
          simp [Globals.setTleb, hh]
        rw [hh2, if_pos rfl] at h1
        cases h1
        have hle : ¬ (g.g_pin_threads ti).n_consumed_events
            + ((g.g_pin_threads ti).tleb.size : Int) ≤ 262144 := by omega
        refine ⟨?_, ?_, l, hnl, ?_⟩
        · simp [hle]
        · simp [hle]
        · simp [hle, hl, hlog0]
      · rw [if_neg hn] at h1
        cases h1
        have hle : (g.g_pin_threads ti).n_consumed_events
            + ((g.g_pin_threads ti).tleb.size : Int) ≤ 262144 := by omega
        refine ⟨?_, ?_, l, hnl, ?_⟩
        · simp [Globals.setTleb, hh, hle]
        · simp [Globals.setTleb, hc, hle]
        · simp [hle, hl, hlog0]
  · rw [ReleaseSyscallLock_eq _ _ _ hs]
    cases h : (g.g_pin_threads ti).holding_lock <;> simp [h]
  · rw [ReleaseSyscallLock_eq _ _ _ hs]
    cases h : (g.g_pin_threads ti).holding_lock <;> simp [h]
  · intro env2 tid h2
    unfold ReleaseSyscallLock
    rw [if_pos h2]

/-- C7 (amended) at a concrete input: a thread that does not hold the lock and
has consumed `2^18` words flushes one word; the lock is taken, the count
exceeds the bound, and the lock is released again. -/
theorem C7_on_syscall_lock_witness :
    (sampleEnv false LOCKING_ON_SYSCALL).locking_scheme = LOCKING_ON_SYSCALL ∧
    (sampleEnv false LOCKING_ON_SYSCALL).dry_run = 0 ∧
    ((sampleGlobalsConsumed (2 ^ 18) false [32]).g_pin_threads 0).tleb.size
      ≤ kThreadLocalEventBufferSize ∧
    ((sampleGlobalsConsumed (2 ^ 18) false [32]).g_pin_threads 0).tid = 0 ∧
    (ReleaseSyscallLock (sampleEnv false LOCKING_ON_SYSCALL) 0
      (sampleGlobalsConsumed (2 ^ 18) false [32])).log = [] ∧
    (TLEBFlushLocked (sampleEnv false LOCKING_ON_SYSCALL) 0
      (sampleGlobalsConsumed (2 ^ 18) false [32])).globals.log
      = [.Lock, .HandleRtnExit 0, .Unlock] :=
  ⟨rfl, rfl, by decide, rfl,
   (C7_on_syscall_lock (sampleEnv false LOCKING_ON_SYSCALL) 0
      (sampleGlobalsConsumed (2 ^ 18) false [32]) rfl rfl (by decide) rfl).2.2.2.1,
   by decide⟩

/-! ## The `LOCKING_SEPARATE_THREAD` scheme -/

theorem TLEBFlushLocked_separate_eq (env : Env) (ti : Nat) (g : Globals)
    (queue : List ThreadLocalEventBuffer)
    (hs : env.locking_scheme = LOCKING_SEPARATE_THREAD) (hdry : env.dry_run = 0)
    (hq : g.g_tleb_queue = some queue)
    (hsize : (g.g_pin_threads ti).tleb.size ≤ kThreadLocalEventBufferSize) :
    TLEBFlushLocked env ti g = .ok ()
      (({ g.emit .Lock with
          g_tleb_queue := some (queue ++ [CopyTleb env ti (g.g_pin_threads ti).tleb]) }.emit
        .Unlock).setTleb ti { (g.g_pin_threads ti).tleb with size := 0 }) := by
  unfold TLEBFlushLocked
  simp only
  rw [if_neg (by simp [hdry]), if_neg (by simp [hsize]), if_pos hs, hq]

theorem ConsumeTLEBQueue_append (env : Env) (q1 q2 : List ThreadLocalEventBuffer) :
    ∀ g, ConsumeTLEBQueue env (q1 ++ q2) g
      = (ConsumeTLEBQueue env q1 g).bind fun _ g1 => ConsumeTLEBQueue env q2 g1 := by
  induction q1 with
  | nil => intro g; rfl
  | cons b rest ih =>
    intro g
    simp only [List.cons_append, ConsumeTLEBQueue]
    cases TLEBFlushUnlocked env b g with
    | ok a g1 => exact ih g1
    | abort e g1 => rfl

theorem ConsumeTLEBQueue_frame (env : Env) (q : List ThreadLocalEventBuffer) :
    ∀ g, FlushFrame g (ConsumeTLEBQueue env q g).globals := by
  induction q with
  | nil => intro g; exact FlushFrame.refl g
  | cons b rest ih =>
    intro g
    have h := TLEBFlushUnlocked_frame env b g
    simp only [ConsumeTLEBQueue]
    generalize TLEBFlushUnlocked env b g = r at h
    cases r with
    | ok a g1 => exact h.trans (ih g1)
    | abort e g1 => exact h

/-- C9, counterexample.  With the flag `dry_run` set, `TLEBFlushLocked` under
`LOCKING_SEPARATE_THREAD` empties the producer's buffer and returns at once:
nothing is appended to `g_tleb_queue`. -/
theorem C9_separate_thread_counterexample :
    (TLEBFlushLocked { sampleEnv false LOCKING_SEPARATE_THREAD with dry_run := 1 } 0
      (sampleGlobals [32])).isOk = true ∧
    ((TLEBFlushLocked { sampleEnv false LOCKING_SEPARATE_THREAD with dry_run := 1 } 0
      (sampleGlobals [32])).globals.g_tleb_queue.map List.length) = some 0 ∧
    ((TLEBFlushLocked { sampleEnv false LOCKING_SEPARATE_THREAD with dry_run := 1 } 0
      (sampleGlobals [32])).globals.g_pin_threads 0).tleb.size = 0 := by
  decide

/-- C9, amended.  When the flag `dry_run` is off and the queue has been
allocated, for every thread buffer with size `s <= 2046`, `TLEBFlushLocked` in
`LOCKING_SEPARATE_THREAD` mode returns, having appended to the end of
`g_tleb_queue` a new buffer whose size is `s`, whose `events[0..s)` equal the
producer's `events[0..s)` and whose owner is the producing thread; it analyzes
nothing itself (the log grows by `Lock, Unlock` only), leaves the producer's
buffer with size 0 and the same words, and leaves every other thread as it was.
`ConsumeTLEBQueue` flushes the buffers of a queue from first to last, that is
in the order in which they were enqueued: consuming `q1 ++ q2` is consuming
`q1` and then `q2`, and consuming one buffer is `TLEBFlushUnlocked` on it. -/
theorem C9_separate_thread_faithful_copy (env : Env) (ti : Nat) (g : Globals)
    (queue : List ThreadLocalEventBuffer)
    (hs : env.locking_scheme = LOCKING_SEPARATE_THREAD) (hdry : env.dry_run = 0)
    (hq : g.g_tleb_queue = some queue)
    (hsize : (g.g_pin_threads ti).tleb.size ≤ kThreadLocalEventBufferSize) :
    (∃ g1 copy, TLEBFlushLocked env ti g = .ok () g1 ∧
      g1.g_tleb_queue = some (queue ++ [copy]) ∧
      copy.size = (g.g_pin_threads ti).tleb.size ∧
      copy.t = ti ∧
      (∀ j, j < copy.size → copy.events j = (g.g_pin_threads ti).tleb.events j) ∧
      g1.log = g.log ++ [.Lock, .Unlock] ∧
      g1.analyzed = g.analyzed ∧
      (g1.g_pin_threads ti).tleb.size = 0 ∧
      (g1.g_pin_threads ti).tleb.events = (g.g_pin_threads ti).tleb.events ∧
      (∀ j, j ≠ ti → g1.g_pin_threads j = g.g_pin_threads j)) ∧
    (∀ q1 q2 g0, ConsumeTLEBQueue env (q1 ++ q2) g0
      = (ConsumeTLEBQueue env q1 g0).bind fun _ g1 => ConsumeTLEBQueue env q2 g1) ∧
    (∀ b g0, ConsumeTLEBQueue env [b] g0
      = (TLEBFlushUnlocked env b g0).bind fun _ g1 => .ok () g1) := by
  refine ⟨⟨_, _, TLEBFlushLocked_separate_eq env ti g queue hs hdry hq hsize, rfl, rfl, rfl,
    ?_, ?_, ?_, ?_, ?_, ?_⟩, ConsumeTLEBQueue_append env, ?_⟩
  · intro j hj
    simp only [CopyTleb] at hj
    simp only [CopyTleb, if_pos hj]
  · simp [Globals.setTleb, Globals.emit, Globals.setThread]
  · simp [Globals.analyzed, Globals.setTleb, Globals.emit, Globals.setThread,
      Effect.isAnalyzerCall]
  · simp
  · simp
  · intro j hj
    simp [Globals.setTleb, Globals.emit, Globals.setThread, hj]
  · intro b g0
    simp only [ConsumeTLEBQueue]
    cases TLEBFlushUnlocked env b g0 <;> rfl

/-- C9 (amended) at a concrete input: thread 0 flushes the three words
`RTN_EXIT, RTN_EXIT, RTN_EXIT` into an empty queue. -/
theorem C9_separate_thread_faithful_copy_witness :
    (sampleEnv false LOCKING_SEPARATE_THREAD).locking_scheme = LOCKING_SEPARATE_THREAD ∧
    (sampleEnv false LOCKING_SEPARATE_THREAD).dry_run = 0 ∧
    (sampleGlobals [32, 32, 32]).g_tleb_queue = some [] ∧
    ((sampleGlobals [32, 32, 32]).g_pin_threads 0).tleb.size ≤ kThreadLocalEventBufferSize ∧
    (∃ g1 copy, TLEBFlushLocked (sampleEnv false LOCKING_SEPARATE_THREAD) 0
        (sampleGlobals [32, 32, 32]) = .ok () g1 ∧
      g1.g_tleb_queue = some ([] ++ [copy]) ∧ copy.size = 3 ∧ copy.t = 0) := by
  obtain ⟨g1, copy, h1, h2, h3, h4, _⟩ :=
    (C9_separate_thread_faithful_copy (sampleEnv false LOCKING_SEPARATE_THREAD) 0
      (sampleGlobals [32, 32, 32]) [] rfl rfl rfl (by decide)).1
  exact ⟨rfl, rfl, rfl, by decide, g1, copy, h1, h2, h3, h4⟩

/-- C8, counterexample.  Under `LOCKING_SEPARATE_THREAD` a producer flushes its
buffer while 101 buffers are queued, more than the soft bound of 100: the
flush only appends, so that 102 buffers are queued afterwards, and nothing is
analyzed. -/
theorem C8_soft_bound_counterexample :
    (TLEBFlushLocked (sampleEnv false LOCKING_SEPARATE_THREAD) 0
      (sampleGlobalsQueue 101 [32])).isOk = true ∧
    ((TLEBFlushLocked (sampleEnv false LOCKING_SEPARATE_THREAD) 0
      (sampleGlobalsQueue 101 [32])).globals.g_tleb_queue.map List.length) = some 102 ∧
    (TLEBFlushLocked (sampleEnv false LOCKING_SEPARATE_THREAD) 0
      (sampleGlobalsQueue 101 [32])).globals.log = [.Lock, .Unlock] := by
  decide

/-- C8, amended.  Under `LOCKING_SEPARATE_THREAD` (no dry run, queue allocated) a
producer's flush never drains the queue: whatever the length `n` of the queue,
`TLEBFlushLocked` returns with `n + 1` buffers queued and has analyzed nothing.
The soft bound of 100 belongs to the consumer: in one iteration of
`ThreadSanitizerThread` that finds `n >= 100` buffers queued, the consumer
flushes them all while it holds the global lock (everything it does lies
between its `Lock` and its `Unlock` and is no action on the lock), and leaves
the queue empty; the iteration returns exactly when `ConsumeTLEBQueue` does. -/
theorem C8_soft_bound_consumer (env : Env) (ti : Nat) (g : Globals)
    (queue : List ThreadLocalEventBuffer)
    (hs : env.locking_scheme = LOCKING_SEPARATE_THREAD) (hdry : env.dry_run = 0)
    (hq : g.g_tleb_queue = some queue) :
    ((g.g_pin_threads ti).tleb.size ≤ kThreadLocalEventBufferSize →
      ∃ g1, TLEBFlushLocked env ti g = .ok () g1 ∧
        g1.g_tleb_queue.map List.length = some (queue.length + 1) ∧
        g1.log = g.log ++ [.Lock, .Unlock]) ∧
    (100 ≤ queue.length → ∀ exiting,
      (ThreadSanitizerThreadStep env exiting g).isOk
        = (ConsumeTLEBQueue env queue (g.emit .Lock)).isOk ∧
      ∀ b g1, ThreadSanitizerThreadStep env exiting g = .ok b g1 →
        b = false ∧ g1.g_tleb_queue = some [] ∧
        ∃ l, (∀ e ∈ l, e.isLockOp = false) ∧ g1.log = g.log ++ [.Lock] ++ l ++ [.Unlock]) := by
  constructor
  · intro hsize
    refine ⟨_, TLEBFlushLocked_separate_eq env ti g queue hs hdry hq hsize, ?_, ?_⟩
    · simp [Globals.setTleb, Globals.emit, Globals.setThread]
    · simp [Globals.setTleb, Globals.emit, Globals.setThread]
  · intro hn exiting
    have hf := ConsumeTLEBQueue_frame env queue (g.emit .Lock)
    have hstep : ThreadSanitizerThreadStep env exiting g
        = (ConsumeTLEBQueue env queue (g.emit .Lock)).bind fun _ g2 =>
          .ok false ({ g2 with g_tleb_queue := some [] }.emit .Unlock) := by
      unfold ThreadSanitizerThreadStep
      have : (g.emit .Lock).g_tleb_queue = some queue := hq
      simp only [this]
      rw [if_neg (by omega)]
    rw [hstep]
    generalize ConsumeTLEBQueue env queue (g.emit .Lock) = r at hf
    cases r with
    | abort e g2 =>
      refine ⟨rfl, ?_⟩
      intro b g1 h
      cases h
    | ok u g2 =>
      refine ⟨rfl, ?_⟩
      intro b g1 h
      simp only [Res.bind, Res.ok.injEq] at h
      obtain ⟨hb, hg⟩ := h
      subst hb hg
      obtain ⟨l, hl, hnl⟩ := hf.log
      simp only [Res.globals] at hl
      exact ⟨rfl, rfl, l, hnl, by simp [Globals.emit, hl]⟩

/-- C8 (amended) at a concrete input: a producer flush with 101 buffers
queued. -/
theorem C8_soft_bound_consumer_witness :
    (sampleEnv false LOCKING_SEPARATE_THREAD).locking_scheme = LOCKING_SEPARATE_THREAD ∧
    (sampleEnv false LOCKING_SEPARATE_THREAD).dry_run = 0 ∧
    (sampleGlobalsQueue 101 [32]).g_tleb_queue = some (List.replicate 101 (sampleTleb 1 [32])) ∧
    ((sampleGlobalsQueue 101 [32]).g_pin_threads 0).tleb.size ≤ kThreadLocalEventBufferSize ∧
    (∃ g1, TLEBFlushLocked (sampleEnv false LOCKING_SEPARATE_THREAD) 0
        (sampleGlobalsQueue 101 [32]) = .ok () g1 ∧
      g1.g_tleb_queue.map List.length
        = some ((List.replicate 101 (sampleTleb 1 [32])).length + 1) ∧
      g1.log = (sampleGlobalsQueue 101 [32]).log ++ [.Lock, .Unlock]) :=
  ⟨rfl, rfl, rfl, by decide,
   (C8_soft_bound_consumer (sampleEnv false LOCKING_SEPARATE_THREAD) 0
      (sampleGlobalsQueue 101 [32]) (List.replicate 101 (sampleTleb 1 [32])) rfl rfl rfl).1
      (by decide)⟩

set_option maxRecDepth 100000 in
/-- The consumer on a concrete queue of 100 buffers, each holding one
`RTN_EXIT` of thread 1: all 100 are analyzed between `Lock` and `Unlock`. -/
theorem consumer_sample :
    (ThreadSanitizerThreadStep (sampleEnv false LOCKING_SEPARATE_THREAD) false
      (sampleGlobalsQueue 100 [])).globals.log
      = [.Lock] ++ List.replicate 100 (.HandleRtnExit 1) ++ [.Unlock] ∧
    (ThreadSanitizerThreadStep (sampleEnv false LOCKING_SEPARATE_THREAD) false
      (sampleGlobalsQueue 100 [])).globals.g_tleb_queue.map List.length = some 0 ∧
    (ThreadSanitizerThreadStep (sampleEnv false LOCKING_SEPARATE_THREAD) false
      (sampleGlobalsQueue 2 [])).globals.log
      = [.Lock, .Unlock, .HandleRtnExit 1, .HandleRtnExit 1] := by
  decide

/-! ## Finalization -/

theorem OthersKept.others_refl (ti : Nat) (g : Globals) : OthersKept ti g g :=
  ⟨fun _ _ => rfl, rfl⟩

theorem OthersKept.others_trans {ti : Nat} {a b c : Globals} (h1 : OthersKept ti a b)
    (h2 : OthersKept ti b c) : OthersKept ti a c :=
  ⟨fun j hj => (h2.tleb j hj).trans (h1.tleb j hj), h2.queue.trans h1.queue⟩

theorem OthersKept.of_frame {ti : Nat} {g g1 : Globals} (h : FlushFrame g g1) :
    OthersKept ti g g1 :=
  ⟨fun j _ => h.tleb j, h.queue⟩

theorem OthersKept.of_setTleb (ti : Nat) (g : Globals) (b : ThreadLocalEventBuffer) :
    OthersKept ti g (g.setTleb ti b) :=
  ⟨fun j hj => by simp [Globals.setTleb, hj], rfl⟩

theorem OthersKept.of_emit (ti : Nat) (g : Globals) (e : Effect) : OthersKept ti g (g.emit e) :=
  ⟨fun _ _ => rfl, rfl⟩

theorem OthersKept.others_bind {α β : Type} {ti : Nat} {g : Globals} (r : Res α)
    (f : α → Globals → Res β) (h1 : OthersKept ti g r.globals)
    (h2 : ∀ a g1, OthersKept ti g1 (f a g1).globals) : OthersKept ti g (r.bind f).globals := by
  cases r with
  | ok a g1 => exact h1.others_trans (h2 a g1)
  | abort e g1 => exact h1

theorem AcquireSyscallLock_others (env : Env) (ti tid : Nat) (g : Globals) :
    OthersKept ti g (AcquireSyscallLock env tid g).globals := by
  unfold AcquireSyscallLock
  simp only
  repeat' split
  all_goals first
    | exact OthersKept.others_refl ti g
    | (refine ⟨fun j _ => ?_, rfl⟩
       simp only [Res.globals, Globals.setThread_threads, Globals.emit_threads]
       split
       · subst_vars; rfl
       · rfl)

theorem ReleaseSyscallLock_others (env : Env) (ti tid : Nat) (g : Globals) :
    OthersKept ti g (ReleaseSyscallLock env tid g) := by
  refine ⟨fun j _ => ReleaseSyscallLock_tleb env tid g j, ?_⟩
  unfold ReleaseSyscallLock
  simp only
  repeat' split
  all_goals rfl

theorem TLEBFlushLocked_others (env : Env) (ti : Nat) (g : Globals)
    (hs : env.locking_scheme ≠ LOCKING_SEPARATE_THREAD) :
    OthersKept ti g (TLEBFlushLocked env ti g).globals := by
  unfold TLEBFlushLocked
  simp only
  split
  · exact OthersKept.of_setTleb ..
  · split
    · exact OthersKept.others_refl ..
    · split
      · have h := TLEBFlushUnlocked_frame env (g.g_pin_threads ti).tleb (g.emit .Lock)
        generalize TLEBFlushUnlocked env (g.g_pin_threads ti).tleb (g.emit .Lock) = r at h
        cases r with
        | abort e g1 => exact (OthersKept.of_emit ti g _).others_trans (OthersKept.of_frame h)
        | ok b g1 =>
          exact ((OthersKept.of_emit ti g _).others_trans (OthersKept.of_frame h)).others_trans
            ((OthersKept.of_setTleb ti g1 b).others_trans (OthersKept.of_emit ..))
      · split
        · have ha := AcquireSyscallLock_others env ti (g.g_pin_threads ti).tid g
          generalize AcquireSyscallLock env (g.g_pin_threads ti).tid g = ra at ha
          cases ra with
          | abort e g1 => exact ha
          | ok u g1 =>
            simp only
            have h2 : OthersKept ti g1 (g1.setThread ti
                { g1.g_pin_threads ti with
                  n_consumed_events := (g1.g_pin_threads ti).n_consumed_events
                    + ((g1.g_pin_threads ti).tleb.size : Int) }) :=
              ⟨fun j hj => by simp [hj], rfl⟩
            generalize g1.setThread ti _ = g2 at h2
            have h := TLEBFlushUnlocked_frame env (g2.g_pin_threads ti).tleb g2
            generalize TLEBFlushUnlocked env (g2.g_pin_threads ti).tleb g2 = r at h
            cases r with
            | abort e g3 => exact (ha.others_trans h2).others_trans (OthersKept.of_frame h)
            | ok b g3 =>
              have h4 := ((ha.others_trans h2).others_trans (OthersKept.of_frame h)).others_trans
                (OthersKept.of_setTleb ti g3 b)
              simp only
              split
              · exact h4.others_trans (ReleaseSyscallLock_others ..)
              · exact h4
        · exact OthersKept.others_refl ..

theorem TLEBStore_others (ti v : Nat) (g : Globals) :
    OthersKept ti g (TLEBStore ti v g).globals := by
  unfold TLEBStore
  simp only
  split
  · exact OthersKept.of_setTleb ..
  · exact OthersKept.others_refl ..

theorem DCHECK_others (env : Env) (line : Nat) (c : Bool) (ti : Nat) (g : Globals) :
    OthersKept ti g (DCHECK env line c g).globals := by
  unfold DCHECK
  split <;> exact OthersKept.others_refl ..

theorem TLEBAddGenericEventAndFlush_others (env : Env) (ti type pc a info : Nat) (g : Globals)
    (hs : env.locking_scheme ≠ LOCKING_SEPARATE_THREAD) :
    OthersKept ti g (TLEBAddGenericEventAndFlush env ti type pc a info g).globals := by
  unfold TLEBAddGenericEventAndFlush TLEBAddGenericEvent
  refine OthersKept.others_bind _ _ ?_ fun _ g1 => ?_
  · refine OthersKept.others_bind _ _ ?_ fun _ g1 => ?_
    · split
      · exact TLEBFlushLocked_others env ti g hs
      · exact OthersKept.others_refl ..
    · refine OthersKept.others_bind _ _ (DCHECK_others ..) fun _ g2 => ?_
      refine OthersKept.others_bind _ _ (TLEBStore_others ..) fun _ g3 => ?_
      refine OthersKept.others_bind _ _ (TLEBStore_others ..) fun _ g4 => ?_
      refine OthersKept.others_bind _ _ (TLEBStore_others ..) fun _ g5 => ?_
      exact TLEBStore_others ..
  · refine OthersKept.others_bind _ _ (TLEBFlushLocked_others env ti g1 hs) fun _ g2 => ?_
    exact DCHECK_others ..

theorem TLEBAddGenericEventAndFlush_size (env : Env) (ti type pc a info : Nat) (g g1 : Globals)
    (h : TLEBAddGenericEventAndFlush env ti type pc a info g = .ok () g1) :
    (g1.g_pin_threads ti).tleb.size = 0 := by
  unfold TLEBAddGenericEventAndFlush at h
  generalize TLEBAddGenericEvent env ti type pc a info g = r at h
  cases r with
  | abort e g2 => cases h
  | ok u g2 =>
    simp only [Res.bind] at h
    have hf := TLEBFlushLocked_room env ti g2
    generalize TLEBFlushLocked env ti g2 = r2 at h hf
    cases r2 with
    | abort e g3 => cases h
    | ok u2 g3 =>
      simp only at h
      have := DCHECK_globals _ _ _ _ _ _ h
      rw [this]
      exact hf.2 u2 g3 rfl

theorem CallbackForFiniTail_spec (env : Env) (found_errors : Int) (g : Globals) :
    ∃ l, (CallbackForFiniTail env found_errors g).log = g.log ++ .ThreadSanitizerFini :: l ∧
      (∀ e ∈ l, e.isAnalyzerCall = false) ∧
      (CallbackForFiniTail env found_errors g).g_pin_threads = g.g_pin_threads ∧
      (CallbackForFiniTail env found_errors g).g_tleb_queue = g.g_tleb_queue := by
  have step : ∀ (g1 : Globals) (e : Effect), e.isAnalyzerCall = false →
      (∃ l, g1.log = g.log ++ .ThreadSanitizerFini :: l ∧ (∀ e ∈ l, e.isAnalyzerCall = false) ∧
        g1.g_pin_threads = g.g_pin_threads ∧ g1.g_tleb_queue = g.g_tleb_queue) →
      ∃ l, (g1.emit e).log = g.log ++ .ThreadSanitizerFini :: l ∧
        (∀ e ∈ l, e.isAnalyzerCall = false) ∧
        (g1.emit e).g_pin_threads = g.g_pin_threads ∧
        (g1.emit e).g_tleb_queue = g.g_tleb_queue := by
    rintro g1 e he ⟨l, hl, hnl, hth, hq⟩
    refine ⟨l ++ [e], by simp [hl], ?_, hth, hq⟩
    intro x hx
    rcases List.mem_append.1 hx with h | h
    · exact hnl x h
    · simp only [List.mem_singleton] at h
      subst h
      exact he
  have h0 : ∃ l, (g.emit .ThreadSanitizerFini).log = g.log ++ .ThreadSanitizerFini :: l ∧
      (∀ e ∈ l, e.isAnalyzerCall = false) ∧
      (g.emit .ThreadSanitizerFini).g_pin_threads = g.g_pin_threads ∧
      (g.emit .ThreadSanitizerFini).g_tleb_queue = g.g_tleb_queue :=
    ⟨[], rfl, by simp, rfl, rfl⟩
  unfold CallbackForFiniTail
  simp only
  have h1 : ∃ l, (if (g.emit .ThreadSanitizerFini).g_race_verifier_active = true then
        (g.emit .ThreadSanitizerFini).emit .RaceVerifierFini
        else g.emit .ThreadSanitizerFini).log = g.log ++ .ThreadSanitizerFini :: l ∧
      (∀ e ∈ l, e.isAnalyzerCall = false) ∧
      (if (g.emit .ThreadSanitizerFini).g_race_verifier_active = true then
        (g.emit .ThreadSanitizerFini).emit .RaceVerifierFini
        else g.emit .ThreadSanitizerFini).g_pin_threads = g.g_pin_threads ∧
      (if (g.emit .ThreadSanitizerFini).g_race_verifier_active = true then
        (g.emit .ThreadSanitizerFini).emit .RaceVerifierFini
        else g.emit .ThreadSanitizerFini).g_tleb_queue = g.g_tleb_queue := by
    split
    · exact step _ _ rfl h0
    · exact h0
  generalize (if (g.emit .ThreadSanitizerFini).g_race_verifier_active = true then
        (g.emit .ThreadSanitizerFini).emit .RaceVerifierFini
        else g.emit .ThreadSanitizerFini) = g2 at h1
  have h2 : ∃ l, (if env.show_stats = true then g2.emit .PrintTraceProfile else g2).log
        = g.log ++ .ThreadSanitizerFini :: l ∧
      (∀ e ∈ l, e.isAnalyzerCall = false) ∧
      (if env.show_stats = true then g2.emit .PrintTraceProfile else g2).g_pin_threads
        = g.g_pin_threads ∧
      (if env.show_stats = true then g2.emit .PrintTraceProfile else g2).g_tleb_queue
        = g.g_tleb_queue := by
    split
    · exact step _ _ rfl h1
    · exact h1
  generalize (if env.show_stats = true then g2.emit .PrintTraceProfile else g2) = g3 at h2
  split
  · exact step _ _ rfl h2
  · exact h2

/-- C10, counterexample.  `CallbackForFini` with an `RTN_EXIT` still buffered by
thread 1 (`LOCKING_ON_FLUSH`): only `THR_END` of thread 0 is analyzed before
`ThreadSanitizerFini`, and the buffer of thread 1 still holds its word
afterwards.  Under `LOCKING_SEPARATE_THREAD` nothing at all is flushed or
consumed before `ThreadSanitizerFini`: the buffered word of thread 0 and the
queued buffer stay where they are. -/
theorem C10_fini_counterexample :
    (CallbackForFini (sampleEnv false LOCKING_ON_FLUSH) 0 (sampleGlobalsTwo [] [32])).globals.log
      = [.Lock, .HandleOneEvent 24 0 0 0 0, .Unlock, .ThreadSanitizerFini] ∧
    ((CallbackForFini (sampleEnv false LOCKING_ON_FLUSH) 0
      (sampleGlobalsTwo [] [32])).globals.g_pin_threads 1).tleb.size = 1 ∧
    (CallbackForFini (sampleEnv false LOCKING_SEPARATE_THREAD) 0
      (sampleGlobalsQueue 1 [32])).globals.log = [.ThreadSanitizerFini] ∧
    ((CallbackForFini (sampleEnv false LOCKING_SEPARATE_THREAD) 0
      (sampleGlobalsQueue 1 [32])).globals.g_pin_threads 0).tleb.size = 1 ∧
    (CallbackForFini (sampleEnv false LOCKING_SEPARATE_THREAD) 0
      (sampleGlobalsQueue 1 [32])).globals.g_tleb_queue.map List.length = some 1 := by
  decide

/-- C10, amended.  For every state of the buffers and of the queue:
(1) in a locking scheme other than `LOCKING_SEPARATE_THREAD` and with the race
    verifier off, `CallbackForFini` returns exactly when
    `TLEBAddGenericEventAndFlush` of `THR_END` for thread 0 returns; when it
    returns, that call has appended `THR_END` to the buffer of thread 0 and
    flushed it (the buffer of thread 0 is empty), `ThreadSanitizerFini` is
    called after it and no call to the analyzer follows, and the buffer of
    every other thread and the queue are as they were before;
(2) under `LOCKING_SEPARATE_THREAD`, `CallbackForFini` returns without flushing
    or consuming anything: threads, queue and the calls made to the analyzer
    are unchanged, and `ThreadSanitizerFini` is called. -/
theorem C10_fini_flushes_main_thread (env : Env) (found_errors : Int) (g : Globals) :
    (env.locking_scheme ≠ LOCKING_SEPARATE_THREAD → g.g_race_verifier_active = false →
      (CallbackForFini env found_errors g).isOk
        = (TLEBAddGenericEventAndFlush env 0 env.ev.THR_END 0 0 0 g).isOk ∧
      ∀ g2, CallbackForFini env found_errors g = .ok () g2 →
        ∃ g1, TLEBAddGenericEventAndFlush env 0 env.ev.THR_END 0 0 0 g = .ok () g1 ∧
          (g1.g_pin_threads 0).tleb.size = 0 ∧
          (∃ l, g2.log = g1.log ++ .ThreadSanitizerFini :: l ∧
            ∀ e ∈ l, e.isAnalyzerCall = false) ∧
          g2.g_pin_threads = g1.g_pin_threads ∧
          (∀ j, j ≠ 0 → (g2.g_pin_threads j).tleb = (g.g_pin_threads j).tleb) ∧
          g2.g_tleb_queue = g.g_tleb_queue) ∧
    (env.locking_scheme = LOCKING_SEPARATE_THREAD →
      ∃ g2, CallbackForFini env found_errors g = .ok () g2 ∧
        g2.g_pin_threads = g.g_pin_threads ∧ g2.g_tleb_queue = g.g_tleb_queue ∧
        g2.analyzed = g.analyzed ∧ .ThreadSanitizerFini ∈ g2.log) := by
  constructor
  · intro hs hrv
    have hdump : DumpEvent env env.ev.THR_END 0 0 0 0 g
        = TLEBAddGenericEventAndFlush env 0 env.ev.THR_END 0 0 0 g := by
      unfold DumpEvent
      rw [if_pos (by simp [hrv])]
    unfold CallbackForFini
    rw [if_pos hs, hdump]
    have ho := TLEBAddGenericEventAndFlush_others env 0 env.ev.THR_END 0 0 0 g hs
    have hz := TLEBAddGenericEventAndFlush_size env 0 env.ev.THR_END 0 0 0 g
    generalize TLEBAddGenericEventAndFlush env 0 env.ev.THR_END 0 0 0 g = r at ho hz
    cases r with
    | abort e g1 =>
      refine ⟨rfl, ?_⟩
      intro g2 h
      cases h
    | ok u g1 =>
      refine ⟨rfl, ?_⟩
      intro g2 h
      simp only [Res.bind, Res.ok.injEq, true_and] at h
      subst h
      obtain ⟨l, hl, hnl, hth, hq⟩ := CallbackForFiniTail_spec env found_errors g1
      refine ⟨g1, rfl, hz g1 rfl, ⟨l, hl, hnl⟩, hth, ?_, ?_⟩
      · intro j hj
        rw [hth]
        exact ho.tleb j hj
      · rw [hq]
        exact ho.queue
  · intro hs
    unfold CallbackForFini
    rw [if_neg (by simp [hs])]
    obtain ⟨l, hl, hnl, hth, hq⟩ := CallbackForFiniTail_spec env found_errors g
    refine ⟨_, rfl, hth, hq, ?_, ?_⟩
    · unfold Globals.analyzed
      rw [hl, List.filter_append, List.filter_cons]
      have : List.filter Effect.isAnalyzerCall l = [] := by
        rw [List.filter_eq_nil_iff]
        intro e he
        simp [hnl e he]
      simp [this, Effect.isAnalyzerCall]
    · rw [hl]
      simp

/-- C10 (amended) at a concrete input: `LOCKING_ON_FLUSH`, thread 0 finished
with one `RTN_EXIT` buffered. -/
theorem C10_fini_flushes_main_thread_witness :
    (sampleEnv false LOCKING_ON_FLUSH).locking_scheme ≠ LOCKING_SEPARATE_THREAD ∧
    (sampleGlobalsTwo [32] [32]).g_race_verifier_active = false ∧
    (CallbackForFini (sampleEnv false LOCKING_ON_FLUSH) 0 (sampleGlobalsTwo [32] [32])).isOk
      = (TLEBAddGenericEventAndFlush (sampleEnv false LOCKING_ON_FLUSH) 0
          (sampleEnv false LOCKING_ON_FLUSH).ev.THR_END 0 0 0 (sampleGlobalsTwo [32] [32])).isOk ∧
    (CallbackForFini (sampleEnv false LOCKING_ON_FLUSH) 0 (sampleGlobalsTwo [32] [32])).globals.log
      = [.Lock, .HandleRtnExit 0, .HandleOneEvent 24 0 0 0 0, .Unlock, .ThreadSanitizerFini] :=
  ⟨by decide, rfl,
   ((C10_fini_flushes_main_thread (sampleEnv false LOCKING_ON_FLUSH) 0
      (sampleGlobalsTwo [32] [32])).1 (by decide) rfl).1,
   by decide⟩

/-! ## Decoding what was appended -/

theorem DumpEventPlainText_off (env : Env) (type : Nat) (tid : Int) (pc a info : Nat)
    (g : Globals) (hdump : env.dump_events_empty = true) :
    DumpEventPlainText env type tid pc a info g = (false, g) := by
  unfold DumpEventPlainText
  split
  · rfl
  · rfl

theorem Unfiltered.after_emit {tleb : ThreadLocalEventBuffer} {g : Globals} (h : Unfiltered tleb g)
    (e : Effect) : Unfiltered tleb (g.emit e) :=
  ⟨h.verifier, h.ignore, h.all, h.sync⟩

theorem load_of_lt (tleb : ThreadLocalEventBuffer) (i : Nat)
    (h : i < kThreadLocalEventBufferSize) : tleb.load i = some (tleb.events i) := by
  unfold ThreadLocalEventBuffer.load
  rw [if_pos h]

theorem slots_eq (tleb : ThreadLocalEventBuffer) (i : Nat) (addrs : List Nat)
    (h : ∀ k, k < addrs.length → tleb.events (i + k) = addrs.getD k 0) :
    tleb.slots i addrs.length = addrs := by
  unfold ThreadLocalEventBuffer.slots
  apply List.ext_getElem
  · simp
  · intro k h1 h2
    simp only [List.getElem_map, List.getElem_range]
    rw [h k h2, List.getD_eq_getElem _ _ h2]

/-- The decoder step on the words of one record: the record is handed to the
analyzer and the index moves to the word after the record. -/
theorem TLEBFlushStep_record (env : Env) (hev : env.ev.Valid)
    (hdump : env.dump_events_empty = true) (hlr : env.literace_sampling = 0)
    (tleb : ThreadLocalEventBuffer) (i : Nat) (g : Globals) (hc : Unfiltered tleb g)
    (r : TlebRecord) (hr : r.Valid env)
    (hcontent : ∀ k, k < (r.encode env).length → tleb.events (i + k) = (r.encode env).getD k 0)
    (hfit : i + (r.encode env).length ≤ kThreadLocalEventBufferSize) :
    TLEBFlushStep env tleb i g = .ok (i + (r.encode env).length)
      (g.emit (r.delivered (g.g_pin_threads tleb.t).uniq_tid)) := by
  obtain ⟨s1, s2, s3, s4, s5⟩ := FlushDispatch_special env hev tleb (i + 1) g
  cases r with
  | rtnExit =>
    simp only [TlebRecord.encode, List.length_singleton] at hcontent hfit ⊢
    have h0 := hcontent 0 (by omega)
    simp only [Nat.add_zero, List.getD_cons_zero] at h0
    rw [TLEBFlushStep_eq env tleb i _ g (by rw [load_of_lt _ _ (by omega), h0])
      (Or.inr hc.verifier), s1]
    unfold FlushRtnExit
    simp only [DumpEventPlainText_off _ _ _ _ _ _ g hdump, Bool.false_eq_true, if_false]
    rfl
  | rtnCall call_pc target_pc ignore_below =>
    simp only [TlebRecord.encode, List.length_cons, List.length_nil] at hcontent hfit ⊢
    have h0 := hcontent 0 (by omega)
    have h1 := hcontent 1 (by omega)
    have h2 := hcontent 2 (by omega)
    have h3 := hcontent 3 (by omega)
    simp only [Nat.add_zero, List.getD_cons_zero, List.getD_cons_succ] at h0 h1 h2 h3
    rw [TLEBFlushStep_eq env tleb i _ g (by rw [load_of_lt _ _ (by omega), h0])
      (Or.inr hc.verifier), s2]
    unfold FlushRtnCall
    rw [load_of_lt _ _ (by omega), load_of_lt _ _ (by omega), load_of_lt _ _ (by omega)]
    simp only [DumpEventPlainText_off _ _ _ _ _ _ g hdump, Bool.false_eq_true, if_false]
    have e1 : tleb.events (i + 1 + 1) = target_pc := by rw [← h2]
    have e2 : tleb.events (i + 1 + 2) = ignore_below := by rw [← h3]
    simp only [TlebRecord.Valid] at hr
    rw [h1, e1, e2, Nat.mod_eq_of_lt hr]
    rfl
  | trace trace_info addrs =>
    simp only [TlebRecord.encode, List.length_cons] at hcontent hfit ⊢
    obtain ⟨hnz, hpos, info, hinfo, hn⟩ := hr
    have h0 := hcontent 0 (by omega)
    have h1 := hcontent 1 (by omega)
    simp only [Nat.add_zero, List.getD_cons_zero, List.getD_cons_succ] at h0 h1
    rw [TLEBFlushStep_eq env tleb i _ g (by rw [load_of_lt _ _ (by omega), h0])
      (Or.inr hc.verifier), s3]
    unfold FlushTrace
    simp only [hlr, if_true]
    rw [load_of_lt _ _ (by omega), h1]
    simp only [hinfo]
    rw [if_neg (by simp [hnz])]
    unfold FlushTraceBody
    simp only [hc.all, hc.ignore, hdump, hn]
    have hs : tleb.slots (i + 1 + 1) addrs.length = addrs := by
      apply slots_eq
      intro k hk
      have := hcontent (k + 2) (by omega)
      simp only [List.getD_cons_succ] at this
      rw [← this]
      congr 1
      omega
    rw [hs]
    simp only [ne_eq, not_true_eq_false, decide_False, Bool.or_self, Bool.false_eq_true,
      if_false, if_true, Bool.not_true, Bool.and_false]
    rw [if_pos (by omega)]
    congr 1
    omega
  | generic type pc a info =>
    simp only [TlebRecord.encode, List.length_cons, List.length_nil] at hcontent hfit ⊢
    obtain ⟨g1, g2, g3, g4, g5, g6, g7⟩ := hr
    have h0 := hcontent 0 (by omega)
    have h1 := hcontent 1 (by omega)
    have h2 := hcontent 2 (by omega)
    have h3 := hcontent 3 (by omega)
    simp only [Nat.add_zero, List.getD_cons_zero, List.getD_cons_succ] at h0 h1 h2 h3
    rw [TLEBFlushStep_eq env tleb i _ g (by rw [load_of_lt _ _ (by omega), h0])
      (Or.inr hc.verifier), FlushDispatch_generic env tleb type (i + 1) g g4 g3 g5 g6 g7 g2]
    unfold FlushGeneric
    rw [if_neg (by simp [g1, g2])]
    rw [load_of_lt _ _ (by omega), load_of_lt _ _ (by omega), load_of_lt _ _ (by omega)]
    have e1 : tleb.events (i + 1 + 1) = a := by rw [← h2]
    have e2 : tleb.events (i + 1 + 2) = info := by rw [← h3]
    simp only [hc.all, hc.sync, hc.ignore, h1, e1, e2]
    simp only [ne_eq, not_true_eq_false, false_and, Bool.false_eq_true, false_or, if_false]
    rw [DumpEventInternal_online _ _ _ _ _ _ _ (Or.inr (Or.inr hdump))]
    rfl

theorem TlebRecord.encode_pos (env : Env) (r : TlebRecord) : 0 < (r.encode env).length := by
  cases r <;> simp [TlebRecord.encode]

/-- The decoder loop over the words of a sequence of records: every record is
handed to the analyzer, in order, and the loop ends with its index at
`tleb.size`. -/
theorem TLEBFlushLoop_records (env : Env) (hev : env.ev.Valid)
    (hdump : env.dump_events_empty = true) (hlr : env.literace_sampling = 0)
    (tleb : ThreadLocalEventBuffer) :
    ∀ (rs : List TlebRecord) (fuel i : Nat) (g : Globals),
      Unfiltered tleb g → (∀ r ∈ rs, r.Valid env) → rs.length ≤ fuel →
      tleb.size = i + totalWords env rs → tleb.size ≤ kThreadLocalEventBufferSize →
      (∀ k, k < totalWords env rs → tleb.events (i + k) = (encodeAll env rs).getD k 0) →
      TLEBFlushLoop env tleb fuel i g
        = .ok tleb.size (deliverAll (g.g_pin_threads tleb.t).uniq_tid rs g) := by
  intro rs
  induction rs with
  | nil =>
    intro fuel i g _ _ _ hsize _ _
    simp only [totalWords, encodeAll, List.length_nil, Nat.add_zero] at hsize
    cases fuel with
    | zero =>
      unfold TLEBFlushLoop
      rw [if_neg (by omega), hsize]
      rfl
    | succ n =>
      unfold TLEBFlushLoop
      rw [if_neg (by omega), hsize]
      rfl
  | cons r rest ih =>
    intro fuel i g hc hvalid hfuel hsize hbound hcontent
    have hpos := r.encode_pos env
    simp only [totalWords, encodeAll, List.length_append] at hsize hcontent
    cases fuel with
    | zero => simp at hfuel
    | succ n =>
      unfold TLEBFlushLoop
      rw [if_pos (by omega)]
      have hstep := TLEBFlushStep_record env hev hdump hlr tleb i g hc r
        (hvalid r (List.mem_cons_self _ _))
        (fun k hk => by
          rw [hcontent k (by omega), List.getD_append _ _ _ _ hk])
        (by omega)
      rw [hstep]
      simp only
      have := ih n (i + (r.encode env).length)
        (g.emit (r.delivered (g.g_pin_threads tleb.t).uniq_tid)) (hc.after_emit _)
        (fun x hx => hvalid x (List.mem_cons_of_mem _ hx))
        (by simpa using hfuel)
        (by simp only [totalWords]; omega) hbound
        (fun k hk => by
          simp only [totalWords] at hk
          rw [Nat.add_assoc, hcontent _ (by omega),
            List.getD_append_right _ _ _ _ (by omega)]
          congr 1
          omega)
      rw [this]
      rfl

/-! ## Appending records -/

theorem SameControl.control_refl (ti : Nat) (g : Globals) : SameControl ti g g :=
  ⟨rfl, rfl, rfl, rfl, rfl, rfl, rfl, rfl⟩

theorem SameControl.control_trans {ti : Nat} {a b c : Globals} (h1 : SameControl ti a b)
    (h2 : SameControl ti b c) : SameControl ti a c :=
  ⟨h2.log.trans h1.log, h2.ignore.trans h1.ignore, h2.verifier.trans h1.verifier,
    h2.uniq.trans h1.uniq, h2.all.trans h1.all, h2.sync.trans h1.sync, h2.done.trans h1.done,
    h2.owner.trans h1.owner⟩

theorem SameControl.control_of_setTleb (ti : Nat) (g : Globals) (b : ThreadLocalEventBuffer)
    (h : b.t = (g.g_pin_threads ti).tleb.t) : SameControl ti g (g.setTleb ti b) := by
  refine ⟨rfl, rfl, rfl, ?_, ?_, ?_, ?_, ?_⟩ <;> simp [Globals.setTleb, h]

theorem Appended.nil (ti : Nat) (g : Globals) : Appended ti [] g g :=
  ⟨SameControl.control_refl ti g, rfl, fun _ _ => rfl, fun k hk => by simp at hk⟩

theorem Appended.append_trans {ti : Nat} {ws1 ws2 : List Nat} {a b c : Globals}
    (h1 : Appended ti ws1 a b) (h2 : Appended ti ws2 b c) : Appended ti (ws1 ++ ws2) a c := by
  refine ⟨h1.control.control_trans h2.control, ?_, ?_, ?_⟩
  · rw [h2.size, h1.size, List.length_append, Nat.add_assoc]
  · intro j hj
    rw [h2.old j (by rw [h1.size]; omega), h1.old j hj]
  · intro k hk
    rw [List.length_append] at hk
    by_cases hlt : k < ws1.length
    · rw [h2.old _ (by rw [h1.size]; omega), h1.new k hlt, List.getD_append _ _ _ _ hlt]
    · have hle : ws1.length ≤ k := by omega
      have := h2.new (k - ws1.length) (by omega)
      rw [h1.size] at this
      rw [List.getD_append_right _ _ _ _ hle, ← this]
      congr 1
      omega

theorem Globals.pushWord_appended (g : Globals) (ti v : Nat) :
    Appended ti [v] g (g.pushWord ti v) ∧
    ((g.pushWord ti v).g_pin_threads ti).trace_info = (g.g_pin_threads ti).trace_info := by
  refine ⟨⟨SameControl.control_of_setTleb _ _ _ rfl, ?_, ?_, ?_⟩, ?_⟩
  · simp [Globals.pushWord]
  · intro j hj
    simp only [Globals.pushWord, Globals.setTleb_tleb]
    rw [if_neg (by omega)]
  · intro k hk
    simp only [List.length_singleton] at hk
    have : k = 0 := by omega
    subst this
    simp [Globals.pushWord]
  · simp [Globals.pushWord, Globals.setTleb]

theorem Globals.pushZeros_appended (g : Globals) (ti n : Nat) :
    Appended ti (List.replicate n 0) g (g.pushZeros ti n) ∧
    ((g.pushZeros ti n).g_pin_threads ti).trace_info = (g.g_pin_threads ti).trace_info := by
  refine ⟨⟨SameControl.control_of_setTleb _ _ _ rfl, ?_, ?_, ?_⟩, ?_⟩
  · simp [Globals.pushZeros]
  · intro j hj
    simp only [Globals.pushZeros, Globals.setTleb_tleb]
    rw [if_neg (by omega)]
  · intro k hk
    simp only [List.length_replicate] at hk
    simp only [Globals.pushZeros, Globals.setTleb_tleb]
    rw [if_pos (by omega), List.getD_eq_getElem _ _ (by simpa using hk)]
    simp
  · simp [Globals.pushZeros, Globals.setTleb]

theorem TLEBStore_push (ti v : Nat) (g : Globals)
    (h : (g.g_pin_threads ti).tleb.size < kThreadLocalEventBufferSize) :
    TLEBStore ti v g = .ok () (g.pushWord ti v) :=
  TLEBStore_eq ti v g h

theorem TLEBZeroSlots_push (ti n : Nat) (g : Globals)
    (h : (g.g_pin_threads ti).tleb.size + n ≤ kThreadLocalEventBufferSize) :
    TLEBZeroSlots ti n g = .ok (g.g_pin_threads ti).tleb.size (g.pushZeros ti n) := by
  unfold TLEBZeroSlots
  simp only
  rw [if_pos h]
  rfl

theorem DCHECK_pass (env : Env) (line : Nat) (c : Bool) (g : Globals) (h : c = true) :
    DCHECK env line c g = .ok () g := by
  unfold DCHECK
  rw [if_neg (by simp [h])]

theorem Globals.pushWord_size (g : Globals) (ti v : Nat) :
    ((g.pushWord ti v).g_pin_threads ti).tleb.size = (g.g_pin_threads ti).tleb.size + 1 := by
  simp [Globals.pushWord]

theorem Globals.storeAt_facts (g : Globals) (ti j0 a : Nat) :
    SameControl ti g (g.storeAt ti j0 a) ∧
    ((g.storeAt ti j0 a).g_pin_threads ti).tleb.size = (g.g_pin_threads ti).tleb.size ∧
    ((g.storeAt ti j0 a).g_pin_threads ti).trace_info = (g.g_pin_threads ti).trace_info ∧
    ((g.storeAt ti j0 a).g_pin_threads ti).tleb.events j0 = a ∧
    ∀ j, j ≠ j0 →
      ((g.storeAt ti j0 a).g_pin_threads ti).tleb.events j = (g.g_pin_threads ti).tleb.events j := by
  refine ⟨SameControl.control_of_setTleb _ _ _ rfl, ?_, ?_, ?_, ?_⟩
  · simp [Globals.storeAt]
  · simp [Globals.storeAt, Globals.setTleb]
  · simp [Globals.storeAt]
  · intro j hj
    simp [Globals.storeAt, hj]

theorem OnMop_store (env : Env) (base ti idx a : Nat) (g : Globals) (info : TraceInfo)
    (hinfo : env.traceInfoAt (g.g_pin_threads ti).trace_info = some info)
    (hidx : idx < info.n_mops) (hmax : info.n_mops ≤ kMaxMopsPerTrace)
    (hsize : (g.g_pin_threads ti).tleb.size = base + info.n_mops)
    (hfit : base + info.n_mops ≤ kThreadLocalEventBufferSize) :
    OnMop env base ti idx a g = .ok () (g.storeAt ti (base + idx) a) := by
  unfold OnMop
  simp only [hinfo]
  have hchecks : (if env.DEBUG_MODE = true then
      if ¬ idx < kMaxMopsPerTrace then Res.abort (.CHECK 1700) g
      else if ¬ idx < info.n_mops then Res.abort (.CHECK 1701) g
      else if ¬ base < kThreadLocalEventBufferSize then Res.abort (.CHECK 1703) g
      else if (g.g_pin_threads ti).tleb.size > 0 ∧ ¬ base + idx < (g.g_pin_threads ti).tleb.size
        then Res.abort (.CHECK 1705) g
      else Res.ok () g
    else Res.ok () g) = Res.ok () g := by
    have c1 : ¬ ¬ idx < kMaxMopsPerTrace := by omega
    have c2 : ¬ ¬ idx < info.n_mops := by omega
    have c3 : ¬ ¬ base < kThreadLocalEventBufferSize := by omega
    have c4 : ¬ ((g.g_pin_threads ti).tleb.size > 0 ∧
        ¬ base + idx < (g.g_pin_threads ti).tleb.size) := by omega
    by_cases hd : env.DEBUG_MODE = true
    · rw [if_pos hd, if_neg c1, if_neg c2, if_neg c3, if_neg c4]
    · rw [if_neg hd]
  rw [hchecks]
  simp only [Res.bind]
  rw [if_pos (by omega)]
  rfl

/-- The memory operations of a trace fill its address slots: slot `idx + k`
receives the `k`-th of the remaining addresses, nothing else changes. -/
theorem OnMops_spec (env : Env) (base ti : Nat) (info : TraceInfo)
    (hmax : info.n_mops ≤ kMaxMopsPerTrace)
    (hfit : base + info.n_mops ≤ kThreadLocalEventBufferSize) :
    ∀ (rest : List Nat) (idx : Nat) (g : Globals),
      env.traceInfoAt (g.g_pin_threads ti).trace_info = some info →
      idx + rest.length = info.n_mops →
      (g.g_pin_threads ti).tleb.size = base + info.n_mops →
      (∀ k, k < rest.length → (g.g_pin_threads ti).tleb.events (base + idx + k) = 0) →
      ∃ g1, OnMops env base ti rest idx g = .ok () g1 ∧ SameControl ti g g1 ∧
        (g1.g_pin_threads ti).tleb.size = (g.g_pin_threads ti).tleb.size ∧
        (∀ j, j < base + idx ∨ base + info.n_mops ≤ j →
          (g1.g_pin_threads ti).tleb.events j = (g.g_pin_threads ti).tleb.events j) ∧
        (∀ k, k < rest.length →
          (g1.g_pin_threads ti).tleb.events (base + idx + k) = rest.getD k 0) := by
  intro rest
  induction rest with
  | nil =>
    intro idx g _ _ _ _
    exact ⟨g, rfl, SameControl.control_refl ti g, rfl, fun _ _ => rfl, fun k hk => by simp at hk⟩
  | cons a rest ih =>
    intro idx g hinfo hlen hsize hzero
    simp only [List.length_cons] at hlen hzero
    unfold OnMops On_PredicatedMop
    by_cases ha : a = 0
    · subst ha
      simp only [bne_self_eq_false, Bool.false_eq_true, if_false, Res.bind]
      obtain ⟨g1, h1, hc, hs, hout, hin⟩ := ih (idx + 1) g hinfo (by omega) hsize
        (fun k hk => by
          have := hzero (k + 1) (by omega)
          rw [← this]
          congr 1
          omega)
      refine ⟨g1, h1, hc, hs, fun j hj => hout j (by omega), ?_⟩
      intro k hk
      simp only [List.length_cons] at hk
      cases k with
      | zero =>
        rw [Nat.add_zero, hout _ (by omega)]
        simpa using hzero 0 (by omega)
      | succ k =>
        have := hin k (by omega)
        rw [List.getD_cons_succ, ← this]
        congr 1
        omega
    · have hne : (a != 0) = true := by simp [ha]
      simp only [hne, if_true]
      rw [OnMop_store env base ti idx a g info hinfo (by omega) hmax hsize hfit]
      simp only [Res.bind]
      obtain ⟨sc, ss, st, se, so⟩ := g.storeAt_facts ti (base + idx) a
      obtain ⟨g1, h1, hc, hs, hout, hin⟩ := ih (idx + 1) (g.storeAt ti (base + idx) a)
        (by rw [st]; exact hinfo) (by omega) (by rw [ss]; exact hsize)
        (fun k hk => by
          rw [so _ (by omega)]
          have := hzero (k + 1) (by omega)
          rw [← this]
          congr 1
          omega)
      refine ⟨g1, h1, sc.control_trans hc, hs.trans ss, ?_, ?_⟩
      · intro j hj
        rw [hout j (by omega), so j (by omega)]
      · intro k hk
        simp only [List.length_cons] at hk
        cases k with
        | zero =>
          rw [Nat.add_zero, hout _ (by omega), se]
          rfl
        | succ k =>
          have := hin k (by omega)
          rw [List.getD_cons_succ, ← this]
          congr 1
          omega

theorem TLEBAddRtnExit_appended (env : Env) (ti : Nat) (g : Globals)
    (hfit : (g.g_pin_threads ti).tleb.size + 1 ≤ kThreadLocalEventBufferSize) :
    ∃ g1, TLEBAddRtnExit env ti g = .ok () g1 ∧ Appended ti [env.ev.RTN_EXIT] g g1 := by
  unfold TLEBAddRtnExit
  rw [if_neg (by omega)]
  simp only [Res.bind]
  rw [TLEBStore_push _ _ _ (by omega)]
  simp only
  rw [DCHECK_pass _ _ _ _ (by rw [decide_eq_true_iff, Globals.pushWord_size]; omega)]
  exact ⟨_, rfl, (g.pushWord_appended ti _).1⟩

theorem four_stores (ti : Nat) (g : Globals) (a b c d : Nat)
    (hfit : (g.g_pin_threads ti).tleb.size + 4 ≤ kThreadLocalEventBufferSize) :
    TLEBStore ti a g = .ok () (g.pushWord ti a) ∧
    TLEBStore ti b (g.pushWord ti a) = .ok () ((g.pushWord ti a).pushWord ti b) ∧
    TLEBStore ti c ((g.pushWord ti a).pushWord ti b)
      = .ok () (((g.pushWord ti a).pushWord ti b).pushWord ti c) ∧
    TLEBStore ti d (((g.pushWord ti a).pushWord ti b).pushWord ti c)
      = .ok () ((((g.pushWord ti a).pushWord ti b).pushWord ti c).pushWord ti d) ∧
    Appended ti [a, b, c, d] g ((((g.pushWord ti a).pushWord ti b).pushWord ti c).pushWord ti d) ∧
    (((((g.pushWord ti a).pushWord ti b).pushWord ti c).pushWord ti d).g_pin_threads ti).tleb.size
      = (g.g_pin_threads ti).tleb.size + 4 := by
  refine ⟨TLEBStore_push _ _ _ (by omega),
    TLEBStore_push _ _ _ (by rw [Globals.pushWord_size]; omega),
    TLEBStore_push _ _ _ (by simp only [Globals.pushWord_size]; omega),
    TLEBStore_push _ _ _ (by simp only [Globals.pushWord_size]; omega), ?_, ?_⟩
  · exact (g.pushWord_appended ti a).1.append_trans
      (((g.pushWord ti a).pushWord_appended ti b).1.append_trans
        ((((g.pushWord ti a).pushWord ti b).pushWord_appended ti c).1.append_trans
          ((((g.pushWord ti a).pushWord ti b).pushWord ti c).pushWord_appended ti d).1))
  · simp only [Globals.pushWord_size]

theorem TLEBAddRtnCall_appended (env : Env) (ti : Nat) (g : Globals)
    (call_pc target_pc ignore_below : Nat)
    (hfit : (g.g_pin_threads ti).tleb.size + 4 ≤ kThreadLocalEventBufferSize) :
    ∃ g1, TLEBAddRtnCall env ti call_pc target_pc ignore_below g = .ok () g1 ∧
      Appended ti [env.ev.RTN_CALL, call_pc, target_pc, ignore_below] g g1 := by
  obtain ⟨s1, s2, s3, s4, ha, hs⟩ :=
    four_stores ti g env.ev.RTN_CALL call_pc target_pc ignore_below hfit
  unfold TLEBAddRtnCall
  rw [DCHECK_pass _ _ _ _ (by rw [decide_eq_true_iff]; omega)]
  simp only [Res.bind]
  rw [if_neg (by omega)]
  simp only [s1, s2, s3, s4]
  rw [DCHECK_pass _ _ _ _ (by rw [decide_eq_true_iff, hs]; omega)]
  exact ⟨_, rfl, ha⟩

theorem TLEBAddGenericEvent_appended (env : Env) (ti : Nat) (g : Globals)
    (type pc a info : Nat) (h1 : env.ev.NOOP < type) (h2 : type < env.ev.LAST_EVENT)
    (hfit : (g.g_pin_threads ti).tleb.size + 4 ≤ kThreadLocalEventBufferSize) :
    ∃ g1, TLEBAddGenericEvent env ti type pc a info g = .ok () g1 ∧
      Appended ti [type, pc, a, info] g g1 := by
  obtain ⟨s1, s2, s3, s4, ha, _⟩ := four_stores ti g type pc a info hfit
  unfold TLEBAddGenericEvent
  rw [if_neg (by omega)]
  simp only [Res.bind]
  rw [DCHECK_pass _ _ _ _ (by rw [decide_eq_true_iff]; exact ⟨h1, h2⟩)]
  simp only [s1, s2, s3, s4]
  exact ⟨_, rfl, ha⟩

theorem trace_appended (env : Env) (ti : Nat) (g : Globals) (trace_info : Nat)
    (addrs : List Nat) (info : TraceInfo) (hpos : 0 < addrs.length)
    (hinfo : env.traceInfoAt trace_info = some info) (hn : info.n_mops = addrs.length)
    (hfit : (g.g_pin_threads ti).tleb.size + (2 + addrs.length)
      ≤ kThreadLocalEventBufferSize) :
    ∃ g1, (TlebRecord.trace trace_info addrs).append env ti g = .ok () g1 ∧
      Appended ti (env.ev.SBLOCK_ENTER :: trace_info :: addrs) g g1 := by
  obtain ⟨g0, hg0⟩ : ∃ g0,
      g0 = g.setThread ti { g.g_pin_threads ti with trace_info := trace_info } := ⟨_, rfl⟩
  have e : (TlebRecord.trace trace_info addrs).append env ti g
      = (TLEBAddTrace env ti g0).bind fun m g1 => OnMops env m ti addrs 0 g1 := by
    rw [hg0]
    rfl
  rw [e]
  clear e
  have a0 : Appended ti [] g g0 := by
    subst hg0
    refine ⟨⟨rfl, rfl, rfl, ?_, ?_, ?_, ?_, ?_⟩, ?_, ?_, ?_⟩
    all_goals simp
  have t0 : (g0.g_pin_threads ti).trace_info = trace_info := by
    subst hg0
    simp
  have z0 : (g0.g_pin_threads ti).tleb.size = (g.g_pin_threads ti).tleb.size := by
    simpa using a0.size
  obtain ⟨a1, t1⟩ := g0.pushWord_appended ti env.ev.SBLOCK_ENTER
  obtain ⟨a2, t2⟩ := (g0.pushWord ti env.ev.SBLOCK_ENTER).pushWord_appended ti trace_info
  obtain ⟨a3, t3⟩ :=
    ((g0.pushWord ti env.ev.SBLOCK_ENTER).pushWord ti trace_info).pushZeros_appended ti
      addrs.length
  have z2 : (((g0.pushWord ti env.ev.SBLOCK_ENTER).pushWord ti trace_info).g_pin_threads
      ti).tleb.size = (g.g_pin_threads ti).tleb.size + 2 := by
    simp only [Globals.pushWord_size, z0]
  unfold TLEBAddTrace
  simp only [t0, hinfo, hn]
  rw [DCHECK_pass _ _ _ _ (by rw [decide_eq_true_iff]; exact hpos)]
  simp only [Res.bind]
  rw [if_neg (by omega)]
  simp only
  rw [TLEBStore_push _ _ _ (by omega)]
  simp only
  rw [t1, t0, TLEBStore_push _ _ _ (by rw [Globals.pushWord_size]; omega)]
  simp only
  rw [TLEBZeroSlots_push _ _ _ (by omega)]
  simp only
  rw [DCHECK_pass _ _ _ _ (by rw [decide_eq_true_iff, a3.size, List.length_replicate]; omega)]
  simp only
  generalize hg3 : ((g0.pushWord ti env.ev.SBLOCK_ENTER).pushWord ti trace_info).pushZeros ti
    addrs.length = g3 at a3 t3
  have z3 : (g3.g_pin_threads ti).tleb.size
      = (g.g_pin_threads ti).tleb.size + 2 + info.n_mops := by
    rw [a3.size, z2, List.length_replicate, hn]
  have hmax : info.n_mops ≤ kMaxMopsPerTrace := by
    unfold kMaxMopsPerTrace
    omega
  obtain ⟨g4, h4, c4, s4, out4, in4⟩ := OnMops_spec env
    ((g.g_pin_threads ti).tleb.size + 2) ti info hmax (by omega) addrs 0 g3
    (by rw [t3, t2, t1, t0]; exact hinfo) (by omega) z3
    (fun k hk => by
      have := a3.new k (by simpa using hk)
      rw [z2] at this
      rw [Nat.add_zero, this, List.getD_eq_getElem _ _ (by simpa using hk)]
      simp)
  rw [z2, h4]
  refine ⟨g4, rfl, ⟨((a0.control.control_trans a1.control).control_trans
    a2.control).control_trans (a3.control.control_trans c4), ?_, ?_, ?_⟩⟩
  · rw [s4, z3, hn]
    simp only [List.length_cons]
    omega
  · intro j hj
    rw [out4 j (by omega), a3.old j (by omega), a2.old j (by rw [Globals.pushWord_size]; omega),
      a1.old j (by omega), a0.old j hj]
  · intro k hk
    simp only [List.length_cons] at hk
    cases k with
    | zero =>
      rw [out4 _ (by omega), a3.old _ (by omega),
        a2.old _ (by rw [Globals.pushWord_size]; omega)]
      have := a1.new 0 (by simp)
      rw [z0] at this
      exact this
    | succ k =>
      cases k with
      | zero =>
        rw [out4 _ (by omega), a3.old _ (by omega)]
        have := a2.new 0 (by simp)
        rw [Globals.pushWord_size, z0] at this
        exact this
      | succ k =>
        have := in4 k (by omega)
        simp only [List.getD_cons_succ]
        rw [← this]
        congr 1
        omega

/-- Appending a record that fits stores the words of the record after the
words already in the buffer, and changes nothing else the decoder looks at. -/
theorem TlebRecord.append_appended (env : Env) (ti : Nat) (g : Globals) (r : TlebRecord)
    (hr : r.Valid env)
    (hfit : (g.g_pin_threads ti).tleb.size + (r.encode env).length
      ≤ kThreadLocalEventBufferSize) :
    ∃ g1, r.append env ti g = .ok () g1 ∧ Appended ti (r.encode env) g g1 := by
  cases r with
  | rtnExit => exact TLEBAddRtnExit_appended env ti g hfit
  | rtnCall call_pc target_pc ignore_below =>
    exact TLEBAddRtnCall_appended env ti g call_pc target_pc ignore_below hfit
  | trace trace_info addrs =>
    obtain ⟨_, hpos, info, hinfo, hn⟩ := hr
    refine trace_appended env ti g trace_info addrs info hpos hinfo hn ?_
    simp only [TlebRecord.encode, List.length_cons] at hfit
    omega
  | generic type pc a info =>
    exact TLEBAddGenericEvent_appended env ti g type pc a info hr.1 hr.2.1 hfit

theorem appendAll_appended (env : Env) (ti : Nat) :
    ∀ (rs : List TlebRecord) (g : Globals), (∀ r ∈ rs, r.Valid env) →
      (g.g_pin_threads ti).tleb.size + totalWords env rs ≤ kThreadLocalEventBufferSize →
      ∃ g1, appendAll env ti rs g = .ok () g1 ∧ Appended ti (encodeAll env rs) g g1 := by
  intro rs
  induction rs with
  | nil =>
    intro g _ _
    exact ⟨g, rfl, Appended.nil ti g⟩
  | cons r rest ih =>
    intro g hvalid hfit
    simp only [totalWords, encodeAll, List.length_append] at hfit
    obtain ⟨g1, h1, a1⟩ := r.append_appended env ti g (hvalid r (List.mem_cons_self _ _))
      (by omega)
    obtain ⟨g2, h2, a2⟩ := ih g1 (fun x hx => hvalid x (List.mem_cons_of_mem _ hx))
      (by rw [a1.size]; simp only [totalWords]; omega)
    refine ⟨g2, ?_, a1.append_trans a2⟩
    simp only [appendAll, h1, Res.bind, h2]

theorem deliverAll_log (u : Int) :
    ∀ (rs : List TlebRecord) (g : Globals),
      (deliverAll u rs g).log = g.log ++ rs.map (TlebRecord.delivered u) := by
  intro rs
  induction rs with
  | nil =>
    intro g
    simp [deliverAll]
  | cons r rest ih =>
    intro g
    have := ih (g.emit (r.delivered u))
    simp only [deliverAll, List.foldl_cons, List.map_cons] at this ⊢
    rw [this]
    simp [Globals.emit]

theorem length_le_totalWords (env : Env) :
    ∀ rs : List TlebRecord, rs.length ≤ totalWords env rs := by
  intro rs
  induction rs with
  | nil => simp
  | cons r rest ih =>
    have := r.encode_pos env
    simp only [totalWords, encodeAll, List.length_append, List.length_cons] at ih ⊢
    omega

/-- C2, counterexample.  (1) A generic `THR_END` event (a kind other than
`RTN_CALL`, `RTN_EXIT`, `SBLOCK_ENTER`, `THR_START`) appended with the fields
`pc = 7, a = 8, info = 9` to the empty buffer of a finished thread reaches the
analyzer with the fields `0, 0, 0`.  (2) After `TLEBSimpleEvent` has appended
the marker `TLEB_IGNORE_ALL_BEGIN` to an empty buffer, with no ignore active, a
generic `READ` event appended next is decoded without anything being handed to
the analyzer: neither the marker nor the `READ`. -/
theorem C2_round_trip_counterexample :
    (appendThenFlush (sampleEnv false LOCKING_ON_FLUSH) 0 [.generic 24 7 8 9]
      (sampleGlobalsFlags true false [])).isOk = true ∧
    (appendThenFlush (sampleEnv false LOCKING_ON_FLUSH) 0 [.generic 24 7 8 9]
      (sampleGlobalsFlags true false [])).globals.log = [.HandleOneEvent 24 0 0 0 0] ∧
    ((TLEBSimpleEvent (sampleEnv false LOCKING_ON_FLUSH) 0
        (TLEB_IGNORE_ALL_BEGIN sampleEvents) (sampleGlobals [])).bind
      fun _ g1 => appendThenFlush (sampleEnv false LOCKING_ON_FLUSH) 0 [.generic 1 7 8 4]
        g1).isOk = true ∧
    ((TLEBSimpleEvent (sampleEnv false LOCKING_ON_FLUSH) 0
        (TLEB_IGNORE_ALL_BEGIN sampleEvents) (sampleGlobals [])).bind
      fun _ g1 => appendThenFlush (sampleEnv false LOCKING_ON_FLUSH) 0 [.generic 1 7 8 4]
        g1).globals.log = [] := by
  decide

/-- C2, amended.  Encode/decode round trip of the TLEB, online, without
plain-text dump, with `literace_sampling = 0`, race verifier off, no ignore
active, on a thread that is not done.  Take any sequence of records appended to
the empty buffer of the thread by `TLEBAddRtnCall`, `TLEBAddRtnExit`,
`TLEBAddTrace` followed by the memory operations of the trace, and generic
4-word events of a kind strictly between `NOOP` and `LAST_EVENT` other than
`RTN_CALL`, `RTN_EXIT`, `SBLOCK_ENTER`, `THR_START` and `THR_END`, that fits in
the buffer.  Then the appends return without anything reaching the analyzer and
leave in the buffer exactly the words of the records; the decoder loop returns
with its read index equal to `tleb.size`; `TLEBFlushUnlocked` returns with the
buffer emptied; and what has been handed to the analyzer is exactly those
records, in the order they were appended and with the same fields. -/
theorem C2_tleb_round_trip (env : Env) (hev : env.ev.Valid) (hoff : env.offline = false)
    (hdump : env.dump_events_empty = true) (hlr : env.literace_sampling = 0)
    (ti : Nat) (rs : List TlebRecord) (g : Globals)
    (hvalid : ∀ r ∈ rs, r.Valid env)
    (hempty : (g.g_pin_threads ti).tleb.size = 0)
    (hfit : totalWords env rs ≤ kThreadLocalEventBufferSize)
    (howner : (g.g_pin_threads ti).tleb.t = ti)
    (hverifier : g.g_race_verifier_active = false) (hignore : g.global_ignore = false)
    (hall : (g.g_pin_threads ti).ignore_all_mops = 0)
    (hsync : (g.g_pin_threads ti).ignore_lock_events = 0)
    (hdone : (g.g_pin_threads ti).thread_done = false) :
    ∃ g1 g2 tleb2,
      appendAll env ti rs g = .ok () g1 ∧
      g1.log = g.log ∧
      (g1.g_pin_threads ti).tleb.size = totalWords env rs ∧
      (∀ k, k < totalWords env rs →
        (g1.g_pin_threads ti).tleb.events k = (encodeAll env rs).getD k 0) ∧
      TLEBFlushLoop env (g1.g_pin_threads ti).tleb (g1.g_pin_threads ti).tleb.size 0 g1
        = .ok (g1.g_pin_threads ti).tleb.size g2 ∧
      appendThenFlush env ti rs g = .ok tleb2 g2 ∧
      tleb2.size = 0 ∧
      g2.log = g.log ++ rs.map (TlebRecord.delivered (g.g_pin_threads ti).uniq_tid) := by
  obtain ⟨g1, h1, a1⟩ := appendAll_appended env ti rs g hvalid (by omega)
  have hsize : (g1.g_pin_threads ti).tleb.size = totalWords env rs := by
    rw [a1.size, hempty, Nat.zero_add]
    rfl
  have hwords : ∀ k, k < totalWords env rs →
      (g1.g_pin_threads ti).tleb.events k = (encodeAll env rs).getD k 0 := by
    intro k hk
    have := a1.new k hk
    rwa [hempty, Nat.zero_add] at this
  have hown : (g1.g_pin_threads ti).tleb.t = ti := by rw [a1.control.owner, howner]
  have hv1 : g1.g_race_verifier_active = false := by rw [a1.control.verifier, hverifier]
  have hi1 : g1.global_ignore = false := by rw [a1.control.ignore, hignore]
  have hd1 : (g1.g_pin_threads ti).thread_done = false := by rw [a1.control.done, hdone]
  have unf : Unfiltered (g1.g_pin_threads ti).tleb g1 :=
    ⟨hv1, hi1, by rw [hown, a1.control.all, hall], by rw [hown, a1.control.sync, hsync]⟩
  have hloop := TLEBFlushLoop_records env hev hdump hlr (g1.g_pin_threads ti).tleb rs
    (g1.g_pin_threads ti).tleb.size 0 g1 unf hvalid
    (by rw [hsize]; exact length_le_totalWords env rs) (by rw [hsize, Nat.zero_add])
    (by rw [hsize]; exact hfit)
    (fun k hk => by rw [Nat.zero_add]; exact hwords k hk)
  rw [hown, a1.control.uniq] at hloop
  have hlog := deliverAll_log (g.g_pin_threads ti).uniq_tid rs g1
  rw [a1.control.log] at hlog
  have hflush : ∃ tleb2, TLEBFlushUnlocked env (g1.g_pin_threads ti).tleb g1
      = .ok tleb2 (deliverAll (g.g_pin_threads ti).uniq_tid rs g1) ∧ tleb2.size = 0 := by
    unfold TLEBFlushUnlocked
    simp only [hv1, hi1, hown, hd1, hoff, hloop]
    have hle : (g1.g_pin_threads ti).tleb.size ≤ kThreadLocalEventBufferSize := by
      rw [hsize]
      exact hfit
    by_cases hz : (g1.g_pin_threads ti).tleb.size = 0
    · have hnil : rs = [] := by
        cases rs with
        | nil => rfl
        | cons r rest =>
          have := length_le_totalWords env (r :: rest)
          rw [← hsize, hz] at this
          simp at this
      subst hnil
      refine ⟨(g1.g_pin_threads ti).tleb, ?_, hz⟩
      simp [hz, hle, deliverAll]
    · cases hd : env.DEBUG_MODE
      · refine ⟨{ (g1.g_pin_threads ti).tleb with size := 0 }, ?_, rfl⟩
        simp [hz, hle, hown]
      · refine ⟨{ (g1.g_pin_threads ti).tleb with
          size := 0, events := fun _ => kPoisonWord }, ?_, rfl⟩
        simp [hz, hle, hown]
  obtain ⟨tleb2, hf, hz2⟩ := hflush
  refine ⟨g1, _, tleb2, h1, a1.control.log, hsize, hwords, hloop, ?_, hz2, hlog⟩
  simp only [appendThenFlush, h1, Res.bind, hf]

/-- C2, witness: a return, a call, a trace of two memory operations of which
the first executes, and a `READ` event, appended to the empty buffer of thread
0 and decoded in a debug build. -/
theorem C2_tleb_round_trip_witness :
    ∃ g1 g2 tleb2,
      appendAll (sampleEnv true LOCKING_ON_FLUSH) 0
        [.rtnExit, .rtnCall 7 8 1, .trace 4096 [5, 0], .generic 1 7 8 4]
        (sampleGlobals []) = .ok () g1 ∧
      g1.log = (sampleGlobals []).log ∧
      (g1.g_pin_threads 0).tleb.size = totalWords (sampleEnv true LOCKING_ON_FLUSH)
        [.rtnExit, .rtnCall 7 8 1, .trace 4096 [5, 0], .generic 1 7 8 4] ∧
      (∀ k, k < totalWords (sampleEnv true LOCKING_ON_FLUSH)
          [.rtnExit, .rtnCall 7 8 1, .trace 4096 [5, 0], .generic 1 7 8 4] →
        (g1.g_pin_threads 0).tleb.events k = (encodeAll (sampleEnv true LOCKING_ON_FLUSH)
          [.rtnExit, .rtnCall 7 8 1, .trace 4096 [5, 0], .generic 1 7 8 4]).getD k 0) ∧
      TLEBFlushLoop (sampleEnv true LOCKING_ON_FLUSH) (g1.g_pin_threads 0).tleb
        (g1.g_pin_threads 0).tleb.size 0 g1 = .ok (g1.g_pin_threads 0).tleb.size g2 ∧
      appendThenFlush (sampleEnv true LOCKING_ON_FLUSH) 0
        [.rtnExit, .rtnCall 7 8 1, .trace 4096 [5, 0], .generic 1 7 8 4]
        (sampleGlobals []) = .ok tleb2 g2 ∧
      tleb2.size = 0 ∧
      g2.log = (sampleGlobals []).log ++
        [TlebRecord.rtnExit, .rtnCall 7 8 1, .trace 4096 [5, 0], .generic 1 7 8 4].map
          (TlebRecord.delivered ((sampleGlobals []).g_pin_threads 0).uniq_tid) :=
  C2_tleb_round_trip (sampleEnv true LOCKING_ON_FLUSH) (by decide) rfl rfl rfl 0
    [.rtnExit, .rtnCall 7 8 1, .trace 4096 [5, 0], .generic 1 7 8 4] (sampleGlobals [])
    (by
      intro r hr
      simp only [List.mem_cons, List.mem_singleton, List.not_mem_nil, or_false] at hr
      rcases hr with rfl | rfl | rfl | rfl
      · trivial
      · show (1 : Nat) < 2 ^ 32
        norm_num
      · exact ⟨by decide, by decide, sampleTrace, rfl, rfl⟩
      · show _ ∧ _ ∧ _ ∧ _ ∧ _ ∧ _ ∧ _
        decide)
    rfl (by decide) rfl rfl rfl rfl rfl rfl

/-- The sample round trip evaluated: the words left in the buffer by the appends
and the calls the analyzer receives from the flush. -/
theorem round_trip_sample :
    (encodeAll (sampleEnv true LOCKING_ON_FLUSH)
      [.rtnExit, .rtnCall 7 8 1, .trace 4096 [5, 0], .generic 1 7 8 4])
      = [32, 31, 7, 8, 1, 33, 4096, 5, 0, 1, 7, 8, 4] ∧
    (appendThenFlush (sampleEnv true LOCKING_ON_FLUSH) 0
      [.rtnExit, .rtnCall 7 8 1, .trace 4096 [5, 0], .generic 1 7 8 4]
      (sampleGlobals [])).globals.log
      = [.HandleRtnExit 0, .HandleRtnCall 0 7 8 1, .HandleTrace 0 4096 [5, 0],
         .HandleOneEvent 1 0 7 8 4] := by
  decide

theorem CallbackForFini_eq (env : Env) (found_errors : Int) (g : Globals) :
    CallbackForFini env found_errors g
      = (CallbackForFiniFlush env g).bind
          fun _ g1 => .ok () (CallbackForFiniTail env found_errors g1) := rfl

/-- The calls of `exit` made by the part of `CallbackForFini` after the flush:
one call, the last action, with the value of the flag `error_exitcode`, when
the flag is not zero and `GetNumberOfFoundErrors()` is positive; none
otherwise. -/
theorem CallbackForFiniTail_exit (env : Env) (found_errors : Int) (g : Globals) :
    ∃ l, (∀ e ∈ l, e.isExit = false) ∧
      (CallbackForFiniTail env found_errors g).log
        = (g.log ++ l) ++
          (if env.error_exitcode ≠ 0 ∧ found_errors > 0 then [.Exit env.error_exitcode]
           else []) := by
  refine ⟨.ThreadSanitizerFini ::
    ((if g.g_race_verifier_active = true then [.RaceVerifierFini] else []) ++
      (if env.show_stats = true then [.PrintTraceProfile] else [])), ?_, ?_⟩
  · intro e he
    simp only [List.mem_cons, List.mem_append] at he
    rcases he with rfl | he | he
    · rfl
    · split at he
      · simp only [List.mem_singleton] at he
        subst he
        rfl
      · cases he
    · split at he
      · simp only [List.mem_singleton] at he
        subst he
        rfl
      · cases he
  · unfold CallbackForFiniTail
    by_cases h1 : g.g_race_verifier_active = true <;> by_cases h2 : env.show_stats = true <;>
      by_cases h3 : (env.error_exitcode ≠ 0 ∧ found_errors > 0) <;>
      simp [h1, h2, h3, Globals.emit]

/-- C11, counterexample.  With the flag `error_exitcode` equal to 0 and one race
reported, `CallbackForFini` returns without a call of `exit`: it does not
terminate the process. -/
theorem C11_exit_code_counterexample :
    (sampleEnv false LOCKING_ON_FLUSH).error_exitcode = 0 ∧
    (CallbackForFini (sampleEnv false LOCKING_ON_FLUSH) 1 (sampleGlobalsTwo [] [])).isOk = true ∧
    (CallbackForFini (sampleEnv false LOCKING_ON_FLUSH) 1 (sampleGlobalsTwo [] [])).globals.log
      = [.Lock, .HandleOneEvent 24 0 0 0 0, .Unlock, .ThreadSanitizerFini] := by
  decide

/-- C11, amended.  For every value of the flag `error_exitcode` and every number
of found errors, `CallbackForFini` returns from its flush exactly when the run
reaches the end of the function, and then: if `error_exitcode` is not 0 and
`GetNumberOfFoundErrors() > 0`, its last action is the call
`exit(error_exitcode)`, the only call of `exit` after the flush; if
`error_exitcode` is 0 or no error was found, it makes no call of `exit` after
the flush. -/
theorem C11_exit_code (env : Env) (found_errors : Int) (g : Globals) :
    (CallbackForFini env found_errors g).isOk = (CallbackForFiniFlush env g).isOk ∧
    (env.locking_scheme = LOCKING_SEPARATE_THREAD →
      (CallbackForFini env found_errors g).isOk = true) ∧
    ∀ g2, CallbackForFini env found_errors g = .ok () g2 →
      ∃ g1 l, CallbackForFiniFlush env g = .ok () g1 ∧
        (∀ e ∈ l, e.isExit = false) ∧
        (env.error_exitcode ≠ 0 ∧ found_errors > 0 →
          g2.log = g1.log ++ l ++ [.Exit env.error_exitcode]) ∧
        (env.error_exitcode = 0 ∨ found_errors ≤ 0 → g2.log = g1.log ++ l) := by
  rw [CallbackForFini_eq]
  refine ⟨?_, ?_, ?_⟩
  · cases CallbackForFiniFlush env g <;> rfl
  · intro hs
    unfold CallbackForFiniFlush
    rw [if_neg (by simp [hs])]
    rfl
  · intro g2 h
    cases hf : CallbackForFiniFlush env g with
    | abort e g1 =>
      rw [hf] at h
      cases h
    | ok u g1 =>
      rw [hf] at h
      simp only [Res.bind, Res.ok.injEq, true_and] at h
      subst h
      obtain ⟨l, hl, hlog⟩ := CallbackForFiniTail_exit env found_errors g1
      refine ⟨g1, l, rfl, hl, ?_, ?_⟩
      · intro hc
        rw [hlog, if_pos hc]
      · intro hc
        rw [hlog, if_neg (by omega)]
        simp

/-- C11 (amended) at concrete inputs: with `error_exitcode = 3` and one error
found the run ends with `exit(3)`. -/
theorem C11_exit_code_witness :
    (CallbackForFini { sampleEnv false LOCKING_SEPARATE_THREAD with error_exitcode := 3 } 1
      (sampleGlobals [])).isOk = true ∧
    (CallbackForFini { sampleEnv false LOCKING_SEPARATE_THREAD with error_exitcode := 3 } 1
      (sampleGlobals [])).globals.log = [.ThreadSanitizerFini, .Exit 3] ∧
    (CallbackForFini { sampleEnv false LOCKING_SEPARATE_THREAD with error_exitcode := 3 } 0
      (sampleGlobals [])).globals.log = [.ThreadSanitizerFini] :=
  ⟨(C11_exit_code { sampleEnv false LOCKING_SEPARATE_THREAD with error_exitcode := 3 } 1
      (sampleGlobals [])).2.1 rfl, by decide, by decide⟩

/-- One call of `CallbackForThreadStart` that the environment can make returns;
the started thread gets the value of `n_started_threads` as its `uniq_tid`, the
counter grows by one, and the thread is fresh. -/
theorem CallbackForThreadStart_spec (env : Env) (kMaxThreads : Nat) (c : Nat × Nat)
    (g : Globals) (hc : StartCallOk env kMaxThreads c) (hk : kMaxThreads ≤ INVALID_THREADID) :
    ∃ g1, CallbackForThreadStart env kMaxThreads c.1 c.2 g = .ok () g1 ∧
      g1.n_started_threads = g.n_started_threads + 1 ∧
      (g1.g_pin_threads c.2).uniq_tid = g.n_started_threads ∧
      FreshThread env c.2 (g1.g_pin_threads c.2) ∧ g1.log = g.log := by
  obtain ⟨creator, tid⟩ := c
  obtain ⟨h1, h2⟩ := hc
  simp only at h1 h2
  have store : ∀ g0 : Globals, (g0.g_pin_threads tid).tleb.size = 0 →
      TLEBStartThread env tid g0 = .ok () (g0.pushWord tid env.ev.THR_START) := by
    intro g0 h0
    unfold TLEBStartThread
    rw [if_neg (by simp [h0])]
    exact TLEBStore_push _ _ _ (by rw [h0]; decide)
  unfold CallbackForThreadStart
  simp only
  rw [if_neg (by simp [h1])]
  by_cases ht : tid = 0
  · subst ht
    simp only [bne_self_eq_false, Bool.false_eq_true, false_and, if_false]
    rw [store _ (by simp [zeroPinThread])]
    refine ⟨_, rfl, by simp [Globals.pushWord, Globals.setTleb, Globals.setThread], ?_, ?_, ?_⟩
    · simp [Globals.pushWord, Globals.setTleb, Globals.setThread]
    · constructor <;> simp [Globals.pushWord, Globals.setTleb, Globals.setThread, zeroPinThread]
    · simp [Globals.pushWord, Globals.setTleb, Globals.setThread]
  · have hb : (tid != 0) = true := by simp [ht]
    simp only [hb, if_true, true_and]
    rcases h2 ht with hlt | ⟨hm, hinv⟩
    · have hne : creator ≠ INVALID_THREADID := by omega
      rw [if_neg (by simp [hne]), if_pos hne, if_neg (by simp [hlt])]
      by_cases hct : creator = tid
      · subst hct
        rw [store _ (by simp [Globals.setThread, zeroPinThread])]
        refine ⟨_, rfl, by simp [Globals.pushWord, Globals.setTleb, Globals.setThread], ?_, ?_, ?_⟩
        · simp [Globals.pushWord, Globals.setTleb, Globals.setThread]
        · constructor <;>
            simp [Globals.pushWord, Globals.setTleb, Globals.setThread, zeroPinThread]
        · simp [Globals.pushWord, Globals.setTleb, Globals.setThread]
      · have hct2 : ¬tid = creator := fun h => hct h.symm
        rw [store _ (by simp [Globals.setThread, zeroPinThread, hct, hct2])]
        refine ⟨_, rfl, by simp [Globals.pushWord, Globals.setTleb, Globals.setThread], ?_, ?_, ?_⟩
        · simp [Globals.pushWord, Globals.setTleb, Globals.setThread, hct, hct2]
        · constructor <;>
            simp [Globals.pushWord, Globals.setTleb, Globals.setThread, zeroPinThread, hct, hct2]
        · simp [Globals.pushWord, Globals.setTleb, Globals.setThread]
    · rw [if_neg (by simp [hm]), if_neg (by simp [hinv])]
      rw [store _ (by simp [Globals.setThread, zeroPinThread])]
      refine ⟨_, rfl, by simp [Globals.pushWord, Globals.setTleb, Globals.setThread], ?_, ?_, ?_⟩
      · simp [Globals.pushWord, Globals.setTleb, Globals.setThread]
      · constructor <;> simp [Globals.pushWord, Globals.setTleb, Globals.setThread, zeroPinThread]
      · simp [Globals.pushWord, Globals.setTleb, Globals.setThread]

/-- A sequence of calls the environment can make: every call returns, the
calls get consecutive values of `n_started_threads` as `uniq_tid`, in order, and
every call leaves its thread fresh. -/
theorem startThreads_spec (env : Env) (kMaxThreads : Nat)
    (hk : kMaxThreads ≤ INVALID_THREADID) :
    ∀ (calls : List (Nat × Nat)) (g : Globals),
      (∀ c ∈ calls, StartCallOk env kMaxThreads c) →
      ∃ ts g1, startThreads env kMaxThreads calls g = .ok ts g1 ∧
        ts.map PinThread.uniq_tid
          = (List.range calls.length).map (fun k : Nat => g.n_started_threads + (k : Int)) ∧
        List.Forall₂ (fun c t => FreshThread env c.2 t) calls ts ∧
        g1.n_started_threads = g.n_started_threads + (calls.length : Int) ∧
        g1.log = g.log := by
  intro calls
  induction calls with
  | nil =>
    intro g _
    exact ⟨[], g, rfl, rfl, List.Forall₂.nil, by simp, rfl⟩
  | cons c rest ih =>
    intro g hc
    obtain ⟨g1, h1, n1, u1, f1, l1⟩ := CallbackForThreadStart_spec env kMaxThreads c g
      (hc c (List.mem_cons_self _ _)) hk
    obtain ⟨ts, g2, h2, u2, f2, n2, l2⟩ := ih g1 (fun x hx => hc x (List.mem_cons_of_mem _ hx))
    refine ⟨g1.g_pin_threads c.2 :: ts, g2, ?_, ?_, List.Forall₂.cons f1 f2, ?_, l2.trans l1⟩
    · obtain ⟨creator, tid⟩ := c
      simp only [startThreads, h1, Res.bind, h2]
    · rw [List.map_cons, u1, u2, n1, List.length_cons, List.range_succ_eq_map, List.map_cons,
        List.map_map]
      simp only [Nat.cast_zero, add_zero, List.cons.injEq, true_and]
      apply List.map_congr_left
      intro k _
      simp only [Function.comp, Nat.succ_eq_add_one, Nat.cast_add, Nat.cast_one]
      omega
    · rw [n2, n1, List.length_cons]
      push_cast
      omega

/-- C17.  For every sequence of calls of `CallbackForThreadStart` the
environment can make (PIN tids below `kMaxThreads`, arbitrary and possibly
repeated), started with `n_started_threads = 0`: every call returns; the k-th
call (counted from 1) assigns `uniq_tid = k - 1`, so the assigned `uniq_tid`s
are pairwise distinct and are exactly the numbers of the range `[0, N)` for `N`
calls; and every call leaves the buffer of its thread with exactly one word,
`THR_START`, both ignore depths 0 and the flags false. -/
theorem C17_unique_dense_thread_ids (env : Env) (kMaxThreads : Nat)
    (hk : kMaxThreads ≤ INVALID_THREADID) (calls : List (Nat × Nat)) (g : Globals)
    (hcalls : ∀ c ∈ calls, StartCallOk env kMaxThreads c) (h0 : g.n_started_threads = 0) :
    ∃ ts g1, startThreads env kMaxThreads calls g = .ok ts g1 ∧
      ts.map PinThread.uniq_tid = (List.range calls.length).map (fun k : Nat => (k : Int)) ∧
      (ts.map PinThread.uniq_tid).Nodup ∧
      (∀ u : Int, u ∈ ts.map PinThread.uniq_tid ↔ 0 ≤ u ∧ u < (calls.length : Int)) ∧
      List.Forall₂ (fun c t => FreshThread env c.2 t) calls ts ∧
      g1.n_started_threads = (calls.length : Int) := by
  obtain ⟨ts, g1, h1, hu, hf, hn, _⟩ := startThreads_spec env kMaxThreads hk calls g hcalls
  have hu2 : ts.map PinThread.uniq_tid
      = (List.range calls.length).map (fun k : Nat => (k : Int)) := by
    rw [hu, h0]
    apply List.map_congr_left
    intro k _
    simp
  refine ⟨ts, g1, h1, hu2, ?_, ?_, hf, by rw [hn, h0]; simp⟩
  · rw [hu2]
    exact (List.nodup_range _).map (fun a b hab => by exact_mod_cast hab)
  · intro u
    rw [hu2]
    simp only [List.mem_map, List.mem_range]
    constructor
    · rintro ⟨k, hk1, rfl⟩
      exact ⟨by positivity, by exact_mod_cast hk1⟩
    · rintro ⟨hu0, hu1⟩
      refine ⟨u.toNat, ?_, ?_⟩
      · omega
      · omega

/-- C17 at a concrete input: the main thread, then two threads created by
thread 0 that PIN gives the same `tid` 1. -/
theorem C17_unique_dense_thread_ids_witness :
    (∀ c ∈ [(INVALID_THREADID, 0), (0, 1), (0, 1)],
      StartCallOk (sampleEnv false LOCKING_ON_FLUSH) 2048 c) ∧
    ({ sampleGlobals [] with n_started_threads := 0 } : Globals).n_started_threads = 0 ∧
    ∃ ts g1, startThreads (sampleEnv false LOCKING_ON_FLUSH) 2048
        [(INVALID_THREADID, 0), (0, 1), (0, 1)]
        { sampleGlobals [] with n_started_threads := 0 } = .ok ts g1 ∧
      ts.map PinThread.uniq_tid
        = (List.range [(INVALID_THREADID, 0), (0, 1), (0, 1)].length).map
            (fun k : Nat => (k : Int)) ∧
      (ts.map PinThread.uniq_tid).Nodup ∧
      (∀ u : Int, u ∈ ts.map PinThread.uniq_tid ↔
        0 ≤ u ∧ u < ([(INVALID_THREADID, 0), (0, 1), (0, 1)].length : Int)) ∧
      List.Forall₂ (fun c t => FreshThread (sampleEnv false LOCKING_ON_FLUSH) c.2 t)
        [(INVALID_THREADID, 0), (0, 1), (0, 1)] ts ∧
      g1.n_started_threads = ([(INVALID_THREADID, 0), (0, 1), (0, 1)].length : Int) :=
  have hc : ∀ c ∈ [(INVALID_THREADID, 0), (0, 1), (0, 1)],
      StartCallOk (sampleEnv false LOCKING_ON_FLUSH) 2048 c := by
    intro c hc
    simp only [List.mem_cons, List.mem_singleton, List.not_mem_nil, or_false] at hc
    rcases hc with rfl | rfl | rfl <;> unfold StartCallOk <;> decide
  ⟨hc, rfl,
    C17_unique_dense_thread_ids (sampleEnv false LOCKING_ON_FLUSH) 2048 (by decide)
      [(INVALID_THREADID, 0), (0, 1), (0, 1)] { sampleGlobals [] with n_started_threads := 0 }
      hc rfl⟩

/-- The sample sequence of thread starts evaluated: the second thread started
with `tid` 1 has `uniq_tid` 2 and a buffer of one word, `THR_START`. -/
theorem thread_start_sample :
    (startThreads (sampleEnv false LOCKING_ON_FLUSH) 2048
      [(INVALID_THREADID, 0), (0, 1), (0, 1)]
      { sampleGlobals [] with n_started_threads := 0 }).isOk = true ∧
    ((startThreads (sampleEnv false LOCKING_ON_FLUSH) 2048
      [(INVALID_THREADID, 0), (0, 1), (0, 1)]
      { sampleGlobals [] with n_started_threads := 0 }).globals.g_pin_threads 1).uniq_tid = 2 ∧
    ((startThreads (sampleEnv false LOCKING_ON_FLUSH) 2048
      [(INVALID_THREADID, 0), (0, 1), (0, 1)]
      { sampleGlobals [] with n_started_threads := 0 }).globals.g_pin_threads 1).tleb.slots 0 1
        = [22] ∧
    (CallbackForThreadStart (sampleEnv false LOCKING_ON_FLUSH) 2048 INVALID_THREADID 1
      (sampleGlobals [])).abortedWith = some (.CHECK 935) := by
  decide

theorem setThread_trace_info (g : Globals) (i : Nat) (t : PinThread)
    (h : t.trace_info = (g.g_pin_threads i).trace_info) (j : Nat) :
    ((g.setThread i t).g_pin_threads j).trace_info = (g.g_pin_threads j).trace_info := by
  unfold Globals.setThread
  simp only
  split
  · rename_i hj
    rw [h, hj]
  · rfl

theorem setTleb_trace_info (g : Globals) (i : Nat) (b : ThreadLocalEventBuffer) (j : Nat) :
    ((g.setTleb i b).g_pin_threads j).trace_info = (g.g_pin_threads j).trace_info := by
  unfold Globals.setTleb
  refine setThread_trace_info _ _ _ ?_ _
  rfl

theorem ReleaseSyscallLock_trace_info (env : Env) (tid : Nat) (g : Globals) (j : Nat) :
    ((ReleaseSyscallLock env tid g).g_pin_threads j).trace_info
      = (g.g_pin_threads j).trace_info := by
  unfold ReleaseSyscallLock
  simp only
  split
  · rfl
  · split
    · show ((g.setThread tid _).g_pin_threads j).trace_info = _
      refine setThread_trace_info _ _ _ ?_ _
      rfl
    · rfl

theorem AcquireSyscallLock_trace_info (env : Env) (tid : Nat) (g : Globals) (j : Nat) :
    ((AcquireSyscallLock env tid g).globals.g_pin_threads j).trace_info
      = (g.g_pin_threads j).trace_info := by
  unfold AcquireSyscallLock
  simp only
  split
  · rfl
  · split
    · show (((g.emit .Lock).setThread tid _).g_pin_threads j).trace_info = _
      refine setThread_trace_info _ _ _ ?_ _
      rfl
    · rfl

/-- A flush leaves the field `trace_info` of every thread as it is. -/
theorem TLEBFlushLocked_trace_info (env : Env) (ti : Nat) (g : Globals) (j : Nat) :
    ((TLEBFlushLocked env ti g).globals.g_pin_threads j).trace_info
      = (g.g_pin_threads j).trace_info := by
  unfold TLEBFlushLocked
  simp only
  split
  · exact setTleb_trace_info g ti _ j
  · split
    · rfl
    · split
      · split
        · rfl
        · exact setTleb_trace_info _ ti _ j
      · split
        · have h := TLEBFlushUnlocked_frame env (g.g_pin_threads ti).tleb (g.emit .Lock)
          generalize TLEBFlushUnlocked env (g.g_pin_threads ti).tleb (g.emit .Lock) = r at h
          cases r with
          | abort e g1 => exact h.trace j
          | ok b g1 => exact (setTleb_trace_info g1 ti b j).trans (h.trace j)
        · split
          · have ha := AcquireSyscallLock_trace_info env (g.g_pin_threads ti).tid g
            generalize AcquireSyscallLock env (g.g_pin_threads ti).tid g = ra at ha
            cases ra with
            | abort e g1 => exact ha j
            | ok u g1 =>
              simp only [Res.globals] at ha
              simp only
              have h2 : ∀ j, ((g1.setThread ti
                  { g1.g_pin_threads ti with
                    n_consumed_events := (g1.g_pin_threads ti).n_consumed_events
                      + ((g1.g_pin_threads ti).tleb.size : Int) }).g_pin_threads j).trace_info
                  = (g1.g_pin_threads j).trace_info :=
                fun j => by
                  refine setThread_trace_info _ _ _ ?_ _
                  rfl
              generalize g1.setThread ti _ = g2 at h2
              have h := TLEBFlushUnlocked_frame env (g2.g_pin_threads ti).tleb g2
              generalize TLEBFlushUnlocked env (g2.g_pin_threads ti).tleb g2 = r at h
              cases r with
              | abort e g3 => exact ((h.trace j).trans (h2 j)).trans (ha j)
              | ok b g3 =>
                have h4 : (((g3.setTleb ti b).g_pin_threads j).trace_info
                    = (g.g_pin_threads j).trace_info) :=
                  (setTleb_trace_info g3 ti b j).trans (((h.trace j).trans (h2 j)).trans (ha j))
                simp only
                split
                · exact (ReleaseSyscallLock_trace_info ..).trans h4
                · exact h4
          · rfl

/-- The layout `TLEBAddTrace` leaves: it returns exactly when its flush does,
and then the words `SBLOCK_ENTER`, the trace pointer and `n` zeroed slots follow
the words the flush left in the buffer; the pointer returned is the index of the
first slot. -/
theorem TLEBAddTrace_layout (env : Env) (ti : Nat) (g : Globals) (info : TraceInfo)
    (hinfo : env.traceInfoAt (g.g_pin_threads ti).trace_info = some info)
    (hpos : 0 < info.n_mops) (hmax : info.n_mops ≤ kMaxMopsPerTrace) :
    (TLEBAddTrace env ti g).isOk = (TLEBAddTraceFlush env ti info.n_mops g).isOk ∧
    ∀ base g1, TLEBAddTrace env ti g = .ok base g1 →
      ∃ g0, TLEBAddTraceFlush env ti info.n_mops g = .ok () g0 ∧
        base = (g0.g_pin_threads ti).tleb.size + 2 ∧
        Appended ti (env.ev.SBLOCK_ENTER :: (g.g_pin_threads ti).trace_info ::
          List.replicate info.n_mops 0) g0 g1 ∧
        (g1.g_pin_threads ti).trace_info = (g.g_pin_threads ti).trace_info := by
  have hK : info.n_mops + 2 ≤ kThreadLocalEventBufferSize := by
    unfold kMaxMopsPerTrace at hmax
    unfold kThreadLocalEventBufferSize at *
    omega
  have hroom := flushIf_room env ti (2 + info.n_mops) g (by omega)
  rw [← Nat.add_assoc] at hroom
  have htr : ∀ g0, TLEBAddTraceFlush env ti info.n_mops g = .ok () g0 →
      (g0.g_pin_threads ti).trace_info = (g.g_pin_threads ti).trace_info := by
    intro g0 h0
    unfold TLEBAddTraceFlush at h0
    split at h0
    · have := TLEBFlushLocked_trace_info env ti g ti
      rw [h0] at this
      exact this
    · cases h0
      rfl
  have heq : TLEBAddTrace env ti g
      = (TLEBAddTraceFlush env ti info.n_mops g).bind fun _ g =>
        (TLEBStore ti env.ev.SBLOCK_ENTER g).bind
        fun _ g => (TLEBStore ti (g.g_pin_threads ti).trace_info g).bind
        fun _ g => (TLEBZeroSlots ti info.n_mops g).bind
        fun mop_addresses g =>
          (DCHECK env 527
            (decide ((g.g_pin_threads ti).tleb.size ≤ kThreadLocalEventBufferSize)) g).bind
        fun _ g => .ok mop_addresses g := by
    unfold TLEBAddTrace
    simp only [hinfo]
    rw [DCHECK_pass _ _ _ _ (by rw [decide_eq_true_iff]; exact hpos)]
    rfl
  rw [heq]
  change (if (g.g_pin_threads ti).tleb.size + 2 + info.n_mops > kThreadLocalEventBufferSize
    then TLEBFlushLocked env ti g else Res.ok () g).Room ti (2 + info.n_mops) at hroom
  change (TLEBAddTraceFlush env ti info.n_mops g).Room ti (2 + info.n_mops) at hroom
  cases hf : TLEBAddTraceFlush env ti info.n_mops g with
  | abort e g0 =>
    refine ⟨rfl, ?_⟩
    intro base g1 h
    cases h
  | ok u g0 =>
    have hfit := hroom.2 u g0 hf
    have t0 := htr g0 (by rw [hf])
    obtain ⟨a1, t1⟩ := g0.pushWord_appended ti env.ev.SBLOCK_ENTER
    obtain ⟨a2, t2⟩ := (g0.pushWord ti env.ev.SBLOCK_ENTER).pushWord_appended ti
      (g.g_pin_threads ti).trace_info
    obtain ⟨a3, t3⟩ :=
      ((g0.pushWord ti env.ev.SBLOCK_ENTER).pushWord ti
        (g.g_pin_threads ti).trace_info).pushZeros_appended ti info.n_mops
    have z2 : (((g0.pushWord ti env.ev.SBLOCK_ENTER).pushWord ti
        (g.g_pin_threads ti).trace_info).g_pin_threads ti).tleb.size
        = (g0.g_pin_threads ti).tleb.size + 2 := by
      simp only [Globals.pushWord_size]
    have hrun : ((Res.ok u g0 : Res Unit).bind fun _ g =>
        (TLEBStore ti env.ev.SBLOCK_ENTER g).bind
        fun _ g => (TLEBStore ti (g.g_pin_threads ti).trace_info g).bind
        fun _ g => (TLEBZeroSlots ti info.n_mops g).bind
        fun mop_addresses g =>
          (DCHECK env 527
            (decide ((g.g_pin_threads ti).tleb.size ≤ kThreadLocalEventBufferSize)) g).bind
        fun _ g => .ok mop_addresses g)
        = .ok ((g0.g_pin_threads ti).tleb.size + 2)
          (((g0.pushWord ti env.ev.SBLOCK_ENTER).pushWord ti
            (g.g_pin_threads ti).trace_info).pushZeros ti info.n_mops) := by
      simp only [Res.bind]
      rw [TLEBStore_push _ _ _ (by omega)]
      simp only
      rw [t1, t0, TLEBStore_push _ _ _ (by rw [Globals.pushWord_size]; omega)]
      simp only
      rw [TLEBZeroSlots_push _ _ _ (by omega)]
      simp only
      rw [DCHECK_pass _ _ _ _
        (by rw [decide_eq_true_iff, a3.size, List.length_replicate]; omega), z2]
    rw [hrun]
    refine ⟨rfl, ?_⟩
    intro base g1 h
    simp only [Res.ok.injEq] at h
    obtain ⟨hb, hg⟩ := h
    subst hb hg
    refine ⟨g0, rfl, rfl, ?_, by rw [t3, t2, t1, t0]⟩
    have := (a1.append_trans a2).append_trans a3
    simpa using this

theorem MopCall.run_eq (env : Env) (base ti : Nat) (c : MopCall) (g : Globals)
    (info : TraceInfo)
    (hinfo : env.traceInfoAt (g.g_pin_threads ti).trace_info = some info)
    (hidx : c.idx < info.n_mops) (hmax : info.n_mops ≤ kMaxMopsPerTrace)
    (hsize : (g.g_pin_threads ti).tleb.size = base + info.n_mops)
    (hfit : base + info.n_mops ≤ kThreadLocalEventBufferSize) :
    c.run env base ti g
      = .ok () (if c.executes then g.storeAt ti (base + c.idx) c.a else g) := by
  have hs := OnMop_store env base ti c.idx c.a g info hinfo hidx hmax hsize hfit
  unfold MopCall.run MopCall.executes On_PredicatedMop
  cases hp : c.predicated <;> cases hr : c.is_running <;> simp [hs]

/-- Any sequence of calls for the operations of the current trace returns; slot
`i` ends with the address of the last call for operation `i` that executed, or
as it was, and nothing else changes. -/
theorem runMopCalls_spec (env : Env) (base ti : Nat) (info : TraceInfo)
    (hmax : info.n_mops ≤ kMaxMopsPerTrace)
    (hfit : base + info.n_mops ≤ kThreadLocalEventBufferSize) :
    ∀ (calls : List MopCall) (g : Globals),
      env.traceInfoAt (g.g_pin_threads ti).trace_info = some info →
      (g.g_pin_threads ti).tleb.size = base + info.n_mops →
      (∀ c ∈ calls, c.idx < info.n_mops) →
      ∃ g2, runMopCalls env base ti calls g = .ok () g2 ∧ SameControl ti g g2 ∧
        (g2.g_pin_threads ti).tleb.size = (g.g_pin_threads ti).tleb.size ∧
        (∀ i, i < info.n_mops → (g2.g_pin_threads ti).tleb.events (base + i)
          = slotAfter i calls ((g.g_pin_threads ti).tleb.events (base + i))) ∧
        (∀ j, j < base ∨ base + info.n_mops ≤ j →
          (g2.g_pin_threads ti).tleb.events j = (g.g_pin_threads ti).tleb.events j) := by
  intro calls
  induction calls with
  | nil =>
    intro g _ _ _
    exact ⟨g, rfl, SameControl.control_refl ti g, rfl, fun _ _ => rfl, fun _ _ => rfl⟩
  | cons c rest ih =>
    intro g hinfo hsize hidx
    have hc := hidx c (List.mem_cons_self _ _)
    have hrun := c.run_eq env base ti g info hinfo hc hmax hsize hfit
    obtain ⟨sc, ss, st, sv, so⟩ := g.storeAt_facts ti (base + c.idx) c.a
    by_cases hx : c.executes = true
    · rw [if_pos hx] at hrun
      obtain ⟨g2, h2, c2, s2, v2, o2⟩ := ih (g.storeAt ti (base + c.idx) c.a)
        (by rw [st]; exact hinfo) (by rw [ss]; exact hsize)
        (fun x hx => hidx x (List.mem_cons_of_mem _ hx))
      refine ⟨g2, ?_, sc.control_trans c2, s2.trans ss, ?_, ?_⟩
      · simp only [runMopCalls, hrun, Res.bind, h2]
      · intro i hi
        rw [v2 i hi]
        simp only [slotAfter]
        congr 1
        by_cases hci : c.idx = i
        · subst hci
          rw [sv, if_pos ⟨hx, rfl⟩]
        · rw [so _ (by omega), if_neg (by simp [hci])]
      · intro j hj
        rw [o2 j hj, so j (by omega)]
    · rw [if_neg hx] at hrun
      obtain ⟨g2, h2, c2, s2, v2, o2⟩ := ih g hinfo hsize
        (fun x hx => hidx x (List.mem_cons_of_mem _ hx))
      refine ⟨g2, ?_, c2, s2, ?_, o2⟩
      · simp only [runMopCalls, hrun, Res.bind, h2]
      · intro i hi
        rw [v2 i hi]
        simp only [slotAfter]
        rw [if_neg (by simp [hx])]

/-- A slot for which no call executed keeps its value. -/
theorem slotAfter_none (i : Nat) :
    ∀ (calls : List MopCall) (v : Nat), (∀ c ∈ calls, c.executes = true → c.idx ≠ i) →
      slotAfter i calls v = v := by
  intro calls
  induction calls with
  | nil => intro v _; rfl
  | cons c rest ih =>
    intro v h
    simp only [slotAfter]
    rw [if_neg (fun hc => h c (List.mem_cons_self _ _) hc.1 hc.2)]
    exact ih v fun x hx => h x (List.mem_cons_of_mem _ hx)

/-- When every operation is the subject of at most one call, the slot of an
operation that executed holds the address passed for it. -/
theorem slotAfter_mem :
    ∀ (calls : List MopCall) (v : Nat), (calls.map MopCall.idx).Nodup →
      ∀ c ∈ calls, c.executes = true → slotAfter c.idx calls v = c.a := by
  intro calls
  induction calls with
  | nil =>
    intro v _ c hc
    cases hc
  | cons c0 rest ih =>
    intro v hnd c hc hx
    rw [List.map_cons, List.nodup_cons] at hnd
    simp only [slotAfter]
    rcases List.mem_cons.1 hc with rfl | hr
    · rw [if_pos ⟨hx, rfl⟩]
      refine slotAfter_none _ rest _ ?_
      intro x hxr _ hxi
      exact hnd.1 (List.mem_map.2 ⟨x, hxr, hxi⟩)
    · exact ih _ hnd.2 c hr hx

/-- C18.  For every trace with `n` memory operations, `1 <= n <= 2044`:
`TLEBAddTrace` returns exactly when its flush does (always when the record
fits), and then it has written `SBLOCK_ENTER` and the trace pointer, followed
by `n` slots all 0, and has returned the index `base` of the first slot (when
no flush was needed, right after the words already buffered, which are
unchanged).  After any sequence of `OnMop` / `On_PredicatedMop` calls for the
operations of that trace, all of which return, slot `i` holds the address
passed for operation `i` if it executed (`OnMop` called, or `On_PredicatedMop`
with `is_running` true; the last such call if there are several) and 0
otherwise, and no word outside the `n` slots and nothing else in the buffer is
modified. -/
theorem C18_trace_address_slots (env : Env) (ti : Nat) (g : Globals) (info : TraceInfo)
    (hinfo : env.traceInfoAt (g.g_pin_threads ti).trace_info = some info)
    (hpos : 1 ≤ info.n_mops) (hmax : info.n_mops ≤ kMaxMopsPerTrace) :
    (TLEBAddTrace env ti g).isOk = (TLEBAddTraceFlush env ti info.n_mops g).isOk ∧
    ((g.g_pin_threads ti).tleb.size + 2 + info.n_mops ≤ kThreadLocalEventBufferSize →
      (TLEBAddTrace env ti g).isOk = true) ∧
    ∀ base g1, TLEBAddTrace env ti g = .ok base g1 →
      2 ≤ base ∧ (g1.g_pin_threads ti).tleb.size = base + info.n_mops ∧
      base + info.n_mops ≤ kThreadLocalEventBufferSize ∧
      (g1.g_pin_threads ti).tleb.events (base - 2) = env.ev.SBLOCK_ENTER ∧
      (g1.g_pin_threads ti).tleb.events (base - 1) = (g.g_pin_threads ti).trace_info ∧
      (∀ i, i < info.n_mops → (g1.g_pin_threads ti).tleb.events (base + i) = 0) ∧
      ((g.g_pin_threads ti).tleb.size + 2 + info.n_mops ≤ kThreadLocalEventBufferSize →
        base = (g.g_pin_threads ti).tleb.size + 2 ∧ g1.log = g.log ∧
        ∀ j, j < (g.g_pin_threads ti).tleb.size →
          (g1.g_pin_threads ti).tleb.events j = (g.g_pin_threads ti).tleb.events j) ∧
      ∀ calls : List MopCall, (∀ c ∈ calls, c.idx < info.n_mops) →
        ∃ g2, runMopCalls env base ti calls g1 = .ok () g2 ∧
          (∀ i, i < info.n_mops →
            (g2.g_pin_threads ti).tleb.events (base + i) = slotAfter i calls 0) ∧
          ((calls.map MopCall.idx).Nodup → ∀ c ∈ calls, c.executes = true →
            (g2.g_pin_threads ti).tleb.events (base + c.idx) = c.a) ∧
          (∀ i, i < info.n_mops → (∀ c ∈ calls, c.executes = true → c.idx ≠ i) →
            (g2.g_pin_threads ti).tleb.events (base + i) = 0) ∧
          (∀ j, j < base ∨ base + info.n_mops ≤ j →
            (g2.g_pin_threads ti).tleb.events j = (g1.g_pin_threads ti).tleb.events j) ∧
          (g2.g_pin_threads ti).tleb.size = (g1.g_pin_threads ti).tleb.size ∧
          g2.log = g1.log := by
  obtain ⟨hok, hlay⟩ := TLEBAddTrace_layout env ti g info hinfo hpos hmax
  have hK : info.n_mops + 2 ≤ kThreadLocalEventBufferSize := by
    unfold kMaxMopsPerTrace at hmax
    unfold kThreadLocalEventBufferSize at *
    omega
  refine ⟨hok, ?_, ?_⟩
  · intro hfit
    rw [hok]
    unfold TLEBAddTraceFlush
    rw [if_neg (by omega)]
    rfl
  · intro base g1 h
    obtain ⟨g0, hf, hb, ha, ht⟩ := hlay base g1 h
    have hroom := flushIf_room env ti (2 + info.n_mops) g (by omega)
    rw [← Nat.add_assoc] at hroom
    have hfit0 : (g0.g_pin_threads ti).tleb.size + (2 + info.n_mops)
        ≤ kThreadLocalEventBufferSize := hroom.2 () g0 hf
    have hsize : (g1.g_pin_threads ti).tleb.size = base + info.n_mops := by
      rw [ha.size, hb]
      simp only [List.length_cons, List.length_replicate]
      omega
    have hzero : ∀ i, i < info.n_mops → (g1.g_pin_threads ti).tleb.events (base + i) = 0 := by
      intro i hi
      have := ha.new (2 + i) (by simp only [List.length_cons, List.length_replicate]; omega)
      rw [hb, Nat.add_assoc, this]
      have e : (env.ev.SBLOCK_ENTER :: (g.g_pin_threads ti).trace_info ::
          List.replicate info.n_mops 0).getD (2 + i) 0
          = (List.replicate info.n_mops 0).getD i 0 := by
        rw [Nat.add_comm]
        rfl
      rw [e, List.getD_eq_getElem _ _ (by simpa using hi)]
      simp
    refine ⟨by omega, hsize, by omega, ?_, ?_, hzero, ?_, ?_⟩
    · have := ha.new 0 (by simp)
      rw [hb]
      simpa using this
    · have := ha.new 1 (by simp)
      rw [hb]
      simpa using this
    · intro hfit
      have hg0 : g0 = g := by
        unfold TLEBAddTraceFlush at hf
        rw [if_neg (by omega)] at hf
        cases hf
        rfl
      subst hg0
      exact ⟨hb, ha.control.log, ha.old⟩
    · intro calls hcalls
      obtain ⟨g2, h2, c2, s2, v2, o2⟩ := runMopCalls_spec env base ti info hmax (by omega) calls
        g1 (by rw [ht]; exact hinfo) hsize hcalls
      have hv : ∀ i, i < info.n_mops →
          (g2.g_pin_threads ti).tleb.events (base + i) = slotAfter i calls 0 := by
        intro i hi
        rw [v2 i hi, hzero i hi]
      refine ⟨g2, h2, hv, ?_, ?_, o2, s2, c2.log⟩
      · intro hnd c hc hx
        rw [hv c.idx (hcalls c hc)]
        exact slotAfter_mem calls 0 hnd c hc hx
      · intro i hi hnone
        rw [hv i hi]
        exact slotAfter_none i calls 0 hnone

/-- C18 at a concrete input: thread 0 of the sample state, whose current trace
has two memory operations, with one word buffered. -/
theorem C18_trace_address_slots_witness :
    (sampleEnv true LOCKING_ON_FLUSH).traceInfoAt ((sampleGlobals [32]).g_pin_threads 0).trace_info
      = some sampleTrace ∧
    1 ≤ sampleTrace.n_mops ∧ sampleTrace.n_mops ≤ kMaxMopsPerTrace ∧
    (TLEBAddTrace (sampleEnv true LOCKING_ON_FLUSH) 0 (sampleGlobals [32])).isOk = true :=
  ⟨rfl, by decide, by decide,
    (C18_trace_address_slots (sampleEnv true LOCKING_ON_FLUSH) 0 (sampleGlobals [32])
      sampleTrace rfl (by decide) (by decide)).2.1 (by decide)⟩

/-- The sample trace evaluated: after `TLEBAddTrace` on a buffer of one word, a
predicated call for operation 0 that does not run and `OnMop` for operation 1
with address 7, the buffer holds the old word, the header and the slots 0, 7. -/
theorem trace_slots_sample :
    (((TLEBAddTrace (sampleEnv true LOCKING_ON_FLUSH) 0 (sampleGlobals [32])).bind
      fun base g1 => (runMopCalls (sampleEnv true LOCKING_ON_FLUSH) base 0
        [⟨true, false, 0, 9⟩, ⟨false, false, 1, 7⟩] g1).bind
        fun _ g2 => .ok base g2).globals.g_pin_threads 0).tleb.slots 0 5
      = [32, 33, 4096, 0, 7] := by
  decide

theorem TLEBSimpleEvent_appended (env : Env) (ti event : Nat) (g : Globals)
    (hrv : g.g_race_verifier_active = false)
    (hfit : (g.g_pin_threads ti).tleb.size + 1 ≤ kThreadLocalEventBufferSize) :
    ∃ g1, TLEBSimpleEvent env ti event g = .ok () g1 ∧ Appended ti [event] g g1 := by
  unfold TLEBSimpleEvent
  rw [if_neg (by simp [hrv]), if_neg (by omega)]
  simp only [Res.bind]
  rw [TLEBStore_push _ _ _ (by omega)]
  simp only
  rw [DCHECK_pass _ _ _ _ (by rw [decide_eq_true_iff, Globals.pushWord_size]; omega)]
  exact ⟨_, rfl, (g.pushWord_appended ti _).1⟩

/-- An operation that is a flush followed by steps that only append the record
to the flushed buffer flushes when full. -/
theorem FlushesWhenFull.of_flush (env : Env) (ti : Nat) (ws : List Nat) (g : Globals)
    (tail : Globals → Res Unit)
    (htail : ∀ g0, (g0.g_pin_threads ti).tleb.size + ws.length ≤ kThreadLocalEventBufferSize →
      ∃ g1, tail g0 = .ok () g1 ∧ Appended ti ws g0 g1)
    (hk : ws.length ≤ kThreadLocalEventBufferSize) :
    FlushesWhenFull env ti ws g
      ((if (g.g_pin_threads ti).tleb.size + ws.length > kThreadLocalEventBufferSize then
          TLEBFlushLocked env ti g
        else .ok () g).bind fun _ g0 => tail g0) := by
  constructor
  · intro hfit
    rw [if_neg (by omega)]
    obtain ⟨g1, h1, a1⟩ := htail g hfit
    exact ⟨(), g1, h1, a1⟩
  · intro hfull
    rw [if_pos hfull]
    have hr := (TLEBFlushLocked_room env ti g).2
    cases hf : TLEBFlushLocked env ti g with
    | abort e g0 =>
      refine ⟨rfl, ?_⟩
      intro a g1 h
      cases h
    | ok u g0 =>
      have z := hr u g0 hf
      obtain ⟨g1, h1, a1⟩ := htail g0 (by omega)
      simp only [Res.bind, h1]
      refine ⟨rfl, ?_⟩
      intro a g2 h
      cases h
      exact ⟨g0, rfl, z, a1⟩

theorem TLEBAddRtnExit_flushes (env : Env) (ti : Nat) (g : Globals) :
    FlushesWhenFull env ti [env.ev.RTN_EXIT] g (TLEBAddRtnExit env ti g) := by
  refine FlushesWhenFull.of_flush env ti [env.ev.RTN_EXIT] g
    (fun g0 => (TLEBStore ti env.ev.RTN_EXIT g0).bind fun _ g =>
      DCHECK env 510 (decide ((g.g_pin_threads ti).tleb.size ≤ kThreadLocalEventBufferSize)) g)
    ?_ (by simp [kThreadLocalEventBufferSize])
  intro g0 h0
  obtain ⟨g1, h1, a1⟩ := TLEBAddRtnExit_appended env ti g0 h0
  refine ⟨g1, ?_, a1⟩
  rw [← h1]
  unfold TLEBAddRtnExit
  rw [if_neg (by simp only [List.length_singleton] at h0; omega)]
  rfl

theorem TLEBSimpleEvent_flushes (env : Env) (ti event : Nat) (g : Globals)
    (hrv : g.g_race_verifier_active = false) :
    FlushesWhenFull env ti [event] g (TLEBSimpleEvent env ti event g) := by
  have e : TLEBSimpleEvent env ti event g
      = (if (g.g_pin_threads ti).tleb.size + [event].length > kThreadLocalEventBufferSize then
          TLEBFlushLocked env ti g
        else .ok () g).bind fun _ g0 => (TLEBStore ti event g0).bind fun _ g =>
          DCHECK env 543
            (decide ((g.g_pin_threads ti).tleb.size ≤ kThreadLocalEventBufferSize)) g := by
    unfold TLEBSimpleEvent
    rw [if_neg (by simp [hrv])]
    rfl
  rw [e]
  refine FlushesWhenFull.of_flush env ti [event] g _ ?_ (by simp [kThreadLocalEventBufferSize])
  intro g0 h0
  simp only [List.length_singleton] at h0
  rw [TLEBStore_push _ _ _ (by omega)]
  simp only [Res.bind]
  rw [DCHECK_pass _ _ _ _ (by rw [decide_eq_true_iff, Globals.pushWord_size]; omega)]
  exact ⟨_, rfl, (g0.pushWord_appended ti _).1⟩

theorem TLEBAddRtnCall_flushes (env : Env) (ti : Nat) (call_pc target_pc ignore_below : Nat)
    (g : Globals) (hsize : (g.g_pin_threads ti).tleb.size ≤ kThreadLocalEventBufferSize) :
    FlushesWhenFull env ti [env.ev.RTN_CALL, call_pc, target_pc, ignore_below] g
      (TLEBAddRtnCall env ti call_pc target_pc ignore_below g) := by
  constructor
  · intro hfit
    obtain ⟨g1, h1, a1⟩ := TLEBAddRtnCall_appended env ti g call_pc target_pc ignore_below hfit
    exact ⟨(), g1, h1, a1⟩
  · intro hfull
    simp only [List.length_cons, List.length_nil] at hfull
    have hr := (TLEBFlushLocked_room env ti g).2
    unfold TLEBAddRtnCall
    rw [DCHECK_pass _ _ _ _ (by rw [decide_eq_true_iff]; exact hsize)]
    simp only [Res.bind]
    rw [if_pos (by omega)]
    cases hf : TLEBFlushLocked env ti g with
    | abort e g0 =>
      refine ⟨rfl, ?_⟩
      intro a g1 h
      cases h
    | ok u g0 =>
      have z := hr u g0 hf
      obtain ⟨s1, s2, s3, s4, ha, hs⟩ :=
        four_stores ti g0 env.ev.RTN_CALL call_pc target_pc ignore_below (by rw [z]; decide)
      simp only
      rw [DCHECK_pass _ _ _ _ (by rw [decide_eq_true_iff]; exact z)]
      simp only [s1, s2, s3, s4]
      rw [DCHECK_pass _ _ _ _ (by rw [decide_eq_true_iff, hs, z]; decide)]
      refine ⟨rfl, ?_⟩
      intro a g2 h
      cases h
      exact ⟨g0, rfl, z, ha⟩

theorem TLEBAddTrace_flushes (env : Env) (ti : Nat) (g : Globals) (info : TraceInfo)
    (hinfo : env.traceInfoAt (g.g_pin_threads ti).trace_info = some info)
    (hpos : 0 < info.n_mops) (hmax : info.n_mops ≤ kMaxMopsPerTrace) :
    FlushesWhenFull env ti
      (env.ev.SBLOCK_ENTER :: (g.g_pin_threads ti).trace_info :: List.replicate info.n_mops 0)
      g (TLEBAddTrace env ti g) := by
  obtain ⟨hok, hlay⟩ := TLEBAddTrace_layout env ti g info hinfo hpos hmax
  have hr := (TLEBFlushLocked_room env ti g).2
  constructor
  · intro hfit
    simp only [List.length_cons, List.length_replicate] at hfit
    have hf : TLEBAddTraceFlush env ti info.n_mops g = .ok () g := by
      unfold TLEBAddTraceFlush
      rw [if_neg (by omega)]
    rw [hf] at hok
    cases h : TLEBAddTrace env ti g with
    | abort e g1 =>
      rw [h] at hok
      cases hok
    | ok base g1 =>
      obtain ⟨g0, h0, _, ha, _⟩ := hlay base g1 h
      rw [hf] at h0
      cases h0
      exact ⟨base, g1, rfl, ha⟩
  · intro hfull
    simp only [List.length_cons, List.length_replicate] at hfull
    have hf : TLEBAddTraceFlush env ti info.n_mops g = TLEBFlushLocked env ti g := by
      unfold TLEBAddTraceFlush
      rw [if_pos (by omega)]
    rw [hf] at hok hlay
    refine ⟨hok, ?_⟩
    intro base g1 h
    obtain ⟨g0, h0, _, ha, _⟩ := hlay base g1 h
    exact ⟨g0, h0, hr () g0 h0, ha⟩

theorem TLEBAddGenericEventAndFlush_isOk (env : Env) (ti type pc a info : Nat) (g : Globals) :
    (TLEBAddGenericEventAndFlush env ti type pc a info g).isOk
      = ((TLEBAddGenericEvent env ti type pc a info g).bind
          fun _ g2 => TLEBFlushLocked env ti g2).isOk := by
  unfold TLEBAddGenericEventAndFlush
  cases TLEBAddGenericEvent env ti type pc a info g with
  | abort e g2 => rfl
  | ok u g2 =>
    simp only [Res.bind]
    have hr := (TLEBFlushLocked_room env ti g2).2
    cases hf : TLEBFlushLocked env ti g2 with
    | abort e g3 => rfl
    | ok u2 g3 =>
      simp only
      rw [DCHECK_pass _ _ _ _ (by rw [decide_eq_true_iff, hr u2 g3 hf]; decide)]

/-- C19, counterexample.  With the race verifier active `TLEBSimpleEvent` returns
at once: called on an empty buffer it leaves the buffer empty (the record does
not occupy `events[0..1)`), and called on a full buffer of 2046 words, where
`tleb.size + 1 > 2046`, it leaves the 2046 words buffered and the log empty (no
flush happens). -/
theorem C19_flush_on_overflow_counterexample :
    (TLEBSimpleEvent (sampleEnv false LOCKING_ON_FLUSH) 0 (TLEB_IGNORE_ALL_BEGIN sampleEvents)
      (sampleGlobalsVerifier [])).isOk = true ∧
    ((TLEBSimpleEvent (sampleEnv false LOCKING_ON_FLUSH) 0 (TLEB_IGNORE_ALL_BEGIN sampleEvents)
      (sampleGlobalsVerifier [])).globals.g_pin_threads 0).tleb.size = 0 ∧
    (sampleGlobalsVerifierFull.g_pin_threads 0).tleb.size + 1
      > kThreadLocalEventBufferSize ∧
    ((TLEBSimpleEvent (sampleEnv false LOCKING_ON_FLUSH) 0 (TLEB_IGNORE_ALL_BEGIN sampleEvents)
      sampleGlobalsVerifierFull).globals.g_pin_threads 0).tleb.size
      = 2046 ∧
    (TLEBSimpleEvent (sampleEnv false LOCKING_ON_FLUSH) 0 (TLEB_IGNORE_ALL_BEGIN sampleEvents)
      sampleGlobalsVerifierFull).globals.log = [] := by
  decide

/-- C19, amended.  On a buffer with `tleb.size <= 2046`, for `TLEBAddRtnCall`
(`k = 4` words), `TLEBAddRtnExit` (`k = 1`), `TLEBSimpleEvent` (`k = 1`) while
the race verifier is not active, and `TLEBAddTrace` (`k = 2 + n_mops`, with
`1 <= n_mops <= 2044`): a flush happens iff `tleb.size + k > 2046`.  When
`tleb.size + k <= 2046` the operation returns and has only appended its record:
the previously buffered words `events[0..size)` and the log are unchanged and
the record occupies `events[size..size+k)`.  When `tleb.size + k > 2046` the
operation calls `TLEBFlushLocked` on the state it was entered with, returns
exactly when that flush returns, and the record then occupies `events[0..k)` of
the emptied buffer.  With the race verifier active `TLEBSimpleEvent` returns at
once, flushing and storing nothing.  `TLEBAddGenericEventAndFlush` always ends
with a flush: it returns exactly when the stores of its record and the flush
after them return, and `tleb.size = 0` whenever it returns. -/
theorem C19_flush_on_overflow (env : Env) (ti : Nat) (g : Globals) :
    ((g.g_pin_threads ti).tleb.size ≤ kThreadLocalEventBufferSize →
      ∀ call_pc target_pc ignore_below,
        FlushesWhenFull env ti [env.ev.RTN_CALL, call_pc, target_pc, ignore_below] g
          (TLEBAddRtnCall env ti call_pc target_pc ignore_below g)) ∧
    FlushesWhenFull env ti [env.ev.RTN_EXIT] g (TLEBAddRtnExit env ti g) ∧
    (g.g_race_verifier_active = false →
      ∀ event, FlushesWhenFull env ti [event] g (TLEBSimpleEvent env ti event g)) ∧
    (g.g_race_verifier_active = true →
      ∀ event, TLEBSimpleEvent env ti event g = .ok () g) ∧
    (∀ info, env.traceInfoAt (g.g_pin_threads ti).trace_info = some info →
      1 ≤ info.n_mops → info.n_mops ≤ kMaxMopsPerTrace →
      FlushesWhenFull env ti
        (env.ev.SBLOCK_ENTER :: (g.g_pin_threads ti).trace_info ::
          List.replicate info.n_mops 0)
        g (TLEBAddTrace env ti g)) ∧
    (∀ type pc a info,
      (TLEBAddGenericEventAndFlush env ti type pc a info g).isOk
        = ((TLEBAddGenericEvent env ti type pc a info g).bind
            fun _ g2 => TLEBFlushLocked env ti g2).isOk ∧
      ∀ g1, TLEBAddGenericEventAndFlush env ti type pc a info g = .ok () g1 →
        (g1.g_pin_threads ti).tleb.size = 0) := by
  refine ⟨fun hsize call_pc target_pc ignore_below =>
      TLEBAddRtnCall_flushes env ti call_pc target_pc ignore_below g hsize,
    TLEBAddRtnExit_flushes env ti g,
    fun hrv event => TLEBSimpleEvent_flushes env ti event g hrv, ?_,
    fun info hinfo hpos hmax => TLEBAddTrace_flushes env ti g info hinfo hpos hmax,
    fun type pc a info => ⟨TLEBAddGenericEventAndFlush_isOk env ti type pc a info g,
      fun g1 h => TLEBAddGenericEventAndFlush_size env ti type pc a info g g1 h⟩⟩
  intro hrv event
  unfold TLEBSimpleEvent
  rw [if_pos hrv]

/-- C19 (amended) at a concrete input: `TLEBAddRtnCall` on a buffer of one
word, where the record fits. -/
theorem C19_flush_on_overflow_witness :
    ((sampleGlobals [32]).g_pin_threads 0).tleb.size ≤ kThreadLocalEventBufferSize ∧
    ((sampleGlobals [32]).g_pin_threads 0).tleb.size + [31, 7, 8, 1].length
      ≤ kThreadLocalEventBufferSize ∧
    ∃ a g1, TLEBAddRtnCall (sampleEnv true LOCKING_ON_FLUSH) 0 7 8 1 (sampleGlobals [32])
        = .ok a g1 ∧
      Appended 0 [(sampleEnv true LOCKING_ON_FLUSH).ev.RTN_CALL, 7, 8, 1] (sampleGlobals [32])
        g1 :=
  ⟨by decide, by decide,
    ((C19_flush_on_overflow (sampleEnv true LOCKING_ON_FLUSH) 0 (sampleGlobals [32])).1
      (by decide) 7 8 1).fits (by decide)⟩

/-- The flush on would-overflow evaluated: `TLEBAddRtnExit` on a full buffer
under `LOCKING_SEPARATE_THREAD` queues the buffer between `Lock` and `Unlock`,
and leaves its own record as the only word of the buffer. -/
theorem flush_when_full_sample :
    ((TLEBAddRtnExit (sampleEnv false LOCKING_SEPARATE_THREAD) 0
      { sampleGlobalsVerifierFull with
        g_race_verifier_active := false, global_ignore := false }).globals.g_pin_threads
      0).tleb.size = 1 ∧
    (TLEBAddRtnExit (sampleEnv false LOCKING_SEPARATE_THREAD) 0
      { sampleGlobalsVerifierFull with
        g_race_verifier_active := false, global_ignore := false }).globals.log
      = [.Lock, .Unlock] ∧
    ((TLEBAddRtnExit (sampleEnv false LOCKING_SEPARATE_THREAD) 0
      { sampleGlobalsVerifierFull with
        g_race_verifier_active := false, global_ignore := false }).globals.g_tleb_queue.map
      fun q => q.map ThreadLocalEventBuffer.size) = some [2046] := by
  decide

/-! ## The filter for lock events -/

/-- The last branch of the decoder on a record whose three payload words can
be read: the two filters, in the order of the source, then the event is passed
on. -/
theorem FlushGeneric_eq (env : Env) (tleb : ThreadLocalEventBuffer) (event j : Nat)
    (g : Globals) (pc a info : Nat) (h1 : env.ev.NOOP < event) (h2 : event < env.ev.LAST_EVENT)
    (hpc : tleb.load j = some pc) (ha : tleb.load (j + 1) = some a)
    (hinfo : tleb.load (j + 2) = some info) :
    FlushGeneric env tleb event j g =
      if (g.g_pin_threads tleb.t).ignore_lock_events ≠ 0 ∧
          (event = env.ev.WRITER_LOCK ∨ event = env.ev.READER_LOCK ∨ event = env.ev.UNLOCK) then
        .ok (j + 3) g
      else if ((g.g_pin_threads tleb.t).ignore_all_mops ≠ 0 ∨ g.global_ignore = true) ∧
          (event = env.ev.READ ∨ event = env.ev.WRITE) then
        .ok (j + 3) g
      else .ok (j + 3)
        (DumpEventInternal env event (g.g_pin_threads tleb.t).uniq_tid pc a info g) := by
  unfold FlushGeneric
  simp only [hpc, ha, hinfo]
  rw [if_neg (by simp [h1, h2])]

/-- What an iteration of the decoder does with a generic record while the
thread ignores lock events (`ignore_lock_events` not 0): `WRITER_LOCK`,
`READER_LOCK` and `UNLOCK` are dropped, the state is unchanged; every other
generic event that the filter for memory accesses does not drop, `UNLOCK_OR_INIT`
among them, is passed on with its fields unchanged.  With `ignore_lock_events = 0`
the three lock events are passed on as well. -/
theorem sync_filter_step (env : Env) (hev : env.ev.Valid) (tleb : ThreadLocalEventBuffer)
    (i : Nat) (g : Globals) (event pc a info : Nat)
    (hload : tleb.load i = some event) (hpc : tleb.load (i + 1) = some pc)
    (ha : tleb.load (i + 2) = some a) (hinfo : tleb.load (i + 3) = some info)
    (hrv : env.DEBUG_MODE = false ∨ g.g_race_verifier_active = false) :
    ((g.g_pin_threads tleb.t).ignore_lock_events ≠ 0 →
      event = env.ev.WRITER_LOCK ∨ event = env.ev.READER_LOCK ∨ event = env.ev.UNLOCK →
      TLEBFlushStep env tleb i g = .ok (i + 4) g) ∧
    (event = env.ev.UNLOCK_OR_INIT →
      TLEBFlushStep env tleb i g = .ok (i + 4)
        (DumpEventInternal env event (g.g_pin_threads tleb.t).uniq_tid pc a info g)) ∧
    (env.ev.NOOP < event → event < env.ev.LAST_EVENT →
      event ≠ env.ev.RTN_EXIT → event ≠ env.ev.RTN_CALL → event ≠ env.ev.SBLOCK_ENTER →
      event ≠ env.ev.THR_START → event ≠ env.ev.THR_END →
      event ≠ env.ev.WRITER_LOCK → event ≠ env.ev.READER_LOCK → event ≠ env.ev.UNLOCK →
      event ≠ env.ev.READ → event ≠ env.ev.WRITE →
      TLEBFlushStep env tleb i g = .ok (i + 4)
        (DumpEventInternal env event (g.g_pin_threads tleb.t).uniq_tid pc a info g)) ∧
    ((g.g_pin_threads tleb.t).ignore_lock_events = 0 →
      event = env.ev.WRITER_LOCK ∨ event = env.ev.READER_LOCK ∨ event = env.ev.UNLOCK →
      TLEBFlushStep env tleb i g = .ok (i + 4)
        (DumpEventInternal env event (g.g_pin_threads tleb.t).uniq_tid pc a info g)) := by
  have hstep := TLEBFlushStep_eq env tleb i event g hload hrv
  have n := fun i j hi hj hij => hev.ne i j hi hj hij
  have b := fun i hi => hev.bound i hi
  have l : env.ev.proper.length = 14 := rfl
  have other : env.ev.NOOP < event → event < env.ev.LAST_EVENT →
      event ≠ env.ev.RTN_EXIT → event ≠ env.ev.RTN_CALL → event ≠ env.ev.SBLOCK_ENTER →
      event ≠ env.ev.THR_START → event ≠ env.ev.THR_END →
      event ≠ env.ev.WRITER_LOCK → event ≠ env.ev.READER_LOCK → event ≠ env.ev.UNLOCK →
      event ≠ env.ev.READ → event ≠ env.ev.WRITE →
      TLEBFlushStep env tleb i g = .ok (i + 4)
        (DumpEventInternal env event (g.g_pin_threads tleb.t).uniq_tid pc a info g) := by
    intro h1 h2 e1 e2 e3 e4 e5 k1 k2 k3 m1 m2
    rw [hstep, FlushDispatch_generic _ _ _ _ _ e1 e2 e3 e4 e5 h2,
      FlushGeneric_eq env tleb event (i + 1) g pc a info h1 h2 hpc ha hinfo,
      if_neg (fun h => h.2.elim k1 fun h => h.elim k2 k3),
      if_neg (fun h => h.2.elim m1 m2)]
  have lock : event = env.ev.WRITER_LOCK ∨ event = env.ev.READER_LOCK ∨ event = env.ev.UNLOCK →
      TLEBFlushStep env tleb i g
        = FlushGeneric env tleb event (i + 1) g ∧ env.ev.NOOP < event ∧
          event < env.ev.LAST_EVENT ∧ event ≠ env.ev.READ ∧ event ≠ env.ev.WRITE := by
    intro hl
    rcases hl with h | h | h <;> subst h
    · exact ⟨hstep.trans (FlushDispatch_generic _ _ _ _ _
          (n 3 9 (by omega) (by omega) (by omega)) (n 3 10 (by omega) (by omega) (by omega))
          (n 3 11 (by omega) (by omega) (by omega)) (n 3 6 (by omega) (by omega) (by omega))
          (n 3 7 (by omega) (by omega) (by omega)) (b 3 (by omega)).2),
        (b 3 (by omega)).1, (b 3 (by omega)).2,
        n 3 0 (by omega) (by omega) (by omega), n 3 1 (by omega) (by omega) (by omega)⟩
    · exact ⟨hstep.trans (FlushDispatch_generic _ _ _ _ _
          (n 2 9 (by omega) (by omega) (by omega)) (n 2 10 (by omega) (by omega) (by omega))
          (n 2 11 (by omega) (by omega) (by omega)) (n 2 6 (by omega) (by omega) (by omega))
          (n 2 7 (by omega) (by omega) (by omega)) (b 2 (by omega)).2),
        (b 2 (by omega)).1, (b 2 (by omega)).2,
        n 2 0 (by omega) (by omega) (by omega), n 2 1 (by omega) (by omega) (by omega)⟩
    · exact ⟨hstep.trans (FlushDispatch_generic _ _ _ _ _
          (n 4 9 (by omega) (by omega) (by omega)) (n 4 10 (by omega) (by omega) (by omega))
          (n 4 11 (by omega) (by omega) (by omega)) (n 4 6 (by omega) (by omega) (by omega))
          (n 4 7 (by omega) (by omega) (by omega)) (b 4 (by omega)).2),
        (b 4 (by omega)).1, (b 4 (by omega)).2,
        n 4 0 (by omega) (by omega) (by omega), n 4 1 (by omega) (by omega) (by omega)⟩
  refine ⟨?_, ?_, other, ?_⟩
  · intro hs hl
    obtain ⟨e, h1, h2, _, _⟩ := lock hl
    rw [e, FlushGeneric_eq env tleb event (i + 1) g pc a info h1 h2 hpc ha hinfo,
      if_pos ⟨hs, hl⟩]
  · intro hu
    subst hu
    exact other (b 5 (by omega)).1 (b 5 (by omega)).2
      (n 5 9 (by omega) (by omega) (by omega)) (n 5 10 (by omega) (by omega) (by omega))
      (n 5 11 (by omega) (by omega) (by omega)) (n 5 6 (by omega) (by omega) (by omega))
      (n 5 7 (by omega) (by omega) (by omega)) (n 5 3 (by omega) (by omega) (by omega))
      (n 5 2 (by omega) (by omega) (by omega)) (n 5 4 (by omega) (by omega) (by omega))
      (n 5 0 (by omega) (by omega) (by omega)) (n 5 1 (by omega) (by omega) (by omega))
  · intro hs hl
    obtain ⟨e, h1, h2, m1, m2⟩ := lock hl
    rw [e, FlushGeneric_eq env tleb event (i + 1) g pc a info h1 h2 hpc ha hinfo,
      if_neg (fun h => h.1 hs), if_neg (fun h => h.2.elim m1 m2)]

/-- C20, the code at the failing input.  Thread 0 is ignoring lock events
(`ignore_lock_events = 1`) and its buffer holds the record of an
`UNLOCK_OR_INIT` event, as `pthread_spin_unlock` produces it, followed by the
record of an `UNLOCK` event.  `TLEBFlushUnlocked` returns, drops the `UNLOCK`,
and hands the `UNLOCK_OR_INIT` event to the analyzer. -/
theorem C20_unlock_or_init_not_filtered :
    ((sampleGlobalsSyncIgnoring []).g_pin_threads 0).ignore_lock_events = 1 ∧
    sampleEvents.UNLOCK_OR_INIT = 6 ∧ sampleEvents.UNLOCK = 5 ∧
    (TLEBFlushUnlocked (sampleEnv false LOCKING_ON_FLUSH) (sampleTleb 0 [6, 7, 8, 0, 5, 7, 8, 0])
      (sampleGlobalsSyncIgnoring [])).isOk = true ∧
    (TLEBFlushUnlocked (sampleEnv false LOCKING_ON_FLUSH) (sampleTleb 0 [6, 7, 8, 0, 5, 7, 8, 0])
      (sampleGlobalsSyncIgnoring [])).globals.log = [.HandleOneEvent 6 0 7 8 0] ∧
    (TLEBFlushUnlocked (sampleEnv true LOCKING_ON_FLUSH) (sampleTleb 0 [6, 7, 8, 0, 5, 7, 8, 0])
      (sampleGlobalsSyncIgnoring [])).globals.log = [.HandleOneEvent 6 0 7 8 0] := by
  decide

end TsPin

namespace Libc

/-! ## Reading an item -/

theorem skipSpace_separator (sp rest : List Char) (h : ∀ c ∈ sp, isspace c = true) :
    skipSpace (sp ++ rest) = skipSpace rest := by
  induction sp with
  | nil => rfl
  | cons c sp ih =>
    simp only [List.cons_append, skipSpace]
    rw [if_pos (h c (List.mem_cons_self _ _))]
    exact ih fun x hx => h x (List.mem_cons_of_mem _ hx)

theorem skipSpace_item (c : Char) (rest : List Char) (h : isspace c = false) :
    skipSpace (c :: rest) = c :: rest := by
  simp only [skipSpace]
  rw [if_neg (by simp [h])]

theorem EndsItem.cases {rest : List Char} (h : EndsItem rest) :
    rest = [] ∨ ∃ c tail, rest = c :: tail ∧ isspace c = true := by
  cases rest with
  | nil => exact Or.inl rfl
  | cons c tail => exact Or.inr ⟨c, tail, rfl, h c (by simp)⟩

theorem takeWhile_word (w rest : List Char) (hw : ∀ c ∈ w, isspace c = false)
    (hr : EndsItem rest) :
    (w ++ rest).takeWhile (fun c => !isspace c) = w ∧
    (w ++ rest).dropWhile (fun c => !isspace c) = rest := by
  induction w with
  | nil =>
    rcases hr.cases with h | ⟨c, tail, h, hc⟩
    · subst h
      exact ⟨rfl, rfl⟩
    · subst h
      simp [List.takeWhile, List.dropWhile, hc]
  | cons c w ih =>
    have hc := hw c (List.mem_cons_self _ _)
    obtain ⟨i1, i2⟩ := ih fun x hx => hw x (List.mem_cons_of_mem _ hx)
    rw [List.cons_append, List.takeWhile_cons, List.dropWhile_cons]
    simp only [hc, Bool.not_false, if_true]
    exact ⟨by rw [i1], i2⟩

theorem cstr_of_no_nul (w : List Char) (h : ∀ c ∈ w, c.toNat ≠ 0) : cstr w = w := by
  induction w with
  | nil => rfl
  | cons c w ih =>
    simp only [cstr]
    rw [if_neg (h c (List.mem_cons_self _ _)), ih fun x hx => h x (List.mem_cons_of_mem _ hx)]

/-- Directive `%s` on a word that fits the array, after any white space. -/
theorem scan_s_word (bufSize : Nat) (sp w rest : List Char)
    (hsp : ∀ c ∈ sp, isspace c = true) (hw : IsWord w) (hfit : w.length + 1 ≤ bufSize)
    (hr : EndsItem rest) :
    scan_s bufSize (sp ++ (w ++ rest)) = .assigned w rest := by
  obtain ⟨hne, hall⟩ := hw
  obtain ⟨t1, t2⟩ := takeWhile_word w rest (fun c hc => (hall c hc).1) hr
  cases w with
  | nil => exact absurd rfl hne
  | cons c w =>
    unfold scan_s
    rw [skipSpace_separator sp _ hsp, List.cons_append,
      skipSpace_item c _ (hall c (List.mem_cons_self _ _)).1]
    simp only
    rw [List.cons_append] at t1 t2
    rw [t1, t2, if_pos hfit, cstr_of_no_nul _ fun x hx => (hall x hx).2]

theorem hexDigit_range {c : Char} (h : (hexDigitValue c).isSome = true) :
    (48 ≤ c.toNat ∧ c.toNat ≤ 57) ∨ (97 ≤ c.toNat ∧ c.toNat ≤ 102) ∨
      (65 ≤ c.toNat ∧ c.toNat ≤ 70) := by
  unfold hexDigitValue at h
  by_cases h1 : 48 ≤ c.toNat ∧ c.toNat ≤ 57
  · exact Or.inl h1
  · by_cases h2 : 97 ≤ c.toNat ∧ c.toNat ≤ 102
    · exact Or.inr (Or.inl h2)
    · by_cases h3 : 65 ≤ c.toNat ∧ c.toNat ≤ 70
      · exact Or.inr (Or.inr h3)
      · rw [if_neg h1, if_neg h2, if_neg h3] at h
        cases h

theorem space_range {c : Char} (h : isspace c = true) :
    c.toNat = 32 ∨ (9 ≤ c.toNat ∧ c.toNat ≤ 13) := by
  unfold isspace at h
  simpa using h

theorem hexDigit_not_space {c : Char} (h : (hexDigitValue c).isSome = true) :
    isspace c = false := by
  have := hexDigit_range h
  unfold isspace
  simp only [Bool.or_eq_false_iff, decide_eq_false_iff_not, Bool.and_eq_false_imp,
    decide_eq_true_eq]
  omega

theorem space_not_hexDigit {c : Char} (h : isspace c = true) : hexDigitValue c = none := by
  have := space_range h
  unfold hexDigitValue
  rw [if_neg (by omega), if_neg (by omega), if_neg (by omega)]

theorem space_not_decDigit {c : Char} (h : isspace c = true) : decDigitValue c = none := by
  have := space_range h
  unfold decDigitValue
  rw [if_neg (by omega)]

/-- The run of digits at the head of the input is the whole numeral when the
input after it starts with no digit. -/
theorem scanDigits_numeral (digit : Char → Option Nat) (base : Nat) (rest : List Char)
    (hr : ∀ c ∈ rest.head?, digit c = none) :
    ∀ (ds : List Char) (acc cnt : Nat), (∀ c ∈ ds, (digit c).isSome = true) →
      scanDigits digit base (ds ++ rest) acc cnt
        = (ds.foldl (fun acc c => acc * base + (digit c).getD 0) acc, cnt + ds.length, rest) := by
  intro ds
  induction ds with
  | nil =>
    intro acc cnt _
    cases rest with
    | nil => rfl
    | cons c tail =>
      have := hr c (by simp)
      simp only [List.nil_append, scanDigits, this, List.foldl_nil, List.length_nil, Nat.add_zero]
  | cons d ds ih =>
    intro acc cnt h
    obtain ⟨v, hv⟩ := Option.isSome_iff_exists.1 (h d (List.mem_cons_self _ _))
    simp only [List.cons_append, scanDigits, hv, List.foldl_cons, Option.getD_some,
      List.length_cons]
    change scanDigits digit base (ds ++ rest) _ _ = _
    rw [ih _ _ fun x hx => h x (List.mem_cons_of_mem _ hx)]
    simp only [Prod.mk.injEq, true_and, and_true]
    omega

theorem scanSign_hexDigit (c : Char) (rest : List Char)
    (h : (hexDigitValue c).isSome = true) : scanSign (c :: rest) = (false, c :: rest) := by
  have := hexDigit_range h
  simp only [scanSign]
  rw [if_neg (by omega), if_neg (by omega)]

theorem scanHexPrefix_numeral (ds rest : List Char) (hd : IsHexNumeral ds)
    (hr : EndsItem rest) : scanHexPrefix (ds ++ rest) = ds ++ rest := by
  obtain ⟨hne, hall⟩ := hd
  cases ds with
  | nil => exact absurd rfl hne
  | cons c ds =>
    cases ds with
    | nil =>
      rcases hr.cases with h | ⟨x, tail, h, hx⟩
      · subst h
        rfl
      · subst h
        have := space_range hx
        simp only [List.cons_append, List.nil_append, scanHexPrefix]
        rw [if_neg (by omega)]
    | cons x ds =>
      have := hexDigit_range (hall x (by simp))
      simp only [List.cons_append, scanHexPrefix]
      rw [if_neg (by omega)]

/-- Directives `%x` and `%lx` on a hexadecimal numeral whose value fits the
object, after any white space: the value of the numeral is assigned. -/
theorem scan_x_numeral (bits : Nat) (sp ds rest : List Char)
    (hsp : ∀ c ∈ sp, isspace c = true) (hd : IsHexNumeral ds)
    (hfit : numeralValue ds < 2 ^ bits) (hr : EndsItem rest) :
    scan_x bits (sp ++ (ds ++ rest)) = .assigned (numeralValue ds) rest := by
  have hp := scanHexPrefix_numeral ds rest hd hr
  obtain ⟨hne, hall⟩ := hd
  have hscan := scanDigits_numeral hexDigitValue 16 rest
    (fun c hc => space_not_hexDigit (hr c hc)) ds 0 0 hall
  cases ds with
  | nil => exact absurd rfl hne
  | cons c ds =>
    have hc := hall c (List.mem_cons_self _ _)
    unfold scan_x
    rw [skipSpace_separator sp _ hsp, List.cons_append, skipSpace_item c _ (hexDigit_not_space hc),
      scanSign_hexDigit c _ hc]
    simp only
    rw [List.cons_append] at hp hscan
    rw [hp, hscan]
    simp only [List.length_cons, Nat.zero_add]
    rw [if_neg (by omega)]
    change (if numeralValue (c :: ds) < 2 ^ bits then _ else _) = _
    rw [if_pos hfit]
    rfl

/-! ## Printing a number and reading it back -/

theorem digitChar_hex : ∀ d, d < 16 → hexDigitValue (digitChar d) = some d := by
  decide

theorem digitChar_dec : ∀ d, d < 10 → decDigitValue (digitChar d) = some d := by
  decide

/-- The digits `digitsRev` gives are digits of the base, there is at least one,
and they denote the number. -/
theorem digitsRev_spec (base : Nat) (hb : 2 ≤ base) :
    ∀ (fuel n : Nat), n < base ^ fuel →
      (∀ d ∈ digitsRev base fuel n, d < base) ∧
      (0 < fuel → digitsRev base fuel n ≠ []) ∧
      (digitsRev base fuel n).foldr (fun d acc => acc * base + d) 0 = n := by
  intro fuel
  induction fuel with
  | zero =>
    intro n hn
    simp only [pow_zero, Nat.lt_one_iff] at hn
    subst hn
    exact ⟨by simp [digitsRev], by simp, rfl⟩
  | succ fuel ih =>
    intro n hn
    have hmod : n % base < base := Nat.mod_lt _ (by omega)
    have hdiv : n / base < base ^ fuel := by
      rw [Nat.div_lt_iff_lt_mul (by omega)]
      rw [pow_succ] at hn
      exact hn
    obtain ⟨i1, _, i3⟩ := ih (n / base) hdiv
    simp only [digitsRev]
    by_cases hz : n / base = 0
    · rw [if_pos hz]
      refine ⟨by simpa using hmod, by simp, ?_⟩
      simp only [List.foldr_cons, List.foldr_nil, Nat.zero_mul, Nat.zero_add]
      have := Nat.div_add_mod n base
      rw [hz] at this
      omega
    · rw [if_neg hz]
      refine ⟨?_, by simp, ?_⟩
      · intro d hd
        rcases List.mem_cons.1 hd with rfl | hd
        · exact hmod
        · exact i1 d hd
      · simp only [List.foldr_cons]
        rw [i3]
        have := Nat.div_add_mod n base
        rw [Nat.mul_comm] at this
        exact this

theorem numeralValue_digits (ds : List Nat) (h : ∀ d ∈ ds, d < 16) :
    numeralValue ((ds.reverse).map digitChar) = ds.foldr (fun d acc => acc * 16 + d) 0 := by
  unfold numeralValue
  rw [List.foldl_map, ← List.foldr_reverse, List.reverse_reverse]
  induction ds with
  | nil => rfl
  | cons d ds ih =>
    simp only [List.foldr_cons]
    rw [ih fun x hx => h x (List.mem_cons_of_mem _ hx),
      digitChar_hex d (h d (List.mem_cons_self _ _))]
    rfl

/-- What `printf` writes for `%x` and `%lx` is a hexadecimal numeral, and it
denotes the value printed. -/
theorem print_x_numeral (bits : Nat) (v : Nat) (hbits : bits = 32 ∨ bits = 64) :
    IsHexNumeral (print_x bits v) ∧ numeralValue (print_x bits v) = v % 2 ^ bits := by
  have hlt : v % 2 ^ bits < 16 ^ (bits / 4) := by
    rcases hbits with h | h <;> subst h <;> exact Nat.mod_lt _ (by norm_num)
  have hpos : 0 < bits / 4 := by
    rcases hbits with h | h <;> subst h <;> decide
  obtain ⟨d1, d2, d3⟩ := digitsRev_spec 16 (by decide) (bits / 4) (v % 2 ^ bits) hlt
  refine ⟨⟨?_, ?_⟩, ?_⟩
  · unfold print_x
    intro h
    rw [List.map_eq_nil_iff, List.reverse_eq_nil_iff] at h
    exact d2 hpos h
  · unfold print_x
    intro c hc
    rw [List.mem_map] at hc
    obtain ⟨d, hd, rfl⟩ := hc
    rw [digitChar_hex d (d1 d (List.mem_reverse.1 hd))]
    rfl
  · unfold print_x
    rw [numeralValue_digits _ d1, d3]

theorem decDigit_range {c : Char} (h : (decDigitValue c).isSome = true) :
    48 ≤ c.toNat ∧ c.toNat ≤ 57 := by
  unfold decDigitValue at h
  by_cases h1 : 48 ≤ c.toNat ∧ c.toNat ≤ 57
  · exact h1
  · rw [if_neg h1] at h
    cases h

/-- What `printf` writes for `%d` and a value that is not negative is read back
by the directive `%d`, after any white space. -/
theorem scan_d_print (v : Int) (sp rest : List Char) (h0 : 0 ≤ v) (h1 : v < 2 ^ 31)
    (hsp : ∀ c ∈ sp, isspace c = true) (hr : EndsItem rest) :
    scan_d (sp ++ (print_d v ++ rest)) = .assigned v rest := by
  have hlt : v.toNat < 10 ^ 10 := by omega
  obtain ⟨d1, d2, d3⟩ := digitsRev_spec 10 (by decide) 10 v.toNat hlt
  have hp : print_d v = ((digitsRev 10 10 v.toNat).reverse).map digitChar := by
    unfold print_d
    rw [if_neg (by omega)]
  have hall : ∀ c ∈ print_d v, (decDigitValue c).isSome = true := by
    rw [hp]
    intro c hc
    rw [List.mem_map] at hc
    obtain ⟨d, hd, rfl⟩ := hc
    rw [digitChar_dec d (d1 d (List.mem_reverse.1 hd))]
    rfl
  have hne : print_d v ≠ [] := by
    rw [hp]
    intro h
    rw [List.map_eq_nil_iff, List.reverse_eq_nil_iff] at h
    exact d2 (by decide) h
  have hval : (print_d v).foldl (fun acc c => acc * 10 + (decDigitValue c).getD 0) 0
      = v.toNat := by
    rw [hp, List.foldl_map, ← List.foldr_reverse, List.reverse_reverse]
    have : ∀ ds : List Nat, (∀ d ∈ ds, d < 10) →
        ds.foldr (fun d acc => acc * 10 + (decDigitValue (digitChar d)).getD 0) 0
          = ds.foldr (fun d acc => acc * 10 + d) 0 := by
      intro ds
      induction ds with
      | nil => intro _; rfl
      | cons d ds ih =>
        intro h
        simp only [List.foldr_cons]
        rw [ih fun x hx => h x (List.mem_cons_of_mem _ hx),
          digitChar_dec d (h d (List.mem_cons_self _ _))]
        rfl
    rw [this _ d1]
    exact d3
  have hscan := scanDigits_numeral decDigitValue 10 rest
    (fun c hc => space_not_decDigit (hr c hc)) (print_d v) 0 0 hall
  rw [hval] at hscan
  cases hpd : print_d v with
  | nil => exact absurd hpd hne
  | cons c ds =>
    rw [hpd] at hscan hall
    have hc := decDigit_range (hall c (List.mem_cons_self _ _))
    have hns : isspace c = false := by
      unfold isspace
      simp only [Bool.or_eq_false_iff, decide_eq_false_iff_not, Bool.and_eq_false_imp,
        decide_eq_true_eq]
      omega
    have hsign : scanSign (c :: (ds ++ rest)) = (false, c :: (ds ++ rest)) := by
      simp only [scanSign]
      rw [if_neg (by omega), if_neg (by omega)]
    unfold scan_d
    rw [skipSpace_separator sp _ hsp, List.cons_append, skipSpace_item c _ hns, hsign]
    simp only
    rw [List.cons_append] at hscan
    rw [hscan]
    simp only [List.length_cons, Nat.zero_add]
    rw [if_neg (by omega), if_pos ⟨by omega, by omega⟩]
    simp only [Bool.false_eq_true, if_false]
    rw [Int.toNat_of_nonneg h0]

/-- Skipping white space twice is skipping it once. -/
theorem skipSpace_idem (input : List Char) : skipSpace (skipSpace input) = skipSpace input := by
  induction input with
  | nil => rfl
  | cons c rest ih =>
    by_cases h : isspace c = true
    · simp only [skipSpace]
      rw [if_pos h, ih]
    · rw [skipSpace_item c rest (by simpa using h), skipSpace_item c rest (by simpa using h)]

/-- White space skipped by the format before `%s` changes nothing: the
directive skips white space itself. -/
theorem scan_s_skip (bufSize : Nat) (input : List Char) :
    scan_s bufSize (skipSpace input) = scan_s bufSize input := by
  unfold scan_s
  rw [skipSpace_idem]

/-- White space skipped by the format before `%lx` changes nothing. -/
theorem scan_x_skip (bits : Nat) (input : List Char) :
    scan_x bits (skipSpace input) = scan_x bits input := by
  unfold scan_x
  rw [skipSpace_idem]

/-- White space skipped by the format before `%d` changes nothing. -/
theorem scan_d_skip (input : List Char) : scan_d (skipSpace input) = scan_d input := by
  unfold scan_d
  rw [skipSpace_idem]

/-- What `printf` writes for `%d` and a value that is not negative is made of
decimal digits. -/
theorem print_d_digits (v : Int) (h0 : 0 ≤ v) (h1 : v < 2 ^ 31) :
    ∀ c ∈ print_d v, (decDigitValue c).isSome = true := by
  have hlt : v.toNat < 10 ^ 10 := by omega
  obtain ⟨d1, _, _⟩ := digitsRev_spec 10 (by decide) 10 v.toNat hlt
  have hp : print_d v = ((digitsRev 10 10 v.toNat).reverse).map digitChar := by
    unfold print_d
    rw [if_neg (by omega)]
  rw [hp]
  intro c hc
  rw [List.mem_map] at hc
  obtain ⟨d, hd, rfl⟩ := hc
  rw [digitChar_dec d (d1 d (List.mem_reverse.1 hd))]
  rfl

/-- The conversion of an `int` that is not negative to `unsigned int` keeps
the value. -/
theorem toUnsigned_nonneg (v : Int) (h0 : 0 ≤ v) (h1 : v < 2 ^ 31) : toUnsigned v = v.toNat := by
  unfold toUnsigned
  rw [Int.emod_eq_of_lt h0 (by omega)]

/-- What `printf` writes for `%s` and a string without null character. -/
theorem print_s_noSpace (w : List Char) (h : NoSpace w) : print_s w = w :=
  cstr_of_no_nul w fun c hc => (h c hc).2

/-- A hexadecimal digit is neither `\n` nor the null character. -/
theorem hexDigit_not_nl {c : Char} (h : (hexDigitValue c).isSome = true) :
    c.toNat ≠ 10 ∧ c.toNat ≠ 0 := by
  have := hexDigit_range h
  omega

/-- A decimal digit is neither `\n` nor the null character. -/
theorem decDigit_not_nl {c : Char} (h : (decDigitValue c).isSome = true) :
    c.toNat ≠ 10 ∧ c.toNat ≠ 0 := by
  have := decDigit_range h
  omega

/-- A character that is not white space is not `\n`. -/
theorem noSpace_not_nl {w : List Char} (h : NoSpace w) :
    ∀ c ∈ w, c.toNat ≠ 10 ∧ c.toNat ≠ 0 := by
  intro c hc
  obtain ⟨h1, h2⟩ := h c hc
  refine ⟨fun e => ?_, h2⟩
  unfold isspace at h1
  simp only [Bool.or_eq_false_iff, decide_eq_false_iff_not, Bool.and_eq_false_imp,
    decide_eq_true_eq] at h1
  omega

/-- What `printf` writes for `%u` is made of decimal digits, at least one. -/
theorem print_u_digits (v : Nat) :
    print_u v ≠ [] ∧ ∀ c ∈ print_u v, 48 ≤ c.toNat ∧ c.toNat ≤ 57 := by
  have hlt : v % 2 ^ 32 < 10 ^ 10 := by
    have : v % 2 ^ 32 < 2 ^ 32 := Nat.mod_lt _ (by norm_num)
    omega
  obtain ⟨d1, d2, _⟩ := digitsRev_spec 10 (by decide) 10 (v % 2 ^ 32) hlt
  unfold print_u
  constructor
  · intro h
    rw [List.map_eq_nil_iff, List.reverse_eq_nil_iff] at h
    exact d2 (by decide) h
  · intro c hc
    rw [List.mem_map] at hc
    obtain ⟨d, hd, rfl⟩ := hc
    apply decDigit_range
    rw [digitChar_dec d (d1 d (List.mem_reverse.1 hd))]
    rfl

/-- For a value that is not negative, `%u` writes what `%d` writes. -/
theorem print_u_eq_print_d (v : Int) (h0 : 0 ≤ v) (h1 : v < 2 ^ 31) :
    print_u (toUnsigned v) = print_d v := by
  unfold print_u print_d
  rw [if_neg (by omega), toUnsigned_nonneg v h0 h1, Nat.mod_eq_of_lt (by omega)]

end Libc

namespace TsOffline
open Libc

/-! ## The event type map -/

theorem eventTypeMap_succ (env : Env) (n : Nat) (name : List Char) :
    (List.range (n + 1)).foldl
        (fun (m : List Char → Option Nat) i => fun name =>
          if name = env.kEventNames i then some i else m name)
        (fun _ => none) name
      = if name = env.kEventNames n then some n
        else (List.range n).foldl
          (fun (m : List Char → Option Nat) i => fun name =>
            if name = env.kEventNames i then some i else m name)
          (fun _ => none) name := by
  rw [List.range_succ, List.foldl_append]
  rfl

/-- A name that is not in the part of the table that is registered is not in
the map. -/
theorem eventTypeMap_none (env : Env) (name : List Char) :
    ∀ n, (∀ i, i < n → env.kEventNames i ≠ name) →
      (List.range n).foldl
        (fun (m : List Char → Option Nat) i => fun name =>
          if name = env.kEventNames i then some i else m name)
        (fun _ => none) name = none := by
  intro n
  induction n with
  | zero => intro _; rfl
  | succ n ih =>
    intro h
    rw [eventTypeMap_succ, if_neg (fun e => h n (by omega) e.symm)]
    exact ih fun i hi => h i (by omega)

/-- The map sends a registered name to the largest index that has it. -/
theorem eventTypeMap_some (env : Env) (i : Nat) :
    ∀ n, i < n → (∀ j, i < j → j < n → env.kEventNames j ≠ env.kEventNames i) →
      (List.range n).foldl
        (fun (m : List Char → Option Nat) i => fun name =>
          if name = env.kEventNames i then some i else m name)
        (fun _ => none) (env.kEventNames i) = some i := by
  intro n
  induction n with
  | zero => intro h; omega
  | succ n ih =>
    intro hi h
    rw [eventTypeMap_succ]
    by_cases hn : i = n
    · subst hn
      rw [if_pos rfl]
    · rw [if_neg (fun e => h n (by omega) (by omega) e.symm)]
      exact ih (by omega) fun j h1 h2 => h j h1 (by omega)

/-- Function `EventNameToEventType` after `InitEventTypeMap`: a registered name
gives its index when the names are distinct; any other name fails the
`CHECK`. -/
theorem EventNameToEventType_spec (env : Env) (s : Offline)
    (hs : s.g_event_type_map = (InitEventTypeMap env s).g_event_type_map) :
    (env.NamesDistinct → ∀ i, i < env.LAST_EVENT →
      EventNameToEventType (env.kEventNames i) s = .ok i s) ∧
    (∀ name, (∀ i, i < env.LAST_EVENT → env.kEventNames i ≠ name) →
      EventNameToEventType name s = .abort (.CHECK 55) s) := by
  constructor
  · intro hd i hi
    unfold EventNameToEventType
    rw [hs]
    simp only [InitEventTypeMap]
    rw [eventTypeMap_some env i env.LAST_EVENT hi
      fun j h1 h2 e => by have := hd j i h2 hi e; omega]
  · intro name hn
    unfold EventNameToEventType
    rw [hs]
    simp only [InitEventTypeMap]
    rw [eventTypeMap_none env name env.LAST_EVENT hn]

/-! ## Reading an event line -/

theorem endsItem_separator (sp rest : List Char) (h : IsSeparator sp) : EndsItem (sp ++ rest) := by
  obtain ⟨hne, hall⟩ := h
  cases sp with
  | nil => exact absurd rfl hne
  | cons c sp =>
    intro x hx
    simp only [List.cons_append, List.head?_cons, Option.mem_def, Option.some.injEq] at hx
    subst hx
    exact hall _ (List.mem_cons_self _ _)

/-- The call of `fscanf` on a well-formed event line assigns the five items:
the name and the values of the four numerals. -/
theorem fscanfEvent_line (l : EventLine) (rest : List Char) (hname : l.Name)
    (hnum : l.Numbers) (hrest : EndsItem rest) :
    fscanfEvent (l.chars ++ rest)
      = .all l.name (numeralValue l.tid) (numeralValue l.pc) (numeralValue l.a)
          (numeralValue l.info) rest := by
  have e1 := scan_s_word 1024 [] l.name
    (l.sp1 ++ (l.tid ++ (l.sp2 ++ (l.pc ++ (l.sp3 ++ (l.a ++ (l.sp4 ++ (l.info ++ rest))))))))
    (by simp) hname.word (by have := hname.fits; omega) (endsItem_separator _ _ hnum.sp1)
  have e2 := scan_x_numeral 32 l.sp1 l.tid
    (l.sp2 ++ (l.pc ++ (l.sp3 ++ (l.a ++ (l.sp4 ++ (l.info ++ rest))))))
    hnum.sp1.2 hnum.tid hnum.tidFits (endsItem_separator _ _ hnum.sp2)
  have e3 := scan_x_numeral 64 l.sp2 l.pc (l.sp3 ++ (l.a ++ (l.sp4 ++ (l.info ++ rest))))
    hnum.sp2.2 hnum.pc hnum.pcFits (endsItem_separator _ _ hnum.sp3)
  have e4 := scan_x_numeral 64 l.sp3 l.a (l.sp4 ++ (l.info ++ rest))
    hnum.sp3.2 hnum.a hnum.aFits (endsItem_separator _ _ hnum.sp4)
  have e5 := scan_x_numeral 64 l.sp4 l.info rest hnum.sp4.2 hnum.info hnum.infoFits hrest
  have hchars : l.chars ++ rest = l.name ++
      (l.sp1 ++ (l.tid ++ (l.sp2 ++ (l.pc ++ (l.sp3 ++ (l.a ++ (l.sp4 ++ (l.info ++ rest)))))))) := by
    simp only [EventLine.chars, List.append_assoc]
  rw [List.nil_append] at e1
  unfold fscanfEvent
  rw [hchars, e1]
  simp only
  rw [e2]
  simp only
  rw [e3]
  simp only
  rw [e4]
  simp only
  rw [e5]

/-! ## Skipping white space and comments -/

/-- The loop of `SkipCommentText` on a line that ends with `\n`: the input is
read up to and including the `\n`, and `buff` receives the text of the line,
as far as it has room. -/
theorem SkipCommentTextLoop_line (rest : List Char) :
    ∀ (text buff : List Char), (∀ c ∈ text, c.toNat ≠ 10) → buff.length ≤ kBufSize - 1 →
      SkipCommentTextLoop (text ++ NL :: rest) buff
        = (buff ++ text.take (kBufSize - 1 - buff.length), rest) := by
  intro text
  induction text with
  | nil =>
    intro buff _ _
    simp [SkipCommentTextLoop, NL]
  | cons c text ih =>
    intro buff h hb
    have hc := h c (List.mem_cons_self _ _)
    rw [List.cons_append, SkipCommentTextLoop, if_neg hc]
    by_cases hlt : buff.length < kBufSize - 1
    · rw [if_pos hlt, ih _ (fun x hx => h x (List.mem_cons_of_mem _ hx))
        (by simp only [List.length_append, List.length_singleton]; omega)]
      have : kBufSize - 1 - buff.length = (kBufSize - 1 - (buff ++ [c]).length) + 1 := by
        simp only [List.length_append, List.length_singleton]
        omega
      rw [this, List.take_succ_cons]
      simp
    · rw [if_neg hlt, ih _ (fun x hx => h x (List.mem_cons_of_mem _ hx)) hb]
      have : kBufSize - 1 - buff.length = 0 := by omega
      rw [this]
      simp

/-- Function `SkipCommentText` on a well-formed comment line: it returns, the
input is left after the `\n`, and only `g_pc_info_map` may have changed. -/
theorem SkipCommentText_line (s : Offline) (text rest : List Char)
    (hfile : s.file = text ++ NL :: rest) (hnl : ∀ c ∈ text, c.toNat ≠ 10)
    (hdef : sscanfPc (cstr (text.take (kBufSize - 1))) ≠ .undefined)
    (hmap : s.g_pc_info_map.isSome = true) :
    ∃ m, SkipCommentText s = .ok () { s with file := rest, g_pc_info_map := some m } := by
  obtain ⟨m0, hm0⟩ := Option.isSome_iff_exists.1 hmap
  have hloop := SkipCommentTextLoop_line rest text [] hnl (by simp)
  simp only [List.nil_append, List.length_nil, Nat.sub_zero] at hloop
  have hs : s = { s with g_pc_info_map := some m0 } := by
    cases s
    simp only at hm0
    subst hm0
    rfl
  unfold SkipCommentText
  rw [hfile, hloop]
  simp only
  split
  · generalize sscanfPc (cstr (text.take (kBufSize - 1))) = r at hdef
    cases r with
    | undefined => exact absurd rfl hdef
    | fewer => exact ⟨m0, by simp only; rw [← hm0]⟩
    | all pc img rtn file line =>
      simp only
      split
      · rw [hm0]
        exact ⟨_, rfl⟩
      · exact ⟨m0, by rw [← hm0]⟩
  · exact ⟨m0, by rw [← hm0]⟩

theorem skippedChars_length (items : List Skipped) :
    items.length ≤ (skippedChars items).length := by
  induction items with
  | nil => simp [skippedChars]
  | cons x items ih =>
    cases x <;> simp [skippedChars, Skipped.chars] <;> omega

/-- The loop of `SkipWhiteSpaceAndComments` over well-formed skipped items that
are followed by the start of an event, or by the end of the input: it returns
with the input left at that point, and only `g_pc_info_map` may have changed. -/
theorem SkipWhiteSpaceAndCommentsLoop_items (tail : List Char)
    (htail : ∀ c ∈ tail.head?, isspace c = false ∧ c.toNat ≠ 35 ∧ c.toNat ≠ 61) :
    ∀ (items : List Skipped) (fuel : Nat) (s : Offline),
      s.file = skippedChars items ++ tail → (∀ x ∈ items, x.WellFormed) →
      s.g_pc_info_map.isSome = true → items.length < fuel →
      ∃ m, SkipWhiteSpaceAndCommentsLoop fuel s
        = .ok () { s with file := tail, g_pc_info_map := some m } := by
  intro items
  induction items with
  | nil =>
    intro fuel s hfile _ hmap hfuel
    obtain ⟨m0, hm0⟩ := Option.isSome_iff_exists.1 hmap
    obtain ⟨f, rfl⟩ : ∃ f, fuel = f + 1 := ⟨fuel - 1, by omega⟩
    simp only [skippedChars, List.nil_append] at hfile
    refine ⟨m0, ?_⟩
    have hs : ({ s with file := tail, g_pc_info_map := some m0 } : Offline) = s := by
      cases s
      simp only at hm0 hfile
      subst hm0 hfile
      rfl
    rw [hs]
    unfold SkipWhiteSpaceAndCommentsLoop
    cases htl : tail with
    | nil =>
      rw [htl] at hfile
      simp only [hfile]
    | cons c rest =>
      rw [htl] at hfile htail
      obtain ⟨h1, h2, h3⟩ := htail c (by simp)
      simp only [hfile]
      rw [if_neg (by omega), if_neg (by simp [h1])]
  | cons x items ih =>
    intro fuel s hfile hwf hmap hfuel
    obtain ⟨f, rfl⟩ : ∃ f, fuel = f + 1 := ⟨fuel - 1, by omega⟩
    simp only [List.length_cons] at hfuel
    have hx := hwf x (List.mem_cons_self _ _)
    have hrest : ∀ y ∈ items, y.WellFormed := fun y hy => hwf y (List.mem_cons_of_mem _ hy)
    cases x with
    | space c =>
      have hc : isspace c = true := hx
      have hr := space_range hc
      have hfile2 : s.file = c :: (skippedChars items ++ tail) := by
        rw [hfile]
        rfl
      obtain ⟨m, hm⟩ := ih f { s with file := skippedChars items ++ tail } rfl hrest hmap
        (by omega)
      refine ⟨m, ?_⟩
      unfold SkipWhiteSpaceAndCommentsLoop
      simp only [hfile2]
      rw [if_neg (by omega), if_pos hc, hm]
    | comment marker text =>
      obtain ⟨hmk, hnl, hdef⟩ := hx
      have hfile2 : s.file = marker :: (text ++ NL :: (skippedChars items ++ tail)) := by
        rw [hfile]
        simp [skippedChars, Skipped.chars]
      obtain ⟨m1, hm1⟩ := SkipCommentText_line
        { s with file := text ++ NL :: (skippedChars items ++ tail) } text
        (skippedChars items ++ tail) rfl hnl hdef hmap
      obtain ⟨m, hm⟩ := ih f
        { s with file := skippedChars items ++ tail, g_pc_info_map := some m1 } rfl hrest rfl
        (by omega)
      refine ⟨m, ?_⟩
      unfold SkipWhiteSpaceAndCommentsLoop
      simp only [hfile2]
      rw [if_pos hmk, hm1]
      simp only [Res.bind]
      rw [hm]

/-- Function `SkipWhiteSpaceAndComments` over well-formed skipped items. -/
theorem SkipWhiteSpaceAndComments_items (tail : List Char)
    (htail : ∀ c ∈ tail.head?, isspace c = false ∧ c.toNat ≠ 35 ∧ c.toNat ≠ 61)
    (items : List Skipped) (s : Offline)
    (hfile : s.file = skippedChars items ++ tail) (hwf : ∀ x ∈ items, x.WellFormed)
    (hmap : s.g_pc_info_map.isSome = true) :
    ∃ m, SkipWhiteSpaceAndComments s
      = .ok () { s with file := tail, g_pc_info_map := some m } := by
  unfold SkipWhiteSpaceAndComments
  refine SkipWhiteSpaceAndCommentsLoop_items tail htail items _ s hfile hwf hmap ?_
  have := skippedChars_length items
  rw [hfile, List.length_append]
  omega

/-- Function `ReadOneEventFromFile` on skipped items followed by an event line
with a well-formed name and well-formed numbers: what is left to do is the
look-up of the name. -/
theorem ReadOneEventFromFile_line (s : Offline) (items : List Skipped) (l : EventLine)
    (rest : List Char) (hfile : s.file = skippedChars items ++ (l.chars ++ rest))
    (hitems : ∀ x ∈ items, x.WellFormed) (hmap : s.g_pc_info_map.isSome = true)
    (hname : l.Name) (hnum : l.Numbers) (hrest : EndsItem rest) :
    ∃ m, ReadOneEventFromFile s
      = (EventNameToEventType l.name { s with file := rest, g_pc_info_map := some m }).bind
          fun type s2 => .ok (some (l.event type)) s2 := by
  have htail : ∀ c ∈ (l.chars ++ rest).head?,
      isspace c = false ∧ c.toNat ≠ 35 ∧ c.toNat ≠ 61 := by
    obtain ⟨hne, hall⟩ := hname.word
    have hfirst := hname.first
    intro c hc
    cases hn : l.name with
    | nil => exact absurd hn hne
    | cons c0 w =>
      rw [hn] at hall hfirst
      simp only [EventLine.chars, hn, List.cons_append, List.head?_cons, Option.mem_def,
        Option.some.injEq] at hc
      subst hc
      exact ⟨(hall _ (List.mem_cons_self _ _)).1, hfirst _ (by simp)⟩
  obtain ⟨m, hm⟩ := SkipWhiteSpaceAndComments_items (l.chars ++ rest) htail items s hfile
    hitems hmap
  refine ⟨m, ?_⟩
  unfold ReadOneEventFromFile
  rw [hm]
  simp only [Res.bind]
  rw [fscanfEvent_line l rest hname hnum hrest]
  rfl

/-- C12.  Take an input that, after white space and comment lines (lines that
start with `#` or `=`), continues with a line `<EVENT_NAME> <tid> <pc> <addr>
<info>` whose name is `kEventNames[i]` for an `i < LAST_EVENT` and whose four
numbers are hexadecimal numerals (with values that fit the fields, separated by
white space).  Then `ReadOneEventFromFile` returns true and has initialised the
event with the type `i` and with `tid`, `pc`, `addr` and `info` equal to the
values of the four numerals in base 16; the input is left after the line, and
nothing is handed to the analyzer.  The white space and the comments are
skipped without changing the event that is read. -/
theorem C12_offline_event_parsing (env : Env) (hd : env.NamesDistinct) (s : Offline)
    (hready : s.Ready env) (items : List Skipped) (hitems : ∀ x ∈ items, x.WellFormed)
    (l : EventLine) (i : Nat) (hi : i < env.LAST_EVENT) (hi2 : l.name = env.kEventNames i)
    (hname : l.Name) (hnum : l.Numbers) (rest : List Char) (hrest : EndsItem rest)
    (hfile : s.file = skippedChars items ++ (l.chars ++ rest)) :
    (∃ s1, ReadOneEventFromFile s = .ok (some (l.event i)) s1 ∧ s1.file = rest ∧
      s1.log = s.log ∧ s1.g_event_type_map = s.g_event_type_map) ∧
    (ReadOneEventFromFile { s with file := l.chars ++ rest }).value = some (some (l.event i)) := by
  have key : ∀ (s0 : Offline) (its : List Skipped), s0.Ready env →
      (∀ x ∈ its, x.WellFormed) → s0.file = skippedChars its ++ (l.chars ++ rest) →
      ∃ s1, ReadOneEventFromFile s0 = .ok (some (l.event i)) s1 ∧ s1.file = rest ∧
        s1.log = s0.log ∧ s1.g_event_type_map = s0.g_event_type_map := by
    intro s0 its hr hw hf
    obtain ⟨m, hm⟩ := ReadOneEventFromFile_line s0 its l rest hf hw hr.2 hname hnum hrest
    have hl := (EventNameToEventType_spec env
      { s0 with file := rest, g_pc_info_map := some m } hr.1).1 hd i hi
    rw [hm, hi2, hl]
    exact ⟨_, rfl, rfl, rfl, rfl⟩
  refine ⟨key s items hready hitems hfile, ?_⟩
  obtain ⟨s1, h1, _⟩ := key { s with file := l.chars ++ rest } [] hready (by simp) rfl
  rw [h1]
  rfl

/-- The names of the sample table are pairwise distinct. -/
theorem sampleEnv_namesDistinct : sampleEnv.NamesDistinct := by
  have h : (sampleEventNames.map String.toList).Nodup := by decide
  intro i j hi hj e
  have hlen : (sampleEventNames.map String.toList).length = 50 := rfl
  have := (List.Nodup.get_inj_iff h (i := ⟨i, by rw [hlen]; exact hi⟩)
    (j := ⟨j, by rw [hlen]; exact hj⟩)).1
    (by
      simp only [List.get_eq_getElem, List.getElem_map]
      have e1 : (sampleEventNames.getD i "").toList = (sampleEventNames.getD j "").toList := e
      rw [List.getD_eq_getElem _ _ (by exact hi), List.getD_eq_getElem _ _ (by exact hj)] at e1
      exact e1)
  exact congrArg Fin.val this

theorem sampleLine_numbers : sampleLine.Numbers :=
  { sp1 := by decide, sp2 := by decide, sp3 := by decide, sp4 := by decide,
    tid := by decide, pc := by decide, a := by decide, info := by decide,
    tidFits := by decide, pcFits := by decide, aFits := by decide, infoFits := by decide }

theorem sampleLineUnknown_numbers : sampleLineUnknown.Numbers :=
  { sampleLine_numbers with }

theorem sampleSkipped_wellFormed : ∀ x ∈ sampleSkipped, x.WellFormed := by
  intro x hx
  simp only [sampleSkipped, List.mem_cons, List.mem_singleton, List.not_mem_nil,
    or_false] at hx
  rcases hx with rfl | rfl
  · exact ⟨by decide, by decide, by decide⟩
  · show isspace (Char.ofNat 32) = true
    decide

/-- C12 at a concrete input: a comment line, a space, and the line
`READ a 10 ff 4` give the event of type 1 (`READ`) with `tid` 10, `pc` 16,
`addr` 255 and `info` 4. -/
theorem C12_offline_event_parsing_witness :
    sampleLine.event 1 = ⟨1, 10, 16, 255, 4⟩ ∧
    (sampleState "# c\n READ a 10 ff 4\n").file
      = skippedChars sampleSkipped ++ (sampleLine.chars ++ "\n".toList) ∧
    (∃ s1, ReadOneEventFromFile (sampleState "# c\n READ a 10 ff 4\n")
        = .ok (some (sampleLine.event 1)) s1 ∧ s1.file = "\n".toList ∧
      s1.log = (sampleState "# c\n READ a 10 ff 4\n").log ∧
      s1.g_event_type_map = (sampleState "# c\n READ a 10 ff 4\n").g_event_type_map) :=
  ⟨by decide, by decide,
    (C12_offline_event_parsing sampleEnv sampleEnv_namesDistinct
      (sampleState "# c\n READ a 10 ff 4\n") ⟨rfl, rfl⟩ sampleSkipped sampleSkipped_wellFormed
      sampleLine 1 (by decide) (by decide)
      ⟨by decide, by decide, by decide⟩ sampleLine_numbers "\n".toList (by decide)
      (by decide)).1⟩

/-- C13.  (1) Take an input that, after white space and comment lines, continues
with a line of five well-formed fields whose first field is not one of the names
`kEventNames[0..LAST_EVENT)` registered by `InitEventTypeMap`.  Then
`ReadOneEventFromFile` aborts at the `CHECK` of `EventNameToEventType`, and so
does `ReadEventsFromFile`, without the event or anything else being passed to
`ThreadSanitizerHandleOneEvent`.  (2) The names being pairwise distinct,
`EventNameToEventType` returns `i` for every name `kEventNames[i]`,
`i < LAST_EVENT`. -/
theorem C13_unknown_event_name (env : Env) (s : Offline) (hready : s.Ready env) :
    (∀ (items : List Skipped) (l : EventLine) (rest : List Char),
      (∀ x ∈ items, x.WellFormed) → l.Name → l.Numbers → EndsItem rest →
      s.file = skippedChars items ++ (l.chars ++ rest) →
      (∀ i, i < env.LAST_EVENT → env.kEventNames i ≠ l.name) →
      (ReadOneEventFromFile s).abortedWith = some (.CHECK 55) ∧
      (ReadOneEventFromFile s).state.log = s.log ∧
      (ReadEventsFromFile s).abortedWith = some (.CHECK 55) ∧
      (ReadEventsFromFile s).state.log = s.log) ∧
    (env.NamesDistinct → ∀ i, i < env.LAST_EVENT →
      EventNameToEventType (env.kEventNames i) s = .ok i s) := by
  refine ⟨?_, (EventNameToEventType_spec env s hready.1).1⟩
  intro items l rest hitems hname hnum hrest hfile hunknown
  obtain ⟨m, hm⟩ := ReadOneEventFromFile_line s items l rest hfile hitems hready.2 hname hnum
    hrest
  have hl := (EventNameToEventType_spec env
    { s with file := rest, g_pc_info_map := some m } hready.1).2 l.name hunknown
  rw [hl] at hm
  have hloop : ReadEventsFromFile s
      = .abort (.CHECK 55) { s with file := rest, g_pc_info_map := some m } := by
    unfold ReadEventsFromFile ReadEventsFromFileLoop
    rw [hm]
    rfl
  rw [hm, hloop]
  exact ⟨rfl, rfl, rfl, rfl⟩

/-- C13 at a concrete input: the line `RAED a 10 ff 4` after a comment. -/
theorem C13_unknown_event_name_witness :
    (sampleState "# c\n RAED a 10 ff 4\n").Ready sampleEnv ∧
    (ReadEventsFromFile (sampleState "# c\n RAED a 10 ff 4\n")).abortedWith
      = some (.CHECK 55) ∧
    (ReadEventsFromFile (sampleState "# c\n RAED a 10 ff 4\n")).state.log = [] ∧
    EventNameToEventType (sampleEnv.kEventNames 2) (sampleState "# c\n RAED a 10 ff 4\n")
      = .ok 2 (sampleState "# c\n RAED a 10 ff 4\n") :=
  have h := C13_unknown_event_name sampleEnv (sampleState "# c\n RAED a 10 ff 4\n") ⟨rfl, rfl⟩
  have h1 := h.1 sampleSkipped sampleLineUnknown "\n".toList sampleSkipped_wellFormed
    ⟨by decide, by decide, by decide⟩
    sampleLineUnknown_numbers
    (by decide) (by decide) (by decide)
  ⟨⟨rfl, rfl⟩, h1.2.2.1, h1.2.2.2, h.2 sampleEnv_namesDistinct 2 (by decide)⟩

/-! ## Input that is not a well-formed event -/

/-- Directives `%x` and `%lx` fail on input that, after white space, does not
continue with a number. -/
theorem scan_x_fails (bits : Nat) (sp bad : List Char) (hsp : ∀ c ∈ sp, isspace c = true)
    (hbad : NotNumeralStart bad) : scan_x bits (sp ++ bad) = .failure bad := by
  unfold scan_x
  rw [skipSpace_separator sp _ hsp]
  cases bad with
  | nil => rfl
  | cons c rest =>
    obtain ⟨h1, h2, h3, h4⟩ := hbad c (by simp)
    rw [skipSpace_item c rest h4]
    have hsign : scanSign (c :: rest) = (false, c :: rest) := by
      simp only [scanSign]
      rw [if_neg h3, if_neg h2]
    have h0 : c.toNat ≠ 48 := by
      intro h
      unfold hexDigitValue at h1
      rw [if_pos (by omega)] at h1
      cases h1
    have hpre : scanHexPrefix (c :: rest) = c :: rest := by
      cases rest with
      | nil => rfl
      | cons x tail =>
        simp only [scanHexPrefix]
        rw [if_neg (fun h => h0 h.1)]
    rw [hsign]
    simp only
    rw [hpre]
    simp only [scanDigits, h1]
    rfl

/-- The call of `fscanf` does not assign its five items when, after the name and
at most three numbers, the input does not continue with a number. -/
theorem fscanfEvent_malformed (l : EventLine) (k : Nat) (sp bad : List Char) (hk : k ≤ 3)
    (hname : l.Name) (hnum : l.Numbers) (hsp : ∀ c ∈ sp, isspace c = true)
    (hend : EndsItem (sp ++ bad)) (hbad : NotNumeralStart bad) :
    fscanfEvent (l.upTo k ++ (sp ++ bad)) = .fewer bad := by
  have f := fun bits => scan_x_fails bits sp bad hsp hbad
  have w : ∀ rest, EndsItem rest →
      scan_s 1024 (l.name ++ rest) = .assigned l.name rest := by
    intro rest hr
    have := scan_s_word 1024 [] l.name rest (by simp) hname.word
      (by have := hname.fits; omega) hr
    rwa [List.nil_append] at this
  have e2 := fun rest hr => scan_x_numeral 32 l.sp1 l.tid rest hnum.sp1.2 hnum.tid
    hnum.tidFits hr
  have e3 := fun rest hr => scan_x_numeral 64 l.sp2 l.pc rest hnum.sp2.2 hnum.pc
    hnum.pcFits hr
  have e4 := fun rest hr => scan_x_numeral 64 l.sp3 l.a rest hnum.sp3.2 hnum.a
    hnum.aFits hr
  unfold fscanfEvent
  match k, hk with
  | 0, _ =>
    simp only [EventLine.upTo]
    rw [w _ hend]
    simp only
    rw [f 32]
  | 1, _ =>
    simp only [EventLine.upTo, List.append_assoc]
    rw [w _ (endsItem_separator _ _ hnum.sp1)]
    simp only
    rw [e2 _ hend]
    simp only
    rw [f 64]
  | 2, _ =>
    simp only [EventLine.upTo, List.append_assoc]
    rw [w _ (endsItem_separator _ _ hnum.sp1)]
    simp only
    rw [e2 _ (endsItem_separator _ _ hnum.sp2)]
    simp only
    rw [e3 _ hend]
    simp only
    rw [f 64]
  | 3, _ =>
    simp only [EventLine.upTo, List.append_assoc]
    rw [w _ (endsItem_separator _ _ hnum.sp1)]
    simp only
    rw [e2 _ (endsItem_separator _ _ hnum.sp2)]
    simp only
    rw [e3 _ (endsItem_separator _ _ hnum.sp3)]
    simp only
    rw [e4 _ hend]
    simp only
    rw [f 64]

/-- The call of `fscanf` at the end of the input assigns nothing. -/
theorem fscanfEvent_nil : fscanfEvent [] = .fewer [] := rfl

/-- Function `ReadOneEventFromFile` returns false, leaving the state but for the
input and `g_pc_info_map` as it is, when the call of `fscanf` does not assign
its five items. -/
theorem ReadOneEventFromFile_fewer (s : Offline) (items : List Skipped) (tail bad : List Char)
    (hfile : s.file = skippedChars items ++ tail) (hitems : ∀ x ∈ items, x.WellFormed)
    (hmap : s.g_pc_info_map.isSome = true)
    (htail : ∀ c ∈ tail.head?, isspace c = false ∧ c.toNat ≠ 35 ∧ c.toNat ≠ 61)
    (hscan : fscanfEvent tail = .fewer bad) :
    ∃ m, ReadOneEventFromFile s = .ok none { s with file := bad, g_pc_info_map := some m } := by
  obtain ⟨m, hm⟩ := SkipWhiteSpaceAndComments_items tail htail items s hfile hitems hmap
  refine ⟨m, ?_⟩
  unfold ReadOneEventFromFile
  rw [hm]
  simp only [Res.bind]
  rw [hscan]

/-- When `ReadOneEventFromFile` returns false, `ReadEventsFromFile` stops
reading and returns normally: no event is handed to the analyzer, the message
with the number of events read is printed, and `main` goes on to
`ThreadSanitizerFini`. -/
theorem ReadEventsFromFile_stops (s s1 : Offline)
    (h : ReadOneEventFromFile s = .ok none s1) :
    (∀ fuel n, ReadEventsFromFileLoop (fuel + 1) n s = .ok n s1) ∧
    ReadEventsFromFile s = .ok () { s1 with log := s1.log ++ [.PrintfEventsRead 0] } := by
  have hl : ∀ fuel n, ReadEventsFromFileLoop (fuel + 1) n s = .ok n s1 := by
    intro fuel n
    unfold ReadEventsFromFileLoop
    rw [h]
    rfl
  refine ⟨hl, ?_⟩
  unfold ReadEventsFromFile
  rw [hl]
  rfl

/-- Function `ReadOneEventFromFile` on a line whose name is registered: it
returns the event of the line; only the input and the contents of
`g_pc_info_map` change. -/
theorem ReadOneEventFromFile_known (env : Env) (hd : env.NamesDistinct) (s : Offline)
    (hready : s.Ready env) (items : List Skipped) (l : EventLine) (i : Nat)
    (rest : List Char) (hfile : s.file = skippedChars items ++ (l.chars ++ rest))
    (hitems : ∀ x ∈ items, x.WellFormed) (hi : i < env.LAST_EVENT)
    (hi2 : l.name = env.kEventNames i) (hname : l.Name) (hnum : l.Numbers)
    (hrest : EndsItem rest) :
    ∃ m, ReadOneEventFromFile s
      = .ok (some (l.event i)) { s with file := rest, g_pc_info_map := some m } := by
  obtain ⟨m, hm⟩ := ReadOneEventFromFile_line s items l rest hfile hitems hready.2 hname hnum
    hrest
  have hl := (EventNameToEventType_spec env
    { s with file := rest, g_pc_info_map := some m } hready.1).1 hd i hi
  refine ⟨m, ?_⟩
  rw [hm, hi2, hl]
  rfl

/-- The blocks have at least as many characters as there are blocks. -/
theorem blocksChars_length (env : Env) (tail : List Char) :
    ∀ bs, BlocksWellFormed env bs tail → bs.length ≤ (blocksChars bs tail).length := by
  intro bs
  induction bs with
  | nil => intro _; exact Nat.zero_le _
  | cons b bs ih =>
    intro h
    obtain ⟨_, hname, _, _, _, _, hrest⟩ := h
    have h1 := ih hrest
    have h2 : 0 < b.line.name.length := List.length_pos.2 hname.word.1
    simp only [blocksChars, EventLine.chars, List.length_append, List.length_cons]
    omega

/-- The loop of `ReadEventsFromFile` on well-formed blocks followed by input
on which `fscanf` does not assign its five items: the events of the blocks are
handed to the analyzer, in order, and the loop ends normally. -/
theorem ReadEventsFromFileLoop_blocks (env : Env) (hd : env.NamesDistinct)
    (items : List Skipped) (tail bad : List Char) (hitems : ∀ x ∈ items, x.WellFormed)
    (htail : ∀ c ∈ tail.head?, isspace c = false ∧ c.toNat ≠ 35 ∧ c.toNat ≠ 61)
    (hscan : fscanfEvent tail = .fewer bad) :
    ∀ (bs : List Block) (fuel : Nat) (n : Int) (s : Offline), s.Ready env →
      BlocksWellFormed env bs (skippedChars items ++ tail) →
      s.file = blocksChars bs (skippedChars items ++ tail) → bs.length < fuel →
      ∃ s1, ReadEventsFromFileLoop fuel n s = .ok (n + bs.length) s1 ∧ s1.file = bad ∧
        s1.log = s.log ++ (blocksEvents bs).map .HandleOneEvent := by
  intro bs
  induction bs with
  | nil =>
    intro fuel n s hready _ hfile hfuel
    obtain ⟨m, hm⟩ := ReadOneEventFromFile_fewer s items tail bad hfile hitems hready.2 htail
      hscan
    obtain ⟨f, rfl⟩ : ∃ f, fuel = f + 1 := ⟨fuel - 1, by simp at hfuel; omega⟩
    refine ⟨{ s with file := bad, g_pc_info_map := some m }, ?_, rfl, ?_⟩
    · rw [(ReadEventsFromFile_stops s _ hm).1 f n]
      simp
    · simp [blocksEvents]
  | cons b bs ih =>
    intro fuel n s hready hwf hfile hfuel
    obtain ⟨hi, hname, hnum, hlt, heq, hrest, hwf2⟩ := hwf
    obtain ⟨m, hm⟩ := ReadOneEventFromFile_known env hd s hready b.items b.line b.type _ hfile
      hi hlt heq hname hnum hrest
    obtain ⟨f, rfl⟩ : ∃ f, fuel = f + 1 := ⟨fuel - 1, by simp at hfuel; omega⟩
    obtain ⟨s2, hs2⟩ : ∃ s2 : Offline, s2 =
        { s with file := blocksChars bs (skippedChars items ++ tail),
                 g_pc_info_map := some m, g_current_pc := (b.line.event b.type).pc,
                 log := s.log ++ [.HandleOneEvent (b.line.event b.type)] } := ⟨_, rfl⟩
    have hstep : ReadEventsFromFileLoop (f + 1) n s = ReadEventsFromFileLoop f (n + 1) s2 := by
      rw [ReadEventsFromFileLoop, hm, hs2]
      rfl
    have hready2 : s2.Ready env := by
      rw [hs2]
      exact ⟨hready.1, rfl⟩
    have hfile2 : s2.file = blocksChars bs (skippedChars items ++ tail) := by rw [hs2]
    have hlog2 : s2.log = s.log ++ [.HandleOneEvent (b.line.event b.type)] := by rw [hs2]
    obtain ⟨s1, h1, h2, h3⟩ := ih f (n + 1) s2 hready2 hwf2 hfile2
      (by simp at hfuel; omega)
    refine ⟨s1, ?_, h2, ?_⟩
    · rw [hstep, h1]
      simp only [List.length_cons, Nat.cast_add, Nat.cast_one]
      congr 1
      omega
    · rw [h3, hlog2]
      simp [blocksEvents]

/-- C14 fails on the code: on the input `READ a 10 ff 4`, `WRITE a 10 zz 4`,
`READ a 10 ff 4` (three lines, the second with a field that is not a
hexadecimal numeral) `ReadEventsFromFile` does not abort: it handles the first
event, stops at `zz`, reports one event read, and `main` goes on to
`ThreadSanitizerFini`.  The same holds for a line of three fields. -/
theorem C14_malformed_event_counterexample :
    (ReadEventsFromFile
      (sampleState "READ a 10 ff 4\nWRITE a 10 zz 4\nREAD a 10 ff 4\n")).abortedWith = none ∧
    (main sampleEnv sampleJLI
      (initialState "READ a 10 ff 4\nWRITE a 10 zz 4\nREAD a 10 ff 4\n".toList)).abortedWith
      = none ∧
    (main sampleEnv sampleJLI
      (initialState "READ a 10 ff 4\nWRITE a 10 zz 4\nREAD a 10 ff 4\n".toList)).state.log
      = [.HandleOneEvent ⟨1, 10, 16, 255, 4⟩, .PrintfEventsRead 1, .ThreadSanitizerFini] ∧
    (main sampleEnv sampleJLI (initialState "READ a 10\n".toList)).abortedWith = none ∧
    (main sampleEnv sampleJLI (initialState "READ a 10\n".toList)).state.log
      = [.PrintfEventsRead 0, .ThreadSanitizerFini] := by
  refine ⟨?_, ?_, ?_, ?_, ?_⟩ <;> decide

/-- C14, amended.  Take an input made of well-formed event lines with
registered names (each after white space and comment lines, each followed by
white space), then white space and comment lines, then a line that is not a
well-formed event: the name and at most three hexadecimal numerals, after which
the input ends or continues, after white space, with a character that does not
start a hexadecimal numeral.  Then `ReadEventsFromFile` does not abort: it hands
the events of the well-formed lines to the analyzer, in order, stops reading at
that character, prints the number of events read and returns; `main` (default
syntax) then calls `ThreadSanitizerFini` as if the log had ended there. -/
theorem C14_malformed_event_stops_reading (env : Env) (hd : env.NamesDistinct)
    (hjli : env.jli = false) (JLIReadEventsFromFile : Offline → Res Unit)
    (bs : List Block) (items : List Skipped) (l : EventLine) (k : Nat) (sp bad : List Char)
    (hwf : BlocksWellFormed env bs (skippedChars items ++ (l.upTo k ++ (sp ++ bad))))
    (hitems : ∀ x ∈ items, x.WellFormed) (hname : l.Name) (hnum : l.Numbers) (hk : k ≤ 3)
    (hsp : ∀ c ∈ sp, isspace c = true) (hend : EndsItem (sp ++ bad))
    (hbad : NotNumeralStart bad) (s : Offline)
    (hfile : s.file = blocksChars bs (skippedChars items ++ (l.upTo k ++ (sp ++ bad)))) :
    (s.Ready env → ∃ s1, ReadEventsFromFile s = .ok () s1 ∧ s1.file = bad ∧
      s1.log = s.log ++ ((blocksEvents bs).map .HandleOneEvent
        ++ [.PrintfEventsRead bs.length])) ∧
    (∃ s2, main env JLIReadEventsFromFile s = .ok () s2 ∧ s2.file = bad ∧
      s2.log = s.log ++ ((blocksEvents bs).map .HandleOneEvent
        ++ [.PrintfEventsRead bs.length, .ThreadSanitizerFini])) := by
  have htail : ∀ c ∈ (l.upTo k ++ (sp ++ bad)).head?,
      isspace c = false ∧ c.toNat ≠ 35 ∧ c.toNat ≠ 61 := by
    obtain ⟨hne, hall⟩ := hname.word
    have hfirst := hname.first
    intro c hc
    cases hn : l.name with
    | nil => exact absurd hn hne
    | cons c0 w =>
      rw [hn] at hall hfirst
      have hc0 : c = c0 := by
        match k, hk with
        | 0, _ | 1, _ | 2, _ | 3, _ =>
          simp only [EventLine.upTo, hn, List.cons_append, List.head?_cons, Option.mem_def,
            Option.some.injEq] at hc
          exact hc.symm
      subst hc0
      exact ⟨(hall _ (List.mem_cons_self _ _)).1, hfirst _ (by simp)⟩
  have hscan := fscanfEvent_malformed l k sp bad hk hname hnum hsp hend hbad
  have key : ∀ s0 : Offline, s0.Ready env →
      s0.file = blocksChars bs (skippedChars items ++ (l.upTo k ++ (sp ++ bad))) →
      ∃ s1, ReadEventsFromFile s0 = .ok () s1 ∧ s1.file = bad ∧
        s1.log = s0.log ++ ((blocksEvents bs).map .HandleOneEvent
          ++ [.PrintfEventsRead bs.length]) := by
    intro s0 hready hf
    have hlen := blocksChars_length env _ bs hwf
    obtain ⟨s1, h1, h2, h3⟩ := ReadEventsFromFileLoop_blocks env hd items _ bad hitems htail
      hscan bs (s0.file.length + 1) 0 s0 hready hwf hf (by rw [hf]; omega)
    refine ⟨{ s1 with log := s1.log ++ [.PrintfEventsRead bs.length] }, ?_, h2, ?_⟩
    · unfold ReadEventsFromFile
      rw [h1]
      simp [Res.bind]
    · show s1.log ++ [.PrintfEventsRead bs.length] = _
      rw [h3, List.append_assoc]
  refine ⟨fun hready => key s hready hfile, ?_⟩
  obtain ⟨s0, hs0⟩ : ∃ s0 : Offline, s0 =
      { InitEventTypeMap env s with g_pc_info_map := some fun _ => none } := ⟨_, rfl⟩
  have hr0 : s0.Ready env := by
    rw [hs0]
    exact ⟨rfl, rfl⟩
  have hf0 : s0.file = s.file := by rw [hs0]; rfl
  have hl0 : s0.log = s.log := by rw [hs0]; rfl
  obtain ⟨s1, h1, h2, h3⟩ := key s0 hr0 (hf0.trans hfile)
  refine ⟨{ s1 with log := s1.log ++ [.ThreadSanitizerFini] }, ?_, h2, ?_⟩
  · unfold main
    simp only [hjli, Bool.false_eq_true, if_false]
    rw [← hs0, h1]
    rfl
  · show s1.log ++ [.ThreadSanitizerFini] = _
    rw [h3, hl0]
    simp

/-- C14, amended, at a concrete input: after a comment line, a space and the
line `READ a 10 ff 4`, the line `READ a 10 zz 4` makes the reader stop at `zz`,
with one event handled and reported, and `main` calls `ThreadSanitizerFini`. -/
theorem C14_malformed_event_stops_reading_witness :
    "# c\n READ a 10 ff 4\nREAD a 10 zz 4\n".toList
      = blocksChars [sampleBlock]
          (skippedChars [.space NL] ++ (sampleLine.upTo 2 ++ (" ".toList ++ "zz 4\n".toList))) ∧
    (∃ s2, main sampleEnv sampleJLI (initialState "# c\n READ a 10 ff 4\nREAD a 10 zz 4\n".toList)
        = .ok () s2 ∧ s2.file = "zz 4\n".toList ∧
      s2.log = (initialState "# c\n READ a 10 ff 4\nREAD a 10 zz 4\n".toList).log
        ++ ((blocksEvents [sampleBlock]).map .HandleOneEvent
          ++ [.PrintfEventsRead ([sampleBlock] : List Block).length, .ThreadSanitizerFini])) :=
  ⟨by decide,
    (C14_malformed_event_stops_reading sampleEnv sampleEnv_namesDistinct rfl sampleJLI
      [sampleBlock] [.space NL] sampleLine 2 " ".toList "zz 4\n".toList
      ⟨sampleSkipped_wellFormed, ⟨by decide, by decide, by decide⟩, sampleLine_numbers,
        by decide, by decide, by decide, trivial⟩
      (by
        intro x hx
        simp only [List.mem_singleton] at hx
        subst hx
        show isspace NL = true
        decide)
      ⟨by decide, by decide, by decide⟩ sampleLine_numbers (by decide) (by decide) (by decide)
      (by decide) (initialState "# c\n READ a 10 ff 4\nREAD a 10 zz 4\n".toList)
      (by decide)).2⟩

/-- The call of `sscanf` on a well-formed text assigns the five fields. -/
theorem sscanfPc_line (l : PcLine) (h : l.WellFormed) :
    sscanfPc l.text = .all l.value l.img l.rtn l.file l.line := by
  have hlen := h.fits
  simp only [PcLine.text, List.length_cons, List.length_append] at hlen
  have e1 := scan_x_numeral 64 l.sp0 l.pc
    (l.sp1 ++ (l.img ++ (l.sp2 ++ (l.rtn ++ (l.sp3 ++ (l.file ++ (l.sp4
      ++ (print_d l.line ++ l.trail))))))))
    h.sp0 h.pc h.pcFits (endsItem_separator _ _ h.sp1)
  have e2 := scan_s_word kBufSize l.sp1 l.img
    (l.sp2 ++ (l.rtn ++ (l.sp3 ++ (l.file ++ (l.sp4 ++ (print_d l.line ++ l.trail))))))
    h.sp1.2 h.img (by omega) (endsItem_separator _ _ h.sp2)
  have e3 := scan_s_word kBufSize l.sp2 l.rtn
    (l.sp3 ++ (l.file ++ (l.sp4 ++ (print_d l.line ++ l.trail))))
    h.sp2.2 h.rtn (by omega) (endsItem_separator _ _ h.sp3)
  have e4 := scan_s_word kBufSize l.sp3 l.file (l.sp4 ++ (print_d l.line ++ l.trail))
    h.sp3.2 h.file (by omega) (endsItem_separator _ _ h.sp4)
  have e5 := scan_d_print l.line l.sp4 l.trail h.lineMin h.lineFits h.sp4.2 h.trail
  unfold sscanfPc PcLine.text
  simp only
  rw [if_pos (by decide), scan_x_skip, e1]
  simp only
  rw [scan_s_skip, e2]
  simp only
  rw [scan_s_skip, e3]
  simp only
  rw [scan_s_skip, e4]
  simp only
  rw [scan_d_skip, e5]
  rfl

/-- Function `SkipCommentText` on a well-formed line that names a `pc`: the
record of the line is stored for the `pc` if the guard holds. -/
theorem SkipCommentText_pcLine (s : Offline) (l : PcLine) (rest : List Char)
    (m : Nat → Option PcInfo) (hfile : s.file = l.text ++ NL :: rest) (h : l.WellFormed)
    (hmap : s.g_pc_info_map = some m) :
    SkipCommentText s = .ok () { s with
      file := rest,
      g_pc_info_map := some (if l.Installs then
        fun p => if p = l.value then some l.info else m p else m) } := by
  have hloop := SkipCommentTextLoop_line rest l.text [] (fun c hc => (h.chars c hc).1) (by simp)
  have hfits := h.fits
  have htake : l.text.take (kBufSize - 1) = l.text := List.take_of_length_le (by omega)
  simp only [List.nil_append, List.length_nil, Nat.sub_zero] at hloop
  rw [htake] at hloop
  have hs : s = { s with g_pc_info_map := some m } := by
    cases s
    simp only at hmap
    subst hmap
    rfl
  unfold SkipCommentText
  rw [hfile, hloop]
  simp only
  rw [if_pos (by
    constructor
    · show ((l.text).getD 0 NUL).toNat = 80
      rfl
    · show ((l.text).getD 1 NUL).toNat = 67
      rfl)]
  rw [cstr_of_no_nul _ fun c hc => (h.chars c hc).2, sscanfPc_line l h]
  simp only
  by_cases hg : l.Installs
  · have hg2 : l.line > 0 ∧ l.value ≠ 0 := hg
    rw [if_pos hg, if_pos hg2, hmap]
    rfl
  · have hg2 : ¬ (l.line > 0 ∧ l.value ≠ 0) := hg
    rw [if_neg hg, if_neg hg2, ← hmap]

/-- Function `SkipCommentText` on a comment line whose text does not start with
`PC`: only the input changes. -/
theorem SkipCommentText_other (s : Offline) (text rest : List Char)
    (hfile : s.file = text ++ NL :: rest) (hnl : ∀ c ∈ text, c.toNat ≠ 10)
    (hpc : ¬ ((text.getD 0 NUL).toNat = 80 ∧ (text.getD 1 NUL).toNat = 67)) :
    SkipCommentText s = .ok () { s with file := rest } := by
  have hloop := SkipCommentTextLoop_line rest text [] hnl (by simp)
  simp only [List.nil_append, List.length_nil, Nat.sub_zero] at hloop
  have h0 : (text.take (kBufSize - 1)).getD 0 NUL = text.getD 0 NUL := by
    cases text with
    | nil => rfl
    | cons a text => rfl
  have h1 : (text.take (kBufSize - 1)).getD 1 NUL = text.getD 1 NUL := by
    cases text with
    | nil => rfl
    | cons a text =>
      cases text with
      | nil => rfl
      | cons b text => rfl
  unfold SkipCommentText
  rw [hfile, hloop]
  simp only
  rw [h0, h1, if_neg hpc]

theorem itemsChars_length (items : List Item) :
    items.length ≤ (itemsChars items).length := by
  induction items with
  | nil => simp [itemsChars]
  | cons x items ih =>
    cases x <;> simp [itemsChars, Item.chars] <;> omega

/-- The loop of `SkipWhiteSpaceAndComments` over well-formed items: it returns
with the input left after them, and `g_pc_info_map` holds, for every `pc`, the
record of the most recent line that names it and passes the guard, or what it
held before if there is no such line. -/
theorem SkipWhiteSpaceAndCommentsLoop_pcLines (tail : List Char)
    (htail : ∀ c ∈ tail.head?, isspace c = false ∧ c.toNat ≠ 35 ∧ c.toNat ≠ 61) :
    ∀ (items : List Item) (fuel : Nat) (s : Offline) (m : Nat → Option PcInfo),
      s.file = itemsChars items ++ tail → (∀ x ∈ items, x.WellFormed) →
      s.g_pc_info_map = some m → items.length < fuel →
      ∃ m1, SkipWhiteSpaceAndCommentsLoop fuel s
          = .ok () { s with file := tail, g_pc_info_map := some m1 } ∧
        ∀ pc, m1 pc = match lastPcLine items pc with
          | some l => some l.info
          | none => m pc := by
  intro items
  induction items with
  | nil =>
    intro fuel s m hfile _ hmap hfuel
    obtain ⟨f, rfl⟩ : ∃ f, fuel = f + 1 := ⟨fuel - 1, by simp at hfuel; omega⟩
    simp only [itemsChars, List.nil_append] at hfile
    refine ⟨m, ?_, fun pc => rfl⟩
    have hs : ({ s with file := tail, g_pc_info_map := some m } : Offline) = s := by
      cases s
      simp only at hmap hfile
      subst hmap hfile
      rfl
    rw [hs]
    unfold SkipWhiteSpaceAndCommentsLoop
    cases htl : tail with
    | nil =>
      rw [htl] at hfile
      simp only [hfile]
    | cons c rest =>
      rw [htl] at hfile htail
      obtain ⟨h1, h2, h3⟩ := htail c (by simp)
      simp only [hfile]
      rw [if_neg (by omega), if_neg (by simp [h1])]
  | cons x items ih =>
    intro fuel s m hfile hwf hmap hfuel
    obtain ⟨f, rfl⟩ : ∃ f, fuel = f + 1 := ⟨fuel - 1, by simp at hfuel; omega⟩
    simp only [List.length_cons] at hfuel
    have hx := hwf x (List.mem_cons_self _ _)
    have hrest : ∀ y ∈ items, y.WellFormed := fun y hy => hwf y (List.mem_cons_of_mem _ hy)
    cases x with
    | space c =>
      have hc : isspace c = true := hx
      have hr := space_range hc
      have hfile2 : s.file = c :: (itemsChars items ++ tail) := by
        rw [hfile]
        rfl
      obtain ⟨m1, hm1, hl⟩ := ih f { s with file := itemsChars items ++ tail } m rfl hrest hmap
        (by omega)
      refine ⟨m1, ?_, ?_⟩
      · unfold SkipWhiteSpaceAndCommentsLoop
        simp only [hfile2]
        rw [if_neg (by omega), if_pos hc, hm1]
      · intro pc
        rw [hl pc, lastPcLine]
        cases lastPcLine items pc <;> rfl
    | comment marker text =>
      obtain ⟨hmk, hnl, hpc⟩ := hx
      have hfile2 : s.file = marker :: (text ++ NL :: (itemsChars items ++ tail)) := by
        rw [hfile]
        simp [itemsChars, Item.chars]
      have h1 := SkipCommentText_other
        { s with file := text ++ NL :: (itemsChars items ++ tail) } text
        (itemsChars items ++ tail) rfl hnl hpc
      obtain ⟨m1, hm1, hl⟩ := ih f { s with file := itemsChars items ++ tail } m rfl hrest hmap
        (by omega)
      refine ⟨m1, ?_, ?_⟩
      · unfold SkipWhiteSpaceAndCommentsLoop
        simp only [hfile2]
        rw [if_pos hmk, h1]
        simp only [Res.bind]
        rw [hm1]
      · intro pc
        rw [hl pc, lastPcLine]
        cases lastPcLine items pc <;> rfl
    | pcLine marker l =>
      obtain ⟨hmk, hl⟩ := hx
      have hfile2 : s.file = marker :: (l.text ++ NL :: (itemsChars items ++ tail)) := by
        rw [hfile]
        simp [itemsChars, Item.chars]
      have h1 := SkipCommentText_pcLine
        { s with file := l.text ++ NL :: (itemsChars items ++ tail) } l
        (itemsChars items ++ tail) m rfl hl hmap
      obtain ⟨m1, hm1, hlast⟩ := ih f
        { s with file := itemsChars items ++ tail,
                 g_pc_info_map := some (if l.Installs then
                   fun p => if p = l.value then some l.info else m p else m) } _ rfl hrest rfl
        (by omega)
      refine ⟨m1, ?_, ?_⟩
      · unfold SkipWhiteSpaceAndCommentsLoop
        simp only [hfile2]
        rw [if_pos hmk, h1]
        simp only [Res.bind]
        rw [hm1]
      · intro pc
        rw [hlast pc, lastPcLine]
        cases lastPcLine items pc with
        | some l2 => rfl
        | none =>
          simp only [Item.lineFor]
          by_cases hg : l.Installs
          · rw [if_pos hg]
            by_cases hp : pc = l.value
            · rw [if_pos hp, if_pos ⟨hp.symm, hg⟩]
            · rw [if_neg hp, if_neg fun h => hp h.1.symm]
          · rw [if_neg hg, if_neg fun h => hg h.2]

/-- Function `SkipWhiteSpaceAndComments` over well-formed items. -/
theorem SkipWhiteSpaceAndComments_pcLines (tail : List Char)
    (htail : ∀ c ∈ tail.head?, isspace c = false ∧ c.toNat ≠ 35 ∧ c.toNat ≠ 61)
    (items : List Item) (s : Offline) (m : Nat → Option PcInfo)
    (hfile : s.file = itemsChars items ++ tail) (hwf : ∀ x ∈ items, x.WellFormed)
    (hmap : s.g_pc_info_map = some m) :
    ∃ m1, SkipWhiteSpaceAndComments s
        = .ok () { s with file := tail, g_pc_info_map := some m1 } ∧
      ∀ pc, m1 pc = match lastPcLine items pc with
        | some l => some l.info
        | none => m pc := by
  unfold SkipWhiteSpaceAndComments
  refine SkipWhiteSpaceAndCommentsLoop_pcLines tail htail items _ s m hfile hwf hmap ?_
  have := itemsChars_length items
  rw [hfile, List.length_append]
  omega

/-- No line of the items names `pc` and passes the guard. -/
theorem lastPcLine_none (pc : Nat) :
    ∀ items : List Item, (∀ x ∈ items, x.lineFor pc = none) → lastPcLine items pc = none := by
  intro items
  induction items with
  | nil => intro _; rfl
  | cons x items ih =>
    intro h
    rw [lastPcLine, ih fun y hy => h y (List.mem_cons_of_mem _ hy)]
    exact h x (List.mem_cons_self _ _)

/-- The most recent line is looked for in the later items first. -/
theorem lastPcLine_append (pc : Nat) (after : List Item) :
    ∀ before : List Item, lastPcLine (before ++ after) pc
      = match lastPcLine after pc with
        | some l => some l
        | none => lastPcLine before pc := by
  intro before
  induction before with
  | nil =>
    rw [List.nil_append]
    cases lastPcLine after pc <;> rfl
  | cons x before ih =>
    rw [List.cons_append, lastPcLine, ih, lastPcLine]
    cases lastPcLine after pc <;> rfl

/-- A line that passes the guard and is followed by no other such line for its
`pc` is the most recent one. -/
theorem lastPcLine_last (before after : List Item) (marker : Char) (l : PcLine)
    (hg : l.Installs) (hafter : ∀ x ∈ after, x.lineFor l.value = none) :
    lastPcLine (before ++ .pcLine marker l :: after) l.value = some l := by
  have h1 : lastPcLine (.pcLine marker l :: after) l.value = some l := by
    rw [lastPcLine, lastPcLine_none _ after hafter]
    show (if l.value = l.value ∧ l.Installs then some l else none) = some l
    rw [if_pos ⟨rfl, hg⟩]
  rw [lastPcLine_append, h1]

/-- C15 fails on the code: after the line `#PC 10 a.out main unknown 3`,
`PcToStrings(0x10)` returns the empty string as the file name, not `unknown`;
after `#PC 10 a.out main t.c 0` and after `#PC 0 a.out main t.c 3` nothing is
installed. -/
theorem C15_pc_comment_counterexample :
    PcToStrings sampleEnv 16
        (ReadEventsFromFile (sampleState "#PC 10 a.out main unknown 3\n")).state
      = some ⟨"a.out".toList, "main".toList, [], 3⟩ ∧
    PcToStrings sampleEnv 16
        (ReadEventsFromFile (sampleState "#PC 10 a.out main t.c 0\n")).state
      = some ⟨[], [], [], 0⟩ ∧
    PcToStrings sampleEnv 0
        (ReadEventsFromFile (sampleState "#PC 0 a.out main t.c 3\n")).state
      = some ⟨[], [], [], 0⟩ := by
  refine ⟨?_, ?_, ?_⟩ <;> decide

/-- C15, amended.  Let the offline reader skip white space and comment lines
(`SkipWhiteSpaceAndComments`), the comment lines being well-formed lines
`#PC <pc> <img> <rtn> <file> <line>` or lines whose text does not start with
`PC`.  It returns, and afterwards, in default syntax: (1) for every such line
with `line > 0` and `pc != 0` that is followed by no other such line for the
same `pc`, `PcToStrings(pc)` returns `img`, `rtn` and `line` as given on the
line, and `file` as given, but the empty string if `file` is `unknown`; (2) for
every `pc` that no line with `line > 0` and `pc != 0` has named,
`PcToStrings(pc)` returns what it returned before, which is three empty
strings and line 0 when the map was empty. -/
theorem C15_pc_comments_install (env : Env) (hjli : env.jli = false) (items : List Item)
    (hwf : ∀ x ∈ items, x.WellFormed) (tail : List Char)
    (htail : ∀ c ∈ tail.head?, isspace c = false ∧ c.toNat ≠ 35 ∧ c.toNat ≠ 61)
    (s : Offline) (m : Nat → Option PcInfo) (hfile : s.file = itemsChars items ++ tail)
    (hmap : s.g_pc_info_map = some m) :
    ∃ s1, SkipWhiteSpaceAndComments s = .ok () s1 ∧ s1.file = tail ∧
      (∀ before marker l after, items = before ++ .pcLine marker l :: after → l.Installs →
        (∀ x ∈ after, x.lineFor l.value = none) →
        PcToStrings env l.value s1 = some l.strings) ∧
      (∀ pc, (∀ x ∈ items, x.lineFor pc = none) →
        PcToStrings env pc s1 = PcToStrings env pc s ∧
        (m pc = none → PcToStrings env pc s1 = some ⟨[], [], [], 0⟩)) := by
  obtain ⟨m1, h1, hl⟩ := SkipWhiteSpaceAndComments_pcLines tail htail items s m hfile hwf hmap
  refine ⟨{ s with file := tail, g_pc_info_map := some m1 }, h1, rfl, ?_, ?_⟩
  · intro before marker l after hitems hg hafter
    have hm1 := hl l.value
    rw [hitems, lastPcLine_last before after marker l hg hafter] at hm1
    simp only at hm1
    unfold PcToStrings
    simp only [hjli, Bool.false_eq_true, if_false, hm1]
    rfl
  · intro pc hnone
    have hm1 := hl pc
    rw [lastPcLine_none pc items hnone] at hm1
    simp only at hm1
    have e : PcToStrings env pc { s with file := tail, g_pc_info_map := some m1 }
        = PcToStrings env pc s := by
      unfold PcToStrings
      simp only [hjli, Bool.false_eq_true, if_false, hm1, hmap]
    refine ⟨e, fun h0 => ?_⟩
    rw [e]
    unfold PcToStrings
    simp only [hjli, Bool.false_eq_true, if_false, hmap, h0]

theorem samplePcLine_wellFormed : samplePcLine.WellFormed :=
  { sp0 := by decide, sp1 := by decide, sp2 := by decide, sp3 := by decide, sp4 := by decide,
    pc := by decide, pcFits := by decide, img := by decide, rtn := by decide, file := by decide,
    lineMin := by decide, lineFits := by decide, trail := by decide, chars := by decide,
    fits := by decide }

theorem samplePcLineUnknown_wellFormed : samplePcLineUnknown.WellFormed :=
  { sp0 := by decide, sp1 := by decide, sp2 := by decide, sp3 := by decide, sp4 := by decide,
    pc := by decide, pcFits := by decide, img := by decide, rtn := by decide, file := by decide,
    lineMin := by decide, lineFits := by decide, trail := by decide, chars := by decide,
    fits := by decide }

theorem sampleItems_wellFormed : ∀ x ∈ sampleItems, x.WellFormed := by
  intro x hx
  simp only [sampleItems, List.mem_cons, List.mem_singleton, List.not_mem_nil,
    or_false] at hx
  rcases hx with rfl | rfl | rfl | rfl
  · exact ⟨by decide, samplePcLineUnknown_wellFormed⟩
  · exact ⟨by decide, by decide, by decide⟩
  · exact ⟨by decide, samplePcLine_wellFormed⟩
  · show isspace (Char.ofNat 32) = true
    decide

/-- C15, amended, at a concrete input: of the two lines for the `pc` 0x10,
`#PC 10 libc.so exit unknown 7` and, later, `#PC 10 a.out main t.c 3`, the
later one determines what `PcToStrings(0x10)` returns. -/
theorem C15_pc_comments_install_witness :
    "#PC 10 libc.so exit unknown 7\n# c\n#PC 10 a.out main t.c 3\n READ a 10 ff 4\n".toList
      = itemsChars sampleItems ++ "READ a 10 ff 4\n".toList ∧
    samplePcLine.value = 16 ∧
    samplePcLine.strings = ⟨"a.out".toList, "main".toList, "t.c".toList, 3⟩ ∧
    ∃ s1, SkipWhiteSpaceAndComments (sampleState
        "#PC 10 libc.so exit unknown 7\n# c\n#PC 10 a.out main t.c 3\n READ a 10 ff 4\n")
        = .ok () s1 ∧
      PcToStrings sampleEnv samplePcLine.value s1 = some samplePcLine.strings :=
  ⟨by decide, by decide, by decide,
    match C15_pc_comments_install sampleEnv rfl sampleItems sampleItems_wellFormed
      "READ a 10 ff 4\n".toList (by decide)
      (sampleState
        "#PC 10 libc.so exit unknown 7\n# c\n#PC 10 a.out main t.c 3\n READ a 10 ff 4\n")
      (fun _ => none) (by decide) rfl with
    | ⟨s1, h1, _, h3, _⟩ =>
      ⟨s1, h1, h3 [.pcLine (Char.ofNat 35) samplePcLineUnknown,
          .comment (Char.ofNat 35) " c".toList] (Char.ofNat 35) samplePcLine
        [.space (Char.ofNat 32)] rfl (by decide) (by decide)⟩⟩

/-- The event line of the dump is the line of its fields, followed by `\n`. -/
theorem dumpEventLine_chars (kEventNames : Nat → List Char) (type : Nat) (tid : Int)
    (pc a info : Nat) (h : IsWord (kEventNames type)) :
    TsPin.dumpEventLine kEventNames type tid pc a info
      = (dumpedEventLine kEventNames type tid pc a info).chars ++ [NL] := by
  unfold TsPin.dumpEventLine dumpedEventLine EventLine.chars
  rw [print_s_noSpace _ h.2]
  simp only [List.append_assoc]
  rfl

/-- The fields of the event line of the dump are well formed. -/
theorem dumpedEventLine_numbers (kEventNames : Nat → List Char) (type : Nat) (tid : Int)
    (pc a info : Nat) : (dumpedEventLine kEventNames type tid pc a info).Numbers := by
  have sep : IsSeparator " ".toList := by decide
  have x32 := fun v => print_x_numeral 32 v (Or.inl rfl)
  have x64 := fun v => print_x_numeral 64 v (Or.inr rfl)
  exact {
    sp1 := sep, sp2 := sep, sp3 := sep, sp4 := sep
    tid := (x32 _).1, pc := (x64 _).1, a := (x64 _).1, info := (x64 _).1
    tidFits := by
      show numeralValue (print_x 32 (toUnsigned tid)) < 2 ^ 32
      rw [(x32 _).2]
      exact Nat.mod_lt _ (by norm_num)
    pcFits := by
      show numeralValue (print_x 64 pc) < 2 ^ 64
      rw [(x64 _).2]
      exact Nat.mod_lt _ (by norm_num)
    aFits := by
      show numeralValue (print_x 64 a) < 2 ^ 64
      rw [(x64 _).2]
      exact Nat.mod_lt _ (by norm_num)
    infoFits := by
      show numeralValue (print_x 64 info) < 2 ^ 64
      rw [(x64 _).2]
      exact Nat.mod_lt _ (by norm_num) }

/-- The event the event line of the dump denotes. -/
theorem dumpedEventLine_event (kEventNames : Nat → List Char) (type : Nat) (tid : Int)
    (pc a info : Nat) (hpc : pc < 2 ^ 64) (ha : a < 2 ^ 64) (hinfo : info < 2 ^ 64) :
    (dumpedEventLine kEventNames type tid pc a info).event type
      = ⟨type, toUnsigned tid, pc, a, info⟩ := by
  have ht : toUnsigned tid < 2 ^ 32 := by
    unfold toUnsigned
    omega
  unfold EventLine.event dumpedEventLine
  simp only
  rw [(print_x_numeral 32 _ (Or.inl rfl)).2, (print_x_numeral 64 pc (Or.inr rfl)).2,
    (print_x_numeral 64 a (Or.inr rfl)).2, (print_x_numeral 64 info (Or.inr rfl)).2,
    Nat.mod_eq_of_lt hpc, Nat.mod_eq_of_lt ha, Nat.mod_eq_of_lt hinfo, Nat.mod_eq_of_lt ht]

/-- The name written for a name without white space is a word. -/
theorem dumpedName_word (name : List Char) (h : NoSpace name) : IsWord (dumpedName name) := by
  unfold dumpedName
  by_cases hn : name = []
  · rw [if_pos hn]
    decide
  · rw [if_neg hn]
    exact ⟨hn, h⟩

/-- The `#PC` line of the dump is `#`, the text of its fields, and `\n`. -/
theorem dumpPcLine_chars (pc : Nat) (img_name rtn_name file_name : List Char) (line : Int)
    (h : Dumpable pc img_name rtn_name file_name line) :
    TsPin.dumpPcLine pc img_name rtn_name file_name line
      = Char.ofNat 35 :: ((dumpedPcLine pc img_name rtn_name file_name line).text ++ [NL]) := by
  have e1 := print_s_noSpace _ (dumpedName_word img_name h.img).2
  have e2 := print_s_noSpace _ (dumpedName_word rtn_name h.rtn).2
  have e3 := print_s_noSpace _ (dumpedName_word file_name h.file).2
  unfold dumpedName at e1 e2 e3
  unfold TsPin.dumpPcLine dumpedPcLine PcLine.text dumpedName
  simp only
  rw [e1, e2, e3]
  simp only [List.append_assoc, List.cons_append, List.append_nil]
  rfl

/-- The text of the `#PC` line of the dump is well formed. -/
theorem dumpedPcLine_wellFormed (pc : Nat) (img_name rtn_name file_name : List Char)
    (line : Int) (h : Dumpable pc img_name rtn_name file_name line) :
    (dumpedPcLine pc img_name rtn_name file_name line).WellFormed := by
  have sep : IsSeparator " ".toList := by decide
  have hx := print_x_numeral 64 pc (Or.inr rfl)
  have w1 := dumpedName_word img_name h.img
  have w2 := dumpedName_word rtn_name h.rtn
  have w3 := dumpedName_word file_name h.file
  have h0 := h.lineMin
  have h1 := h.lineFits
  have l0 : 0 ≤ (if line = 0 then 1 else line) := by split <;> omega
  have l1 : (if line = 0 then 1 else line) < 2 ^ 31 := by split <;> omega
  have hsp : ∀ c ∈ " ".toList, c.toNat ≠ 10 ∧ c.toNat ≠ 0 := by decide
  have hlen := h.fits
  rw [dumpPcLine_chars pc img_name rtn_name file_name line h] at hlen
  simp only [List.length_cons, List.length_append, List.length_singleton] at hlen
  exact {
    sp0 := sep.2, sp1 := sep, sp2 := sep, sp3 := sep, sp4 := sep
    pc := hx.1
    pcFits := by
      show numeralValue (print_x 64 pc) < 2 ^ 64
      rw [hx.2]
      exact Nat.mod_lt _ (by norm_num)
    img := w1, rtn := w2, file := w3
    lineMin := l0, lineFits := l1
    trail := fun c hc => by cases hc
    chars := by
      intro c hc
      simp only [PcLine.text, dumpedPcLine, List.mem_cons, List.mem_append] at hc
      rcases hc with rfl | rfl | hc | hc | hc | hc | hc | hc | hc | hc | hc | hc | hc
      · decide
      · decide
      · exact hsp c hc
      · exact hexDigit_not_nl (hx.1.2 c hc)
      · exact hsp c hc
      · exact noSpace_not_nl w1.2 c hc
      · exact hsp c hc
      · exact noSpace_not_nl w2.2 c hc
      · exact hsp c hc
      · exact noSpace_not_nl w3.2 c hc
      · exact hsp c hc
      · exact decDigit_not_nl (print_d_digits _ l0 l1 c hc)
      · cases hc
    fits := by omega }

/-- The `#PC` line of the dump passes the guard of `SkipCommentText` if `pc` is
not 0. -/
theorem dumpedPcLine_installs (pc : Nat) (img_name rtn_name file_name : List Char) (line : Int)
    (h0 : 0 ≤ line) (hpc : pc ≠ 0) (hfit : pc < 2 ^ 64) :
    (dumpedPcLine pc img_name rtn_name file_name line).value = pc ∧
    (dumpedPcLine pc img_name rtn_name file_name line).Installs := by
  have hv : (dumpedPcLine pc img_name rtn_name file_name line).value = pc := by
    show numeralValue (print_x 64 pc) = pc
    rw [(print_x_numeral 64 pc (Or.inr rfl)).2, Nat.mod_eq_of_lt hfit]
  refine ⟨hv, ?_, ?_⟩
  · show (if line = 0 then 1 else line) > 0
    split <;> omega
  · rw [hv]
    exact hpc

/-- Function `ReadOneEventFromFile` on well-formed items followed by an event
line with a well-formed name and well-formed numbers: what is left to do is the
look-up of the name, and `g_pc_info_map` holds what the items installed. -/
theorem ReadOneEventFromFile_items (s : Offline) (items : List Item) (l : EventLine)
    (rest : List Char) (m : Nat → Option PcInfo)
    (hfile : s.file = itemsChars items ++ (l.chars ++ rest))
    (hitems : ∀ x ∈ items, x.WellFormed) (hmap : s.g_pc_info_map = some m)
    (hname : l.Name) (hnum : l.Numbers) (hrest : EndsItem rest) :
    ∃ m1, ReadOneEventFromFile s
        = (EventNameToEventType l.name { s with file := rest, g_pc_info_map := some m1 }).bind
            (fun type s2 => .ok (some (l.event type)) s2) ∧
      ∀ pc, m1 pc = match lastPcLine items pc with
        | some l => some l.info
        | none => m pc := by
  have htail : ∀ c ∈ (l.chars ++ rest).head?,
      isspace c = false ∧ c.toNat ≠ 35 ∧ c.toNat ≠ 61 := by
    obtain ⟨hne, hall⟩ := hname.word
    have hfirst := hname.first
    intro c hc
    cases hn : l.name with
    | nil => exact absurd hn hne
    | cons c0 w =>
      rw [hn] at hall hfirst
      simp only [EventLine.chars, hn, List.cons_append, List.head?_cons, Option.mem_def,
        Option.some.injEq] at hc
      subst hc
      exact ⟨(hall _ (List.mem_cons_self _ _)).1, hfirst _ (by simp)⟩
  obtain ⟨m1, hm, hl⟩ := SkipWhiteSpaceAndComments_pcLines (l.chars ++ rest) htail items s m
    hfile hitems hmap
  refine ⟨m1, ?_, hl⟩
  unfold ReadOneEventFromFile
  rw [hm]
  simp only [Res.bind]
  rw [fscanfEvent_line l rest hname hnum hrest]
  rfl

/-- The reader on items followed by the event line of the dump. -/
theorem ReadOneEventFromFile_dumped (env : Env) (hd : env.NamesDistinct)
    (hn : env.NamesWellFormed) (type : Nat) (tid : Int) (pc a info : Nat) (rest : List Char)
    (htype : type < env.LAST_EVENT) (hpc : pc < 2 ^ 64) (ha : a < 2 ^ 64)
    (hinfo : info < 2 ^ 64) (items : List Item) (hitems : ∀ x ∈ items, x.WellFormed)
    (s : Offline) (hready : s.Ready env) (m : Nat → Option PcInfo)
    (hmap : s.g_pc_info_map = some m)
    (hfile : s.file = itemsChars items
      ++ (TsPin.dumpEventLine env.kEventNames type tid pc a info ++ rest)) :
    ∃ m1, ReadOneEventFromFile s = .ok (some ⟨type, toUnsigned tid, pc, a, info⟩)
        { s with file := NL :: rest, g_pc_info_map := some m1 } ∧
      ∀ p, m1 p = match lastPcLine items p with
        | some l => some l.info
        | none => m p := by
  obtain ⟨hw, hl, hf⟩ := hn type htype
  have hname : (dumpedEventLine env.kEventNames type tid pc a info).Name := ⟨hw, hl, hf⟩
  have hfile2 : s.file = itemsChars items
      ++ ((dumpedEventLine env.kEventNames type tid pc a info).chars ++ NL :: rest) := by
    rw [hfile, dumpEventLine_chars _ _ _ _ _ _ hw, List.append_assoc]
    rfl
  obtain ⟨m1, h1, h2⟩ := ReadOneEventFromFile_items s items _ (NL :: rest) m hfile2 hitems hmap
    hname (dumpedEventLine_numbers _ _ _ _ _ _) (fun c hc => by
      simp only [List.head?_cons, Option.mem_def, Option.some.injEq] at hc
      subst hc
      decide)
  have hlook := (EventNameToEventType_spec env
    { s with file := NL :: rest, g_pc_info_map := some m1 } hready.1).1 hd type htype
  refine ⟨m1, ?_, h2⟩
  rw [h1]
  show (EventNameToEventType (env.kEventNames type) _).bind _ = _
  rw [hlook, ← dumpedEventLine_event env.kEventNames type tid pc a info hpc ha hinfo]
  rfl

/-- C16 fails on the code: for a `pc` whose image name is empty and whose line
is 0, the dump writes `#PC 10 unknown f t.c 1`, and after reading it the
offline `PcToStrings(0x10)` returns the image `unknown` and the line 1, not the
empty string and 0. -/
theorem C16_dump_replay_counterexample :
    TsPin.DumpEventPlainTextOutput sampleEnv.kEventNames true true [] "f".toList "t.c".toList 0
        1 10 16 255 4
      = "#PC 10 unknown f t.c 1\nREAD a 10 ff 4\n".toList ∧
    (ReadOneEventFromFile (sampleStateOf
      (TsPin.DumpEventPlainTextOutput sampleEnv.kEventNames true true [] "f".toList "t.c".toList
        0 1 10 16 255 4))).value = some (some ⟨1, 10, 16, 255, 4⟩) ∧
    PcToStrings sampleEnv 16 (ReadOneEventFromFile (sampleStateOf
      (TsPin.DumpEventPlainTextOutput sampleEnv.kEventNames true true [] "f".toList "t.c".toList
        0 1 10 16 255 4))).state
      = some ⟨"unknown".toList, "f".toList, "t.c".toList, 1⟩ := by
  refine ⟨?_, ?_, ?_⟩ <;> decide

/-- C16, amended.  Let the names `kEventNames[0..LAST_EVENT)` be distinct words,
and take an event (type, tid, pc, addr, info) with `type < LAST_EVENT` and
`pc`, `addr`, `info` that fit a `uintptr_t`.  (1) The text that one call of
`DumpEventPlainText` writes -- the `#PC` line, if it writes one, and the event
line `%s %x %lx %lx %lx` -- is parsed by `ReadOneEventFromFile` into the event
with the same type, pc, addr and info, and with the tid as `%x` reads it into a
`uint32_t`: the `int32_t` tid converted to unsigned, which is the same value
when the tid is not negative.  (2) If the `#PC` line
was written for symbol info (img, rtn, file, line) with names without white
space and `line >= 0`, with fewer than `kBufSize` characters, and `pc != 0`,
then afterwards the offline `PcToStrings(pc)` returns `img` and `rtn` with the
empty string replaced by `unknown`, `file` with `unknown` replaced by the empty
string, and `line` with 0 replaced by 1. -/
theorem C16_dump_replay_round_trip (env : Env) (hjli : env.jli = false)
    (hd : env.NamesDistinct) (hn : env.NamesWellFormed) (symbolize pc_is_new : Bool)
    (img_name rtn_name file_name : List Char) (line : Int) (type : Nat) (tid : Int)
    (pc a info : Nat) (rest : List Char) (htype : type < env.LAST_EVENT)
    (hpc : pc < 2 ^ 64) (ha : a < 2 ^ 64) (hinfo : info < 2 ^ 64)
    (hdump : (symbolize && pc_is_new) = true → Dumpable pc img_name rtn_name file_name line)
    (s : Offline) (hready : s.Ready env)
    (hfile : s.file = TsPin.DumpEventPlainTextOutput env.kEventNames symbolize pc_is_new
      img_name rtn_name file_name line type tid pc a info ++ rest) :
    ∃ s1, ReadOneEventFromFile s = .ok (some ⟨type, toUnsigned tid, pc, a, info⟩) s1 ∧
      s1.file = NL :: rest ∧ s1.log = s.log ∧
      (0 ≤ tid → tid < 2 ^ 31 → toUnsigned tid = tid.toNat) ∧
      ((symbolize && pc_is_new) = true → pc ≠ 0 →
        PcToStrings env pc s1 = some
          { img_name := if img_name = [] then "unknown".toList else img_name,
            rtn_name := if rtn_name = [] then "unknown".toList else rtn_name,
            file_name := if file_name = "unknown".toList then [] else file_name,
            line_no := if line = 0 then 1 else line }) := by
  obtain ⟨m, hmap⟩ := Option.isSome_iff_exists.1 hready.2
  by_cases hb : (symbolize && pc_is_new) = true
  · have hdm := hdump hb
    have hfile2 : s.file
        = itemsChars [.pcLine (Char.ofNat 35) (dumpedPcLine pc img_name rtn_name file_name line)]
          ++ (TsPin.dumpEventLine env.kEventNames type tid pc a info ++ rest) := by
      rw [hfile]
      unfold TsPin.DumpEventPlainTextOutput
      rw [if_pos hb, dumpPcLine_chars pc img_name rtn_name file_name line hdm]
      simp [itemsChars, Item.chars]
    obtain ⟨m1, h1, h2⟩ := ReadOneEventFromFile_dumped env hd hn type tid pc a info rest htype
      hpc ha hinfo _
      (by
        intro x hx
        simp only [List.mem_singleton] at hx
        subst hx
        exact ⟨Or.inl (by decide), dumpedPcLine_wellFormed _ _ _ _ _ hdm⟩)
      s hready m hmap hfile2
    refine ⟨{ s with file := NL :: rest, g_pc_info_map := some m1 }, h1, rfl, rfl,
      toUnsigned_nonneg tid, ?_⟩
    intro _ hpc0
    obtain ⟨hv, hg⟩ := dumpedPcLine_installs pc img_name rtn_name file_name line hdm.lineMin
      hpc0 hpc
    have hm1 := h2 pc
    have hlast := lastPcLine_last [] [] (Char.ofNat 35)
      (dumpedPcLine pc img_name rtn_name file_name line) hg (fun x hx => by cases hx)
    rw [hv, List.nil_append] at hlast
    rw [hlast] at hm1
    simp only at hm1
    unfold PcToStrings
    simp only [hjli, Bool.false_eq_true, if_false, hm1]
    congr 2
    show (if dumpedName file_name = "unknown".toList then [] else dumpedName file_name)
      = if file_name = "unknown".toList then [] else file_name
    unfold dumpedName
    by_cases hf : file_name = []
    · rw [if_pos hf, if_pos rfl, hf]
      rfl
    · rw [if_neg hf]
  · have hfile2 : s.file
        = itemsChars [] ++ (TsPin.dumpEventLine env.kEventNames type tid pc a info ++ rest) := by
      rw [hfile]
      unfold TsPin.DumpEventPlainTextOutput
      rw [if_neg hb]
      rfl
    obtain ⟨m1, h1, _⟩ := ReadOneEventFromFile_dumped env hd hn type tid pc a info rest htype
      hpc ha hinfo [] (by simp) s hready m hmap hfile2
    exact ⟨{ s with file := NL :: rest, g_pc_info_map := some m1 }, h1, rfl, rfl,
      toUnsigned_nonneg tid, fun h => absurd h hb⟩

/-- The names of the sample table are words that fit and start no comment. -/
theorem sampleEnv_namesWellFormed : sampleEnv.NamesWellFormed := by
  unfold Env.NamesWellFormed
  decide

/-- C16, amended, at a concrete input: the event `READ` of thread 10 at the
`pc` 0x10, whose image name is empty and whose line is 0, is read back from the
text of the dump, and the offline `PcToStrings(0x10)` returns `unknown`, `f`,
`t.c` and 1. -/
theorem C16_dump_replay_round_trip_witness :
    ∃ s1, ReadOneEventFromFile (sampleStateOf
        (TsPin.DumpEventPlainTextOutput sampleEnv.kEventNames true true [] "f".toList
          "t.c".toList 0 1 10 16 255 4 ++ []))
        = .ok (some ⟨1, 10, 16, 255, 4⟩) s1 ∧
      PcToStrings sampleEnv 16 s1
        = some ⟨"unknown".toList, "f".toList, "t.c".toList, 1⟩ :=
  match C16_dump_replay_round_trip sampleEnv rfl sampleEnv_namesDistinct
      sampleEnv_namesWellFormed true true [] "f".toList "t.c".toList 0 1 10 16 255 4 []
      (by decide) (by decide) (by decide) (by decide)
      (fun _ => ⟨by decide, by decide, by decide, by decide, by decide, by decide⟩)
      (sampleStateOf
        (TsPin.DumpEventPlainTextOutput sampleEnv.kEventNames true true [] "f".toList
          "t.c".toList 0 1 10 16 255 4 ++ []))
      ⟨rfl, rfl⟩ rfl with
  | ⟨s1, h1, _, _, _, h5⟩ => ⟨s1, h1, h5 rfl (by decide)⟩

end TsOffline

namespace Cxx

/-! ## Members of `std::string` -/

/-- A string is found at position 0 of every string that starts with it. -/
theorem find_prefix (str rest : List Char) : find (str ++ rest) str = some 0 := by
  cases h : str ++ rest with
  | nil =>
    have : str = [] := (List.append_eq_nil.1 h).1
    simp [find, this]
  | cons c t =>
    rw [find, if_pos]
    rw [← h]
    exact List.isPrefixOf_iff_prefix.2 (List.prefix_append _ _)

/-- What `find` returns is the first position at which the string occurs. -/
theorem find_some (str : List Char) :
    ∀ (s : List Char) (pos : Nat), find s str = some pos →
      pos ≤ s.length ∧ str <+: s.drop pos ∧ ∀ j, j < pos → ¬ str <+: s.drop j := by
  intro s
  induction s with
  | nil =>
    intro pos h
    simp only [find] at h
    split at h
    · rename_i hs
      cases h
      exact ⟨Nat.le_refl _, by rw [hs]; exact List.nil_prefix, fun j hj => absurd hj (by omega)⟩
    · cases h
  | cons c rest ih =>
    intro pos h
    rw [find] at h
    split at h
    · rename_i hp
      cases h
      exact ⟨Nat.zero_le _, List.isPrefixOf_iff_prefix.1 hp,
        fun j hj => absurd hj (by omega)⟩
    · rename_i hp
      cases hf : find rest str with
      | none => rw [hf] at h; cases h
      | some p =>
        rw [hf] at h
        simp only [Option.map_some', Option.some.injEq] at h
        subst h
        obtain ⟨h1, h2, h3⟩ := ih p hf
        refine ⟨by simp only [List.length_cons]; omega, h2, ?_⟩
        intro j hj
        cases j with
        | zero => exact fun hpre => hp (List.isPrefixOf_iff_prefix.2 hpre)
        | succ j => exact h3 j (by omega)

/-- The string occurs nowhere when `find` returns `npos`. -/
theorem find_none (str : List Char) :
    ∀ (s : List Char), find s str = none → ∀ j, ¬ str <+: s.drop j := by
  intro s
  induction s with
  | nil =>
    intro h j hpre
    simp only [find] at h
    split at h
    · cases h
    · rename_i hs
      simp only [List.drop_nil, List.prefix_nil] at hpre
      exact hs hpre
  | cons c rest ih =>
    intro h j
    rw [find] at h
    split at h
    · cases h
    · rename_i hp
      cases hf : find rest str with
      | some p => rw [hf] at h; cases h
      | none =>
        cases j with
        | zero => exact fun hpre => hp (List.isPrefixOf_iff_prefix.2 hpre)
        | succ j => exact ih hf j

/-- The first position at which a string occurs is what `find` returns. -/
theorem find_first (str s : List Char) (pos : Nat) (h1 : str <+: s.drop pos)
    (h2 : ∀ j, j < pos → ¬ str <+: s.drop j) : find s str = some pos := by
  cases hf : find s str with
  | none => exact absurd h1 (find_none str s hf pos)
  | some p =>
    obtain ⟨_, a2, a3⟩ := find_some str s p hf
    have : p = pos := by
      rcases Nat.lt_trichotomy p pos with h | h | h
      · exact absurd a2 (h2 p h)
      · exact h
      · exact absurd h1 (a3 pos h)
    rw [this]

end Cxx

namespace TsPin
open Libc Cxx

/-! ## Routine names -/

theorem char_eq_of_toNat {c d : Char} (h : c.toNat = d.toNat) : c = d := by
  apply Char.ext
  apply UInt32.ext
  exact h

/-- The character after the first part of a string. -/
theorem charAt_append (n : List Char) (c : Char) (t : List Char) :
    charAt (n ++ c :: t) n.length = c := by
  unfold charAt
  rw [List.getD_eq_getElem?_getD, List.getElem?_append_right (Nat.le_refl _)]
  simp

/-- A full match: `RtnMatchesName(n, n)`. -/
theorem RtnMatchesName_full (n : List Char) (hn : n ≠ []) : RtnMatchesName n n = some true := by
  have hlen : 0 < n.length := List.length_pos.2 hn
  have hf : find n n = some 0 := by
    have := find_prefix n []
    rwa [List.append_nil] at this
  unfold RtnMatchesName
  rw [if_neg (by omega), hf]
  simp

/-- A versioned match: `RtnMatchesName(n + "@" + v, n)`. -/
theorem RtnMatchesName_versioned (n v : List Char) (hn : n ≠ []) :
    RtnMatchesName (n ++ AT :: v) n = some true := by
  have hlen : 0 < n.length := List.length_pos.2 hn
  have hc := charAt_append n AT v
  unfold RtnMatchesName
  rw [if_neg (by omega), find_prefix]
  show (if 0 = 0 ∧ n.length = (n ++ AT :: v).length then some true
    else if 0 = 0 ∧ n.length < (n ++ AT :: v).length
        ∧ (charAt (n ++ AT :: v) n.length).toNat = 64 then some true
    else _) = some true
  rw [if_neg (by simp), if_pos ⟨rfl, by simp, by rw [hc]; rfl⟩]

/-- If `RtnMatchesName` returns true, the routine name has one of the three
shapes. -/
theorem RtnMatchesName_true (r n : List Char) (h : RtnMatchesName r n = some true) :
    r = n ∨ (n ++ [AT]) <+: r ∨ (UNDERSCORE :: (n ++ [AT])) <+: r := by
  unfold RtnMatchesName at h
  split at h
  · cases h
  · cases hf : find r n with
    | none => rw [hf] at h; cases h
    | some pos =>
      rw [hf] at h
      obtain ⟨_, hpre, _⟩ := find_some n r pos hf
      simp only at h
      split at h
      · rename_i h1
        obtain ⟨h0, hl⟩ := h1
        subst h0
        rw [List.drop_zero] at hpre
        exact Or.inl (hpre.eq_of_length hl).symm
      · split at h
        · rename_i h2
          obtain ⟨h0, hl, hat⟩ := h2
          subst h0
          rw [List.drop_zero] at hpre
          obtain ⟨t, rfl⟩ := hpre
          refine Or.inr (Or.inl ?_)
          cases t with
          | nil => simp at hl
          | cons c t =>
            have hc : c = AT := by
              apply char_eq_of_toNat
              rw [charAt_append] at hat
              exact hat
            subst hc
            exact ⟨t, by simp⟩
        · split at h
          · rename_i h3
            obtain ⟨h1, hu, hl, hat⟩ := h3
            subst h1
            refine Or.inr (Or.inr ?_)
            cases r with
            | nil => simp at hl
            | cons c0 r =>
              have hc0 : c0 = UNDERSCORE := char_eq_of_toNat hu
              subst hc0
              simp only [List.drop_succ_cons, List.drop_zero] at hpre
              obtain ⟨t, rfl⟩ := hpre
              cases t with
              | nil =>
                exfalso
                unfold charAt at hat
                rw [List.getD_eq_getElem?_getD] at hat
                simp at hat
              | cons c t =>
                have hc : c = AT := by
                  apply char_eq_of_toNat
                  have e : charAt (UNDERSCORE :: (n ++ c :: t)) (n.length + 1)
                      = charAt (n ++ c :: t) n.length := rfl
                  rw [e, charAt_append] at hat
                  exact hat
                subst hc
                exact ⟨t, by simp⟩
          · cases h

/-- The function returns when the name is not empty. -/
theorem RtnMatchesName_isSome (r n : List Char) (hn : n ≠ []) :
    (RtnMatchesName r n).isSome = true := by
  have hlen : 0 < n.length := List.length_pos.2 hn
  unfold RtnMatchesName
  rw [if_neg (by omega)]
  cases find r n with
  | none => rfl
  | some pos =>
    simp only
    repeat' split
    all_goals rfl

/-- A name that occurs at the start of `_` followed by itself is made of
underscores. -/
theorem start_underscores (n : List Char) :
    ∀ t : List Char, n <+: UNDERSCORE :: (n ++ t) → ∀ c ∈ n, c = UNDERSCORE := by
  induction n with
  | nil => intro _ _ c hc; cases hc
  | cons a n ih =>
    intro t h c hc
    rw [List.cons_append, List.cons_prefix_cons] at h
    obtain ⟨ha, hp⟩ := h
    subst ha
    rcases List.mem_cons.1 hc with rfl | hc
    · rfl
    · exact ih t hp c hc

/-- A name made of underscores occurs at the start of `_` followed by itself. -/
theorem underscores_start (n : List Char) :
    ∀ t : List Char, (∀ c ∈ n, c = UNDERSCORE) → n <+: UNDERSCORE :: (n ++ t) := by
  induction n with
  | nil => intro _ _; exact List.nil_prefix
  | cons a n ih =>
    intro t h
    have ha := h a (List.mem_cons_self _ _)
    subst ha
    rw [List.cons_append, List.cons_prefix_cons]
    exact ⟨rfl, ih t fun c hc => h c (List.mem_cons_of_mem _ hc)⟩

/-- In a name made of underscores followed by more text, the character before
the text is an underscore. -/
theorem charAt_underscores (n : List Char) (hn : n ≠ []) (h : ∀ c ∈ n, c = UNDERSCORE)
    (t : List Char) : charAt (UNDERSCORE :: (n ++ t)) n.length = UNDERSCORE := by
  have hlen : 0 < n.length := List.length_pos.2 hn
  obtain ⟨k, hk⟩ : ∃ k, n.length = k + 1 := ⟨n.length - 1, by omega⟩
  have hlt : k < n.length := by omega
  unfold charAt
  rw [hk, List.getD_eq_getElem?_getD, List.getElem?_cons_succ,
    List.getElem?_append_left hlt, List.getElem?_eq_getElem hlt]
  exact h _ (List.getElem_mem _)

/-- A decorated symbol `_MyFuncName@123`: `RtnMatchesName("_" + n + "@" + v, n)`
returns true unless `n` is made of underscores only, in which case the name is
found at position 0 and the function returns false. -/
theorem RtnMatchesName_decorated (n v : List Char) (hn : n ≠ []) :
    RtnMatchesName (UNDERSCORE :: (n ++ AT :: v)) n
      = some (decide (∃ c ∈ n, c ≠ UNDERSCORE)) := by
  have hlen : 0 < n.length := List.length_pos.2 hn
  by_cases hall : ∀ c ∈ n, c = UNDERSCORE
  · have hd : decide (∃ c ∈ n, c ≠ UNDERSCORE) = false := by
      rw [decide_eq_false_iff_not]
      rintro ⟨c, hc, hne⟩
      exact hne (hall c hc)
    have hf : find (UNDERSCORE :: (n ++ AT :: v)) n = some 0 :=
      find_first n _ 0 (underscores_start n _ hall) fun j hj => absurd hj (by omega)
    have hc := charAt_underscores n hn hall (AT :: v)
    unfold RtnMatchesName
    rw [if_neg (by omega), hf, hd]
    show (if 0 = 0 ∧ n.length = (UNDERSCORE :: (n ++ AT :: v)).length then some true
      else if 0 = 0 ∧ n.length < (UNDERSCORE :: (n ++ AT :: v)).length
          ∧ (charAt (UNDERSCORE :: (n ++ AT :: v)) n.length).toNat = 64 then some true
      else if 0 = 1 ∧ _ then some true else some false) = some false
    have hu : UNDERSCORE.toNat ≠ 64 := by decide
    rw [if_neg (by simp only [List.length_cons, List.length_append]; omega),
      if_neg (by rw [hc]; exact fun h => hu h.2.2), if_neg (by omega)]
  · have hd : decide (∃ c ∈ n, c ≠ UNDERSCORE) = true := by
      rw [decide_eq_true_eq]
      by_contra hne
      exact hall fun c hc => by_contra fun h => hne ⟨c, hc, h⟩
    have hf : find (UNDERSCORE :: (n ++ AT :: v)) n = some 1 := by
      refine find_first n _ 1 ⟨AT :: v, rfl⟩ fun j hj => ?_
      have : j = 0 := by omega
      subst this
      exact fun hp => hall (start_underscores n _ hp)
    have hc : charAt (UNDERSCORE :: (n ++ AT :: v)) (n.length + 1) = AT :=
      charAt_append n AT v
    unfold RtnMatchesName
    rw [if_neg (by omega), hf, hd]
    show (if 1 = 0 ∧ _ then some true
      else if 1 = 0 ∧ _ then some true
      else if 1 = 1 ∧ (charAt (UNDERSCORE :: (n ++ AT :: v)) 0).toNat = 95
          ∧ n.length < (UNDERSCORE :: (n ++ AT :: v)).length
          ∧ (charAt (UNDERSCORE :: (n ++ AT :: v)) (n.length + 1)).toNat = 64 then some true
      else some false) = some true
    rw [if_neg (by omega), if_neg (by omega),
      if_pos ⟨rfl, rfl, by simp only [List.length_cons, List.length_append]; omega,
        by rw [hc]; rfl⟩]

/-- The three documented shapes: the full match and the versioned symbol are
matched for every name that is not empty; the decorated symbol is matched for
every such name that is not made of underscores only. -/
theorem RtnMatchesName_shapes (n v : List Char) (hn : n ≠ []) :
    RtnMatchesName n n = some true ∧ RtnMatchesName (n ++ AT :: v) n = some true ∧
    ((∃ c ∈ n, c ≠ UNDERSCORE) → RtnMatchesName (UNDERSCORE :: (n ++ AT :: v)) n = some true) ∧
    ((∀ c ∈ n, c = UNDERSCORE) →
      RtnMatchesName (UNDERSCORE :: (n ++ AT :: v)) n = some false) := by
  refine ⟨RtnMatchesName_full n hn, RtnMatchesName_versioned n v hn, ?_, ?_⟩
  · intro h
    rw [RtnMatchesName_decorated n v hn, decide_eq_true h]
  · intro h
    rw [RtnMatchesName_decorated n v hn, decide_eq_false]
    rintro ⟨c, hc, hne⟩
    exact hne (h c hc)

/-- A name made of underscores only is outside the names the callers pass:
`RtnMatchesName("__@8", "_")` returns false, since `find` returns position 0 and
the third shape is looked for at position 1 only; the same for the name `__`
and the symbol `___@8`.  The full match and the versioned symbol of these names
are matched. -/
theorem RtnMatchesName_underscores :
    RtnMatchesName "__@8".toList "_".toList = some false ∧
    RtnMatchesName "___@8".toList "__".toList = some false ∧
    RtnMatchesName "_".toList "_".toList = some true ∧
    RtnMatchesName "_@8".toList "_".toList = some true := by
  refine ⟨?_, ?_, ?_, ?_⟩ <;> decide

/-- C29.  For every routine name `r` and every name `n`: if
`RtnMatchesName(r, n)` returns true then `r = n`, or `r` begins with `n`
followed by `@`, or `r` begins with `_` followed by `n` followed by `@`; and for
a name `n` that is not empty and a routine name of none of these shapes the
function returns false.  So it does for `malloc_hook` with the name `malloc`
and for `__pthread_mutex_lock` with the name `pthread_mutex_lock`, which
contain the name without having one of the shapes. -/
theorem C29_rtn_matches_name_rejects (r n : List Char) :
    (RtnMatchesName r n = some true →
      r = n ∨ (n ++ [AT]) <+: r ∨ (UNDERSCORE :: (n ++ [AT])) <+: r) ∧
    (n ≠ [] → ¬ (r = n ∨ (n ++ [AT]) <+: r ∨ (UNDERSCORE :: (n ++ [AT])) <+: r) →
      RtnMatchesName r n = some false) ∧
    RtnMatchesName "malloc_hook".toList "malloc".toList = some false ∧
    RtnMatchesName "__pthread_mutex_lock".toList "pthread_mutex_lock".toList = some false := by
  refine ⟨RtnMatchesName_true r n, ?_, by decide, by decide⟩
  intro hn hshape
  have h1 := RtnMatchesName_isSome r n hn
  cases hr : RtnMatchesName r n with
  | none => rw [hr] at h1; cases h1
  | some b =>
    cases b with
    | false => rfl
    | true => exact absurd (RtnMatchesName_true r n hr) hshape

/-- C29 at concrete inputs: `malloc@GLIBC_2.2.5` is matched for the name
`malloc` and begins with `malloc@`. -/
theorem C29_rtn_matches_name_rejects_witness :
    RtnMatchesName "malloc@GLIBC_2.2.5".toList "malloc".toList = some true ∧
    ("malloc@GLIBC_2.2.5".toList = "malloc".toList ∨
      ("malloc".toList ++ [AT]) <+: "malloc@GLIBC_2.2.5".toList ∨
      (UNDERSCORE :: ("malloc".toList ++ [AT])) <+: "malloc@GLIBC_2.2.5".toList) :=
  ⟨by decide,
    (C29_rtn_matches_name_rejects "malloc@GLIBC_2.2.5".toList "malloc".toList).1 (by decide)⟩

/-- The mask is all ones when the values differ and zero when they are equal. -/
theorem ne_mask_eq (v p : Nat) : ne_mask v p = if v ≠ p then 2 ^ 64 - 1 else 0 := by
  unfold ne_mask
  by_cases h : v ≠ p
  · rw [if_pos h, if_pos h]
    norm_num
  · rw [if_neg h, if_neg h]
    rfl

/-- The mask applied to an address gives the address or zero. -/
theorem ne_mask_and (v p a : Nat) (ha : a < 2 ^ 64) :
    ne_mask v p &&& a = if v ≠ p then a else 0 := by
  rw [ne_mask_eq]
  by_cases h : v ≠ p
  · rw [if_pos h, if_pos h, Nat.and_comm, Nat.and_pow_two_sub_one_of_lt_two_pow ha]
  · rw [if_neg h, if_neg h, Nat.zero_and]

/-- C26.  For every address `a` (a value of `uintptr_t`) and every slot `idx`
of the buffer: `OnMopCheckIdentStoreBefore` stores the word `p = *a` in
`addr[idx]`; when `OnMopCheckIdentStoreAfter` then finds the word `v = *a`, it
leaves `addr[idx] = a` if `v != p` and `addr[idx] = 0` if `v = p`.  The mask
`-(uintptr_t)(v != p)` is `2^64 - 1` or `0`, and `mask & a` is `a` or `0`. -/
theorem C26_ident_store_filter (mem mem' : Nat → Nat) (addr tid idx a : Nat) (g : Globals)
    (ha : a < 2 ^ 64) (hslot : addr + idx < kThreadLocalEventBufferSize) :
    (∃ g1 g2, OnMopCheckIdentStoreBefore mem addr tid idx a g = .ok () g1 ∧
      (g1.g_pin_threads tid).tleb.events (addr + idx) = mem a % 2 ^ 64 ∧
      OnMopCheckIdentStoreAfter mem' addr tid idx a g1 = .ok () g2 ∧
      (g2.g_pin_threads tid).tleb.events (addr + idx)
        = (if mem' a % 2 ^ 64 ≠ mem a % 2 ^ 64 then a else 0) ∧
      (∀ j, j ≠ addr + idx →
        (g2.g_pin_threads tid).tleb.events j = (g.g_pin_threads tid).tleb.events j) ∧
      (g2.g_pin_threads tid).tleb.size = (g.g_pin_threads tid).tleb.size) ∧
    (∀ v p, ne_mask v p = (if v ≠ p then 2 ^ 64 - 1 else 0) ∧
      ne_mask v p &&& a = (if v ≠ p then a else 0)) := by
  refine ⟨?_, fun v p => ⟨ne_mask_eq v p, ne_mask_and v p a ha⟩⟩
  obtain ⟨_, s1, _, e1, o1⟩ := Globals.storeAt_facts g tid (addr + idx) (mem a % 2 ^ 64)
  obtain ⟨_, s2, _, e2, o2⟩ := Globals.storeAt_facts
    (g.storeAt tid (addr + idx) (mem a % 2 ^ 64)) tid (addr + idx)
    (ne_mask (mem' a % 2 ^ 64) (mem a % 2 ^ 64) &&& a)
  refine ⟨g.storeAt tid (addr + idx) (mem a % 2 ^ 64),
    (g.storeAt tid (addr + idx) (mem a % 2 ^ 64)).storeAt tid (addr + idx)
      (ne_mask (mem' a % 2 ^ 64) (mem a % 2 ^ 64) &&& a), ?_, e1, ?_, ?_, ?_, ?_⟩
  · unfold OnMopCheckIdentStoreBefore
    rw [if_pos hslot]
  · unfold OnMopCheckIdentStoreAfter
    rw [if_pos hslot]
    simp only
    rw [e1]
  · rw [e2, ne_mask_and _ _ a ha]
  · intro j hj
    rw [o2 j hj, o1 j hj]
  · rw [s2, s1]

/-- C26 at concrete inputs: the address `0x1000` with the word 7 before the
store and the word 8 after it: the slot holds 7 after the first call and
`0x1000` after the second; with the word 7 after the store it holds 0. -/
theorem C26_ident_store_filter_witness :
    (∃ g1 g2, OnMopCheckIdentStoreBefore (fun _ => 7) 0 0 0 4096 (sampleGlobals [0]) = .ok () g1 ∧
      (g1.g_pin_threads 0).tleb.events 0 = 7 ∧
      OnMopCheckIdentStoreAfter (fun _ => 8) 0 0 0 4096 g1 = .ok () g2 ∧
      (g2.g_pin_threads 0).tleb.events 0 = 4096) ∧
    ((OnMopCheckIdentStoreAfter (fun _ => 7) 0 0 0 4096
      (OnMopCheckIdentStoreBefore (fun _ => 7) 0 0 0 4096
        (sampleGlobals [0])).globals).globals.g_pin_threads 0).tleb.events 0 = 0 ∧
    ne_mask 8 7 = 2 ^ 64 - 1 ∧ ne_mask 7 7 = 0 :=
  ⟨match (C26_ident_store_filter (fun _ => 7) (fun _ => 8) 0 0 0 4096 (sampleGlobals [0])
      (by decide) (by decide)).1 with
    | ⟨g1, g2, h1, h2, h3, h4, _⟩ => ⟨g1, g2, h1, h2, h3, h4⟩,
    by decide, by decide, by decide⟩

/-- The string `%p` starts a string exactly when the string starts with the
characters of codes 37 and 112. -/
theorem percentP_isPrefixOf (c : Char) (t : List Char) :
    percentP.isPrefixOf (c :: t) = true ↔ c.toNat = 37 ∧ (t.head?.map Char.toNat) = some 112 := by
  cases t with
  | nil => simp [percentP, List.isPrefixOf]
  | cons d r =>
    simp only [percentP, List.isPrefixOf, Bool.and_true, Bool.and_eq_true, beq_iff_eq,
      List.head?_cons, Option.map_some', Option.some.injEq]
    constructor
    · rintro ⟨rfl, rfl⟩
      exact ⟨rfl, rfl⟩
    · rintro ⟨h1, h2⟩
      have e1 : c = Char.ofNat 37 := char_eq_of_toNat h1
      have e2 : d = Char.ofNat 112 := char_eq_of_toNat h2
      exact ⟨e1.symm, e2.symm⟩

/-- The scan at an occurrence of `%p`. -/
theorem replaceEach_occurrence (pid_str : List Char) (c d : Char) (r : List Char)
    (hc : c.toNat = 37) (hd : d.toNat = 112) :
    replaceEach pid_str (c :: d :: r) = pid_str ++ replaceEach pid_str r := by
  unfold replaceEach
  rw [replaceEachFrom, if_pos ⟨hc, by simp [hd]⟩, replaceEachFrom]

/-- The scan at a character that starts no occurrence of `%p`. -/
theorem replaceEach_other (pid_str : List Char) (c : Char) (t : List Char)
    (h : ¬ (c.toNat = 37 ∧ (t.head?.map Char.toNat) = some 112)) :
    replaceEach pid_str (c :: t) = c :: replaceEach pid_str t := by
  unfold replaceEach
  rw [replaceEachFrom, if_neg h]

/-- Text without `%` is kept by the scan. -/
theorem replaceEach_append (pid_str : List Char) (x : List Char) :
    ∀ w : List Char, (∀ c ∈ w, c.toNat ≠ 37) →
      replaceEach pid_str (w ++ x) = w ++ replaceEach pid_str x := by
  intro w
  induction w with
  | nil => intro _; rfl
  | cons c w ih =>
    intro h
    rw [List.cons_append, replaceEach_other pid_str c _ fun hc =>
      h c (List.mem_cons_self _ _) hc.1, ih fun d hd => h d (List.mem_cons_of_mem _ hd)]
    rfl

/-- A string without `%p` is kept by the scan. -/
theorem replaceEach_none (pid_str : List Char) :
    ∀ s : List Char, find s percentP = none → replaceEach pid_str s = s := by
  intro s
  induction s with
  | nil => intro _; rfl
  | cons c t ih =>
    intro h
    rw [find] at h
    split at h
    · cases h
    · rename_i hp
      cases hf : find t percentP with
      | some p => rw [hf] at h; cases h
      | none =>
        rw [replaceEach_other pid_str c t fun hc => hp ((percentP_isPrefixOf c t).2 hc), ih hf]

/-- The number of characters `%` of a string. -/
theorem countPercent_le (s : List Char) : s.countP (fun c => c.toNat = 37) ≤ s.length :=
  List.countP_le_length _

/-- One iteration of the loop: replacing the first occurrence of `%p` does not
change what the scan gives, and takes one `%` away. -/
theorem replaceEach_replace (pid_str : List Char) (hne : pid_str ≠ [])
    (hp : ∀ c ∈ pid_str, c.toNat ≠ 37 ∧ c.toNat ≠ 112) :
    ∀ (s : List Char) (pos : Nat), find s percentP = some pos →
      replaceEach pid_str (replace s pos 2 pid_str) = replaceEach pid_str s ∧
      (replace s pos 2 pid_str).countP (fun c => c.toNat = 37) + 1
        = s.countP (fun c => c.toNat = 37) := by
  have hcount : pid_str.countP (fun c => c.toNat = 37) = 0 := by
    rw [List.countP_eq_zero]
    intro c hc
    simpa using (hp c hc).1
  intro s
  induction s with
  | nil =>
    intro pos h
    simp [find, percentP] at h
  | cons c t ih =>
    intro pos h
    rw [find] at h
    by_cases hpre : percentP.isPrefixOf (c :: t) = true
    · rw [if_pos hpre] at h
      cases h
      obtain ⟨hc, hd⟩ := (percentP_isPrefixOf c t).1 hpre
      cases t with
      | nil => simp at hd
      | cons d r =>
        simp only [List.head?_cons, Option.map_some', Option.some.injEq] at hd
        have hrep : replace (c :: d :: r) 0 2 pid_str = pid_str ++ r := by
          simp [replace]
        rw [hrep, replaceEach_occurrence pid_str c d r hc hd,
          replaceEach_append pid_str r pid_str fun x hx => (hp x hx).1]
        refine ⟨rfl, ?_⟩
        rw [List.countP_append, hcount, List.countP_cons, List.countP_cons]
        simp [hc, hd]
    · rw [if_neg hpre] at h
      cases hf : find t percentP with
      | none => rw [hf] at h; cases h
      | some p =>
        rw [hf] at h
        simp only [Option.map_some', Option.some.injEq] at h
        subst h
        obtain ⟨i1, i2⟩ := ih p hf
        have hrep : replace (c :: t) (p + 1) 2 pid_str = c :: replace t p 2 pid_str := by
          simp [replace, Nat.add_right_comm]
        have hcond : ¬ (c.toNat = 37 ∧ (t.head?.map Char.toNat) = some 112) :=
          fun hc => hpre ((percentP_isPrefixOf c t).2 hc)
        have hcond2 : ¬ (c.toNat = 37
            ∧ ((replace t p 2 pid_str).head?.map Char.toNat) = some 112) := by
          rintro ⟨hc, hd⟩
          cases p with
          | zero =>
            cases hpid : pid_str with
            | nil => exact hne hpid
            | cons x rest =>
              rw [hpid] at hd hp
              simp only [replace, List.take_zero, List.nil_append, List.cons_append,
                List.head?_cons, Option.map_some', Option.some.injEq] at hd
              exact (hp x (List.mem_cons_self _ _)).2 hd
          | succ p =>
            cases t with
            | nil => simp [find, percentP] at hf
            | cons d r =>
              simp only [replace, List.take_succ_cons, List.cons_append, List.head?_cons,
                Option.map_some', Option.some.injEq] at hd
              exact hcond ⟨hc, by simp [hd]⟩
        rw [hrep, replaceEach_other pid_str c t hcond, replaceEach_other pid_str c _ hcond2, i1]
        refine ⟨rfl, ?_⟩
        rw [List.countP_cons, List.countP_cons, ← i2]
        omega

/-- The loop returns the scanned string when it is given more iterations than
the string has characters `%`. -/
theorem replacePidLoop_eq (pid_str : List Char) (hne : pid_str ≠ [])
    (hp : ∀ c ∈ pid_str, c.toNat ≠ 37 ∧ c.toNat ≠ 112) :
    ∀ (fuel : Nat) (s : List Char), s.countP (fun c => c.toNat = 37) < fuel →
      replacePidLoop pid_str fuel s = some (replaceEach pid_str s) := by
  intro fuel
  induction fuel with
  | zero => intro s h; omega
  | succ fuel ih =>
    intro s h
    rw [replacePidLoop]
    cases hf : find s percentP with
    | none =>
      simp only
      rw [replaceEach_none pid_str s hf]
    | some pos =>
      simp only
      obtain ⟨i1, i2⟩ := replaceEach_replace pid_str hne hp s pos hf
      rw [ih _ (by omega), i1]

/-- What the loop returns has no occurrence of `%p`. -/
theorem replacePidLoop_clean (pid_str : List Char) :
    ∀ (fuel : Nat) (s r : List Char), replacePidLoop pid_str fuel s = some r →
      find r percentP = none := by
  intro fuel
  induction fuel with
  | zero => intro s r h; cases h
  | succ fuel ih =>
    intro s r h
    rw [replacePidLoop] at h
    cases hf : find s percentP with
    | none =>
      rw [hf] at h
      cases h
      exact hf
    | some pos =>
      rw [hf] at h
      exact ih _ r h

/-- C27.  For every `log_file` and every process id: the replacement loop of
`main` terminates (with one iteration more than `log_file` has characters, or
any larger number, it returns); the file name it gives is `log_file` with every
occurrence of `%p`, scanned left to right, replaced by what `%u` prints for the
process id, which is its decimal representation; that name has no occurrence
of `%p`; and a `log_file` without `%p` is used unchanged. -/
theorem C27_log_file_pid_expansion (log_file : List Char) (pid : Int) :
    logFileName log_file pid = some (replaceEach (print_u (toUnsigned pid)) log_file) ∧
    (∀ fuel, log_file.length < fuel →
      replacePidLoop (print_u (toUnsigned pid)) fuel log_file
        = some (replaceEach (print_u (toUnsigned pid)) log_file)) ∧
    find (replaceEach (print_u (toUnsigned pid)) log_file) percentP = none ∧
    (find log_file percentP = none → logFileName log_file pid = some log_file) ∧
    (0 ≤ pid → pid < 2 ^ 31 → print_u (toUnsigned pid) = print_d pid) := by
  obtain ⟨hne, hdig⟩ := print_u_digits (toUnsigned pid)
  have hp : ∀ c ∈ print_u (toUnsigned pid), c.toNat ≠ 37 ∧ c.toNat ≠ 112 := by
    intro c hc
    have := hdig c hc
    omega
  have hloop : ∀ fuel, log_file.length < fuel →
      replacePidLoop (print_u (toUnsigned pid)) fuel log_file
        = some (replaceEach (print_u (toUnsigned pid)) log_file) := by
    intro fuel hfuel
    have := countPercent_le log_file
    exact replacePidLoop_eq _ hne hp fuel log_file (by omega)
  have hmain := hloop (log_file.length + 1) (by omega)
  refine ⟨hmain, hloop, replacePidLoop_clean _ _ _ _ hmain, ?_, print_u_eq_print_d pid⟩
  intro hnone
  show replacePidLoop _ _ _ = _
  rw [hmain, replaceEach_none _ _ hnone]

/-- C27 at concrete inputs: for the process id 4711, `a%p.%%pp%p` gives
`a4711.%4711p4711`, and `tsan.log` is used unchanged. -/
theorem C27_log_file_pid_expansion_witness :
    logFileName "a%p.%%pp%p".toList 4711 = some "a4711.%4711p4711".toList ∧
    replaceEach (print_u (toUnsigned 4711)) "a%p.%%pp%p".toList = "a4711.%4711p4711".toList ∧
    logFileName "tsan.log".toList 4711 = some "tsan.log".toList :=
  ⟨by decide, by decide,
    (C27_log_file_pid_expansion "tsan.log".toList 4711).2.2.2.1 (by decide)⟩

/-- The loop over a list of indices: either nothing was selected and no thread
of the list is a finished thread with the handle and a `uniq_tid` above the
start value, or the thread selected is such a thread of the list whose
`uniq_tid` is the greatest. -/
theorem joinSearch_fold (g : Globals) (joined_ptid : Nat) :
    ∀ (L : List Nat) (acc : Nat × Int),
      (L.foldl (joinSearchStep g joined_ptid) acc = acc ∧
        ∀ j ∈ L, (g.g_pin_threads j).thread_finished = true →
          (g.g_pin_threads j).my_ptid = joined_ptid → (g.g_pin_threads j).uniq_tid ≤ acc.2) ∨
      ((L.foldl (joinSearchStep g joined_ptid) acc).1 ∈ L ∧
        (g.g_pin_threads (L.foldl (joinSearchStep g joined_ptid) acc).1).thread_finished = true ∧
        (g.g_pin_threads (L.foldl (joinSearchStep g joined_ptid) acc).1).my_ptid = joined_ptid ∧
        (L.foldl (joinSearchStep g joined_ptid) acc).2
          = (g.g_pin_threads (L.foldl (joinSearchStep g joined_ptid) acc).1).uniq_tid ∧
        acc.2 < (L.foldl (joinSearchStep g joined_ptid) acc).2 ∧
        ∀ j ∈ L, (g.g_pin_threads j).thread_finished = true →
          (g.g_pin_threads j).my_ptid = joined_ptid →
          (g.g_pin_threads j).uniq_tid ≤ (L.foldl (joinSearchStep g joined_ptid) acc).2) := by
  intro L
  induction L with
  | nil => intro acc; exact Or.inl ⟨rfl, fun j hj => absurd hj (List.not_mem_nil j)⟩
  | cons j0 L ih =>
    intro acc
    rw [List.foldl_cons]
    by_cases hsel : (g.g_pin_threads j0).thread_finished = true ∧
        (g.g_pin_threads j0).my_ptid = joined_ptid ∧ acc.2 < (g.g_pin_threads j0).uniq_tid
    · obtain ⟨h1, h2, h3⟩ := hsel
      have hstep : joinSearchStep g joined_ptid acc j0 = (j0, (g.g_pin_threads j0).uniq_tid) := by
        unfold joinSearchStep
        rw [if_neg (by simp [h1]), if_pos h2, if_pos h3]
      rw [hstep]
      rcases ih (j0, (g.g_pin_threads j0).uniq_tid) with ⟨e, hall⟩ | ⟨m1, m2, m3, m4, m5, m6⟩
      · refine Or.inr ?_
        rw [e]
        refine ⟨List.mem_cons_self _ _, h1, h2, rfl, h3, ?_⟩
        intro j hj f1 f2
        rcases List.mem_cons.1 hj with rfl | hj
        · exact Int.le_refl _
        · exact hall j hj f1 f2
      · refine Or.inr ⟨List.mem_cons_of_mem _ m1, m2, m3, m4, ?_, ?_⟩
        · exact Int.lt_trans h3 m5
        · intro j hj f1 f2
          rcases List.mem_cons.1 hj with rfl | hj
          · exact Int.le_of_lt m5
          · exact m6 j hj f1 f2
    · have hstep : joinSearchStep g joined_ptid acc j0 = acc := by
        unfold joinSearchStep
        by_cases h1 : (g.g_pin_threads j0).thread_finished = false
        · rw [if_pos h1]
        · rw [if_neg h1]
          by_cases h2 : (g.g_pin_threads j0).my_ptid = joined_ptid
          · rw [if_pos h2, if_neg fun h3 => hsel ⟨by simpa using h1, h2, h3⟩]
          · rw [if_neg h2]
      have hj0 : (g.g_pin_threads j0).thread_finished = true →
          (g.g_pin_threads j0).my_ptid = joined_ptid →
          (g.g_pin_threads j0).uniq_tid ≤ acc.2 := by
        intro f1 f2
        by_contra hlt
        exact hsel ⟨f1, f2, by omega⟩
      rw [hstep]
      rcases ih acc with ⟨e, hall⟩ | ⟨m1, m2, m3, m4, m5, m6⟩
      · refine Or.inl ⟨e, ?_⟩
        intro j hj f1 f2
        rcases List.mem_cons.1 hj with rfl | hj
        · exact hj0 f1 f2
        · exact hall j hj f1 f2
      · refine Or.inr ⟨List.mem_cons_of_mem _ m1, m2, m3, m4, m5, ?_⟩
        intro j hj f1 f2
        rcases List.mem_cons.1 hj with rfl | hj
        · exact Int.le_trans (hj0 f1 f2) (Int.le_of_lt m5)
        · exact m6 j hj f1 f2

/-- The indices the loop visits. -/
theorem mem_joinRange (kMaxThreads j : Nat) :
    j ∈ List.range' 1 (kMaxThreads - 1) ↔ 1 ≤ j ∧ j < kMaxThreads := by
  rw [List.mem_range'_1]
  omega

/-- The loop of `HandleThreadJoinAfter`: `joined_tid` keeps the value
`kMaxThreads` exactly when there is no candidate, and is otherwise a candidate
whose `uniq_tid` is the greatest among the candidates. -/
theorem joinSearch_spec (kMaxThreads : Nat) (g : Globals) (joined_ptid : Nat)
    (huniq : ∀ j, JoinCandidate kMaxThreads g joined_ptid j → 0 ≤ (g.g_pin_threads j).uniq_tid) :
    ((¬ ∃ j, JoinCandidate kMaxThreads g joined_ptid j) →
      (joinSearch kMaxThreads g joined_ptid).1 = kMaxThreads) ∧
    ((∃ j, JoinCandidate kMaxThreads g joined_ptid j) →
      JoinCandidate kMaxThreads g joined_ptid (joinSearch kMaxThreads g joined_ptid).1 ∧
      ∀ j, JoinCandidate kMaxThreads g joined_ptid j →
        (g.g_pin_threads j).uniq_tid
          ≤ (g.g_pin_threads (joinSearch kMaxThreads g joined_ptid).1).uniq_tid) := by
  unfold joinSearch
  rcases joinSearch_fold g joined_ptid (List.range' 1 (kMaxThreads - 1)) (kMaxThreads, -1)
    with ⟨e, hall⟩ | ⟨m1, m2, m3, m4, _, m6⟩
  · have hnone : ¬ ∃ j, JoinCandidate kMaxThreads g joined_ptid j := by
      rintro ⟨j, hj⟩
      have h1 := hall j ((mem_joinRange kMaxThreads j).2 ⟨hj.1, hj.2.1⟩) hj.2.2.1 hj.2.2.2
      have h2 := huniq j hj
      simp only at h1
      omega
    exact ⟨fun _ => by rw [e], fun h => absurd h hnone⟩
  · have hr := (mem_joinRange kMaxThreads _).1 m1
    have hc : JoinCandidate kMaxThreads g joined_ptid
        ((List.range' 1 (kMaxThreads - 1)).foldl (joinSearchStep g joined_ptid)
          (kMaxThreads, -1)).1 := ⟨hr.1, hr.2, m2, m3⟩
    refine ⟨fun hno => absurd ⟨_, hc⟩ hno, fun _ => ⟨hc, ?_⟩⟩
    intro j hj
    rw [← m4]
    exact m6 j ((mem_joinRange kMaxThreads j).2 ⟨hj.1, hj.2.1⟩) hj.2.2.1 hj.2.2.2

/-- A run that ends by returning true does not return false. -/
theorem bind_true_ne_false (r : Res Unit) (f : Globals → Res Unit) (g1 : Globals) :
    (r.bind fun _ g3 => (f g3).bind fun _ g5 => .ok true g5) ≠ .ok false g1 := by
  cases r with
  | abort e g2 => intro h; cases h
  | ok u g2 =>
    simp only [Res.bind]
    cases f g2 with
    | abort e g3 => intro h; cases h
    | ok u g3 =>
      intro h
      simp only [Res.ok.injEq] at h
      exact absurd h.1 (by decide)

/-- C24.  Call a thread `j` a candidate when `1 <= j < kMaxThreads`, the
thread has finished and its `my_ptid` is `joined_ptid`; let every candidate have
a `uniq_tid` that is not negative, as `CallbackForThreadStart` assigns them.
(1) If there is no candidate, `HandleThreadJoinAfter` returns false and changes
nothing: no event is emitted.  (2) If there is one, it does not return false:
it selects a candidate whose `uniq_tid` is the greatest among the candidates,
never the main thread, sets that thread's `my_ptid` to 0, and, after
`ReleaseSyscallLock(tid)`, calls `DumpEvent(THR_END, joined_tid, 0, 0, 0)`,
`ReleaseSyscallLock(joined_tid)` and
`DumpEvent(THR_JOIN_AFTER, tid, 0, joined_uniq_tid, 0)`, in this order, and
returns true. -/
theorem C24_thread_join_after (env : Env) (kMaxThreads tid joined_ptid : Nat) (g : Globals)
    (huniq : ∀ j, JoinCandidate kMaxThreads g joined_ptid j → 0 ≤ (g.g_pin_threads j).uniq_tid) :
    ((¬ ∃ j, JoinCandidate kMaxThreads g joined_ptid j) →
      HandleThreadJoinAfter env kMaxThreads tid joined_ptid g = .ok false g) ∧
    ((∃ j, JoinCandidate kMaxThreads g joined_ptid j) →
      (∀ g1, HandleThreadJoinAfter env kMaxThreads tid joined_ptid g ≠ .ok false g1) ∧
      ∃ joined_tid, JoinCandidate kMaxThreads g joined_ptid joined_tid ∧ joined_tid ≠ 0 ∧
        (∀ j, JoinCandidate kMaxThreads g joined_ptid j →
          (g.g_pin_threads j).uniq_tid ≤ (g.g_pin_threads joined_tid).uniq_tid) ∧
        HandleThreadJoinAfter env kMaxThreads tid joined_ptid g
          = (DumpEvent env env.ev.THR_END joined_tid 0 0 0
              (ReleaseSyscallLock env tid
                (g.setThread joined_tid { g.g_pin_threads joined_tid with my_ptid := 0 }))).bind
            fun _ g3 =>
              (DumpEvent env env.ev.THR_JOIN_AFTER tid 0
                (toWord (g.g_pin_threads joined_tid).uniq_tid) 0
                (ReleaseSyscallLock env joined_tid g3)).bind fun _ g5 => .ok true g5) := by
  obtain ⟨s1, s2⟩ := joinSearch_spec kMaxThreads g joined_ptid huniq
  constructor
  · intro hno
    unfold HandleThreadJoinAfter
    simp only
    rw [if_pos (s1 hno)]
  · intro hex
    obtain ⟨hc, hmax⟩ := s2 hex
    have heq : HandleThreadJoinAfter env kMaxThreads tid joined_ptid g
        = (DumpEvent env env.ev.THR_END (joinSearch kMaxThreads g joined_ptid).1 0 0 0
            (ReleaseSyscallLock env tid
              (g.setThread (joinSearch kMaxThreads g joined_ptid).1
                { g.g_pin_threads (joinSearch kMaxThreads g joined_ptid).1 with
                  my_ptid := 0 }))).bind
          fun _ g3 =>
            (DumpEvent env env.ev.THR_JOIN_AFTER tid 0
              (toWord (g.g_pin_threads (joinSearch kMaxThreads g joined_ptid).1).uniq_tid) 0
              (ReleaseSyscallLock env (joinSearch kMaxThreads g joined_ptid).1 g3)).bind
              fun _ g5 => .ok true g5 := by
      unfold HandleThreadJoinAfter
      simp only
      rw [if_neg (by have := hc.2.1; omega), if_neg (by have := hc.2.1; omega),
        if_neg (by have := hc.1; omega)]
      simp [Globals.setThread]
    refine ⟨?_, (joinSearch kMaxThreads g joined_ptid).1, hc, by have := hc.1; omega, hmax,
      heq⟩
    intro g1
    rw [heq]
    exact bind_true_ne_false _ _ g1

/-- C24 at a concrete state: the threads 1 and 2 have finished with the handle
7 and the `uniq_tid`s 1 and 2, the thread 3 is live with the same handle.  The
join of the handle 7 by thread 0 selects thread 2; under `LOCKING_ON_FLUSH` the
analyzer receives `THR_END` for `uniq_tid` 2 and then `THR_JOIN_AFTER` for
thread 0 with the address field 2.  The join of the handle 9 returns false and
changes nothing. -/
theorem C24_thread_join_after_witness :
    (HandleThreadJoinAfter (sampleEnv true LOCKING_ON_FLUSH) 4 0 9 sampleGlobalsJoin).isOk
      = true ∧
    (HandleThreadJoinAfter (sampleEnv true LOCKING_ON_FLUSH) 4 0 9 sampleGlobalsJoin).globals.log
      = [] ∧
    (HandleThreadJoinAfter (sampleEnv true LOCKING_ON_FLUSH) 4 0 7 sampleGlobalsJoin).isOk
      = true ∧
    (HandleThreadJoinAfter (sampleEnv true LOCKING_ON_FLUSH) 4 0 7 sampleGlobalsJoin).globals.log
      = [.Lock, .HandleOneEvent 24 2 0 0 0, .Unlock, .Lock, .HandleOneEvent 28 0 0 2 0,
         .Unlock] ∧
    (((HandleThreadJoinAfter (sampleEnv true LOCKING_ON_FLUSH) 4 0 7
        sampleGlobalsJoin).globals.g_pin_threads 2).my_ptid = 0) ∧
    HandleThreadJoinAfter (sampleEnv true LOCKING_ON_FLUSH) 4 0 9 sampleGlobalsJoin
      = .ok false sampleGlobalsJoin :=
  ⟨by decide, by decide, by decide, by decide, by decide,
    (C24_thread_join_after (sampleEnv true LOCKING_ON_FLUSH) 4 0 9 sampleGlobalsJoin
      (fun j hj => by
        have h := hj.2.2.1
        simp only [sampleGlobalsJoin, decide_eq_true_eq] at h
        rcases h with rfl | rfl <;> decide)).1
      (by
        rintro ⟨j, _, _, _, h4⟩
        simp only [sampleGlobalsJoin] at h4
        split at h4 <;> omega)⟩

/-- Consuming a queue is consuming the buffers before a buffer, flushing that
buffer, and consuming the buffers after it. -/
theorem ConsumeTLEBQueue_split (env : Env) (q1 q2 : List ThreadLocalEventBuffer)
    (b : ThreadLocalEventBuffer) (g : Globals) :
    ConsumeTLEBQueue env (q1 ++ b :: q2) g
      = (ConsumeTLEBQueue env q1 g).bind fun _ g1 =>
          (TLEBFlushUnlocked env b g1).bind fun _ g2 => ConsumeTLEBQueue env q2 g2 := by
  rw [ConsumeTLEBQueue_append]
  congr 1
  funext _ g1
  rw [ConsumeTLEBQueue]
  cases TLEBFlushUnlocked env b g1 <;> rfl

/-- One iteration of `ThreadSanitizerThread` that finds fewer than 100 buffers
queued. -/
theorem ThreadSanitizerThreadStep_few (env : Env) (exiting : Bool) (g : Globals)
    (queue : List ThreadLocalEventBuffer) (hq : g.g_tleb_queue = some queue)
    (hn : queue.length < 100) :
    ThreadSanitizerThreadStep env exiting g
      = (ConsumeTLEBQueue env queue
          ({ g.emit .Lock with g_tleb_queue := some [] }.emit .Unlock)).bind
        fun _ g3 => .ok (decide (queue.length = 0) && exiting) g3 := by
  have hq1 : (g.emit .Lock).g_tleb_queue = some queue := hq
  unfold ThreadSanitizerThreadStep
  simp only [hq1]
  rw [if_pos hn]
  by_cases h0 : queue.length = 0
  · have hnil : queue = [] := List.length_eq_zero.1 h0
    subst hnil
    rw [if_neg (by simp)]
    cases exiting <;> rfl
  · rw [if_pos h0]
    simp [h0]

/-- One iteration of `ThreadSanitizerThread` that finds at least 100 buffers
queued. -/
theorem ThreadSanitizerThreadStep_many (env : Env) (exiting : Bool) (g : Globals)
    (queue : List ThreadLocalEventBuffer) (hq : g.g_tleb_queue = some queue)
    (hn : 100 ≤ queue.length) :
    ThreadSanitizerThreadStep env exiting g
      = (ConsumeTLEBQueue env queue (g.emit .Lock)).bind fun _ g2 =>
          .ok false ({ g2 with g_tleb_queue := some [] }.emit .Unlock) := by
  have hq1 : (g.emit .Lock).g_tleb_queue = some queue := hq
  unfold ThreadSanitizerThreadStep
  simp only [hq1]
  rw [if_neg (by omega)]

/-- C25.  Let the queue hold the buffers `queue`, `n` of them.  One iteration
of `ThreadSanitizerThread` runs `ConsumeTLEBQueue` on exactly these buffers,
which flushes each of them once, in the order of the queue (for every buffer:
after the buffers before it, before the buffers after it).  If `n < 100` the
queue is emptied and the lock released first, and the buffers are analyzed
after the `Unlock`; if `n >= 100` they are analyzed between the `Lock` and the
`Unlock`, and the queue is emptied before the `Unlock`.  When the iteration
returns, `g_tleb_queue` is empty, and the analysis itself has made no call on
the lock. -/
theorem C25_consumer_drain_step (env : Env) (exiting : Bool) (g : Globals)
    (queue : List ThreadLocalEventBuffer) (hq : g.g_tleb_queue = some queue) :
    (∀ q1 b q2 g0, queue = q1 ++ b :: q2 →
      ConsumeTLEBQueue env queue g0
        = (ConsumeTLEBQueue env q1 g0).bind fun _ g1 =>
            (TLEBFlushUnlocked env b g1).bind fun _ g2 => ConsumeTLEBQueue env q2 g2) ∧
    (queue.length < 100 →
      ThreadSanitizerThreadStep env exiting g
        = (ConsumeTLEBQueue env queue
            ({ g.emit .Lock with g_tleb_queue := some [] }.emit .Unlock)).bind
          fun _ g3 => .ok (decide (queue.length = 0) && exiting) g3) ∧
    (100 ≤ queue.length →
      ThreadSanitizerThreadStep env exiting g
        = (ConsumeTLEBQueue env queue (g.emit .Lock)).bind fun _ g2 =>
            .ok false ({ g2 with g_tleb_queue := some [] }.emit .Unlock)) ∧
    (∀ b g1, ThreadSanitizerThreadStep env exiting g = .ok b g1 →
      g1.g_tleb_queue = some [] ∧
      ∃ l, (∀ e ∈ l, e.isLockOp = false) ∧
        (queue.length < 100 → g1.log = g.log ++ [.Lock, .Unlock] ++ l) ∧
        (100 ≤ queue.length → g1.log = g.log ++ [.Lock] ++ l ++ [.Unlock])) := by
  refine ⟨?_, ThreadSanitizerThreadStep_few env exiting g queue hq,
    ThreadSanitizerThreadStep_many env exiting g queue hq, ?_⟩
  · intro q1 b q2 g0 hsplit
    rw [hsplit]
    exact ConsumeTLEBQueue_split env q1 q2 b g0
  · intro b g1 hstep
    by_cases hn : queue.length < 100
    · rw [ThreadSanitizerThreadStep_few env exiting g queue hq hn] at hstep
      have hf := ConsumeTLEBQueue_frame env queue
        ({ g.emit .Lock with g_tleb_queue := some [] }.emit .Unlock)
      generalize ConsumeTLEBQueue env queue
        ({ g.emit .Lock with g_tleb_queue := some [] }.emit .Unlock) = r at hf hstep
      cases r with
      | abort e g2 => cases hstep
      | ok u g2 =>
        simp only [Res.bind, Res.ok.injEq] at hstep
        obtain ⟨_, hg⟩ := hstep
        subst hg
        obtain ⟨l, hl, hno⟩ := hf.log
        refine ⟨hf.queue, l, hno, fun _ => ?_, fun h => absurd h (by omega)⟩
        rw [show (Res.ok u g2).globals = g2 from rfl] at hl
        rw [hl]
        simp [Globals.emit]
    · rw [ThreadSanitizerThreadStep_many env exiting g queue hq (by omega)] at hstep
      have hf := ConsumeTLEBQueue_frame env queue (g.emit .Lock)
      generalize ConsumeTLEBQueue env queue (g.emit .Lock) = r at hf hstep
      cases r with
      | abort e g2 => cases hstep
      | ok u g2 =>
        simp only [Res.bind, Res.ok.injEq] at hstep
        obtain ⟨_, hg⟩ := hstep
        subst hg
        obtain ⟨l, hl, hno⟩ := hf.log
        refine ⟨rfl, l, hno, fun h => absurd h hn, fun _ => ?_⟩
        rw [show (Res.ok u g2).globals = g2 from rfl] at hl
        simp [Globals.emit, hl]

/-- C25 at a concrete state: the queue holds a buffer of thread 1 and then a
buffer of thread 2, each with an `RTN_EXIT` record.  The iteration takes the
lock, releases it, then hands `RTN_EXIT` of thread 1 and `RTN_EXIT` of thread 2
to the analyzer, in this order, and leaves the queue empty. -/
theorem C25_consumer_drain_step_witness :
    sampleGlobalsQueueTwo.g_tleb_queue = some [sampleTleb 1 [32], sampleTleb 2 [32]] ∧
    (ThreadSanitizerThreadStep (sampleEnv true LOCKING_SEPARATE_THREAD) false
      sampleGlobalsQueueTwo).isOk = true ∧
    (ThreadSanitizerThreadStep (sampleEnv true LOCKING_SEPARATE_THREAD) false
      sampleGlobalsQueueTwo).globals.log
      = [.Lock, .Unlock, .HandleRtnExit 1, .HandleRtnExit 2] ∧
    (ThreadSanitizerThreadStep (sampleEnv true LOCKING_SEPARATE_THREAD) false
      sampleGlobalsQueueTwo).globals.g_tleb_queue.map List.length = some 0 ∧
    ThreadSanitizerThreadStep (sampleEnv true LOCKING_SEPARATE_THREAD) false
        sampleGlobalsQueueTwo
      = (ConsumeTLEBQueue (sampleEnv true LOCKING_SEPARATE_THREAD)
          [sampleTleb 1 [32], sampleTleb 2 [32]]
          ({ sampleGlobalsQueueTwo.emit .Lock with g_tleb_queue := some [] }.emit .Unlock)).bind
        fun _ g3 => .ok false g3 :=
  ⟨rfl, by decide, by decide, by decide,
    (C25_consumer_drain_step (sampleEnv true LOCKING_SEPARATE_THREAD) false
      sampleGlobalsQueueTwo [sampleTleb 1 [32], sampleTleb 2 [32]] rfl).2.1 (by decide)⟩

theorem StackKept.stack_refl (g : Globals) : StackKept g g := fun _ => rfl

theorem StackKept.stack_trans {g g1 g2 : Globals} (h1 : StackKept g g1) (h2 : StackKept g1 g2) :
    StackKept g g2 := fun j => (h2 j).trans (h1 j)

theorem StackKept.stack_of_eq {g g1 : Globals} (h : g1.g_pin_threads = g.g_pin_threads) :
    StackKept g g1 := fun j => by rw [h]

theorem StackKept.stack_set (g : Globals) (k : Nat) (t : PinThread)
    (h : t.shadow_stack = (g.g_pin_threads k).shadow_stack) : StackKept g (g.setThread k t) := by
  intro j
  simp only [Globals.setThread_threads]
  split
  · rename_i hj
    rw [hj]
    exact h
  · rfl

theorem StackKept.stack_setTleb (g : Globals) (k : Nat) (b : ThreadLocalEventBuffer) :
    StackKept g (g.setTleb k b) := StackKept.stack_set g k _ rfl

theorem StackKept.stack_bind {α β : Type} {g : Globals} (r : Res α) (f : α → Globals → Res β)
    (h1 : StackKept g r.globals) (h2 : ∀ a g1, StackKept g g1 → StackKept g (f a g1).globals) :
    StackKept g (r.bind f).globals := by
  cases r with
  | ok a g1 => exact h2 a g1 h1
  | abort e g1 => exact h1

theorem FlushThrEnd_stack (env : Env) (tleb : ThreadLocalEventBuffer) (i : Nat) (g : Globals) :
    StackKept g (FlushThrEnd env tleb i g).globals := by
  have h0 : StackKept g (DumpEventInternal env env.ev.THR_END (g.g_pin_threads tleb.t).uniq_tid
      0 0 0 g) := StackKept.stack_of_eq (DumpEventInternal_threads ..)
  unfold FlushThrEnd
  simp only
  repeat' split
  all_goals first
    | exact h0
    | exact h0.stack_trans (StackKept.stack_set _ _ _ rfl)

theorem FlushDispatch_stack (env : Env) (tleb : ThreadLocalEventBuffer) (event i : Nat)
    (g : Globals) : StackKept g (FlushDispatch env tleb event i g).globals := by
  refine FlushDispatch_cases env tleb event i g (fun r => StackKept g r.globals)
    ?_ ?_ ?_ ?_ ?_ ?_ ?_ ?_ ?_ ?_ ?_ ?_
  · exact StackKept.stack_of_eq (FlushRtnExit_threads ..)
  · exact StackKept.stack_of_eq (FlushRtnCall_threads ..)
  · exact StackKept.stack_of_eq (FlushTrace_threads ..)
  · exact StackKept.stack_of_eq (DumpEventInternal_threads ..)
  · exact FlushThrEnd_stack env tleb i g
  · exact StackKept.stack_set _ _ _ rfl
  · unfold FlushIgnoreAllEnd
    simp only
    split <;> exact StackKept.stack_set _ _ _ rfl
  · exact StackKept.stack_set _ _ _ rfl
  · unfold FlushIgnoreSyncEnd
    simp only
    split <;> exact StackKept.stack_set _ _ _ rfl
  · exact StackKept.stack_of_eq rfl
  · exact StackKept.stack_of_eq rfl
  · exact StackKept.stack_of_eq (FlushGeneric_threads ..)

theorem TLEBFlushStep_stack (env : Env) (tleb : ThreadLocalEventBuffer) (i : Nat)
    (g : Globals) : StackKept g (TLEBFlushStep env tleb i g).globals := by
  unfold TLEBFlushStep
  split
  · exact StackKept.stack_refl g
  · split
    · exact StackKept.stack_refl g
    · exact FlushDispatch_stack env tleb _ _ g

theorem TLEBFlushLoop_stack (env : Env) (tleb : ThreadLocalEventBuffer) (fuel : Nat) :
    ∀ (i : Nat) (g : Globals), StackKept g (TLEBFlushLoop env tleb fuel i g).globals := by
  induction fuel with
  | zero =>
    intro i g
    unfold TLEBFlushLoop
    split <;> exact StackKept.stack_refl g
  | succ n ih =>
    intro i g
    unfold TLEBFlushLoop
    split
    · have h := TLEBFlushStep_stack env tleb i g
      split
      · rename_i heq
        rw [heq] at h
        exact h.stack_trans (ih _ _)
      · rename_i heq
        rw [heq] at h
        exact h
    · exact StackKept.stack_refl g

theorem TLEBFlushUnlocked_stack (env : Env) (tleb : ThreadLocalEventBuffer) (g : Globals) :
    StackKept g (TLEBFlushUnlocked env tleb g).globals := by
  unfold TLEBFlushUnlocked
  simp only
  have h := TLEBFlushLoop_stack env tleb tleb.size 0 g
  repeat' split
  all_goals first
    | exact StackKept.stack_refl g
    | exact StackKept.stack_of_eq rfl
    | (rename_i heq; rw [heq] at h; exact h)
    | (rename_i heq _; rw [heq] at h; exact h)
    | (rename_i heq _ _; rw [heq] at h; exact h)

theorem StackKept.stack_set_emit (g : Globals) (k : Nat) (t : PinThread) (e : Effect)
    (h : t.shadow_stack = (g.g_pin_threads k).shadow_stack) :
    StackKept g ((g.setThread k t).emit e) :=
  StackKept.stack_set g k t h

theorem StackKept.stack_set_emit_before (g : Globals) (k : Nat) (t : PinThread) (e : Effect)
    (h : t.shadow_stack = (g.g_pin_threads k).shadow_stack) :
    StackKept g ((g.emit e).setThread k t) :=
  StackKept.stack_set (g.emit e) k t h

theorem ReleaseSyscallLock_stack (env : Env) (tid : Nat) (g : Globals) :
    StackKept g (ReleaseSyscallLock env tid g) := by
  unfold ReleaseSyscallLock
  simp only
  repeat' split
  all_goals first
    | exact StackKept.stack_refl g
    | exact StackKept.stack_set_emit g tid _ _ rfl

theorem AcquireSyscallLock_stack (env : Env) (tid : Nat) (g : Globals) :
    StackKept g (AcquireSyscallLock env tid g).globals := by
  unfold AcquireSyscallLock
  simp only
  repeat' split
  all_goals first
    | exact StackKept.stack_refl g
    | exact StackKept.stack_set_emit_before g tid _ _ rfl

theorem TLEBFlushLocked_stack (env : Env) (ti : Nat) (g : Globals) :
    StackKept g (TLEBFlushLocked env ti g).globals := by
  unfold TLEBFlushLocked
  simp only
  split
  · exact StackKept.stack_setTleb _ _ _
  · split
    · exact StackKept.stack_refl g
    · split
      · split
        · exact StackKept.stack_refl g
        · exact StackKept.stack_setTleb
            ({ g.emit .Lock with g_tleb_queue := some _ }.emit .Unlock) ti _
      · split
        · have h := TLEBFlushUnlocked_stack env (g.g_pin_threads ti).tleb (g.emit .Lock)
          have h0 : StackKept g (g.emit .Lock) := StackKept.stack_of_eq rfl
          split
          · rename_i heq
            rw [heq] at h
            exact h0.stack_trans h
          · rename_i heq
            rw [heq] at h
            exact h0.stack_trans (h.stack_trans (StackKept.stack_setTleb _ _ _))
        · split
          · have ha := AcquireSyscallLock_stack env (g.g_pin_threads ti).tid g
            split
            · rename_i heq
              rw [heq] at ha
              exact ha
            · rename_i g1 heq
              rw [heq] at ha
              have h2 : StackKept g1 (g1.setThread ti
                  { g1.g_pin_threads ti with
                    n_consumed_events := (g1.g_pin_threads ti).n_consumed_events
                      + ((g1.g_pin_threads ti).tleb.size : Int) }) := StackKept.stack_set _ _ _ rfl
              have h3 := TLEBFlushUnlocked_stack env
                ((g1.setThread ti
                  { g1.g_pin_threads ti with
                    n_consumed_events := (g1.g_pin_threads ti).n_consumed_events
                      + ((g1.g_pin_threads ti).tleb.size : Int) }).g_pin_threads ti).tleb
                (g1.setThread ti
                  { g1.g_pin_threads ti with
                    n_consumed_events := (g1.g_pin_threads ti).n_consumed_events
                      + ((g1.g_pin_threads ti).tleb.size : Int) })
              split
              · rename_i heq3
                rw [heq3] at h3
                exact ha.stack_trans (h2.stack_trans h3)
              · rename_i heq3
                rw [heq3] at h3
                have h4 := ha.stack_trans (h2.stack_trans h3)
                split
                · exact h4.stack_trans ((StackKept.stack_setTleb _ _ _).stack_trans
                    (ReleaseSyscallLock_stack _ _ _))
                · exact h4.stack_trans (StackKept.stack_setTleb _ _ _)
          · exact StackKept.stack_refl g

theorem TLEBStore_stack (ti v : Nat) (g : Globals) : StackKept g (TLEBStore ti v g).globals := by
  unfold TLEBStore
  simp only
  split
  · exact StackKept.stack_setTleb _ _ _
  · exact StackKept.stack_refl g

theorem DCHECK_stack (env : Env) (line : Nat) (c : Bool) (g : Globals) :
    StackKept g (DCHECK env line c g).globals := by
  unfold DCHECK
  split
  · exact StackKept.stack_refl g
  · exact StackKept.stack_refl g

theorem flushIfFull_stack (env : Env) (ti : Nat) (c : Prop) [Decidable c] (g : Globals) :
    StackKept g (if c then TLEBFlushLocked env ti g else Res.ok () g).globals := by
  split
  · exact TLEBFlushLocked_stack env ti g
  · exact StackKept.stack_refl g

theorem TLEBAddRtnExit_stack (env : Env) (ti : Nat) (g : Globals) :
    StackKept g (TLEBAddRtnExit env ti g).globals := by
  unfold TLEBAddRtnExit
  exact StackKept.stack_bind _ _ (flushIfFull_stack env ti _ g) fun _ g1 h1 =>
    StackKept.stack_bind _ _ (h1.stack_trans (TLEBStore_stack ti _ g1)) fun _ g2 h2 =>
      h2.stack_trans (DCHECK_stack env _ _ g2)

theorem TLEBAddRtnCall_stack (env : Env) (ti call_pc target_pc ignore_below : Nat) (g : Globals) :
    StackKept g (TLEBAddRtnCall env ti call_pc target_pc ignore_below g).globals := by
  unfold TLEBAddRtnCall
  refine StackKept.stack_bind _ _ (DCHECK_stack env _ _ g) fun _ g1 h1 =>
    StackKept.stack_bind _ _ (h1.stack_trans ?_) fun _ g2 h2 =>
    StackKept.stack_bind _ _ (h2.stack_trans (TLEBStore_stack ti _ g2)) fun _ g3 h3 =>
    StackKept.stack_bind _ _ (h3.stack_trans (TLEBStore_stack ti _ g3)) fun _ g4 h4 =>
    StackKept.stack_bind _ _ (h4.stack_trans (TLEBStore_stack ti _ g4)) fun _ g5 h5 =>
    StackKept.stack_bind _ _ (h5.stack_trans (TLEBStore_stack ti _ g5)) fun _ g6 h6 =>
      h6.stack_trans (DCHECK_stack env _ _ g6)
  split
  · exact StackKept.stack_bind _ _ (TLEBFlushLocked_stack env ti g1) fun _ g2 h2 =>
      h2.stack_trans (DCHECK_stack env _ _ g2)
  · exact StackKept.stack_refl g1

theorem TLEBAddGenericEvent_stack (env : Env) (ti type pc a info : Nat) (g : Globals) :
    StackKept g (TLEBAddGenericEvent env ti type pc a info g).globals := by
  unfold TLEBAddGenericEvent
  exact StackKept.stack_bind _ _ (flushIfFull_stack env ti _ g) fun _ g1 h1 =>
    StackKept.stack_bind _ _ (h1.stack_trans (DCHECK_stack env _ _ g1)) fun _ g2 h2 =>
    StackKept.stack_bind _ _ (h2.stack_trans (TLEBStore_stack ti _ g2)) fun _ g3 h3 =>
    StackKept.stack_bind _ _ (h3.stack_trans (TLEBStore_stack ti _ g3)) fun _ g4 h4 =>
    StackKept.stack_bind _ _ (h4.stack_trans (TLEBStore_stack ti _ g4)) fun _ g5 h5 =>
      h5.stack_trans (TLEBStore_stack ti _ g5)

theorem DumpEvent_stack (env : Env) (type tid pc a info : Nat) (g : Globals) :
    StackKept g (DumpEvent env type tid pc a info g).globals := by
  unfold DumpEvent
  split
  · unfold TLEBAddGenericEventAndFlush
    exact StackKept.stack_bind _ _ (TLEBAddGenericEvent_stack env tid type pc a info g)
      fun _ g1 h1 =>
      StackKept.stack_bind _ _ (h1.stack_trans (TLEBFlushLocked_stack env tid g1)) fun _ g2 h2 =>
        h2.stack_trans (DCHECK_stack env _ _ g2)
  · exact StackKept.stack_refl g

theorem UpdateCallStackSignal_stack (env : Env) (win : WindowsThreadPool) (ti popped_pc : Nat)
    (g : Globals) : StackKept g (UpdateCallStackSignal env win ti popped_pc g).globals := by
  unfold UpdateCallStackSignal
  split
  · split
    · exact StackKept.stack_refl g
    · split
      · exact DumpEvent_stack env _ _ _ _ _ g
      · exact StackKept.stack_refl g
  · exact StackKept.stack_refl g

/-- What one iteration of the loop leaves of the stacks, when it returns: the
stack of the thread has lost its last frame, the other stacks are the same. -/
theorem UpdateCallStackBody_stack (env : Env) (win : WindowsThreadPool) (ti : Nat)
    (g g1 : Globals) (h : UpdateCallStackBody env win ti g = .ok () g1) :
    (g1.g_pin_threads ti).shadow_stack = (g.g_pin_threads ti).shadow_stack.dropLast ∧
    ∀ j, j ≠ ti → (g1.g_pin_threads j).shadow_stack = (g.g_pin_threads j).shadow_stack := by
  unfold UpdateCallStackBody at h
  have h1 := TLEBAddRtnExit_stack env ti g
  cases hr : TLEBAddRtnExit env ti g with
  | abort e ga => rw [hr] at h; simp [Res.bind] at h
  | ok u ga =>
    rw [hr] at h h1
    simp only [Res.bind, Res.globals] at h h1
    split at h
    · simp at h
    · have h2 := UpdateCallStackSignal_stack env win ti
        (((ga.g_pin_threads ti).shadow_stack.getLast?.map StackFrame.pc).getD 0) ga
      cases hs : UpdateCallStackSignal env win ti
        (((ga.g_pin_threads ti).shadow_stack.getLast?.map StackFrame.pc).getD 0) ga with
      | abort e gb => rw [hs] at h; simp at h
      | ok u gb =>
        rw [hs] at h h2
        simp only [Res.globals] at h h2
        split at h
        · simp at h
        · simp only [Res.ok.injEq, true_and] at h
          subst h
          constructor
          · simp only [Globals.setThread_threads, if_true]
            rw [h2 ti, h1 ti]
          · intro j hj
            simp only [Globals.setThread_threads, if_neg hj]
            rw [h2 j, h1 j]

theorem returnedFrames_nil (sp : Nat) : returnedFrames sp [] = 0 := rfl

theorem returnedFrames_concat (sp : Nat) (s : List StackFrame) (f : StackFrame) :
    returnedFrames sp (s ++ [f]) = if f.sp ≤ sp then returnedFrames sp s + 1 else 0 := by
  unfold returnedFrames
  rw [List.reverse_append, List.reverse_singleton, List.singleton_append, List.takeWhile_cons]
  by_cases h : f.sp ≤ sp
  · simp [h]
  · simp [h]

theorem remainingFrames_nil (sp : Nat) : remainingFrames sp [] = [] := rfl

theorem remainingFrames_concat (sp : Nat) (s : List StackFrame) (f : StackFrame) :
    remainingFrames sp (s ++ [f]) = if f.sp ≤ sp then remainingFrames sp s else s ++ [f] := by
  unfold remainingFrames
  rw [List.reverse_append, List.reverse_singleton, List.singleton_append, List.dropWhile_cons]
  by_cases h : f.sp ≤ sp
  · simp [h]
  · simp [h]

theorem UpdateCallStackTest_nil (sp : Nat) : UpdateCallStackTest sp [] = false := rfl

theorem UpdateCallStackTest_concat (sp : Nat) (s : List StackFrame) (f : StackFrame) :
    UpdateCallStackTest sp (s ++ [f]) = decide (f.sp ≤ sp) := by
  unfold UpdateCallStackTest
  rw [List.getLast?_append, List.getLast?_singleton]
  rfl

/-- The pure facts about the run of returned frames: it is made of the last
`returnedFrames` frames of the stack, all of them have a recorded `sp` at most
`sp`, the frames below are the remaining ones, and the last of those, if there
is one, has a recorded `sp` above `sp`. -/
theorem returnedFrames_spec (sp : Nat) (s : List StackFrame) :
    returnedFrames sp s ≤ s.length ∧
    remainingFrames sp s = s.take (s.length - returnedFrames sp s) ∧
    (∀ f ∈ s.drop (s.length - returnedFrames sp s), f.sp ≤ sp) ∧
    (∀ f, (remainingFrames sp s).getLast? = some f → sp < f.sp) := by
  induction s using List.reverseRecOn with
  | nil => simp [returnedFrames_nil, remainingFrames_nil]
  | append_singleton s f ih =>
    obtain ⟨i1, i2, i3, i4⟩ := ih
    rw [returnedFrames_concat, remainingFrames_concat]
    by_cases h : f.sp ≤ sp
    · rw [if_pos h, if_pos h]
      have e : (s ++ [f]).length - (returnedFrames sp s + 1) = s.length - returnedFrames sp s := by
        simp only [List.length_append, List.length_singleton]
        omega
      rw [e]
      refine ⟨by simp only [List.length_append, List.length_singleton]; omega, ?_, ?_, i4⟩
      · rw [List.take_append_of_le_length (by omega)]
        exact i2
      · intro x hx
        rw [List.drop_append_of_le_length (by omega)] at hx
        rcases List.mem_append.mp hx with hx | hx
        · exact i3 x hx
        · rw [List.mem_singleton.mp hx]
          exact h
    · rw [if_neg h, if_neg h]
      refine ⟨by omega, by simp, by simp, ?_⟩
      intro x hx
      rw [List.getLast?_append, List.getLast?_singleton] at hx
      have hx2 : f = x := by simpa using hx
      rw [← hx2]
      omega

theorem popFrames_succ (env : Env) (win : WindowsThreadPool) (ti n : Nat) (g : Globals) :
    popFrames env win ti (n + 1) g
      = (UpdateCallStackBody env win ti g).bind fun _ g1 => popFrames env win ti n g1 := rfl

/-- The loop runs its body once for every frame of the run of returned frames,
whenever it is allowed one iteration more than the stack has frames. -/
theorem UpdateCallStackLoop_eq (env : Env) (win : WindowsThreadPool) (ti sp : Nat) :
    ∀ (n : Nat) (g : Globals) (fuel : Nat), (g.g_pin_threads ti).shadow_stack.length = n →
      n < fuel →
      UpdateCallStackLoop env win ti sp fuel g
        = popFrames env win ti (returnedFrames sp (g.g_pin_threads ti).shadow_stack) g := by
  intro n
  induction n with
  | zero =>
    intro g fuel hn hf
    obtain ⟨fuel, rfl⟩ : ∃ k, fuel = k + 1 := ⟨fuel - 1, by omega⟩
    have hs : (g.g_pin_threads ti).shadow_stack = [] := List.length_eq_zero.mp hn
    unfold UpdateCallStackLoop
    rw [hs, UpdateCallStackTest_nil, returnedFrames_nil]
    rfl
  | succ n ih =>
    intro g fuel hn hf
    obtain ⟨fuel, rfl⟩ : ∃ k, fuel = k + 1 := ⟨fuel - 1, by omega⟩
    rcases List.eq_nil_or_concat (g.g_pin_threads ti).shadow_stack with hs | ⟨s, f, hs⟩
    · rw [hs] at hn
      simp at hn
    · rw [List.concat_eq_append] at hs
      unfold UpdateCallStackLoop
      rw [hs, UpdateCallStackTest_concat, returnedFrames_concat]
      by_cases h : f.sp ≤ sp
      · rw [if_pos (by simp [h]), if_pos h, popFrames_succ]
        cases hb : UpdateCallStackBody env win ti g with
        | abort e g1 => rfl
        | ok u g1 =>
          have hst := (UpdateCallStackBody_stack env win ti g g1 hb).1
          rw [hs, List.dropLast_concat] at hst
          simp only [Res.bind]
          rw [ih g1 fuel (by rw [hst]; rw [hs] at hn; simp at hn; omega) (by omega), hst]
      · rw [if_neg (by simp [h]), if_neg h]
        rfl

theorem UpdateCallStack_eq (env : Env) (win : WindowsThreadPool) (ti sp : Nat) (g : Globals) :
    UpdateCallStack env win ti sp g
      = popFrames env win ti (returnedFrames sp (g.g_pin_threads ti).shadow_stack) g :=
  UpdateCallStackLoop_eq env win ti sp _ g _ rfl (Nat.lt_succ_self _)

/-- When `n` iterations return, the stack of the thread has lost its last `n`
frames and the other stacks are the same. -/
theorem popFrames_stack (env : Env) (win : WindowsThreadPool) (ti : Nat) :
    ∀ (n : Nat) (g g1 : Globals), popFrames env win ti n g = .ok () g1 →
      (g1.g_pin_threads ti).shadow_stack
        = (g.g_pin_threads ti).shadow_stack.take ((g.g_pin_threads ti).shadow_stack.length - n) ∧
      ∀ j, j ≠ ti → (g1.g_pin_threads j).shadow_stack = (g.g_pin_threads j).shadow_stack := by
  intro n
  induction n with
  | zero =>
    intro g g1 h
    simp only [popFrames, Res.ok.injEq, true_and] at h
    subst h
    simp
  | succ n ih =>
    intro g g1 h
    rw [popFrames_succ] at h
    cases hb : UpdateCallStackBody env win ti g with
    | abort e g2 => rw [hb] at h; simp [Res.bind] at h
    | ok u g2 =>
      rw [hb] at h
      simp only [Res.bind] at h
      obtain ⟨b1, b2⟩ := UpdateCallStackBody_stack env win ti g g2 hb
      obtain ⟨i1, i2⟩ := ih g2 g1 h
      constructor
      · rw [i1, b1, List.dropLast_eq_take, List.take_take, List.length_take]
        congr 1
        omega
      · intro j hj
        rw [i2 j hj, b2 j hj]

theorem Res.bind_fuel {α β : Type} (r : Res α) (f : α → Globals → Res β)
    (h1 : r.abortedWith ≠ some .outOfFuel)
    (h2 : ∀ a g, (f a g).abortedWith ≠ some .outOfFuel) :
    (r.bind f).abortedWith ≠ some .outOfFuel := by
  cases r with
  | ok a g => exact h2 a g
  | abort e g => exact h1

theorem TLEBFlushUnlocked_abort_fuel (env : Env) (tleb : ThreadLocalEventBuffer)
    (g : Globals) (e : Abort) (g1 : Globals) (h : TLEBFlushUnlocked env tleb g = .abort e g1) :
    (Res.abort e g1 : Res Unit).abortedWith ≠ some .outOfFuel := by
  have h2 := (TLEBFlushUnlocked_abortedWith env tleb g).2
  rw [h] at h2
  exact h2

theorem TLEBFlushLocked_fuel (env : Env) (ti : Nat) (g : Globals) :
    (TLEBFlushLocked env ti g).abortedWith ≠ some .outOfFuel := by
  unfold TLEBFlushLocked
  simp only
  split
  · simp [Res.abortedWith]
  · split
    · simp [Res.abortedWith]
    · split
      · split <;> simp [Res.abortedWith]
      · split
        · have h := (TLEBFlushUnlocked_abortedWith env (g.g_pin_threads ti).tleb
            (g.emit .Lock)).2
          split
          · rename_i heq
            rw [heq] at h
            exact h
          · simp [Res.abortedWith]
        · split
          · split
            · rename_i heq
              have h : (AcquireSyscallLock env (g.g_pin_threads ti).tid g).abortedWith
                  ≠ some .outOfFuel := by
                unfold AcquireSyscallLock
                simp only
                repeat' split
                all_goals simp [Res.abortedWith]
              rw [heq] at h
              exact h
            · rename_i g1 heq
              split
              · rename_i e g3 heq3
                exact TLEBFlushUnlocked_abort_fuel env _ _ e g3 heq3
              · split <;> simp [Res.abortedWith]
          · simp [Res.abortedWith]

theorem TLEBStore_fuel (ti v : Nat) (g : Globals) :
    (TLEBStore ti v g).abortedWith ≠ some .outOfFuel := by
  unfold TLEBStore
  simp only
  split <;> simp [Res.abortedWith]

theorem DCHECK_fuel (env : Env) (line : Nat) (c : Bool) (g : Globals) :
    (DCHECK env line c g).abortedWith ≠ some .outOfFuel := by
  unfold DCHECK
  split <;> simp [Res.abortedWith]

theorem flushIfFull_fuel (env : Env) (ti : Nat) (c : Prop) [Decidable c] (g : Globals) :
    (if c then TLEBFlushLocked env ti g else Res.ok () g).abortedWith ≠ some .outOfFuel := by
  split
  · exact TLEBFlushLocked_fuel env ti g
  · simp [Res.abortedWith]

theorem TLEBAddRtnExit_fuel (env : Env) (ti : Nat) (g : Globals) :
    (TLEBAddRtnExit env ti g).abortedWith ≠ some .outOfFuel := by
  unfold TLEBAddRtnExit
  exact Res.bind_fuel _ _ (flushIfFull_fuel env ti _ g) fun _ g1 =>
    Res.bind_fuel _ _ (TLEBStore_fuel ti _ g1) fun _ g2 => DCHECK_fuel env _ _ g2

theorem DumpEvent_fuel (env : Env) (type tid pc a info : Nat) (g : Globals) :
    (DumpEvent env type tid pc a info g).abortedWith ≠ some .outOfFuel := by
  unfold DumpEvent
  split
  · unfold TLEBAddGenericEventAndFlush TLEBAddGenericEvent
    exact Res.bind_fuel _ _
      (Res.bind_fuel _ _ (flushIfFull_fuel env tid _ g) fun _ g1 =>
        Res.bind_fuel _ _ (DCHECK_fuel env _ _ g1) fun _ g2 =>
        Res.bind_fuel _ _ (TLEBStore_fuel tid _ g2) fun _ g3 =>
        Res.bind_fuel _ _ (TLEBStore_fuel tid _ g3) fun _ g4 =>
        Res.bind_fuel _ _ (TLEBStore_fuel tid _ g4) fun _ g5 => TLEBStore_fuel tid _ g5)
      fun _ g1 => Res.bind_fuel _ _ (TLEBFlushLocked_fuel env tid g1) fun _ g2 =>
        DCHECK_fuel env _ _ g2
  · simp [Res.abortedWith]

theorem UpdateCallStackBody_fuel (env : Env) (win : WindowsThreadPool) (ti : Nat)
    (g : Globals) : (UpdateCallStackBody env win ti g).abortedWith ≠ some .outOfFuel := by
  unfold UpdateCallStackBody
  refine Res.bind_fuel _ _ (TLEBAddRtnExit_fuel env ti g) fun _ g1 => ?_
  simp only
  split
  · simp [Res.abortedWith]
  · refine Res.bind_fuel _ _ ?_ fun _ g2 => ?_
    · unfold UpdateCallStackSignal
      split
      · split
        · simp [Res.abortedWith]
        · split
          · exact DumpEvent_fuel env _ _ _ _ _ g1
          · simp [Res.abortedWith]
      · simp [Res.abortedWith]
    · split <;> simp [Res.abortedWith]

theorem popFrames_fuel (env : Env) (win : WindowsThreadPool) (ti : Nat) :
    ∀ (n : Nat) (g : Globals), (popFrames env win ti n g).abortedWith ≠ some .outOfFuel := by
  intro n
  induction n with
  | zero =>
    intro g
    simp [popFrames, Res.abortedWith]
  | succ n ih =>
    intro g
    rw [popFrames_succ]
    exact Res.bind_fuel _ _ (UpdateCallStackBody_fuel env win ti g) fun _ g1 => ih g1

/-- Changing the shadow stack of the thread appends nothing to its buffer. -/
theorem Appended.stack_change {ti : Nat} {ws : List Nat} {g g1 : Globals}
    (h : Appended ti ws g g1) (s : List StackFrame) :
    Appended ti ws g (g1.setThread ti { g1.g_pin_threads ti with shadow_stack := s }) := by
  obtain ⟨⟨c1, c2, c3, c4, c5, c6, c7, c8⟩, h2, h3, h4⟩ := h
  refine ⟨⟨c1, c2, c3, ?_, ?_, ?_, ?_, ?_⟩, ?_, ?_, ?_⟩
  · simpa using c4
  · simpa using c5
  · simpa using c6
  · simpa using c7
  · simpa using c8
  · simpa using h2
  · intro j hj
    simpa using h3 j hj
  · intro k hk
    simpa using h4 k hk

/-- The Windows part of the loop body does nothing when the build is not the
Windows one, or when the set exists and does not hold `popped_pc`. -/
theorem UpdateCallStackSignal_skip (env : Env) (win : WindowsThreadPool) (ti popped_pc : Nat)
    (g : Globals)
    (hwin : env.MSC_VER = true →
      ∃ set, win.g_windows_thread_pool_calback_set = some set ∧ set popped_pc = false) :
    UpdateCallStackSignal env win ti popped_pc g = .ok () g := by
  unfold UpdateCallStackSignal
  by_cases hm : env.MSC_VER = true
  · obtain ⟨set, h1, h2⟩ := hwin hm
    rw [if_pos hm, h1]
    simp only
    rw [if_neg (by simp [h2])]
  · rw [if_neg hm]

/-- One iteration of the loop, when the buffer has room for a word and the
stack has fewer than 1000000 frames: it returns, with `RTN_EXIT` appended to
the buffer and the last frame removed. -/
theorem UpdateCallStackBody_room (env : Env) (win : WindowsThreadPool) (ti : Nat)
    (g : Globals) (s : List StackFrame) (f : StackFrame)
    (hs : (g.g_pin_threads ti).shadow_stack = s ++ [f])
    (hsize : s.length + 1 < 1000000)
    (hwin : env.MSC_VER = true →
      ∃ set, win.g_windows_thread_pool_calback_set = some set ∧ set f.pc = false)
    (hfit : (g.g_pin_threads ti).tleb.size + 1 ≤ kThreadLocalEventBufferSize) :
    ∃ g1, UpdateCallStackBody env win ti g = .ok () g1 ∧
      Appended ti [env.ev.RTN_EXIT] g g1 ∧ (g1.g_pin_threads ti).shadow_stack = s := by
  obtain ⟨g0, h0, a0⟩ := TLEBAddRtnExit_appended env ti g hfit
  have k0 := TLEBAddRtnExit_stack env ti g ti
  rw [h0] at k0
  simp only [Res.globals] at k0
  rw [hs] at k0
  unfold UpdateCallStackBody
  rw [h0]
  simp only [Res.bind]
  rw [k0, if_neg (by simp only [List.length_append, List.length_singleton]; omega)]
  rw [UpdateCallStackSignal_skip env win ti _ g0
    (by rw [List.getLast?_append, List.getLast?_singleton]; simpa using hwin)]
  simp only [Res.bind, Globals.setThread_self, k0, List.dropLast_concat]
  rw [if_neg]
  · exact ⟨_, rfl, a0.stack_change s, by simp⟩
  · simp only [List.length_append, List.length_singleton, ne_eq, not_not]
    omega

/-- Iterations of the loop, when the buffer has room for a word each and the
stack has fewer than 1000000 frames: they return, with one `RTN_EXIT` word
appended to the buffer for each. -/
theorem popFrames_room (env : Env) (win : WindowsThreadPool) (ti : Nat) :
    ∀ (n : Nat) (g : Globals), n ≤ (g.g_pin_threads ti).shadow_stack.length →
      (g.g_pin_threads ti).shadow_stack.length < 1000000 →
      (env.MSC_VER = true → ∃ set, win.g_windows_thread_pool_calback_set = some set ∧
        ∀ f ∈ (g.g_pin_threads ti).shadow_stack, set f.pc = false) →
      (g.g_pin_threads ti).tleb.size + n ≤ kThreadLocalEventBufferSize →
      ∃ g1, popFrames env win ti n g = .ok () g1 ∧
        Appended ti (List.replicate n env.ev.RTN_EXIT) g g1 := by
  intro n
  induction n with
  | zero =>
    intro g _ _ _ _
    exact ⟨g, rfl, Appended.nil ti g⟩
  | succ n ih =>
    intro g hn hlen hwin hfit
    rcases List.eq_nil_or_concat (g.g_pin_threads ti).shadow_stack with hs | ⟨s, f, hs⟩
    · rw [hs] at hn
      simp at hn
    · rw [List.concat_eq_append] at hs
      rw [hs] at hn hlen hwin
      simp only [List.length_append, List.length_singleton] at hn hlen
      obtain ⟨g0, h0, a0, k0⟩ := UpdateCallStackBody_room env win ti g s f hs (by omega)
        (fun hm => by
          obtain ⟨set, w1, w2⟩ := hwin hm
          exact ⟨set, w1, w2 f (by simp)⟩) (by omega)
      obtain ⟨g1, h1, a1⟩ := ih g0 (by rw [k0]; omega) (by rw [k0]; omega)
        (fun hm => by
          obtain ⟨set, w1, w2⟩ := hwin hm
          rw [k0]
          exact ⟨set, w1, fun x hx => w2 x (by simp [hx])⟩)
        (by rw [a0.size]; simp only [List.length_singleton]; omega)
      refine ⟨g1, ?_, ?_⟩
      · rw [popFrames_succ, h0]
        exact h1
      · rw [List.replicate_succ]
        exact a0.append_trans a1

/-- On a stack of 1000000 frames or more whose last frame is to be popped, the
loop stops the program at its first iteration. -/
theorem UpdateCallStack_insane (env : Env) (win : WindowsThreadPool) (ti sp : Nat)
    (g : Globals)
    (htest : UpdateCallStackTest sp (g.g_pin_threads ti).shadow_stack = true)
    (hlen : 1000000 ≤ (g.g_pin_threads ti).shadow_stack.length)
    (hfit : (g.g_pin_threads ti).tleb.size + 1 ≤ kThreadLocalEventBufferSize) :
    (UpdateCallStack env win ti sp g).abortedWith = some (.CHECK 1554) := by
  obtain ⟨g0, h0, _⟩ := TLEBAddRtnExit_appended env ti g hfit
  have k0 := TLEBAddRtnExit_stack env ti g ti
  rw [h0] at k0
  simp only [Res.globals] at k0
  unfold UpdateCallStack UpdateCallStackLoop
  rw [if_pos htest]
  unfold UpdateCallStackBody
  rw [h0]
  simp only [Res.bind]
  rw [k0, if_pos (by omega)]
  rfl

theorem Res.bind_bind {α β γ : Type} (r : Res α) (f : α → Globals → Res β)
    (h : β → Globals → Res γ) :
    (r.bind f).bind h = r.bind fun a g => (f a g).bind h := by
  cases r <;> rfl

theorem runOps_append (env : Env) (win : WindowsThreadPool) (tid : Nat) (a b : List StackOp) :
    ∀ g, runOps env win tid (a ++ b) g
      = (runOps env win tid a g).bind fun _ g1 => runOps env win tid b g1 := by
  induction a with
  | nil => intro g; rfl
  | cons o a ih =>
    intro g
    simp only [List.cons_append, runOps, Res.bind_bind]
    congr 1
    funext _ g1
    exact ih g1

theorem runOps_ret (env : Env) (win : WindowsThreadPool) (tid : Nat) :
    ∀ (n : Nat) (g : Globals),
      runOps env win tid (List.replicate n StackOp.ret) g = popFrames env win tid n g := by
  intro n
  induction n with
  | zero => intro g; rfl
  | succ n ih =>
    intro g
    rw [List.replicate_succ, popFrames_succ]
    simp only [runOps, StackOp.run]
    congr 1
    funext _ g1
    exact ih g1

theorem InsertBeforeEvent_Call_eq (env : Env) (win : WindowsThreadPool) (tid : Nat)
    (c : CallEvent) (g : Globals) :
    InsertBeforeEvent_Call env win tid c.pc c.target c.sp c.ignore_below g
      = (popFrames env win tid (returnedFrames c.sp (g.g_pin_threads tid).shadow_stack) g).bind
          fun _ g1 => (StackOp.call c).run env win tid g1 := by
  unfold InsertBeforeEvent_Call
  rw [UpdateCallStack_eq]
  rfl

/-- What the part of `InsertBeforeEvent_Call` after `UpdateCallStack` leaves of
the stacks, when it returns: the stack of the thread has the new frame on top,
the other stacks are the same. -/
theorem StackOp.call_stack (env : Env) (win : WindowsThreadPool) (tid : Nat) (c : CallEvent)
    (g g1 : Globals) (h : (StackOp.call c).run env win tid g = .ok () g1) :
    (g1.g_pin_threads tid).shadow_stack
      = (g.g_pin_threads tid).shadow_stack ++ [⟨c.target, c.sp⟩] ∧
    ∀ j, j ≠ tid → (g1.g_pin_threads j).shadow_stack = (g.g_pin_threads j).shadow_stack := by
  rw [StackOp.run] at h
  have h1 := TLEBAddRtnCall_stack env tid c.pc c.target c.ignore_below g
  cases hr : TLEBAddRtnCall env tid c.pc c.target c.ignore_below g with
  | abort e ga => rw [hr] at h; simp [Res.bind] at h
  | ok u ga =>
    rw [hr] at h h1
    simp only [Res.bind, Res.globals] at h h1
    have key : ∀ g3 : Globals, StackKept (ga.setThread tid
        { ga.g_pin_threads tid with
          shadow_stack := (ga.g_pin_threads tid).shadow_stack ++ [⟨c.target, c.sp⟩] }) g3 →
        (g3.g_pin_threads tid).shadow_stack
          = (g.g_pin_threads tid).shadow_stack ++ [⟨c.target, c.sp⟩] ∧
        ∀ j, j ≠ tid →
          (g3.g_pin_threads j).shadow_stack = (g.g_pin_threads j).shadow_stack := by
      intro g3 k
      constructor
      · rw [k tid, Globals.setThread_self, h1 tid]
      · intro j hj
        rw [k j, Globals.setThread_threads, if_neg hj, h1 j]
    split at h
    · split at h
      · simp at h
      · split at h
        · rename_i set _ _
          have k := DumpEvent_stack env win.WAIT tid c.pc c.target 0 (ga.setThread tid
            { ga.g_pin_threads tid with
              shadow_stack := (ga.g_pin_threads tid).shadow_stack ++ [⟨c.target, c.sp⟩] })
          rw [h] at k
          exact key g1 k
        · simp only [Res.ok.injEq, true_and] at h
          subst h
          exact key _ (StackKept.stack_refl _)
    · simp only [Res.ok.injEq, true_and] at h
      subst h
      exact key _ (StackKept.stack_refl _)

/-- What `UpdateCallStack` leaves of the stacks, when it returns. -/
theorem UpdateCallStack_stack (env : Env) (win : WindowsThreadPool) (ti sp : Nat)
    (g g1 : Globals) (h : UpdateCallStack env win ti sp g = .ok () g1) :
    (g1.g_pin_threads ti).shadow_stack = remainingFrames sp (g.g_pin_threads ti).shadow_stack ∧
    ∀ j, j ≠ ti → (g1.g_pin_threads j).shadow_stack = (g.g_pin_threads j).shadow_stack := by
  rw [UpdateCallStack_eq] at h
  obtain ⟨h1, h2⟩ := popFrames_stack env win ti _ g g1 h
  exact ⟨h1.trans (returnedFrames_spec sp _).2.1.symm, h2⟩

/-- The callbacks are the steps of `opsOf`, in order. -/
theorem InsertBeforeEvent_Calls_eq (env : Env) (win : WindowsThreadPool) (tid : Nat) :
    ∀ (calls : List CallEvent) (g : Globals),
      InsertBeforeEvent_Calls env win tid calls g
        = runOps env win tid (opsOf calls (g.g_pin_threads tid).shadow_stack) g := by
  intro calls
  induction calls with
  | nil => intro g; rfl
  | cons c rest ih =>
    intro g
    unfold InsertBeforeEvent_Calls opsOf
    rw [InsertBeforeEvent_Call_eq, runOps_append, runOps_ret, Res.bind_bind]
    cases hp : popFrames env win tid (returnedFrames c.sp (g.g_pin_threads tid).shadow_stack) g with
    | abort e g1 => rfl
    | ok u g1 =>
      have hs := (UpdateCallStack_stack env win tid c.sp g g1
        (by rw [UpdateCallStack_eq]; exact hp)).1
      simp only [Res.bind, runOps]
      cases hc : (StackOp.call c).run env win tid g1 with
      | abort e g2 => rfl
      | ok u g2 =>
        have hs2 := (StackOp.call_stack env win tid c g1 g2 hc).1
        simp only
        rw [ih g2, hs2, hs]

/-- The stacks after a sequence of callbacks that returns. -/
theorem InsertBeforeEvent_Calls_stack (env : Env) (win : WindowsThreadPool) (tid : Nat) :
    ∀ (calls : List CallEvent) (g g1 : Globals),
      InsertBeforeEvent_Calls env win tid calls g = .ok () g1 →
      (g1.g_pin_threads tid).shadow_stack = stackAfter calls (g.g_pin_threads tid).shadow_stack ∧
      ∀ j, j ≠ tid → (g1.g_pin_threads j).shadow_stack = (g.g_pin_threads j).shadow_stack := by
  intro calls
  induction calls with
  | nil =>
    intro g g1 h
    simp only [InsertBeforeEvent_Calls, Res.ok.injEq, true_and] at h
    subst h
    exact ⟨rfl, fun _ _ => rfl⟩
  | cons c rest ih =>
    intro g g1 h
    unfold InsertBeforeEvent_Calls at h
    rw [InsertBeforeEvent_Call_eq, Res.bind_bind] at h
    cases hp : popFrames env win tid (returnedFrames c.sp (g.g_pin_threads tid).shadow_stack) g with
    | abort e g2 => rw [hp] at h; simp [Res.bind] at h
    | ok u g2 =>
      obtain ⟨p1, p2⟩ := UpdateCallStack_stack env win tid c.sp g g2
        (by rw [UpdateCallStack_eq]; exact hp)
      rw [hp] at h
      simp only [Res.bind] at h
      cases hc : (StackOp.call c).run env win tid g2 with
      | abort e g3 => rw [hc] at h; simp at h
      | ok u g3 =>
        obtain ⟨c1, c2⟩ := StackOp.call_stack env win tid c g2 g3 hc
        rw [hc] at h
        simp only at h
        obtain ⟨i1, i2⟩ := ih g3 g1 h
        constructor
        · rw [i1, c1, p1]
          rfl
        · intro j hj
          rw [i2 j hj, c2 j hj, p2 j hj]

theorem remainingFrames_length (sp : Nat) (s : List StackFrame) :
    (remainingFrames sp s).length + returnedFrames sp s = s.length := by
  obtain ⟨h1, h2, _, _⟩ := returnedFrames_spec sp s
  rw [h2, List.length_take]
  omega

/-- In a stack whose recorded stack pointers decrease strictly, the last frame
has the least of them. -/
theorem StrictlyDecreasing.last_least {s : List StackFrame} (h : StrictlyDecreasing s)
    (f : StackFrame) (hl : s.getLast? = some f) : ∀ x ∈ s, f.sp ≤ x.sp := by
  rcases List.eq_nil_or_concat s with hs | ⟨s1, f1, hs⟩
  · rw [hs] at hl
    simp at hl
  · rw [List.concat_eq_append] at hs
    subst hs
    rw [List.getLast?_append, List.getLast?_singleton] at hl
    have hf : f1 = f := by simpa using hl
    subst hf
    intro x hx
    rcases List.mem_append.mp hx with hx | hx
    · have := (List.pairwise_append.mp h).2.2 x hx f1 (by simp)
      omega
    · rw [List.mem_singleton.mp hx]

/-- Popping the returned frames and pushing a frame with the current `sp` keeps
the recorded stack pointers strictly decreasing. -/
theorem StrictlyDecreasing.push (sp target : Nat) (s : List StackFrame)
    (h : StrictlyDecreasing s) :
    StrictlyDecreasing (remainingFrames sp s ++ [⟨target, sp⟩]) := by
  obtain ⟨_, h2, _, h4⟩ := returnedFrames_spec sp s
  have hr : StrictlyDecreasing (remainingFrames sp s) := by
    rw [h2]
    exact List.Pairwise.sublist (List.take_sublist _ _) h
  refine List.pairwise_append.mpr ⟨hr, List.pairwise_singleton _ _, ?_⟩
  intro x hx y hy
  rw [List.mem_singleton.mp hy]
  show sp < x.sp
  rcases List.eq_nil_or_concat (remainingFrames sp s) with hs | ⟨s1, f1, hs⟩
  · rw [hs] at hx
    simp at hx
  · rw [List.concat_eq_append] at hs
    have hl : (remainingFrames sp s).getLast? = some f1 := by
      rw [hs, List.getLast?_append, List.getLast?_singleton]
      rfl
    have a := h4 f1 hl
    have b := hr.last_least f1 hl x hx
    omega

theorem stackAfter_decreasing : ∀ (calls : List CallEvent) (s : List StackFrame),
    StrictlyDecreasing s → StrictlyDecreasing (stackAfter calls s) := by
  intro calls
  induction calls with
  | nil => intro s h; exact h
  | cons c rest ih =>
    intro s h
    exact ih _ (StrictlyDecreasing.push c.sp c.target s h)

/-- The steps that append `RTN_CALL` are as many more than the steps that
append `RTN_EXIT` as the stack has grown. -/
theorem opsOf_count : ∀ (calls : List CallEvent) (s : List StackFrame),
    (opsOf calls s).countP StackOp.isCall + s.length
      = (opsOf calls s).countP StackOp.isRet + (stackAfter calls s).length := by
  intro calls
  induction calls with
  | nil => intro s; simp [opsOf, stackAfter]
  | cons c rest ih =>
    intro s
    have i := ih (remainingFrames c.sp s ++ [⟨c.target, c.sp⟩])
    have l := remainingFrames_length c.sp s
    simp only [List.length_append, List.length_singleton] at i
    simp only [opsOf, stackAfter, List.countP_append, List.countP_cons, List.countP_replicate,
      StackOp.isCall, StackOp.isRet]
    simp only [if_true, Bool.false_eq_true, if_false]
    omega

theorem encodeAll_concat (env : Env) (a b : List TlebRecord) :
    encodeAll env (a ++ b) = encodeAll env a ++ encodeAll env b := by
  induction a with
  | nil => rfl
  | cons r a ih =>
    show r.encode env ++ encodeAll env (a ++ b) = (r.encode env ++ encodeAll env a) ++ _
    rw [ih, List.append_assoc]

theorem encodeAll_rets (env : Env) (n : Nat) :
    encodeAll env ((List.replicate n StackOp.ret).map StackOp.record)
      = List.replicate n env.ev.RTN_EXIT := by
  induction n with
  | zero => rfl
  | succ n ih =>
    rw [List.replicate_succ, List.map_cons, encodeAll, ih, List.replicate_succ]
    rfl

/-- The words of the records of a sequence of callbacks: one `RTN_EXIT` for every
returned frame, the four words of the `RTN_CALL` record, and the words of the
callbacks that follow. -/
theorem encodeAll_opsOf (env : Env) (c : CallEvent) (rest : List CallEvent)
    (s : List StackFrame) :
    encodeAll env ((opsOf (c :: rest) s).map StackOp.record)
      = List.replicate (returnedFrames c.sp s) env.ev.RTN_EXIT
        ++ ([env.ev.RTN_CALL, c.pc, c.target, c.ignore_below]
          ++ encodeAll env
            ((opsOf rest (remainingFrames c.sp s ++ [⟨c.target, c.sp⟩])).map StackOp.record)) := by
  rw [opsOf, List.map_append, encodeAll_concat, encodeAll_rets, List.map_cons, encodeAll]
  rfl

/-- The part of `InsertBeforeEvent_Call` after `UpdateCallStack`, when the
buffer has room for the four words of the record: it returns, with the record
appended and the new frame on top of the stack. -/
theorem StackOp.call_room (env : Env) (win : WindowsThreadPool) (tid : Nat) (c : CallEvent)
    (g : Globals)
    (hwin : env.MSC_VER = true →
      ∃ set, win.g_windows_thread_pool_calback_set = some set ∧ set c.target = false)
    (hfit : (g.g_pin_threads tid).tleb.size + 4 ≤ kThreadLocalEventBufferSize) :
    ∃ g1, (StackOp.call c).run env win tid g = .ok () g1 ∧
      Appended tid [env.ev.RTN_CALL, c.pc, c.target, c.ignore_below] g g1 := by
  obtain ⟨g0, h0, a0⟩ := TLEBAddRtnCall_appended env tid g c.pc c.target c.ignore_below hfit
  rw [StackOp.run, h0]
  simp only [Res.bind]
  by_cases hm : env.MSC_VER = true
  · obtain ⟨set, h1, h2⟩ := hwin hm
    rw [if_pos hm, h1]
    simp only
    rw [if_neg (by simp [h2])]
    exact ⟨_, rfl, a0.stack_change _⟩
  · rw [if_neg hm]
    exact ⟨_, rfl, a0.stack_change _⟩

/-- A sequence of callbacks, when the buffer has room for all their records:
it returns, and the records have been appended to the buffer, in order. -/
theorem InsertBeforeEvent_Calls_room (env : Env) (win : WindowsThreadPool) (tid : Nat) :
    ∀ (calls : List CallEvent) (g : Globals),
      (g.g_pin_threads tid).shadow_stack.length + calls.length < 1000000 →
      (env.MSC_VER = true → ∃ set, win.g_windows_thread_pool_calback_set = some set ∧
        (∀ f ∈ (g.g_pin_threads tid).shadow_stack, set f.pc = false) ∧
        ∀ c ∈ calls, set c.target = false) →
      (g.g_pin_threads tid).tleb.size
          + totalWords env ((opsOf calls (g.g_pin_threads tid).shadow_stack).map StackOp.record)
        ≤ kThreadLocalEventBufferSize →
      ∃ g1, InsertBeforeEvent_Calls env win tid calls g = .ok () g1 ∧
        Appended tid
          (encodeAll env ((opsOf calls (g.g_pin_threads tid).shadow_stack).map StackOp.record))
          g g1 := by
  intro calls
  induction calls with
  | nil =>
    intro g _ _ _
    exact ⟨g, rfl, Appended.nil tid g⟩
  | cons c rest ih =>
    intro g hlen hwin hfit
    rw [totalWords, encodeAll_opsOf] at hfit
    simp only [List.length_append, List.length_replicate, List.length_cons, List.length_nil]
      at hfit hlen
    obtain ⟨k1, k2, _, _⟩ := returnedFrames_spec c.sp (g.g_pin_threads tid).shadow_stack
    obtain ⟨g0, h0, a0⟩ := popFrames_room env win tid
      (returnedFrames c.sp (g.g_pin_threads tid).shadow_stack) g k1 (by omega)
      (fun hm => by
        obtain ⟨set, w1, w2, _⟩ := hwin hm
        exact ⟨set, w1, w2⟩) (by omega)
    have s0 := (UpdateCallStack_stack env win tid c.sp g g0
      (by rw [UpdateCallStack_eq]; exact h0)).1
    obtain ⟨g3, h3, a3⟩ := StackOp.call_room env win tid c g0
      (fun hm => by
        obtain ⟨set, w1, _, w3⟩ := hwin hm
        exact ⟨set, w1, w3 c (by simp)⟩)
      (by rw [a0.size, List.length_replicate]; omega)
    have s3 := (StackOp.call_stack env win tid c g0 g3 h3).1
    rw [s0] at s3
    have l := remainingFrames_length c.sp (g.g_pin_threads tid).shadow_stack
    obtain ⟨g1, h1, a1⟩ := ih g3
      (by rw [s3]; simp only [List.length_append, List.length_singleton]; omega)
      (fun hm => by
        obtain ⟨set, w1, w2, w3⟩ := hwin hm
        refine ⟨set, w1, ?_, fun x hx => w3 x (by simp [hx])⟩
        intro f hf
        rw [s3] at hf
        rcases List.mem_append.mp hf with hf | hf
        · rw [k2] at hf
          exact w2 f (List.mem_of_mem_take hf)
        · rw [List.mem_singleton.mp hf]
          exact w3 c (by simp))
      (by
        rw [s3, totalWords, a3.size, a0.size, List.length_replicate]
        simp only [List.length_cons, List.length_nil]
        omega)
    rw [s3] at a1
    refine ⟨g1, ?_, ?_⟩
    · unfold InsertBeforeEvent_Calls
      rw [InsertBeforeEvent_Call_eq, h0]
      simp only [Res.bind]
      rw [h3]
      exact h1
    · rw [encodeAll_opsOf]
      exact a0.append_trans (a3.append_trans a1)

/-- Every callback appends at least the four words of its `RTN_CALL` record. -/
theorem totalWords_opsOf (env : Env) : ∀ (calls : List CallEvent) (s : List StackFrame),
    4 * calls.length ≤ totalWords env ((opsOf calls s).map StackOp.record) := by
  intro calls
  induction calls with
  | nil => intro s; simp
  | cons c rest ih =>
    intro s
    have i := ih (remainingFrames c.sp s ++ [⟨c.target, c.sp⟩])
    rw [totalWords] at i ⊢
    rw [encodeAll_opsOf]
    simp only [List.length_append, List.length_replicate, List.length_cons, List.length_nil]
    omega

/-- C30, counterexample.  On a shadow stack of 1000000 frames whose top frame
has returned (its recorded `sp` is the current `sp`), `UpdateCallStack` does not
remove the frame: the first iteration stops the program at
`CHECK(size < 1000000)` (ts_pin.cc:1554). -/
theorem C30_update_call_stack_counterexample :
    deepStack.length = 1000000 ∧
    UpdateCallStackTest 1000001 deepStack = true ∧
    (UpdateCallStack (sampleEnv false LOCKING_ON_FLUSH) sampleWindows 0 1000001
      (sampleGlobalsStack deepStack)).abortedWith = some (.CHECK 1554) := by
  have hl : deepStack.length = 1000000 := by
    unfold deepStack
    rw [List.length_append, List.length_map, List.length_range, List.length_singleton]
  have ht : UpdateCallStackTest 1000001 deepStack = true := by
    unfold deepStack
    rw [UpdateCallStackTest_concat]
    decide
  have hs : ((sampleGlobalsStack deepStack).g_pin_threads 0).shadow_stack = deepStack := rfl
  refine ⟨hl, ht, UpdateCallStack_insane _ _ 0 1000001 (sampleGlobalsStack deepStack) ?_ ?_ ?_⟩
  · rw [hs]
    exact ht
  · rw [hs, hl]
  · have h0 : ((sampleGlobalsStack deepStack).g_pin_threads 0).tleb.size = 0 := rfl
    rw [h0]
    decide

/-- C30 (amended).  Let `s` be the shadow stack of the thread and `k` the length
of the maximal run of frames at its top whose recorded `sp` is at most the
current `sp` (the top `k` frames all have such an `sp`, the frame below them, if
any, has not).  (1) `UpdateCallStack(t, sp)` is exactly `k` iterations of its
loop body, each with one call of `TLEBAddRtnExit`, and it never needs more
iterations than the stack has frames.  (2) If it returns, the stack of the
thread is `s` without its top `k` frames, the remaining frames unchanged, empty
or with a top frame whose `sp` is above the current `sp`; the stacks of the
other threads are unchanged.  (3) If `s` has fewer than 1000000 frames or
`k = 0`, the buffer has room for `k` words, and the build is not the Windows one
(or the thread-pool callback set exists and holds no `pc` of the stack), then it
returns and exactly `k` words `RTN_EXIT` have been appended to the buffer.
(4) For a sequence of `InsertBeforeEvent_Call` callbacks of the thread from an
empty stack: the run is the run of the steps `opsOf`, the steps that append an
`RTN_CALL` record are as many as those that append an `RTN_EXIT` record plus the
depth of the stack, the recorded `sp` decrease strictly from bottom to top, the
stack is `stackAfter` whenever the callbacks return, and they return with
exactly the records of the steps appended, in order, when the buffer has room
for them (and, in the Windows build, the set exists and holds no target). -/
theorem C30_update_call_stack (env : Env) (win : WindowsThreadPool) (ti sp : Nat) (g : Globals)
    (calls : List CallEvent) :
    (UpdateCallStack env win ti sp g
        = popFrames env win ti (returnedFrames sp (g.g_pin_threads ti).shadow_stack) g ∧
      (UpdateCallStack env win ti sp g).abortedWith ≠ some .outOfFuel ∧
      returnedFrames sp (g.g_pin_threads ti).shadow_stack
        ≤ (g.g_pin_threads ti).shadow_stack.length ∧
      ∀ f ∈ (g.g_pin_threads ti).shadow_stack.drop
          ((g.g_pin_threads ti).shadow_stack.length
            - returnedFrames sp (g.g_pin_threads ti).shadow_stack), f.sp ≤ sp) ∧
    (∀ g1, UpdateCallStack env win ti sp g = .ok () g1 →
      (g1.g_pin_threads ti).shadow_stack
        = (g.g_pin_threads ti).shadow_stack.take
          ((g.g_pin_threads ti).shadow_stack.length
            - returnedFrames sp (g.g_pin_threads ti).shadow_stack) ∧
      (∀ f, (g1.g_pin_threads ti).shadow_stack.getLast? = some f → sp < f.sp) ∧
      ∀ j, j ≠ ti → (g1.g_pin_threads j).shadow_stack = (g.g_pin_threads j).shadow_stack) ∧
    ((returnedFrames sp (g.g_pin_threads ti).shadow_stack = 0 ∨
        (g.g_pin_threads ti).shadow_stack.length < 1000000) →
      (env.MSC_VER = true → ∃ set, win.g_windows_thread_pool_calback_set = some set ∧
        ∀ f ∈ (g.g_pin_threads ti).shadow_stack, set f.pc = false) →
      (g.g_pin_threads ti).tleb.size + returnedFrames sp (g.g_pin_threads ti).shadow_stack
        ≤ kThreadLocalEventBufferSize →
      ∃ g1, UpdateCallStack env win ti sp g = .ok () g1 ∧
        Appended ti
          (List.replicate (returnedFrames sp (g.g_pin_threads ti).shadow_stack) env.ev.RTN_EXIT)
          g g1) ∧
    ((g.g_pin_threads ti).shadow_stack = [] →
      InsertBeforeEvent_Calls env win ti calls g = runOps env win ti (opsOf calls []) g ∧
      (opsOf calls []).countP StackOp.isCall
        = (opsOf calls []).countP StackOp.isRet + (stackAfter calls []).length ∧
      StrictlyDecreasing (stackAfter calls []) ∧
      (∀ g1, InsertBeforeEvent_Calls env win ti calls g = .ok () g1 →
        (g1.g_pin_threads ti).shadow_stack = stackAfter calls []) ∧
      ((env.MSC_VER = true → ∃ set, win.g_windows_thread_pool_calback_set = some set ∧
          ∀ c ∈ calls, set c.target = false) →
        (g.g_pin_threads ti).tleb.size + totalWords env ((opsOf calls []).map StackOp.record)
          ≤ kThreadLocalEventBufferSize →
        ∃ g1, InsertBeforeEvent_Calls env win ti calls g = .ok () g1 ∧
          Appended ti (encodeAll env ((opsOf calls []).map StackOp.record)) g g1)) := by
  obtain ⟨k1, k2, k3, k4⟩ := returnedFrames_spec sp (g.g_pin_threads ti).shadow_stack
  have heq := UpdateCallStack_eq env win ti sp g
  refine ⟨⟨heq, ?_, k1, k3⟩, ?_, ?_, ?_⟩
  · rw [heq]
    exact popFrames_fuel env win ti _ g
  · intro g1 h1
    obtain ⟨s1, s2⟩ := UpdateCallStack_stack env win ti sp g g1 h1
    refine ⟨s1.trans k2, ?_, s2⟩
    rw [s1]
    exact k4
  · intro hsane hwin hfit
    rw [heq]
    rcases hsane with h0 | hlt
    · rw [h0]
      exact ⟨g, rfl, Appended.nil ti g⟩
    · exact popFrames_room env win ti _ g k1 hlt hwin hfit
  · intro hs
    have e := InsertBeforeEvent_Calls_eq env win ti calls g
    rw [hs] at e
    have c := opsOf_count calls []
    simp only [List.length_nil, Nat.add_zero] at c
    refine ⟨e, c, stackAfter_decreasing calls [] List.Pairwise.nil, ?_, ?_⟩
    · intro g1 h1
      have := (InsertBeforeEvent_Calls_stack env win ti calls g g1 h1).1
      rw [hs] at this
      exact this
    · intro hwin hfit
      have w := totalWords_opsOf env calls []
      have r := InsertBeforeEvent_Calls_room env win ti calls g
        (by
          rw [hs]
          simp only [List.length_nil, Nat.zero_add]
          have : kThreadLocalEventBufferSize = 2046 := rfl
          omega)
        (fun hm => by
          obtain ⟨set, w1, w2⟩ := hwin hm
          exact ⟨set, w1, by rw [hs]; simp, w2⟩)
        (by rw [hs]; exact hfit)
      rw [hs] at r
      exact r

/-- C30, a concrete run.  On the stack of three frames pushed at the stack
pointers 100, 90 and 80, `UpdateCallStack` at the stack pointer 95 returns, has
removed the two top frames and appended two words `RTN_EXIT` (32) to the empty
buffer.  The three callbacks `sampleCalls` from an empty stack return, with the
records `RTN_CALL`, `RTN_CALL`, `RTN_EXIT`, `RTN_CALL` appended and the two
frames pushed at 100 and 95 on the stack. -/
theorem C30_update_call_stack_witness :
    (returnedFrames 95 sampleStack = 2) ∧
    ((UpdateCallStack (sampleEnv false LOCKING_ON_FLUSH) sampleWindows 0 95
      (sampleGlobalsStack sampleStack)).isOk = true) ∧
    (((UpdateCallStack (sampleEnv false LOCKING_ON_FLUSH) sampleWindows 0 95
      (sampleGlobalsStack sampleStack)).globals.g_pin_threads 0).shadow_stack = [⟨10, 100⟩]) ∧
    (stackAfter sampleCalls [] = [⟨10, 100⟩, ⟨30, 95⟩]) ∧
    (opsOf sampleCalls []
      = [.call ⟨1, 10, 100, 0⟩, .call ⟨2, 20, 90, 0⟩, .ret, .call ⟨3, 30, 95, 0⟩]) ∧
    (∃ g1, UpdateCallStack (sampleEnv false LOCKING_ON_FLUSH) sampleWindows 0 95
        (sampleGlobalsStack sampleStack) = .ok () g1 ∧
      Appended 0 (List.replicate (returnedFrames 95 sampleStack) 32)
        (sampleGlobalsStack sampleStack) g1) ∧
    (∃ g1, InsertBeforeEvent_Calls (sampleEnv false LOCKING_ON_FLUSH) sampleWindows 0
        sampleCalls (sampleGlobalsStack []) = .ok () g1 ∧
      Appended 0 (encodeAll (sampleEnv false LOCKING_ON_FLUSH)
        ((opsOf sampleCalls []).map StackOp.record)) (sampleGlobalsStack []) g1) :=
  ⟨by decide, by decide, by decide, by decide, by decide,
    (C30_update_call_stack (sampleEnv false LOCKING_ON_FLUSH) sampleWindows 0 95
      (sampleGlobalsStack sampleStack) sampleCalls).2.2.1
      (Or.inr (by decide)) (fun h => absurd h (by decide)) (by decide),
    ((C30_update_call_stack (sampleEnv false LOCKING_ON_FLUSH) sampleWindows 0 95
      (sampleGlobalsStack []) sampleCalls).2.2.2 rfl).2.2.2.2
      (fun h => absurd h (by decide)) (by decide)⟩

end TsPin

namespace TsOffline
open Libc

/-! ## The syntax `jli` -/

theorem mapLookup_append (k s : List Char) (x : Int) :
    ∀ m : List (List Char × Int), mapLookup k (m ++ [(s, x)])
      = match mapLookup k m with
        | some v => some v
        | none => if s = k then some x else none := by
  intro m
  induction m with
  | nil => rfl
  | cons e m ih =>
    obtain ⟨k0, v0⟩ := e
    rw [List.cons_append, mapLookup, mapLookup]
    by_cases h : k0 = k
    · rw [if_pos h, if_pos h]
    · rw [if_neg h, if_neg h, ih]

theorem mapAssign_append (s : List Char) (x : Int) :
    ∀ m : List (List Char × Int), mapLookup s m = none →
      mapAssign s x (m ++ [(s, 0)]) = m ++ [(s, x)] := by
  intro m
  induction m with
  | nil =>
    intro _
    simp [mapAssign]
  | cons e m ih =>
    obtain ⟨k0, v0⟩ := e
    intro h
    rw [mapLookup] at h
    by_cases hk : k0 = s
    · rw [if_pos hk] at h
      cases h
    · rw [if_neg hk] at h
      rw [List.cons_append, mapAssign, if_neg hk, ih h]
      rfl

/-- The state after the initialisation satisfies the invariant. -/
theorem JLIInit_inv : JliInv (JLIInit jliStart) := by
  refine ⟨rfl, by decide, ?_⟩
  intro k v h
  have hm : (JLIInit jliStart).g_jli_string_to_pc_map = [("unknown".toList, 0)] := by decide
  rw [hm, mapLookup] at h
  by_cases hk : "unknown".toList = k
  · rw [if_pos hk] at h
    cases h
    subst hk
    exact ⟨Int.le_refl _, by decide, fun _ => rfl⟩
  · rw [if_neg hk] at h
    cases h

theorem mapAssign_length (s : List Char) (x : Int) :
    ∀ m : List (List Char × Int), (mapAssign s x m).length = m.length := by
  intro m
  induction m with
  | nil => rfl
  | cons e m ih =>
    obtain ⟨k0, v0⟩ := e
    rw [mapAssign]
    split
    · rfl
    · simp [ih]

/-- Function `JLIAddPc` on the string `unknown`: the `CHECK` of line 153 fails
in every state that satisfies the invariant, since the pc 0 of `unknown` is
taken for the pc of a new string and `unknown` is pushed again. -/
theorem JLIAddPc_unknown (j : Jli) (h : JliInv j) :
    ∃ j1, JLIAddPc "unknown".toList j = .abort 153 j1 := by
  have hne : j.g_jli_string_to_pc_map.isEmpty = false := by
    cases hm : j.g_jli_string_to_pc_map with
    | nil =>
      have := h.unknown
      rw [hm] at this
      cases this
    | cons e m => rfl
  have hidx : mapIndex "unknown".toList j.g_jli_string_to_pc_map = j.g_jli_string_to_pc_map := by
    unfold mapIndex
    rw [h.unknown]
    rfl
  have hsize := h.size
  unfold JLIAddPc
  rw [hne, if_neg (by simp), if_neg (by simp [hsize])]
  simp only
  rw [hidx, h.unknown]
  simp only [Option.getD_some, if_true]
  rw [if_pos (by simp [mapAssign_length, hsize])]
  exact ⟨_, rfl⟩

/-- Function `JLIAddPc` on a string other than `unknown`, in a state that
satisfies the invariant: it returns; the pc it returns is not 0, is the pc of
the string in the map, and is the index of the string in `g_jli_pc_strings`;
the invariant holds again; the entries the map had are kept and
`g_jli_pc_strings` is only extended. -/
theorem JLIAddPc_spec (j : Jli) (h : JliInv j) (s : List Char) (hs : s ≠ "unknown".toList) :
    ∃ pc j1, JLIAddPc s j = .ok pc j1 ∧ JliInv j1 ∧ pc ≠ 0 ∧
      mapLookup s j1.g_jli_string_to_pc_map = some pc ∧
      j1.g_jli_pc_strings[pc.toNat]? = some s ∧
      (∀ k v, mapLookup k j.g_jli_string_to_pc_map = some v →
        mapLookup k j1.g_jli_string_to_pc_map = some v) ∧
      (mapLookup s j.g_jli_string_to_pc_map = some pc → j1 = j) := by
  have hne : j.g_jli_string_to_pc_map.isEmpty = false := by
    cases hm : j.g_jli_string_to_pc_map with
    | nil =>
      have := h.unknown
      rw [hm] at this
      cases this
    | cons e m => rfl
  have hpos : 0 < j.g_jli_string_to_pc_map.length := by
    cases hm : j.g_jli_string_to_pc_map with
    | nil => rw [hm] at hne; cases hne
    | cons e m => simp
  have hsize := h.size
  cases hl : mapLookup s j.g_jli_string_to_pc_map with
  | some v =>
    obtain ⟨e1, e2, e3⟩ := h.entries s v hl
    have hv : v ≠ 0 := fun h0 => hs (e3 h0)
    have hidx : mapIndex s j.g_jli_string_to_pc_map = j.g_jli_string_to_pc_map := by
      unfold mapIndex
      rw [hl]
      rfl
    refine ⟨v, j, ?_, h, hv, hl, e2, fun k w hk => hk, fun _ => rfl⟩
    unfold JLIAddPc
    rw [hne, if_neg (by simp), if_neg (by simp [hsize])]
    simp only
    rw [hidx, hl]
    simp only [Option.getD_some]
    rw [if_neg hv, if_neg (by simp [hsize])]
    show JliRes.ok ((mapLookup s j.g_jli_string_to_pc_map).getD 0) j = _
    rw [hl]
    rfl
  | none =>
    have hidx : mapIndex s j.g_jli_string_to_pc_map
        = j.g_jli_string_to_pc_map ++ [(s, 0)] := by
      unfold mapIndex
      rw [hl]
      rfl
    have hl1 : mapLookup s (j.g_jli_string_to_pc_map ++ [(s, 0)]) = some 0 := by
      rw [mapLookup_append, hl]
      simp
    obtain ⟨n, hn⟩ : ∃ n : Nat, n = j.g_jli_string_to_pc_map.length := ⟨_, rfl⟩
    have hlen : (((j.g_jli_string_to_pc_map ++ [(s, (0 : Int))]).length : Nat) : Int) - 1
        = (n : Int) := by
      rw [List.length_append, hn]
      simp
    have hl2 : ∀ k, mapLookup k (j.g_jli_string_to_pc_map ++ [(s, (n : Int))])
        = match mapLookup k j.g_jli_string_to_pc_map with
          | some v => some v
          | none => if s = k then some (n : Int) else none := fun k => mapLookup_append k s n _
    have hstep : JLIAddPc s j = .ok n
        { g_jli_string_to_pc_map := j.g_jli_string_to_pc_map ++ [(s, (n : Int))],
          g_jli_pc_strings := j.g_jli_pc_strings ++ [s] } := by
      unfold JLIAddPc
      rw [hne, if_neg (by simp), if_neg (by simp [hsize])]
      simp only
      rw [hidx, hl1]
      simp only [Option.getD_some, if_true]
      rw [hlen, mapAssign_append s n _ hl, if_neg (by simp [hsize]), hl2 s, hl]
      simp
    refine ⟨n, _, hstep, ?_, by omega, ?_, ?_, ?_, ?_⟩
    · refine ⟨by simp [hsize], ?_, ?_⟩
      · show mapLookup _ (j.g_jli_string_to_pc_map ++ [(s, (n : Int))]) = _
        rw [hl2, h.unknown]
      · intro k v hk
        change mapLookup k (j.g_jli_string_to_pc_map ++ [(s, (n : Int))]) = some v at hk
        rw [hl2] at hk
        cases hk0 : mapLookup k j.g_jli_string_to_pc_map with
        | some w =>
          rw [hk0] at hk
          simp only [Option.some.injEq] at hk
          subst hk
          obtain ⟨e1, e2, e3⟩ := h.entries k w hk0
          refine ⟨e1, ?_, e3⟩
          show (j.g_jli_pc_strings ++ [s])[w.toNat]? = some k
          have hlt : w.toNat < j.g_jli_pc_strings.length := by
            by_contra hge
            rw [List.getElem?_eq_none (by omega)] at e2
            cases e2
          rw [List.getElem?_append_left hlt]
          exact e2
        | none =>
          rw [hk0] at hk
          simp only at hk
          by_cases hsk : s = k
          · rw [if_pos hsk] at hk
            cases hk
            subst hsk
            refine ⟨by omega, ?_, fun h0 => by omega⟩
            show (j.g_jli_pc_strings ++ [s])[(n : Int).toNat]? = some s
            rw [Int.toNat_ofNat, hn, hsize, List.getElem?_append_right (Nat.le_refl _)]
            simp
          · rw [if_neg hsk] at hk
            cases hk
    · show mapLookup s (j.g_jli_string_to_pc_map ++ [(s, (n : Int))]) = _
      rw [hl2, hl]
      simp
    · show (j.g_jli_pc_strings ++ [s])[(n : Int).toNat]? = some s
      rw [Int.toNat_ofNat, hn, hsize, List.getElem?_append_right (Nat.le_refl _)]
      simp
    · intro k v hk
      show mapLookup k (j.g_jli_string_to_pc_map ++ [(s, (n : Int))]) = _
      rw [hl2, hk]
    · intro hc
      cases hc

/-- Every state `JLIAddPc` is called in satisfies the invariant. -/
theorem JliReachable.inv {j : Jli} (h : JliReachable j) : JliInv j := by
  induction h with
  | init => exact JLIInit_inv
  | step str j j1 pc _ hstep ih =>
    by_cases hs : str = "unknown".toList
    · obtain ⟨j2, h2⟩ := JLIAddPc_unknown j ih
      rw [hs, h2] at hstep
      cases hstep
    · obtain ⟨pc2, j2, h2, hinv, _⟩ := JLIAddPc_spec j ih str hs
      rw [h2] at hstep
      cases hstep
      exact hinv

/-- A call that returns was made for a string other than `unknown`. -/
theorem JLIAddPc_ok_ne (j : Jli) (h : JliInv j) (s : List Char) (pc : Int) (j1 : Jli)
    (hstep : JLIAddPc s j = .ok pc j1) : s ≠ "unknown".toList := by
  intro hs
  obtain ⟨j2, h2⟩ := JLIAddPc_unknown j h
  rw [hs, h2] at hstep
  cases hstep

/-- What holds of `JLIAddPc` as an interning function: in every state reachable
after the initialisation and for every string `s` other than `unknown`, the
call returns with both containers of the same size; a second call, also after a
call for another string `t`, returns the same pc and changes nothing; the call
for a different string returns a different pc; and `g_jli_pc_strings` holds `s`
at the pc, so that `PcToStrings` in the syntax `jli` returns `s` as the routine
name. -/
theorem JLIAddPc_interning (j : Jli) (hr : JliReachable j) (s t : List Char)
    (hs : s ≠ "unknown".toList) :
    ∃ pc j1, JLIAddPc s j = .ok pc j1 ∧ JliReachable j1 ∧ 0 < pc ∧
      j1.g_jli_string_to_pc_map.length = j1.g_jli_pc_strings.length ∧
      JLIAddPc s j1 = .ok pc j1 ∧
      j1.g_jli_pc_strings[pc.toNat]? = some s ∧
      (∀ (env : Env) (o : Offline), env.jli = true →
        (PcToStrings env pc.toNat { o with g_jli_pc_strings := j1.g_jli_pc_strings }).map
          PcStrings.rtn_name = some s) ∧
      (∀ pc2 j2, JLIAddPc t j1 = .ok pc2 j2 →
        JLIAddPc s j2 = .ok pc j2 ∧ (t ≠ s → pc2 ≠ pc)) := by
  have hinv := hr.inv
  obtain ⟨pc, j1, h1, hinv1, hpc, hl1, hstr1, _, _⟩ := JLIAddPc_spec j hinv s hs
  have hr1 : JliReachable j1 := JliReachable.step s j j1 pc hr h1
  have again : ∀ j2 : Jli, JliInv j2 → mapLookup s j2.g_jli_string_to_pc_map = some pc →
      JLIAddPc s j2 = .ok pc j2 := by
    intro j2 hinv2 hl2
    obtain ⟨pc3, j3, h3, _, _, hl3, _, keep3, same3⟩ := JLIAddPc_spec j2 hinv2 s hs
    have e := keep3 s pc hl2
    rw [hl3] at e
    cases e
    rw [h3, same3 hl2]
  have hlt : pc.toNat < j1.g_jli_pc_strings.length := by
    by_contra hge
    rw [List.getElem?_eq_none (by omega)] at hstr1
    cases hstr1
  refine ⟨pc, j1, h1, hr1, ?_, hinv1.size, again j1 hinv1 hl1, hstr1, ?_, ?_⟩
  · have := (hinv1.entries s pc hl1).1
    omega
  · intro env o hjli
    unfold PcToStrings
    simp only [hjli, if_true, Option.map_some', Option.some.injEq]
    rw [if_pos hlt, List.getD_eq_getElem?_getD, hstr1]
    rfl
  · intro pc2 j2 h2
    have htne := JLIAddPc_ok_ne j1 hinv1 t pc2 j2 h2
    obtain ⟨pc4, j4, h4, hinv4, _, hl4, hstr4, keep4, _⟩ := JLIAddPc_spec j1 hinv1 t htne
    rw [h4] at h2
    cases h2
    have hl2 := keep4 s pc hl1
    refine ⟨again j2 hinv4 hl2, ?_⟩
    intro hts heq
    subst heq
    have := (hinv4.entries s pc2 hl2).2.1
    rw [hstr4] at this
    cases this
    exact hts rfl

/-- C28: in the state right after the initialisation of
`JLIReadEventsFromFile` the call `JLIAddPc("unknown")` fails the `CHECK` of line
153: the map still has one entry, and `g_jli_pc_strings` holds `unknown`
twice.  The call for another string returns the pc 1. -/
theorem C28_jli_add_pc_unknown_fails :
    JliReachable (JLIInit jliStart) ∧
    JLIAddPc "unknown".toList (JLIInit jliStart)
      = .abort 153 ⟨[("unknown".toList, 0)], ["unknown".toList, "unknown".toList]⟩ ∧
    JLIAddPc "f".toList (JLIInit jliStart)
      = .ok 1 ⟨[("unknown".toList, 0), ("f".toList, 1)], ["unknown".toList, "f".toList]⟩ :=
  ⟨JliReachable.init, by decide, by decide⟩

end TsOffline
namespace Analyzer

theorem LockSet.intersects_comm (a b : LockSet) : a.intersects b = b.intersects a := by
  unfold LockSet.intersects
  exact Bool.or_comm _ _

theorem reportRace_reports (a r : Mop) (s : State) (x : Report)
    (h : x ∈ (reportRace a r s).reports) : x ∈ s.reports ∨ x = ⟨a, r⟩ := by
  unfold reportRace at h
  split at h
  · exact Or.inl h
  · split at h
    · exact Or.inl h
    · split at h
      · exact Or.inl h
      · simp only [List.mem_append, List.mem_singleton] at h
        exact h

theorem reportRaces_reports (a : Mop) : ∀ (l : List Mop) (s : State) (x : Report),
    x ∈ (l.foldl (fun s r => reportRace a r s) s).reports →
      x ∈ s.reports ∨ ∃ r ∈ l, x = ⟨a, r⟩ := by
  intro l
  induction l with
  | nil => intro s x h; exact Or.inl h
  | cons r l ih =>
    intro s x h
    rw [List.foldl_cons] at h
    rcases ih _ x h with h1 | ⟨r1, hr1, e⟩
    · rcases reportRace_reports a r s x h1 with h2 | h2
      · exact Or.inl h2
      · exact Or.inr ⟨r, by simp, h2⟩
    · exact Or.inr ⟨r1, by simp [hr1], e⟩

/-- A race that step 3 detects at a byte that both accesses touch has the
property of section 8. -/
theorem isRace_sound (cfg : Config) (a r : Mop) (h : isRace cfg a r = true)
    (ha : a.addr < a.addr + a.size) (hr : r.addr ≤ a.addr ∧ a.addr < r.addr + r.size) :
    Sound cfg ⟨a, r⟩ := by
  unfold isRace isDominated at h
  simp only [Bool.and_eq_true, Bool.or_eq_true, Bool.not_eq_true'] at h
  obtain ⟨⟨⟨h1, h2⟩, h3⟩, h4⟩ := h
  refine ⟨⟨a.addr, Nat.le_refl _, ha, hr.1, hr.2⟩, ?_, h4, h1, ?_⟩
  · rcases h2 with h2 | h2
    · exact Or.inr h2
    · exact Or.inl h2
  · rcases h3 with h3 | h3
    · exact Or.inl h3
    · right
      show a.seg.lockset.intersects r.seg.lockset = false
      rw [LockSet.intersects_comm]
      exact h3

theorem accessByte_inv (cfg : Config) (a : Mop) (s : State) (ha : a.size = 1)
    (h : Inv cfg s) : Inv cfg (accessByte cfg a s) := by
  unfold accessByte
  split
  · exact h
  · constructor
    · intro b r hr
      simp only at hr
      split at hr
      · rename_i hb
        have hr2 := List.mem_of_mem_drop hr
        rcases List.mem_append.mp hr2 with hr3 | hr3
        · rw [hb]
          exact h.cell _ _ (List.mem_of_mem_filter hr3)
        · rw [List.mem_singleton.mp hr3, hb]
          omega
      · exact h.cell b r hr
    · intro x hx
      simp only at hx
      rcases reportRaces_reports a _ s x hx with h1 | ⟨r, hr, e⟩
      · exact h.sound x h1
      · rw [e]
        have hm := List.mem_filter.mp hr
        exact isRace_sound cfg a r hm.2 (by omega) (h.cell _ _ hm.1)

theorem accessBytes_inv (cfg : Config) (tid pc : Nat) (is_write : Bool) (seg : Segment) :
    ∀ (bytes : List Nat) (s : State), Inv cfg s →
      Inv cfg (accessBytes cfg tid pc is_write seg bytes s) := by
  intro bytes
  induction bytes with
  | nil => intro s h; exact h
  | cons b rest ih =>
    intro s h
    exact ih _ (accessByte_inv cfg _ s rfl h)

theorem Inv.inv_of_eq {cfg : Config} {s s1 : State} (h : Inv cfg s)
    (h1 : ∀ b, s1.shadow b = s.shadow b ∨ s1.shadow b = []) (h2 : s1.reports = s.reports) :
    Inv cfg s1 := by
  constructor
  · intro b r hr
    rcases h1 b with e | e
    · rw [e] at hr
      exact h.cell b r hr
    · rw [e] at hr
      simp at hr
  · rw [h2]
    exact h.sound

theorem access_inv (cfg : Config) (tid pc addr size : Nat) (is_write : Bool) (s : State)
    (h : Inv cfg s) : Inv cfg (access cfg tid pc addr size is_write s) := by
  unfold access
  apply accessBytes_inv
  split
  · exact h
  · exact h.inv_of_eq (fun _ => Or.inl rfl) rfl

theorem handle_inv (cfg : Config) (s : State) (e : Event) (h : Inv cfg s) :
    Inv cfg (handle cfg s e) := by
  unfold handle
  split
  · exact h
  · cases e
    case READ tid pc addr size => exact access_inv cfg tid pc addr size false s h
    case WRITE tid pc addr size => exact access_inv cfg tid pc addr size true s h
    case MALLOC addr size =>
      refine h.inv_of_eq (fun b => ?_) rfl
      simp only [clearShadow]
      split
      · exact Or.inr rfl
      · exact Or.inl rfl
    case FREE addr size =>
      refine h.inv_of_eq (fun b => ?_) rfl
      simp only [clearShadow]
      split
      · exact Or.inr rfl
      · exact Or.inl rfl
    all_goals
      simp only
      repeat' split
      all_goals exact h.inv_of_eq (fun _ => Or.inl rfl) rfl

theorem run_inv (cfg : Config) : ∀ (events : List Event) (s : State), Inv cfg s →
    Inv cfg (run cfg s events) := by
  intro events
  induction events with
  | nil => intro s h; exact h
  | cons e rest ih =>
    intro s h
    exact ih _ (handle_inv cfg s e h)

theorem initial_inv (cfg : Config) : Inv cfg State.initial :=
  ⟨fun _ _ h => by simp [State.initial] at h, fun _ h => by simp [State.initial] at h⟩

theorem VC.leq_iff (a b : VC) : a.leq b = true ↔ ∀ i, a.getD i 0 ≤ b.getD i 0 := by
  unfold VC.leq
  rw [List.all_eq_true]
  constructor
  · intro h i
    by_cases hi : i < a.length
    · have := h i (List.mem_range.mpr hi)
      simpa using this
    · rw [List.getD_eq_default _ _ (by omega)]
      exact Nat.zero_le _
  · intro h i _
    simpa using h i

theorem Frame.frame_refl (s : State) : Frame s s := ⟨rfl, rfl, rfl, rfl⟩

theorem Frame.frame_trans {s s1 s2 : State} (h1 : Frame s s1) (h2 : Frame s1 s2) :
    Frame s s2 :=
  ⟨h2.threads.trans h1.threads, h2.annotations.trans h1.annotations,
    h2.global_ignore.trans h1.global_ignore, h2.aborted.trans h1.aborted⟩

theorem isIgnored_frame {s s1 : State} (h : Frame s s1) (a : Mop) :
    isIgnored a s1 = isIgnored a s := by
  unfold isIgnored
  rw [h.threads, h.annotations, h.global_ignore]

theorem reportRace_frame (a r : Mop) (s : State) :
    Frame s (reportRace a r s) ∧ (reportRace a r s).shadow = s.shadow := by
  unfold reportRace
  repeat' split
  all_goals exact ⟨⟨rfl, rfl, rfl, rfl⟩, rfl⟩

theorem reportRace_quiet (a r : Mop) (s : State)
    (h : s.reported.contains (canonical a.pc r.pc) = true) :
    (reportRace a r s).reports = s.reports ∧ (reportRace a r s).reported = s.reported := by
  unfold reportRace
  rw [if_pos h]
  repeat' split
  all_goals exact ⟨rfl, rfl⟩

theorem reportRace_loud (a r : Mop) (s : State)
    (ha : ∀ n ∈ s.annotations, n.covers a.addr = false)
    (hn : s.reported.contains (canonical a.pc r.pc) = false) :
    (reportRace a r s).reports = s.reports ++ [⟨a, r⟩] ∧
    (reportRace a r s).reported = canonical a.pc r.pc :: s.reported := by
  have h1 : ∀ tag : Tag,
      s.annotations.any (fun n => n.tag == tag && n.covers a.addr) = false := by
    intro tag
    rw [List.any_eq_false]
    intro n hn
    rw [ha n hn]
    simp
  unfold reportRace
  rw [h1, h1, hn]
  simp

theorem reportRaces_frame (a : Mop) : ∀ (l : List Mop) (s : State),
    Frame s (l.foldl (fun s r => reportRace a r s) s) := by
  intro l
  induction l with
  | nil => intro s; exact Frame.frame_refl s
  | cons r l ih =>
    intro s
    rw [List.foldl_cons]
    exact (reportRace_frame a r s).1.frame_trans (ih _)

theorem reportRaces_quiet (a : Mop) : ∀ (l : List Mop) (s : State),
    (∀ r ∈ l, s.reported.contains (canonical a.pc r.pc) = true) →
    (l.foldl (fun s r => reportRace a r s) s).reports = s.reports ∧
    (l.foldl (fun s r => reportRace a r s) s).reported = s.reported := by
  intro l
  induction l with
  | nil => intro s _; exact ⟨rfl, rfl⟩
  | cons r l ih =>
    intro s h
    rw [List.foldl_cons]
    obtain ⟨q1, q2⟩ := reportRace_quiet a r s (h r (by simp))
    obtain ⟨i1, i2⟩ := ih (reportRace a r s) (fun x hx => by rw [q2]; exact h x (by simp [hx]))
    exact ⟨i1.trans q1, i2.trans q2⟩

/-- The handling of a one-byte access changes no cell but the one of its
byte. -/
theorem accessByte_frame (cfg : Config) (a : Mop) (s : State) :
    Frame s (accessByte cfg a s) ∧
    ∀ b, b ≠ a.addr → (accessByte cfg a s).shadow b = s.shadow b := by
  unfold accessByte
  split
  · exact ⟨Frame.frame_refl s, fun _ _ => rfl⟩
  · have f := reportRaces_frame a ((s.shadow a.addr).filter (isRace cfg a)) s
    refine ⟨⟨f.threads, f.annotations, f.global_ignore, f.aborted⟩, ?_⟩
    intro b hb
    simp only [if_neg hb]

/-- A one-byte access that races with no record, or only with records of
already reported pairs, reports nothing. -/
theorem accessByte_quiet (cfg : Config) (a : Mop) (s : State)
    (h : ∀ r ∈ s.shadow a.addr, isRace cfg a r = true →
      s.reported.contains (canonical a.pc r.pc) = true) :
    (accessByte cfg a s).reports = s.reports ∧ (accessByte cfg a s).reported = s.reported := by
  unfold accessByte
  split
  · exact ⟨rfl, rfl⟩
  · exact reportRaces_quiet a _ s fun r hr => by
      have := List.mem_filter.mp hr
      exact h r this.1 this.2

/-- A one-byte access that races with the only record of its cell, when no
annotation covers the byte and the pair has not been reported: the race is
reported. -/
theorem accessByte_loud (cfg : Config) (a r : Mop) (s : State)
    (hi : isIgnored a s = false) (hc : s.shadow a.addr = [r]) (hr : isRace cfg a r = true)
    (ha : ∀ n ∈ s.annotations, n.covers a.addr = false)
    (hn : s.reported.contains (canonical a.pc r.pc) = false) :
    (accessByte cfg a s).reports = s.reports ++ [⟨a, r⟩] ∧
    (accessByte cfg a s).reported = canonical a.pc r.pc :: s.reported := by
  unfold accessByte
  rw [hi, hc]
  simp only [Bool.false_eq_true, if_false, List.filter_cons, hr, if_true, List.filter_nil,
    List.foldl_cons, List.foldl_nil]
  exact reportRace_loud a r s ha hn

/-- A one-byte access to a byte that has no record yet leaves its own record
in the cell. -/
theorem accessByte_fresh (cfg : Config) (a : Mop) (s : State) (hK : 1 ≤ cfg.K)
    (hi : isIgnored a s = false) (hc : s.shadow a.addr = []) :
    (accessByte cfg a s).shadow a.addr = [a] := by
  unfold accessByte
  rw [hi, hc]
  simp only [Bool.false_eq_true, if_false, List.filter_nil, List.nil_append, if_true,
    List.length_singleton]
  rw [show 1 - cfg.K = 0 by omega]
  rfl

theorem accessBytes_cons (cfg : Config) (tid pc : Nat) (is_write : Bool) (seg : Segment)
    (b : Nat) (rest : List Nat) (s : State) :
    accessBytes cfg tid pc is_write seg (b :: rest) s
      = accessBytes cfg tid pc is_write seg rest
          (accessByte cfg ⟨tid, pc, b, 1, is_write, seg⟩ s) := rfl

theorem accessBytes_append (cfg : Config) (tid pc : Nat) (is_write : Bool) (seg : Segment)
    (l1 l2 : List Nat) : ∀ s : State,
    accessBytes cfg tid pc is_write seg (l1 ++ l2) s
      = accessBytes cfg tid pc is_write seg l2 (accessBytes cfg tid pc is_write seg l1 s) := by
  induction l1 with
  | nil => intro s; rfl
  | cons b l1 ih =>
    intro s
    rw [List.cons_append, accessBytes_cons, accessBytes_cons, ih]

/-- The queries of an access change no cell outside its range. -/
theorem accessBytes_frame (cfg : Config) (tid pc : Nat) (is_write : Bool) (seg : Segment) :
    ∀ (size addr : Nat) (s : State),
      Frame s (accessBytes cfg tid pc is_write seg (List.range' addr size) s) ∧
      ∀ b, (b < addr ∨ addr + size ≤ b) →
        (accessBytes cfg tid pc is_write seg (List.range' addr size) s).shadow b
          = s.shadow b := by
  intro size
  induction size with
  | zero => intro addr s; exact ⟨Frame.frame_refl s, fun _ _ => rfl⟩
  | succ size ih =>
    intro addr s
    rw [List.range'_succ, accessBytes_cons]
    obtain ⟨f1, k1⟩ := accessByte_frame cfg ⟨tid, pc, addr, 1, is_write, seg⟩ s
    obtain ⟨f2, k2⟩ := ih (addr + 1) (accessByte cfg ⟨tid, pc, addr, 1, is_write, seg⟩ s)
    refine ⟨f1.frame_trans f2, fun b hb => ?_⟩
    rw [k2 b (by omega), k1 b (by show b ≠ addr; omega)]

/-- The queries of an access that race with no record, or only with records of
already reported pairs, report nothing. -/
theorem accessBytes_quiet (cfg : Config) (tid pc : Nat) (is_write : Bool) (seg : Segment) :
    ∀ (size addr : Nat) (s : State),
      (∀ b, addr ≤ b → b < addr + size → ∀ r ∈ s.shadow b,
        isRace cfg ⟨tid, pc, b, 1, is_write, seg⟩ r = true →
          s.reported.contains (canonical pc r.pc) = true) →
      (accessBytes cfg tid pc is_write seg (List.range' addr size) s).reports = s.reports ∧
      (accessBytes cfg tid pc is_write seg (List.range' addr size) s).reported
        = s.reported := by
  intro size
  induction size with
  | zero => intro addr s _; exact ⟨rfl, rfl⟩
  | succ size ih =>
    intro addr s h
    rw [List.range'_succ, accessBytes_cons]
    obtain ⟨_, k1⟩ := accessByte_frame cfg ⟨tid, pc, addr, 1, is_write, seg⟩ s
    obtain ⟨q1, q2⟩ := accessByte_quiet cfg ⟨tid, pc, addr, 1, is_write, seg⟩ s
      (h addr (Nat.le_refl _) (by omega))
    obtain ⟨i1, i2⟩ := ih (addr + 1) (accessByte cfg ⟨tid, pc, addr, 1, is_write, seg⟩ s)
      (fun b hb1 hb2 r hr hrace => by
        rw [k1 b (by show b ≠ addr; omega)] at hr
        rw [q2]
        exact h b (by omega) (by omega) r hr hrace)
    exact ⟨i1.trans q1, i2.trans q2⟩

/-- The queries of an access to bytes that have no record yet: nothing is
reported, and every cell of the range holds the record of its query. -/
theorem accessBytes_fresh (cfg : Config) (tid pc : Nat) (is_write : Bool) (seg : Segment)
    (hK : 1 ≤ cfg.K) :
    ∀ (size addr : Nat) (s : State),
      (∀ b, addr ≤ b → b < addr + size →
        isIgnored ⟨tid, pc, b, 1, is_write, seg⟩ s = false ∧ s.shadow b = []) →
      ∀ b, addr ≤ b → b < addr + size →
        (accessBytes cfg tid pc is_write seg (List.range' addr size) s).shadow b
          = [⟨tid, pc, b, 1, is_write, seg⟩] := by
  intro size
  induction size with
  | zero => intro addr s _ b h1 h2; omega
  | succ size ih =>
    intro addr s h b hb1 hb2
    rw [List.range'_succ, accessBytes_cons]
    obtain ⟨f1, k1⟩ := accessByte_frame cfg ⟨tid, pc, addr, 1, is_write, seg⟩ s
    obtain ⟨hi, hc⟩ := h addr (Nat.le_refl _) (by omega)
    by_cases hb : b = addr
    · rw [(accessBytes_frame cfg tid pc is_write seg size (addr + 1) _).2 b (by omega), hb]
      exact accessByte_fresh cfg ⟨tid, pc, addr, 1, is_write, seg⟩ s hK hi hc
    · exact ih (addr + 1) _ (fun x hx1 hx2 => by
        rw [isIgnored_frame f1, k1 x (by show x ≠ addr; omega)]
        exact h x (by omega) (by omega)) b (by omega) (by omega)

theorem range_split (q n b : Nat) (h1 : q ≤ b) (h2 : b < q + n) :
    List.range' q n = List.range' q (b - q) ++ b :: List.range' (b + 1) (q + n - (b + 1)) := by
  have e : n = ((q + n - (b + 1)) + 1) + (b - q) := by omega
  have e2 : q + (b - q) = b := by omega
  conv_lhs => rw [e]
  rw [← List.range'_append_1, e2, List.range'_succ]

/-- Two writes to overlapping ranges by threads whose segments are not ordered
and not protected by a common lock, on memory without records and
annotations: the second write makes exactly one report, at the first byte of
the overlap. -/
theorem writes_overlap (cfg : Config) (s : State) (t1 t2 pc1 pc2 p m q n : Nat)
    (hK : 1 ≤ cfg.K) (hrun : s.aborted = false) (hg : s.global_ignore = false)
    (hi1 : (s.threads t1).ignore_mops = 0) (hi2 : (s.threads t2).ignore_mops = 0)
    (hann : ∀ a ∈ s.annotations, ∀ b, (p ≤ b ∧ b < p + m) ∨ (q ≤ b ∧ b < q + n) →
      a.covers b = false)
    (hfresh : ∀ b, (p ≤ b ∧ b < p + m) ∨ (q ≤ b ∧ b < q + n) → s.shadow b = [])
    (hnew : s.reported.contains (canonical pc2 pc1) = false)
    (h12 : (s.threads t1).vc.leq (s.threads t2).vc = false)
    (h21 : (s.threads t2).vc.leq (s.threads t1).vc = false)
    (hls : cfg.pure_happens_before = true ∨
      (s.threads t1).lockset.intersects (s.threads t2).lockset = false)
    (hov : ∃ b, (p ≤ b ∧ b < p + m) ∧ (q ≤ b ∧ b < q + n)) :
    (run cfg s [.WRITE t1 pc1 p m, .WRITE t2 pc2 q n]).reports
      = s.reports ++ [⟨⟨t2, pc2, max p q, 1, true, s.current_segment t2⟩,
          ⟨t1, pc1, max p q, 1, true, s.current_segment t1⟩⟩] ∧
    (run cfg s [.WRITE t1 pc1 p m]).reports = s.reports ∧
    (p ≤ max p q ∧ max p q < p + m) ∧ (q ≤ max p q ∧ max p q < q + n) := by
  obtain ⟨b, ⟨hb1, hb2⟩, hb3, hb4⟩ := hov
  obtain ⟨b0, hb0⟩ : ∃ b0, b0 = max p q := ⟨_, rfl⟩
  rw [← hb0]
  have m1 : p ≤ b0 := by omega
  have m2 : q ≤ b0 := by omega
  have m3 : b0 < p + m := by omega
  have m4 : b0 < q + n := by omega
  have m5 : b0 = p ∨ b0 = q := by omega
  have hany : ∀ (tag : Tag) (x : Nat), (p ≤ x ∧ x < p + m) ∨ (q ≤ x ∧ x < q + n) →
      s.annotations.any (fun a => a.tag == tag && a.covers x) = false := by
    intro tag x hx
    rw [List.any_eq_false]
    intro a ha
    rw [hann a ha x hx]
    simp
  have hig : ∀ (t pc x : Nat) (seg : Segment), (s.threads t).ignore_mops = 0 →
      (p ≤ x ∧ x < p + m) ∨ (q ≤ x ∧ x < q + n) →
      isIgnored ⟨t, pc, x, 1, true, seg⟩ s = false := by
    intro t pc x seg ht hx
    unfold isIgnored
    simp only [hg, ht, if_true, hany Tag.ignoreW x hx]
    simp
  -- the first write
  have e1 : handle cfg s (.WRITE t1 pc1 p m)
      = accessBytes cfg t1 pc1 true (s.current_segment t1) (List.range' p m) s := by
    unfold handle
    rw [if_neg (by simp [hrun])]
    rfl
  obtain ⟨f1, k1⟩ := accessBytes_frame cfg t1 pc1 true (s.current_segment t1) m p s
  obtain ⟨r1, d1⟩ := accessBytes_quiet cfg t1 pc1 true (s.current_segment t1) m p s
    (fun x hx1 hx2 r hr _ => by
      rw [hfresh x (Or.inl ⟨hx1, hx2⟩)] at hr
      simp at hr)
  have c1 := accessBytes_fresh cfg t1 pc1 true (s.current_segment t1) hK m p s
    (fun x hx1 hx2 =>
      ⟨hig t1 pc1 x _ hi1 (Or.inl ⟨hx1, hx2⟩), hfresh x (Or.inl ⟨hx1, hx2⟩)⟩)
  obtain ⟨s1, hs1⟩ : ∃ s1, s1 = accessBytes cfg t1 pc1 true (s.current_segment t1)
      (List.range' p m) s := ⟨_, rfl⟩
  rw [← hs1] at e1 f1 k1 r1 d1 c1
  -- the second write
  have e2 : handle cfg s1 (.WRITE t2 pc2 q n)
      = accessBytes cfg t2 pc2 true (s.current_segment t2) (List.range' q n) s1 := by
    unfold handle
    rw [if_neg (by rw [f1.aborted]; simp [hrun])]
    show accessBytes cfg t2 pc2 true (s1.current_segment t2) (List.range' q n) s1 = _
    unfold State.current_segment
    rw [f1.threads]
  have hrace : isRace cfg ⟨t2, pc2, b0, 1, true, s.current_segment t2⟩
      ⟨t1, pc1, b0, 1, true, s.current_segment t1⟩ = true := by
    unfold isRace isDominated State.current_segment
    simp only [h12, h21, Bool.not_false, Bool.or_true, Bool.true_and, Bool.and_true]
    rcases hls with h | h
    · simp [h]
    · simp [h]
  -- the bytes below the overlap
  obtain ⟨fA, kA⟩ := accessBytes_frame cfg t2 pc2 true (s.current_segment t2) (b0 - q) q s1
  obtain ⟨rA, dA⟩ := accessBytes_quiet cfg t2 pc2 true (s.current_segment t2) (b0 - q) q s1
    (fun x hx1 hx2 r hr _ => by
      rw [k1 x (by omega), hfresh x (Or.inr ⟨hx1, by omega⟩)] at hr
      simp at hr)
  obtain ⟨sA, hsA⟩ : ∃ sA, sA = accessBytes cfg t2 pc2 true (s.current_segment t2)
      (List.range' q (b0 - q)) s1 := ⟨_, rfl⟩
  rw [← hsA] at fA kA rA dA
  -- the first byte of the overlap
  have cA : sA.shadow b0 = [⟨t1, pc1, b0, 1, true, s.current_segment t1⟩] := by
    rw [kA b0 (by omega)]
    exact c1 b0 m1 m3
  have iA : isIgnored ⟨t2, pc2, b0, 1, true, s.current_segment t2⟩ sA = false := by
    rw [isIgnored_frame (f1.frame_trans fA)]
    exact hig t2 pc2 b0 _ hi2 (Or.inl ⟨m1, m3⟩)
  obtain ⟨fB, kB⟩ := accessByte_frame cfg ⟨t2, pc2, b0, 1, true, s.current_segment t2⟩ sA
  obtain ⟨rB, dB⟩ := accessByte_loud cfg ⟨t2, pc2, b0, 1, true, s.current_segment t2⟩
    ⟨t1, pc1, b0, 1, true, s.current_segment t1⟩ sA iA cA hrace
    (by
      rw [(f1.frame_trans fA).annotations]
      exact fun a ha => hann a ha b0 (Or.inl ⟨m1, m3⟩))
    (by rw [dA, d1]; exact hnew)
  obtain ⟨sB, hsB⟩ :
      ∃ sB, sB = accessByte cfg ⟨t2, pc2, b0, 1, true, s.current_segment t2⟩ sA := ⟨_, rfl⟩
  rw [← hsB] at fB kB rB dB
  -- the bytes above it
  obtain ⟨rC, _⟩ := accessBytes_quiet cfg t2 pc2 true (s.current_segment t2)
    (q + n - (b0 + 1)) (b0 + 1) sB
    (fun x hx1 hx2 r hr _ => by
      rw [kB x (by show x ≠ b0; omega), kA x (by omega)] at hr
      rw [dB]
      by_cases hx : x < p + m
      · rw [c1 x (by omega) hx] at hr
        rw [List.mem_singleton.mp hr]
        simp
      · rw [k1 x (by omega), hfresh x (Or.inr ⟨by omega, by omega⟩)] at hr
        simp at hr)
  refine ⟨?_, ?_, ⟨m1, m3⟩, m2, m4⟩
  · show (handle cfg (handle cfg s (.WRITE t1 pc1 p m)) (.WRITE t2 pc2 q n)).reports = _
    rw [e1, e2, range_split q n b0 m2 m4, accessBytes_append, accessBytes_cons, ← hsA, ← hsB,
      rC, rB, rA, r1]
  · show (handle cfg s (.WRITE t1 pc1 p m)).reports = _
    rw [e1, r1]

/-- The model gives the scenarios S1 to S6 of section 8 of the specification
the outcome the specification expects: one race at `0x1000` with the PCs 200
and 100 in S1; no report in S2, S3 (pure-HB), S4 and S5, where the expectation
fired; no report in S6, and one when the two threads use different mutexes. -/
theorem scenarios :
    (run (sampleConfig false) State.initial scenarioS1).reports
      = [⟨⟨2, 200, 0x1000, 1, false, ⟨2, [0, 0, 1], ⟨[], []⟩⟩⟩,
          ⟨1, 100, 0x1000, 1, true, ⟨1, [0, 1], ⟨[], []⟩⟩⟩⟩] ∧
    (run (sampleConfig false) State.initial scenarioS2).reports = [] ∧
    (run (sampleConfig true) State.initial scenarioS3).reports = [] ∧
    (run (sampleConfig false) State.initial scenarioS4).reports = [] ∧
    (run (sampleConfig false) State.initial scenarioS5).reports = [] ∧
    (run (sampleConfig false) State.initial scenarioS5).fired = [0x5000] ∧
    (run (sampleConfig false) State.initial (scenarioS6 77)).reports = [] ∧
    (run (sampleConfig false) State.initial (scenarioS6 78)).reports.length = 1 := by
  refine ⟨by decide, by decide, by decide, by decide, by decide, by decide, by decide, ?_⟩
  decide

/-- C21 (on the analyzer modelled from the specification).  For every
configuration, every event stream handled from the initial state and every
report `(A, B)` the analyzer has emitted: `A` and `B` have a byte in common, at
least one of them is a write, neither of the vector clocks of their segments is
pointwise at most the other, and, unless pure-happens-before mode is on, their
locksets do not intersect. -/
theorem C21_race_reports_sound (cfg : Config) (events : List Event) (r : Report)
    (h : r ∈ (run cfg State.initial events).reports) :
    overlap r.first r.second ∧
    (r.first.is_write = true ∨ r.second.is_write = true) ∧
    (¬ (∀ i, r.first.seg.vc.getD i 0 ≤ r.second.seg.vc.getD i 0) ∧
      ¬ (∀ i, r.second.seg.vc.getD i 0 ≤ r.first.seg.vc.getD i 0)) ∧
    (cfg.pure_happens_before = true ∨
      r.first.seg.lockset.intersects r.second.seg.lockset = false) := by
  have hs := (run_inv cfg events State.initial (initial_inv cfg)).sound r h
  refine ⟨hs.overlap, hs.write, ⟨?_, ?_⟩, hs.lockset⟩
  · rw [← VC.leq_iff, hs.first_not_before]
    simp
  · rw [← VC.leq_iff, hs.second_not_before]
    simp

/-- C21, a concrete run: the report of scenario S1 (a read of thread 2 at the
PC 200 against the write of thread 1 at the PC 100, at the byte `0x1000`) is
among the reports of the analyzer, and has the four properties. -/
theorem C21_race_reports_sound_witness :
    (⟨⟨2, 200, 0x1000, 1, false, ⟨2, [0, 0, 1], ⟨[], []⟩⟩⟩,
        ⟨1, 100, 0x1000, 1, true, ⟨1, [0, 1], ⟨[], []⟩⟩⟩⟩ : Report)
      ∈ (run (sampleConfig false) State.initial scenarioS1).reports ∧
    (overlap (⟨2, 200, 0x1000, 1, false, ⟨2, [0, 0, 1], ⟨[], []⟩⟩⟩ : Mop)
        ⟨1, 100, 0x1000, 1, true, ⟨1, [0, 1], ⟨[], []⟩⟩⟩ ∧
      ((false = true) ∨ (true = true)) ∧
      (¬ (∀ i, ([0, 0, 1] : VC).getD i 0 ≤ ([0, 1] : VC).getD i 0) ∧
        ¬ (∀ i, ([0, 1] : VC).getD i 0 ≤ ([0, 0, 1] : VC).getD i 0)) ∧
      ((sampleConfig false).pure_happens_before = true ∨
        (⟨[], []⟩ : LockSet).intersects ⟨[], []⟩ = false)) :=
  ⟨by decide,
    C21_race_reports_sound (sampleConfig false) scenarioS1
      ⟨⟨2, 200, 0x1000, 1, false, ⟨2, [0, 0, 1], ⟨[], []⟩⟩⟩,
        ⟨1, 100, 0x1000, 1, true, ⟨1, [0, 1], ⟨[], []⟩⟩⟩⟩ (by decide)⟩

/-- C22, counterexamples.  In each of these runs two started threads with no
synchronisation between them write overlapping ranges, 1 byte at 4101 and then
4 bytes at 4099, and the claim fails.  (1) The two threads have raced before at
the same two PCs: the new race is not reported, a pair of PCs being reported
once.  (2) The bytes are under a benign-race annotation: nothing is reported.
(3) The second thread ignores its memory accesses: nothing is reported.
(4) A third thread has written the byte 4099 before: the first report of the
second write is at 4099, outside the range of the first write.  (5) With cells
of no record (`K = 0`) nothing is reported. -/
theorem C22_subrange_overlap_counterexample :
    ((run (sampleConfig false)
        (twoThreads (sampleConfig false) [.WRITE 1 100 8192 1, .WRITE 2 200 8192 1])
        [.WRITE 1 100 4101 1, .WRITE 2 200 4099 4]).reports
      = (twoThreads (sampleConfig false) [.WRITE 1 100 8192 1, .WRITE 2 200 8192 1]).reports ∧
      (twoThreads (sampleConfig false)
        [.WRITE 1 100 8192 1, .WRITE 2 200 8192 1]).reports.length = 1) ∧
    ((run (sampleConfig false) (twoThreads (sampleConfig false) [.BENIGN_RACE 4096 10])
        [.WRITE 1 100 4101 1, .WRITE 2 200 4099 4]).reports = []) ∧
    ((run (sampleConfig false) (twoThreads (sampleConfig false) [.IGNORE_ALL_BEGIN 2])
        [.WRITE 1 100 4101 1, .WRITE 2 200 4099 4]).reports = []) ∧
    (((run (sampleConfig false)
        (twoThreads (sampleConfig false) [.THR_START 3, .WRITE 3 300 4099 1])
        [.WRITE 1 100 4101 1, .WRITE 2 200 4099 4]).reports.map fun r => r.first.addr)
      = [4099, 4101]) ∧
    ((run ⟨false, 0⟩ (twoThreads ⟨false, 0⟩ [])
        [.WRITE 1 100 4101 1, .WRITE 2 200 4099 4]).reports = []) := by
  refine ⟨by decide, by decide, by decide, by decide, by decide⟩

/-- C22 (on the analyzer modelled from the specification).  Let two threads
have no synchronisation between them: the vector clocks of their current
segments are not ordered, and their locksets do not intersect or
pure-happens-before mode is on.  Let the analyzer run with cells of at least
one record, no thread or global ignore, no annotation on the bytes of the two
ranges and no record of them in the shadow memory (fresh memory), and let the
pair of the two PCs not be reported yet.  If the first thread writes
`[p, p+m)` and the second then writes a range `[q, q+n)` that overlaps it, the
first write reports nothing and the second reports exactly one race; the first
memory access of the report is the one-byte query of the second write at the
address `max p q`, which lies in both ranges, and the other access is the
query of the first write at that byte.  For 1 byte at `data+5` against 4 bytes
at `data+3` the address is `data+5`. -/
theorem C22_subrange_overlap (cfg : Config) (s : State) (t1 t2 pc1 pc2 p m q n : Nat)
    (hK : 1 ≤ cfg.K) (hrun : s.aborted = false) (hg : s.global_ignore = false)
    (hi1 : (s.threads t1).ignore_mops = 0) (hi2 : (s.threads t2).ignore_mops = 0)
    (hann : ∀ a ∈ s.annotations, ∀ b, (p ≤ b ∧ b < p + m) ∨ (q ≤ b ∧ b < q + n) →
      a.covers b = false)
    (hfresh : ∀ b, (p ≤ b ∧ b < p + m) ∨ (q ≤ b ∧ b < q + n) → s.shadow b = [])
    (hnew : s.reported.contains (canonical pc2 pc1) = false)
    (h12 : (s.threads t1).vc.leq (s.threads t2).vc = false)
    (h21 : (s.threads t2).vc.leq (s.threads t1).vc = false)
    (hls : cfg.pure_happens_before = true ∨
      (s.threads t1).lockset.intersects (s.threads t2).lockset = false)
    (hov : ∃ b, (p ≤ b ∧ b < p + m) ∧ (q ≤ b ∧ b < q + n)) :
    (run cfg s [.WRITE t1 pc1 p m]).reports = s.reports ∧
    ∃ r : Report,
      (run cfg s [.WRITE t1 pc1 p m, .WRITE t2 pc2 q n]).reports = s.reports ++ [r] ∧
      r.first = ⟨t2, pc2, max p q, 1, true, s.current_segment t2⟩ ∧
      r.second = ⟨t1, pc1, max p q, 1, true, s.current_segment t1⟩ ∧
      (p ≤ r.first.addr ∧ r.first.addr < p + m) ∧
      (q ≤ r.first.addr ∧ r.first.addr < q + n) ∧
      ∀ data, p = data + 5 → m = 1 → q = data + 3 → n = 4 → r.first.addr = data + 5 := by
  obtain ⟨w1, w2, w3, w4⟩ := writes_overlap cfg s t1 t2 pc1 pc2 p m q n hK hrun hg hi1 hi2 hann
    hfresh hnew h12 h21 hls hov
  refine ⟨w2, _, w1, rfl, rfl, w3, w4, ?_⟩
  intro data e1 _ e2 _
  show max p q = data + 5
  omega

/-- C22, a concrete run: the event stream of the test `MemcpyRace2` for an
array at the address 4096.  The second write reports one race, and the address
of the first memory access of the report is 4101, that is `data+5`. -/
theorem C22_subrange_overlap_witness :
    ((run (sampleConfig false) State.initial (memcpyRace2 4096)).reports.map
      fun r => r.first.addr) = [4101] ∧
    ((run (sampleConfig false) (twoThreads (sampleConfig false) [])
        [.WRITE 1 100 4101 1]).reports = [] ∧
      ∃ r : Report,
        (run (sampleConfig false) (twoThreads (sampleConfig false) [])
          [.WRITE 1 100 4101 1, .WRITE 2 200 4099 4]).reports
          = [] ++ [r] ∧
        r.first = ⟨2, 200, max 4101 4099, 1, true, ⟨2, [0, 0, 1], ⟨[], []⟩⟩⟩ ∧
        r.second = ⟨1, 100, max 4101 4099, 1, true, ⟨1, [0, 1], ⟨[], []⟩⟩⟩ ∧
        (4101 ≤ r.first.addr ∧ r.first.addr < 4101 + 1) ∧
        (4099 ≤ r.first.addr ∧ r.first.addr < 4099 + 4) ∧
        ∀ data, 4101 = data + 5 → 1 = 1 → 4099 = data + 3 → 4 = 4 →
          r.first.addr = data + 5) :=
  ⟨by decide,
    C22_subrange_overlap (sampleConfig false)
      (twoThreads (sampleConfig false) [])
      1 2 100 200 4101 1 4099 4 (by decide) (by decide) (by decide) (by decide) (by decide)
      (fun a ha => by
        simp [twoThreads, run, handle, State.initial, State.setVC, State.setThread] at ha)
      (fun _ _ => rfl) (by decide) (by decide) (by decide) (Or.inr (by decide))
      ⟨4101, by decide⟩⟩

end Analyzer
